import Mathlib

/-!
# CKParser: the reaction-section reader of the Chemkin mechanism parser

A shallow embedding of `Cantera/src/converters/CKParser.cpp` (namespace `ckr`).
C++ strings are lists of characters, `std::vector` is `List`, `std::map` is an
association list, a thrown `CK_SyntaxError` is the error case of `Except`.
Numbers read by `atof` are kept as exact decimal values (mantissa and power of
ten); rounding to a machine double is not part of the model.
-/

namespace ckr

/-- C++ `std::string`. -/
abbrev Str := List Char

/-! ## Numbers -/

/-- The value `mant * 10 ^ exp` of a decimal literal, standing for a C `double`. -/
structure Dbl where
  mant : Int
  exp : Int
deriving DecidableEq, Repr

/-- The rational number a `Dbl` stands for. -/
def Dbl.toRat (d : Dbl) : ℚ := (d.mant : ℚ) * (10 : ℚ) ^ d.exp

/-- The literal `1.0`. -/
def Dbl.one : Dbl := ⟨1, 0⟩

/-- The literal `0.0`. -/
def Dbl.zero : Dbl := ⟨0, 0⟩

/-- The test `m > 0` on doubles. -/
def Dbl.isPos (d : Dbl) : Bool := decide (0 < d.mant)

/-- The test `m < 0.0` on doubles. -/
def Dbl.isNeg (d : Dbl) : Bool := decide (d.mant < 0)

/-- The conversion `int(x)` of a non-negative double: truncation. -/
def Dbl.toInt (d : Dbl) : Nat :=
  if 0 ≤ d.exp then d.mant.toNat * 10 ^ d.exp.toNat
  else d.mant.toNat / 10 ^ (-d.exp).toNat

/-- C `isspace` in the "C" locale. -/
def isSpace (c : Char) : Bool :=
  c = ' ' || c = '\t' || c = '\n' || c = '\r' || c = '\x0b' || c = '\x0c'

/-- C `isdigit`. -/
def isDigit (c : Char) : Bool := decide (48 ≤ c.toNat) && decide (c.toNat ≤ 57)

/-- C `isprint` in the "C" locale. -/
def isPrint (c : Char) : Bool := decide (32 ≤ c.toNat) && decide (c.toNat ≤ 126)

/-- Reads the longest run of decimal digits at the head of the string:
    returns the accumulated value, the number of digits read and the rest. -/
def readDigits : Str → Nat → Nat → Nat × Nat × Str
  | [], acc, k => (acc, k, [])
  | c :: cs, acc, k =>
    if isDigit c then readDigits cs (acc * 10 + (c.toNat - 48)) (k + 1)
    else (acc, k, c :: cs)

/-- Removes leading white space, as `strtod` does before reading a number. -/
def skipSpace : Str → Str
  | [] => []
  | c :: cs => if isSpace c then skipSpace cs else c :: cs

/-- The exponent part of a decimal literal: `e` or `E`, an optional sign and
    at least one digit; the exponent is 0 when that form is not present. -/
def readExponent : Str → Int
  | [] => 0
  | c :: cs =>
    if c = 'e' ∨ c = 'E' then
      match cs with
      | '-' :: ds => let r := readDigits ds 0 0; if r.2.1 = 0 then 0 else -(r.1 : Int)
      | '+' :: ds => let r := readDigits ds 0 0; if r.2.1 = 0 then 0 else (r.1 : Int)
      | ds => let r := readDigits ds 0 0; if r.2.1 = 0 then 0 else (r.1 : Int)
    else 0

/-- The unsigned decimal number at the head of the string (digits, an optional
    point and fraction digits, an optional exponent); zero when there is none. -/
def readUnsigned (s : Str) : Dbl :=
  let ip := readDigits s 0 0
  match ip.2.2 with
  | '.' :: fs =>
    let fp := readDigits fs ip.1 0
    if ip.2.1 + fp.2.1 = 0 then Dbl.zero
    else ⟨(fp.1 : Int), readExponent fp.2.2 - (fp.2.1 : Int)⟩
  | rest =>
    if ip.2.1 = 0 then Dbl.zero else ⟨(ip.1 : Int), readExponent rest⟩

/-- The C library function `atof` on decimal input: leading white space is
    skipped, then an optional sign and the longest decimal number are read;
    the value is 0 when no number starts the string. The forms `INF`, `NAN`
    and hexadecimal literals of `strtod` are not part of the model, nor is
    the rounding of a value too large or too small for a double; the
    properties of values and decisions that come from `atof` are stated for
    the texts that `decimalText` and `decimalField` name, on which the model
    and the library agree. -/
def atof (s : Str) : Dbl :=
  match skipSpace s with
  | '-' :: cs => let d := readUnsigned cs; ⟨-d.mant, d.exp⟩
  | '+' :: cs => readUnsigned cs
  | cs => readUnsigned cs

/-! ## String helpers of `std::string` -/

/-- Whether `pat` starts the string `s`. -/
def startsWith : Str → Str → Bool
  | [], _ => true
  | _ :: _, [] => false
  | p :: ps, c :: cs => decide (p = c) && startsWith ps cs

/-- `std::string::find(pat)`: the least position at which `pat` occurs,
    `none` standing for `npos`. -/
def find (pat : Str) : Str → Option Nat
  | [] => if pat = [] then some 0 else none
  | c :: cs =>
    if startsWith pat (c :: cs) then some 0
    else (find pat cs).map (· + 1)

/-- `std::string::substr(pos, n)` for `pos` within the string. -/
def substr (s : Str) (pos n : Nat) : Str := (s.drop pos).take n

/-! ## Helpers of `ckr_utils` -/

/-- Modelled from the spec: `removeWhiteSpace` of `ckr_utils` is not among the
    given sources; the spec has equation sides "whitespace-stripped"
    before marker detection, so every white-space character is deleted. -/
def removeWhiteSpace (s : Str) : Str := s.filter (fun c => !isSpace c)

/-- The scan of `getTokens`: `cur` is the token being read. -/
def getTokensAux : Str → Str → List Str
  | [], cur => if cur = [] then [] else [cur]
  | c :: cs, cur =>
    if isSpace c then
      (if cur = [] then getTokensAux cs [] else cur :: getTokensAux cs [])
    else getTokensAux cs (cur ++ [c])

/-- Modelled from the spec: `getTokens` of `ckr_utils` is not among the given
    sources; the spec's Tokenizer "splits a line into whitespace-delimited
    tokens", so the tokens are the maximal runs of non-white-space characters. -/
def getTokens (s : Str) : List Str := getTokensAux s []

/-- Modelled from the spec: `match` of `ckr_utils` is not among the given
    sources; the spec has matching "prefix-based on a short keyword
    identifier", "case-insensitive": the keyword, letter case apart, starts
    the string. -/
def matchKw (s kw : Str) : Bool := startsWith (kw.map Char.toUpper) (s.map Char.toUpper)

/-- Modelled from the spec: `isKeyword` of `ckr_utils` is not among the given
    sources; the spec's section keywords are `ELEMENTS`, `SPECIES`, `THERMO`,
    `REACTIONS` and the terminator `END`, matched on a 4-character identifier. -/
def isKeyword (s : Str) : Bool :=
  matchKw s "ELEM".toList || matchKw s "SPEC".toList || matchKw s "THER".toList ||
  matchKw s "REAC".toList || matchKw s "END".toList

/-- Modelled from the spec: `extractSlashData` of `ckr_utils` is not among the
    given sources; the spec's dispatcher "extracts `KEYWORD/payload/` tokens
    from the remainder of an auxiliary line". The result is
    `(found, name, data, rest)`: with two slashes present, `name` is the text
    before the first (white space removed), `data` the text between them and
    `rest` the text after the second; otherwise nothing is found, `name` is
    the text before the first slash (or the whole text), and nothing remains. -/
def extractSlashData (s : Str) : Bool × Str × Str × Str :=
  match s.span (· ≠ '/') with
  | (nm, []) => (false, removeWhiteSpace nm, [], [])
  | (nm, _ :: after) =>
    match after.span (· ≠ '/') with
    | (_, []) => (false, removeWhiteSpace nm, [], [])
    | (dat, _ :: rest) => (true, removeWhiteSpace nm, dat, rest)

/-! ## getSpecies -/

/-- The statement `if (p > begin) *(p - 1) = ' '` of `getSpecies` (line 192)
    on the characters before `p`, last one first. -/
def blankPrev : Str → Str
  | [] => []
  | _ :: d => ' ' :: d

/-- The scanning loop of `getSpecies` (lines 190-203). `done` holds the
    characters of the buffer before the pointer `p`, last one first, and the
    second argument the characters from `p` on; `*p = ' '` overwrites the
    character at `p`. Returns the buffer after the loop and the coefficients. -/
def getSpeciesLoop : Str → Str → Bool → List Dbl → Str × List Dbl
  | done, [], _, coeffs => (done.reverse, coeffs)
  | done, c :: rest, inplus, coeffs =>
    if c ≠ '+' ∧ inplus = true then
      let m := atof (c :: rest)
      if m.isPos then getSpeciesLoop (' ' :: blankPrev done) rest false (coeffs ++ [m])
      else getSpeciesLoop (c :: blankPrev done) rest false (coeffs ++ [Dbl.one])
    else if c = '+' then getSpeciesLoop (c :: done) rest true coeffs
    else getSpeciesLoop (c :: done) rest inplus coeffs

/-- One group of a group-additivity annotation (`group_t`). -/
abbrev Group := List Int

/-- A species of a reaction equation (`RxnSpecies`). -/
structure RxnSpecies where
  name : Str
  number : Dbl
  groups : List Group
deriving DecidableEq, Repr

/-- Pairs the symbols with the coefficients (lines 208-212): entry `j` gets
    `coeffs[j]`; the last case is an index beyond the end of `coeffs`. -/
def pairSpecies : List Str → List Dbl → List RxnSpecies
  | [], _ => []
  | sym :: syms, c :: coeffs => ⟨sym, c, []⟩ :: pairSpecies syms coeffs
  | sym :: syms, [] => ⟨sym, Dbl.zero, []⟩ :: pairSpecies syms []

/-- `getSpecies` (lines 177-213): the species and stoichiometric coefficients
    of one side of a reaction equation. -/
def getSpecies (s : Str) : List RxnSpecies :=
  let r := getSpeciesLoop [] s true []
  pairSpecies (getTokens r.1) r.2


/-! ## Data model -/

/-- The type tag of a reaction. -/
inductive RxnType where
  | Elementary | ThreeBody | Falloff | ChemAct
deriving DecidableEq, Repr

/-- The sub-type tag of the falloff blending parameters. -/
inductive FalloffType where
  | Troe | SRI
deriving DecidableEq, Repr

/-- The rate-law variant tag of a rate coefficient. -/
inductive RateType where
  | Arrhenius | LandauTeller
deriving DecidableEq, Repr

/-- Modelled from the spec: the rate-coefficient record is declared in a
    header that is not among the given sources; the spec lists "prefactor A,
    temperature exponent n, activation energy E, optional Landau-Teller B/C,
    optional rate-law variant tag". -/
structure RateCoeff where
  A : Dbl
  n : Dbl
  E : Dbl
  B : Dbl
  C : Dbl
  type : RateType
deriving DecidableEq, Repr

/-- Modelled from the spec: the `Reaction` record is declared in a header that
    is not among the given sources; the fields are those the reader assigns,
    as listed in the spec's data model. -/
structure Reaction where
  type : RxnType
  isFalloffRxn : Bool
  isThreeBodyRxn : Bool
  isReversible : Bool
  isDuplicate : Bool
  thirdBody : Str
  number : Nat
  reactants : List RxnSpecies
  products : List RxnSpecies
  kf : RateCoeff
  krev : RateCoeff
  kf_aux : RateCoeff
  falloffType : Option FalloffType
  falloffParameters : List Dbl
  e3b : List (Str × Dbl)
  otherAuxData : List (Str × List Dbl)
  lines : List Str
  comment : List Str
deriving DecidableEq, Repr

/-- A rate coefficient with no data. -/
def RateCoeff.fresh : RateCoeff :=
  ⟨Dbl.zero, Dbl.zero, Dbl.zero, Dbl.zero, Dbl.zero, RateType.Arrhenius⟩

/-- Modelled from the spec: the constructor `Reaction()` is declared in a header
    that is not among the given sources; a fresh reaction is Elementary and
    reversible, has both marker flags clear, no data, and the third body
    `<none>` that the efficiency branch of the reader tests for. -/
def Reaction.fresh : Reaction :=
  { type := RxnType.Elementary, isFalloffRxn := false, isThreeBodyRxn := false,
    isReversible := true, isDuplicate := false, thirdBody := "<none>".toList,
    number := 0, reactants := [], products := [],
    kf := RateCoeff.fresh, krev := RateCoeff.fresh, kf_aux := RateCoeff.fresh,
    falloffType := none, falloffParameters := [], e3b := [], otherAuxData := [],
    lines := [], comment := [] }

/-- The activation-energy units of `ReactionUnits`. -/
inductive ActEnergyUnit where
  | Cal_per_Mole | Kcal_per_Mole | Joules_per_Mole | Kjoules_per_Mole
  | Kelvin | Electron_Volts
deriving DecidableEq, Repr

/-- The quantity units of `ReactionUnits`. -/
inductive QuantityUnit where
  | Moles | Molecules
deriving DecidableEq, Repr

/-- The units declared on the header of the reaction section. -/
structure ReactionUnits where
  ActEnergy : ActEnergyUnit
  Quantity : QuantityUnit
deriving DecidableEq, Repr

/-- `operator[]` of a `std::map` used for reading: the stored value, or the
    default-constructed one. -/
def mapGet {β : Type} (m : List (Str × β)) (k : Str) (dflt : β) : β :=
  match m with
  | [] => dflt
  | (k1, v) :: rest => if k1 = k then v else mapGet rest k dflt

/-- The assignment `m[k] = v` on a `std::map`. -/
def mapSet {β : Type} (m : List (Str × β)) (k : Str) (v : β) : List (Str × β) :=
  match m with
  | [] => [(k, v)]
  | (k1, v1) :: rest => if k1 = k then (k, v) :: rest else (k1, v1) :: mapSet rest k v

/-! ## Errors and the parser session -/

/-- A `CK_SyntaxError` (lines 65-70): the message text and the line number
    handed to the constructor. -/
structure CK_SyntaxError where
  msg : Str
  linenum : Int
deriving DecidableEq, Repr

/-- The ways a call can end without a result: a thrown `CK_SyntaxError`, or an
    index beyond the end of a `std::vector` (undefined behaviour in C++), or
    the recursion bound of the model being used up. -/
inductive Failure where
  | syntaxError (e : CK_SyntaxError)
  | outOfRange
  | outOfFuel
deriving DecidableEq, Repr

/-- `throw CK_SyntaxError(*m_log, msg, linenum)`. -/
def throwSyntax {α : Type} (msg : Str) (linenum : Nat) : Except Failure α :=
  Except.error (Failure.syntaxError ⟨msg, (linenum : Int)⟩)

/-- What the reaction reader writes to the log stream. -/
inductive LogEntry where
  | negativePrefactor (line : Nat)
deriving DecidableEq, Repr

/-- The state of a `CKParser`: the unread characters of the input stream (the
    stream is good as long as a read has not run past its end), the one-line
    pushback buffer, the line counter, the last end-of-line character seen and
    the log. -/
structure CKParser where
  m_ckfile : List Char
  m_buf : Str
  m_comment : Str
  m_line : Nat
  m_last_eol : Char
  m_log : List LogEntry
deriving DecidableEq, Repr

/-- The constructor of `CKParser` (lines 260-267) on the characters of a file. -/
def CKParser.new (infile : List Char) : CKParser :=
  ⟨infile, [], [], 0, '\n', []⟩

/-- The character-reading loop of `getCKLine` (lines 317-337): returns the line
    read, the unread characters, the last end-of-line character and whether
    the read ran past the end of the stream. -/
def readLine : List Char → Char → Str → Str × List Char × Char × Bool
  | [], eol, line => (line, [], eol, true)
  | c :: cs, eol, line =>
    let ch := if c = '\t' then ' ' else c
    if ch = '\r' ∨ (ch = '\n' ∧ eol ≠ '\r') then (line, cs, ch, false)
    else readLine cs eol (if isPrint ch then line ++ [ch] else line)

/-- `getCKLine` (lines 282-364): the next line and its comment. -/
def getCKLine (p : CKParser) : Str × Str × CKParser :=
  if p.m_buf ≠ [] then
    (p.m_buf, p.m_comment, { p with m_buf := [], m_comment := [] })
  else
    let r := readLine p.m_ckfile p.m_last_eol []
    let line0 := r.1
    let icom0 := find ['!'] line0
    let undo := decide (icom0 = some 0) && decide (line0.getD 1 '\x00' = '%')
    let line1 := if undo then '%' :: ' ' :: line0.drop 2 else line0
    let icom := if undo then find ['!'] line1 else icom0
    let len := line1.length
    let line := line1.map (fun c => if isPrint c then c else ' ')
    let s := match icom with
      | some i => substr line 0 i
      | none => line
    let comment := match icom with
      | some i => substr line (i + 1) (len - i - 1)
      | none => []
    let p1 := { p with m_ckfile := r.2.1, m_last_eol := r.2.2.1 }
    if r.2.2.2 then ("<EOF>".toList, [], p1)
    else (s, comment, { p1 with m_line := p1.m_line + 1 })

/-- `putCKLine` (lines 374-377). -/
def putCKLine (p : CKParser) (s comment : Str) : CKParser :=
  { p with m_buf := s, m_comment := comment }


/-! ## The reaction line (lines 965-1115) -/

/-- The two sides of a reaction equation and its reversibility. -/
structure EqSides where
  isReversible : Bool
  sleft : Str
  sright : Str
deriving DecidableEq, Repr

/-- The choice of the separator (lines 972-988); `none` stands for the
    error "expected <=>, =>, or =". -/
def splitEquation (s : Str) : Option EqSides :=
  match find "<=>".toList s with
  | some eqloc => some ⟨true, substr s 0 eqloc, substr s (eqloc + 3) 1000⟩
  | none =>
    match find "=>".toList s with
    | some eqloc => some ⟨false, substr s 0 eqloc, substr s (eqloc + 2) 1000⟩
    | none =>
      match find "=".toList s with
      | some eqloc => some ⟨true, substr s 0 eqloc, substr s (eqloc + 1) 1000⟩
      | none => none

/-- The search `sleft.find("+M")`, and `sleft.find("+m")` when the first one
    finds nothing (lines 1018-1019 and 1092-1093). -/
def findPlusM (s : Str) : Option Nat :=
  match find "+M".toList s with
  | some mloc => some mloc
  | none => find "+m".toList s

/-- The name stored for the third body of a falloff marker. -/
def thirdBodyName (mspecies : Str) : Str :=
  if mspecies = "M".toList ∨ mspecies = "m".toList then "M".toList else mspecies

/-- The reactant side up to species tokenization (lines 993-1028): returns the
    reaction and the reactant string without its marker. -/
def processLeftMarker (m_line : Nat) (rxn0 : Reaction) (sleft0 : Str) :
    Except Failure (Reaction × Str) :=
  let sleft := removeWhiteSpace sleft0
  let rxn := { rxn0 with isFalloffRxn := false }
  match find "(+".toList sleft with
  | some mloc =>
    let sm := substr sleft (mloc + 2) 1000
    match find ")".toList sm with
    | some mloc2 =>
      let mspecies := substr sm 0 mloc2
      Except.ok ({ rxn with isFalloffRxn := true, type := RxnType.Falloff,
                            thirdBody := thirdBodyName mspecies },
                 substr sleft 0 mloc)
    | none => throwSyntax "missing )".toList m_line
  | none =>
    match findPlusM sleft with
    | some mloc =>
      if (mloc : Int) = (sleft.length : Int) - 2 then
        Except.ok ({ rxn with isThreeBodyRxn := true, type := RxnType.ThreeBody,
                              thirdBody := "M".toList },
                   substr sleft 0 mloc)
      else Except.ok (rxn, sleft)
    | none => Except.ok (rxn, sleft)

/-- The first name of the list that is not a declared species. -/
def firstUndeclared (speciesNames : List Str) : List RxnSpecies → Option Str
  | [] => none
  | sp :: rest =>
    if sp.name ∈ speciesNames then firstUndeclared speciesNames rest else some sp.name

/-- The reactants (lines 1030-1039). -/
def processReactants (speciesNames : List Str) (m_line : Nat) (rxn : Reaction)
    (sleft : Str) : Except Failure Reaction :=
  let reactants := getSpecies sleft
  match firstUndeclared speciesNames reactants with
  | some name => throwSyntax ("undeclared reactant species ".toList ++ name) m_line
  | none => Except.ok { rxn with reactants := reactants }

/-- The string kept for the products: `sright.substr(0, sright.find(tok) - 1)`
    (line 1059), the subtraction being one of unsigned numbers. -/
def stripArrhenius (sright tok : Str) : Str :=
  match find tok sright with
  | some (i + 1) => substr sright 0 i
  | _ => sright

/-- The Arrhenius coefficients (lines 1043-1059): returns the reaction, the
    log and the right-hand string left for the products. -/
def processArrhenius (m_line : Nat) (log : List LogEntry) (rxn : Reaction) (sright : Str) :
    Except Failure (Reaction × List LogEntry × Str) :=
  let toks := getTokens sright
  let ntoks := toks.length
  if ntoks < 3 then throwSyntax "expected 3 Arrhenius parameters".toList m_line
  else
    let tA := toks.getD (ntoks - 3) []
    let tn := toks.getD (ntoks - 2) []
    let tE := toks.getD (ntoks - 1) []
    let kf := { rxn.kf with A := atof tA, n := atof tn, E := atof tE }
    let log1 := if kf.A.isNeg then log ++ [LogEntry.negativePrefactor m_line] else log
    Except.ok ({ rxn with kf := kf }, log1, stripArrhenius sright tA)

/-- The product side up to species tokenization (lines 1061-1105). -/
def processRightMarker (m_line : Nat) (rxn : Reaction) (sright0 : Str) :
    Except Failure (Reaction × Str) :=
  let sright := removeWhiteSpace sright0
  match find "(+".toList sright with
  | some mloc =>
    let sm := substr sright (mloc + 2) 1000
    match find ")".toList sm with
    | some mloc2 =>
      let mspecies := substr sm 0 mloc2
      if rxn.type = RxnType.ThreeBody then
        throwSyntax "mismatched +M or (+M)".toList m_line
      else
        let rxn1 := { rxn with isFalloffRxn := true, type := RxnType.Falloff }
        let sright1 := substr sright 0 mloc
        if mspecies = "M".toList ∨ mspecies = "m".toList then
          Except.ok ({ rxn1 with thirdBody := "M".toList }, sright1)
        else if rxn1.thirdBody ≠ mspecies then
          throwSyntax "mismatched third body".toList m_line
        else Except.ok ({ rxn1 with thirdBody := mspecies }, sright1)
    | none => throwSyntax "missing )".toList m_line
  | none =>
    match findPlusM sright with
    | some mloc =>
      if (mloc : Int) = (sright.length : Int) - 2 then
        if rxn.type = RxnType.Falloff then
          throwSyntax "mismatched +M or (+M)".toList m_line
        else
          Except.ok ({ rxn with isThreeBodyRxn := true, thirdBody := "M".toList },
                     substr sright 0 mloc)
      else Except.ok (rxn, sright)
    | none => Except.ok (rxn, sright)

/-- The products (lines 1106-1114). -/
def processProducts (speciesNames : List Str) (m_line : Nat) (rxn : Reaction)
    (sright : Str) : Except Failure Reaction :=
  let products := getSpecies sright
  match firstUndeclared speciesNames products with
  | some name => throwSyntax ("undeclared product species ".toList ++ name) m_line
  | none => Except.ok { rxn with products := products }

/-- The reactant side of the equation (lines 993-1039). -/
def reactantSide (speciesNames : List Str) (m_line : Nat) (rxn : Reaction) (sleft : Str) :
    Except Failure Reaction :=
  match processLeftMarker m_line rxn sleft with
  | Except.error e => Except.error e
  | Except.ok (rxn1, sleft1) => processReactants speciesNames m_line rxn1 sleft1

/-- The product side of the equation (lines 1061-1114). -/
def productSide (speciesNames : List Str) (m_line : Nat) (rxn : Reaction) (sright : Str) :
    Except Failure Reaction :=
  match processRightMarker m_line rxn sright with
  | Except.error e => Except.error e
  | Except.ok (rxn1, sright1) => processProducts speciesNames m_line rxn1 sright1

/-- The processing of a new-reaction line `s` (lines 965-1115) on the reaction
    record `rxn`: returns the record and the log. -/
def reactionLine (speciesNames : List Str) (m_line : Nat) (log : List LogEntry)
    (rxn : Reaction) (s : Str) : Except Failure (Reaction × List LogEntry) :=
  match splitEquation s with
  | none => throwSyntax "expected <=>, =>, or =".toList m_line
  | some sides =>
    match reactantSide speciesNames m_line { rxn with isReversible := sides.isReversible }
        sides.sleft with
    | Except.error e => Except.error e
    | Except.ok rxn2 =>
      match processArrhenius m_line log rxn2 sides.sright with
      | Except.error e => Except.error e
      | Except.ok (rxn3, log1, sright) =>
        match productSide speciesNames m_line rxn3 sright with
        | Except.error e => Except.error e
        | Except.ok rxn5 => Except.ok (rxn5, log1)

/-! ## Auxiliary-data lines (lines 1118-1311) -/

/-- `missingAuxData` (lines 808-811). -/
def missingAuxData {α : Type} (m_line : Nat) (kw : Str) : Except Failure α :=
  throwSyntax (kw ++ " keyword must be followed by slash-delimited data.".toList) m_line

/-- The element `v[i]` of a `std::vector`. -/
def vecAt {α : Type} (v : List α) (i : Nat) : Except Failure α :=
  match v.get? i with
  | some x => Except.ok x
  | none => Except.error Failure.outOfRange

/-- The effect of one `KEYWORD/payload/` entry on the reaction (lines
    1137-1309). `kwindex` is the keyword table after the entry's own keyword
    has been recorded. The third component of the result tells whether the
    loop over the entries is left (`break` at the `END` keyword). The text
    written to the log right before a throw is not kept. -/
def auxEntry (speciesNames : List Str) (p : CKParser)
    (kwindex : List (Str × Int)) (rxn : Reaction) (hasAuxData : Bool) (name data : Str) :
    Except Failure (Reaction × CKParser × Bool) :=
  if matchKw name "LOW".toList then
    let rxn1 := { rxn with type := RxnType.Falloff }
    if hasAuxData then
      let klow := getTokens data
      if klow.length ≠ 3 then
        throwSyntax "expected 3 low-pressure Arrhenius parameters".toList p.m_line
      else
        let kf_aux := { rxn1.kf_aux with A := atof (klow.getD 0 []),
                                         n := atof (klow.getD 1 []),
                                         E := atof (klow.getD 2 []) }
        Except.ok ({ rxn1 with kf_aux := kf_aux }, p, false)
    else missingAuxData p.m_line "LOW".toList
  else if matchKw name "TROE".toList then
    if mapGet kwindex "SRI".toList 0 > 0 then
      throwSyntax "cannot specify both SRI and TROE".toList p.m_line
    else if hasAuxData then
      let ff := (getTokens data).map atof
      Except.ok ({ rxn with falloffType := some FalloffType.Troe,
                            falloffParameters := rxn.falloffParameters ++ ff }, p, false)
    else missingAuxData p.m_line "TROE".toList
  else if matchKw name "SRI".toList then
    if mapGet kwindex "TROE".toList 0 > 0 then
      throwSyntax "cannot specify both SRI and TROE".toList p.m_line
    else if hasAuxData then
      let ff := (getTokens data).map atof
      Except.ok ({ rxn with falloffType := some FalloffType.SRI,
                            falloffParameters := rxn.falloffParameters ++ ff }, p, false)
    else missingAuxData p.m_line "SRI".toList
  else if matchKw name "REV".toList then
    if rxn.isReversible = false then
      throwSyntax ("reverse rate parameters can only be ".toList ++
        "specified for reversible reactions".toList) p.m_line
    else if hasAuxData then
      let krev := getTokens data
      if krev.length ≠ 3 then
        throwSyntax "expected 3 Arrhenius parameters".toList p.m_line
      else
        let kr := { rxn.krev with A := atof (krev.getD 0 []),
                                  n := atof (krev.getD 1 []),
                                  E := atof (krev.getD 2 []) }
        Except.ok ({ rxn with krev := kr }, p, false)
    else missingAuxData p.m_line "REV".toList
  else if matchKw name "DUP".toList then
    Except.ok ({ rxn with isDuplicate := true }, p, false)
  else if matchKw name "END".toList then
    Except.ok (rxn, putCKLine p name [], true)
  else if matchKw name "LT".toList then
    let kf0 := { rxn.kf with type := RateType.LandauTeller }
    if hasAuxData then
      let bc := getTokens data
      match vecAt bc 0, vecAt bc 1 with
      | Except.ok b, Except.ok c =>
        Except.ok ({ rxn with kf := { kf0 with B := atof b, C := atof c } }, p, false)
      | _, _ => Except.error Failure.outOfRange
    else missingAuxData p.m_line "LT".toList
  else if matchKw name "RLT".toList then
    let krev0 := { rxn.krev with type := RateType.LandauTeller }
    if hasAuxData then
      let bc := getTokens data
      match vecAt bc 0, vecAt bc 1 with
      | Except.ok b, Except.ok c =>
        Except.ok ({ rxn with krev := { krev0 with B := atof b, C := atof c } }, p, false)
      | _, _ => Except.error Failure.outOfRange
    else missingAuxData p.m_line "RLT".toList
  else if matchKw name "HIGH".toList then
    if hasAuxData then
      let khigh := getTokens data
      match vecAt khigh 0, vecAt khigh 1, vecAt khigh 2 with
      | Except.ok a, Except.ok b, Except.ok c =>
        let kf_aux := { rxn.kf_aux with A := atof a, n := atof b, E := atof c }
        Except.ok ({ rxn with type := RxnType.ChemAct, kf_aux := kf_aux }, p, false)
      | _, _, _ => Except.error Failure.outOfRange
    else missingAuxData p.m_line "HIGH".toList
  else if name ∈ speciesNames then
    if hasAuxData then
      if rxn.thirdBody = name ∨ rxn.thirdBody = "M".toList then
        Except.ok ({ rxn with e3b := mapSet rxn.e3b name (atof data) }, p, false)
      else if rxn.thirdBody = "<none>".toList then
        throwSyntax "third-body efficiency error".toList p.m_line
      else
        throwSyntax "third-body efficiency error".toList p.m_line
    else missingAuxData p.m_line name
  else
    let vals := (getTokens data).map atof
    Except.ok ({ rxn with otherAuxData := mapSet rxn.otherAuxData name vals }, p, false)

/-- The loop over the entries of one auxiliary-data line (lines 1123-1310);
    `s` is the unread rest of the line and `kwindex` the keyword table. -/
def auxLoop (speciesNames : List Str) :
    Nat → CKParser → List (Str × Int) → Reaction → Str → Except Failure (Reaction × CKParser)
  | 0, _, _, _, _ => Except.error Failure.outOfFuel
  | fuel + 1, p, kwindex, rxn, s =>
    let r := extractSlashData s
    let hasAuxData := r.1
    let name := r.2.1
    let data := r.2.2.1
    if hasAuxData = false ∧ name = [] then Except.ok (rxn, p)
    else if mapGet kwindex name 0 ≠ 0 then
      throwSyntax ("duplicate auxiliary data keyword ".toList ++ name) p.m_line
    else
      let kwindex1 := mapSet kwindex name 1
      match auxEntry speciesNames p kwindex1 rxn hasAuxData name data with
      | Except.error e => Except.error e
      | Except.ok (rxn1, p1, true) => Except.ok (rxn1, p1)
      | Except.ok (rxn1, p1, false) => auxLoop speciesNames fuel p1 kwindex1 rxn1 r.2.2.2

/-- An auxiliary-data line (lines 1118-1311): the keyword table is created
    empty for the line (line 1122). -/
def auxLine (speciesNames : List Str) (p : CKParser) (rxn : Reaction)
    (s : Str) : Except Failure (Reaction × CKParser) :=
  auxLoop speciesNames (s.length + 2) p [] rxn s

/-! ## Metadata lines (lines 223-254, 909-949, 1318-1353) -/

/-- C `isalpha` in the "C" locale. -/
def isAlpha (c : Char) : Bool :=
  (decide (65 ≤ c.toNat) && decide (c.toNat ≤ 90)) ||
  (decide (97 ≤ c.toNat) && decide (c.toNat ≤ 122))

/-- C `atoi` on a string of digits. -/
def atoi (num : Str) : Int := ((readDigits num 0 0).1 : Int)

/-- The loop of `parseGroupString` (lines 1328-1351); `none` is the return
    value -1. -/
def parseGroupScan (esyms : List Str) : Str → Str → Str → Bool → Group → Option Group
  | [], _, _, _, result => some result
  | c :: cs, sym, num, inSymbol, result =>
    if c = '-' then
      if sym ∈ esyms then
        let eindx := esyms.indexOf sym
        let i : Int := if num ≠ [] then atoi num else 1
        parseGroupScan esyms cs [] [] true (result.set eindx i)
      else none
    else if isDigit c then parseGroupScan esyms cs sym (num ++ [c]) false result
    else if isAlpha c ∧ inSymbol = true then
      parseGroupScan esyms cs (sym ++ [c]) num inSymbol result
    else parseGroupScan esyms cs sym num inSymbol result

/-- `parseGroupString` (lines 1318-1353) on a cleared result vector. -/
def parseGroupString (str : Str) (esyms : List Str) : Option Group :=
  parseGroupScan esyms (str ++ ['-']) [] [] true (List.replicate esyms.length 0)

/-- The loop of `getGroups` (lines 232-253): returns the return value and the
    vector `rxngroups`. -/
def getGroupsScan (esyms : List Str) :
    Str → Bool → Str → List Group → List (List Group) → Int × List (List Group)
  | [], _, _, groups, rxngroups => (1, rxngroups ++ [groups])
  | c :: cs, ingroup, g, groups, rxngroups =>
    if c = '(' then getGroupsScan esyms cs true [] groups rxngroups
    else if c = ')' then
      match parseGroupString g esyms with
      | some igrp => getGroupsScan esyms cs false g (groups ++ [igrp]) rxngroups
      | none => (-1, rxngroups)
    else if c = '+' then getGroupsScan esyms cs ingroup g [] (rxngroups ++ [groups])
    else if ingroup = true ∧ c ≠ ' ' then
      getGroupsScan esyms cs ingroup (g ++ [c]) groups rxngroups
    else getGroupsScan esyms cs ingroup g groups rxngroups

/-- `getGroups` (lines 223-254). -/
def getGroups (range : Str) (esyms : List Str) : Int × List (List Group) :=
  getGroupsScan esyms range false [] [] []

/-- The sum of `int(number)` over the species of one side (lines 922-924). -/
def atomCount (l : List RxnSpecies) : Nat := (l.map (fun sp => sp.number.toInt)).sum

/-- The loop `species[i].groups = g[i]` for every index `i` of `species`
    (lines 931-933 and 945-947). -/
def assignGroups : List RxnSpecies → List (List Group) → Except Failure (List RxnSpecies)
  | [], _ => Except.ok []
  | _ :: _, [] => Except.error Failure.outOfRange
  | sp :: rest, g :: gs =>
    match assignGroups rest gs with
    | Except.error e => Except.error e
    | Except.ok rest1 => Except.ok ({ sp with groups := g } :: rest1)

/-- The group annotations of a metadata line with `=` at position `eqloc`
    (lines 913-947); `s` is the line with that character blanked. -/
def metaDataLine (elementNames : List Str) (m_line : Nat) (rxn : Reaction) (s : Str)
    (eqloc : Nat) : Except Failure Reaction :=
  let rg := getGroups (s.take eqloc) elementNames
  let pg := getGroups (s.drop eqloc) elementNames
  if rg.2.length ≠ atomCount rxn.reactants then
    throwSyntax " groups not specified for all reactants".toList m_line
  else if rg.1 < 0 then
    throwSyntax " error in reactant group specification".toList m_line
  else
    match assignGroups rxn.reactants rg.2 with
    | Except.error e => Except.error e
    | Except.ok reactants =>
      if pg.2.length ≠ atomCount rxn.products then
        throwSyntax " groups not specified for all products".toList m_line
      else if pg.1 < 0 then
        throwSyntax " error in product group specification".toList m_line
      else
        match assignGroups rxn.products pg.2 with
        | Except.error e => Except.error e
        | Except.ok products =>
          Except.ok { rxn with reactants := reactants, products := products }

/-! ## readReactionSection (lines 818-1314) -/

/-- The units named on the header line (lines 841-862); `toks` are the tokens
    after the section keyword. -/
def readUnits : List Str → ReactionUnits → ReactionUnits
  | [], units => units
  | tok :: rest, units =>
    readUnits rest
      (if matchKw tok "CAL/MOLE".toList then
         { units with ActEnergy := ActEnergyUnit.Cal_per_Mole }
       else if matchKw tok "KCAL/MOLE".toList then
         { units with ActEnergy := ActEnergyUnit.Kcal_per_Mole }
       else if matchKw tok "JOULES/MOLE".toList then
         { units with ActEnergy := ActEnergyUnit.Joules_per_Mole }
       else if matchKw tok "KJOULES/MOLE".toList then
         { units with ActEnergy := ActEnergyUnit.Kjoules_per_Mole }
       else if matchKw tok "KELVINS".toList then
         { units with ActEnergy := ActEnergyUnit.Kelvin }
       else if matchKw tok "EVOLTS".toList then
         { units with ActEnergy := ActEnergyUnit.Electron_Volts }
       else if matchKw tok "MOLES".toList then
         { units with Quantity := QuantityUnit.Moles }
       else if matchKw tok "MOLECULES".toList then
         { units with Quantity := QuantityUnit.Molecules }
       else units)

/-- The loop that advances to the section header (lines 830-834): the header
    line, or `none` at the end of the stream, and the parser. -/
def seekReactions : Nat → CKParser → Except Failure (Option Str × CKParser)
  | 0, _ => Except.error Failure.outOfFuel
  | fuel + 1, p =>
    let r := getCKLine p
    if matchKw r.1 "<EOF>".toList then Except.ok (none, r.2.2)
    else if matchKw r.1 "REAC".toList then Except.ok (some r.1, r.2.2)
    else seekReactions fuel r.2.2

/-- The loop that skips blank and comment lines (lines 871-875): the line, its
    comment, the parser and the collected comments. -/
def skipBlankLines : Nat → CKParser → List Str → Except Failure (Str × Str × CKParser × List Str)
  | 0, _, _ => Except.error Failure.outOfFuel
  | fuel + 1, p, cm =>
    let r := getCKLine p
    let cm1 := cm ++ [r.2.1]
    if r.1 = [] ∧ r.2.1.getD 0 '\x00' ≠ '%' then skipBlankLines fuel r.2.2 cm1
    else Except.ok (r.1, r.2.1, r.2.2, cm1)

/-- The variables of the main loop of `readReactionSection`. -/
structure SectionState where
  p : CKParser
  rxn : Reaction
  cm : List Str
  nRxns : Nat
  reactions : List Reaction
deriving DecidableEq, Repr

/-- The text pushed on `rxn.lines` (lines 962-963). -/
def sourceLine (s comment : Str) : Str :=
  if comment ≠ [] then s ++ '!' :: comment else s

/-- The record of a new reaction (lines 957-963): a fresh reaction with the
    collected comments and the source line. -/
def newReaction (cm : List Str) (s comment : Str) : Reaction :=
  { Reaction.fresh with comment := cm, lines := [sourceLine s comment] }

/-- One pass of the main loop on the line `s` that is not the end of the
    section (lines 893-1311). -/
def sectionLine (speciesNames elementNames : List Str) (st : SectionState)
    (s comment : Str) : Except Failure SectionState :=
  let eqloc := find ['='] s
  if s.getD 0 '\x00' = '%' then
    match eqloc with
    | some (i + 1) =>
      let s1 := s.set (i + 1) ' '
      match metaDataLine elementNames st.p.m_line st.rxn s1 (i + 1) with
      | Except.error e => Except.error e
      | Except.ok rxn1 =>
        Except.ok { st with rxn := { rxn1 with lines := rxn1.lines ++ [sourceLine s1 comment] } }
    | _ =>
      Except.ok { st with rxn := { st.rxn with lines := st.rxn.lines ++ [sourceLine s comment] } }
  else if eqloc.isSome then
    let reactions1 :=
      if st.nRxns > 0 then st.reactions ++ [{ st.rxn with number := st.nRxns }]
      else st.reactions
    match reactionLine speciesNames st.p.m_line st.p.m_log (newReaction st.cm s comment) s with
    | Except.error e => Except.error e
    | Except.ok (rxn1, log1) =>
      Except.ok { p := { st.p with m_log := log1 }, rxn := rxn1, cm := [],
                  nRxns := st.nRxns + 1, reactions := reactions1 }
  else
    let rxn0 := { st.rxn with lines := st.rxn.lines ++ [sourceLine s comment] }
    match auxLine speciesNames st.p rxn0 s with
    | Except.error e => Except.error e
    | Except.ok (rxn1, p1) => Except.ok { st with p := p1, rxn := rxn1 }

/-- The main loop of `readReactionSection` (lines 868-1312): the return value,
    the reaction list and the parser. -/
def sectionLoop (speciesNames elementNames : List Str) :
    Nat → SectionState → Except Failure (Bool × List Reaction × CKParser)
  | 0, _ => Except.error Failure.outOfFuel
  | fuel + 1, st =>
    match skipBlankLines (st.p.m_ckfile.length + 2) st.p st.cm with
    | Except.error e => Except.error e
    | Except.ok (s, comment, p1, cm1) =>
      if isKeyword s = true ∨ s = "<EOF>".toList then
        if st.nRxns > 0 then
          Except.ok (true, st.reactions ++ [{ st.rxn with number := st.nRxns }], p1)
        else Except.ok (false, st.reactions, p1)
      else
        match sectionLine speciesNames elementNames { st with p := p1, cm := cm1 } s comment with
        | Except.error e => Except.error e
        | Except.ok st1 => sectionLoop speciesNames elementNames fuel st1

/-- `readReactionSection` (lines 818-1314): the return value, the reaction
    list, the units and the parser. -/
def readReactionSection (speciesNames elementNames : List Str) (reactions : List Reaction)
    (units : ReactionUnits) (p : CKParser) :
    Except Failure (Bool × List Reaction × ReactionUnits × CKParser) :=
  match seekReactions (p.m_ckfile.length + 2) p with
  | Except.error e => Except.error e
  | Except.ok (none, p1) => Except.ok (false, reactions, units, p1)
  | Except.ok (some s, p1) =>
    let units1 := readUnits ((getTokens s).drop 1)
      ⟨ActEnergyUnit.Cal_per_Mole, QuantityUnit.Moles⟩
    match sectionLoop speciesNames elementNames (p1.m_ckfile.length + 3)
        ⟨p1, Reaction.fresh, [], 0, reactions⟩ with
    | Except.error e => Except.error e
    | Except.ok (b, rs, p2) => Except.ok (b, rs, units1, p2)

/-! ## Notions used to state the properties -/

/-- A term of an equation side as the spec describes it: a species name,
    optionally directly preceded by a one-digit coefficient. -/
structure Term where
  digit : Option Char
  name : Str
deriving DecidableEq, Repr

/-- The text of a term. -/
def Term.text (t : Term) : Str :=
  match t.digit with
  | some d => d :: t.name
  | none => t.name

/-- The stoichiometric coefficient a term denotes: the value of its digit, or
    1.0 when it has none. -/
def Term.coeff (t : Term) : Dbl :=
  match t.digit with
  | some d => ⟨((d.toNat - 48 : Nat) : Int), 0⟩
  | none => Dbl.one

/-- The species entry a term denotes. -/
def Term.entry (t : Term) : RxnSpecies := ⟨t.name, t.coeff, []⟩

/-- A species name of a term: not empty, without `+` and white space, and not
    beginning with a digit, a point, or the letters INF that `strtod` reads
    as a number. -/
def Term.nameOk (name : Str) : Bool :=
  match name with
  | [] => false
  | c :: _ =>
    !isDigit c && decide (c ≠ '.') && !matchKw name "INF".toList &&
      name.all (fun x => decide (x ≠ '+') && !isSpace x)

/-- A well-formed term: a species name, and a coefficient that is one of the
    digits 1 to 9, the name then not beginning with the exponent letter. -/
def Term.wf (t : Term) : Bool :=
  Term.nameOk t.name &&
    match t.digit with
    | none => true
    | some d => isDigit d && decide (d ≠ '0') &&
        decide (t.name.head? ≠ some 'e') && decide (t.name.head? ≠ some 'E')

/-- The `+`-separated list of the terms. -/
def joinTerms : List Term → Str
  | [] => []
  | [t] => t.text
  | t :: t1 :: ts => t.text ++ '+' :: joinTerms (t1 :: ts)

/-- The text of a term after the scan of `getSpecies`: its digit blanked. -/
def Term.blanked (t : Term) : Str :=
  match t.digit with
  | some _ => ' ' :: t.name
  | none => t.name

/-- The text of a list of terms after the scan of `getSpecies`: digits and
    separators blanked. -/
def blankedTerms : List Term → Str
  | [] => []
  | [t] => t.blanked
  | t :: t1 :: ts => t.blanked ++ ' ' :: blankedTerms (t1 :: ts)

/-- The units in force before a header line is read. -/
def stdUnits : ReactionUnits := ⟨ActEnergyUnit.Cal_per_Mole, QuantityUnit.Moles⟩

/-- The reaction list `readReactionSection` returns on the text `input`, read
    by a new parser into an empty list, or the failure. -/
def storedReactions (speciesNames : List Str) (input : Str) : Except Failure (List Reaction) :=
  match readReactionSection speciesNames [] [] stdUnits (CKParser.new input) with
  | Except.ok r => Except.ok r.2.1
  | Except.error e => Except.error e

/-- The variables of the main loop of `readReactionSection` when it starts:
    the header line of `input` has been read by a new parser. -/
def sectionStart (input : Str) : SectionState :=
  ⟨(getCKLine (CKParser.new input)).2.2, Reaction.fresh, [], 0, []⟩

/-- A reaction line with 1001 characters after its separator. -/
def longLine : Str := 'A' :: '=' :: List.replicate 1001 'B'

/-- Whether the main loop takes the line `s` for the start of a new reaction
    (lines 910 and 951): it does not begin with `%` and holds an `=`. -/
def newReactionLine (s : Str) : Bool :=
  decide (s.getD 0 '\x00' ≠ '%') && (find ['='] s).isSome

/-- The lines that the main loop of `readReactionSection` hands on, each with
    its comment, in order, up to the line that ends the section: the loop of
    `sectionLoop` with its lines recorded. -/
def sectionLines (speciesNames elementNames : List Str) :
    Nat → SectionState → List (Str × Str)
  | 0, _ => []
  | fuel + 1, st =>
    match skipBlankLines (st.p.m_ckfile.length + 2) st.p st.cm with
    | Except.error _ => []
    | Except.ok (s, comment, p1, cm1) =>
      if isKeyword s = true ∨ s = "<EOF>".toList then []
      else
        (s, comment) ::
          match sectionLine speciesNames elementNames { st with p := p1, cm := cm1 } s comment with
          | Except.error _ => []
          | Except.ok st1 => sectionLines speciesNames elementNames fuel st1

/-- The lines of the section that `readReactionSection` reads, each with its
    comment: those after the header line, up to the line that ends the section. -/
def sectionLinesOf (speciesNames elementNames : List Str) (reactions : List Reaction)
    (p : CKParser) : List (Str × Str) :=
  match seekReactions (p.m_ckfile.length + 2) p with
  | Except.ok (some _, p1) =>
    sectionLines speciesNames elementNames (p1.m_ckfile.length + 3)
      ⟨p1, Reaction.fresh, [], 0, reactions⟩
  | _ => []

/-- The numbers `k`, `k + 1`, ... paired with the source text of the given
    lines. -/
def numberedFrom (k : Nat) : List (Str × Str) → List (Nat × Option Str)
  | [] => []
  | l :: ls => (k, some (sourceLine l.1 l.2)) :: numberedFrom (k + 1) ls

/-! ## Thermo records (lines 83-145, 693-804) -/

/-- An element of a species: the symbol and the number of atoms. -/
structure Constituent where
  name : Str
  number : Dbl
deriving DecidableEq, Repr

/-- Modelled from the spec: the `Species` record is declared in a header that
    is not among the given sources; the fields are those of the spec's data
    model: "name, numeric index, phase character, ordered list of
    (element-symbol, atom-count) constituents, a symbol→count map mirroring
    the list, two coefficient arrays", "three temperature breakpoints",
    "optional identifier string, validity flag". -/
structure Species where
  name : Str
  id : Str
  index : Int
  phase : Char
  elements : List Constituent
  comp : List (Str × Dbl)
  tlow : Dbl
  tmid : Dbl
  thigh : Dbl
  lowCoeffs : List Dbl
  highCoeffs : List Dbl
  valid : Int
deriving DecidableEq, Repr

/-- Modelled from the spec: the constructor `Species()` is declared in a header
    that is not among the given sources; a fresh species has no constituents,
    empty coefficient arrays, temperatures 0.0 and the validity flag clear. -/
def Species.fresh : Species :=
  { name := [], id := [], index := 0, phase := ' ', elements := [], comp := [],
    tlow := Dbl.zero, tmid := Dbl.zero, thigh := Dbl.zero,
    lowCoeffs := [], highCoeffs := [], valid := 0 }

/-- The comparison `x == y` of two doubles. -/
def Dbl.eqv (a b : Dbl) : Bool :=
  a.mant * 10 ^ (a.exp - min a.exp b.exp).toNat == b.mant * 10 ^ (b.exp - min a.exp b.exp).toNat

/-- The character `s[i]` of a `std::string`: defined up to the position of the
    terminator, an index beyond it is out of range. -/
def strAt (s : Str) (i : Nat) : Except Failure Char :=
  if i ≤ s.length then Except.ok (s.getD i '\x00') else Except.error Failure.outOfRange

/-- `std::string::substr(pos, n)`, which throws `std::out_of_range` for a
    position beyond the end of the string. -/
def substrE (s : Str) (pos n : Nat) : Except Failure Str :=
  if pos ≤ s.length then Except.ok (substr s pos n) else Except.error Failure.outOfRange

/-- `illegalThermoLine` (lines 83-88). -/
def illegalThermoLine {α : Type} (linenum : Nat) : Except Failure α :=
  throwSyntax "column 80 must contain an integer".toList linenum

/-- `illegalNumber` (lines 94-99). -/
def illegalNumber {α : Type} (s : Str) (linenum : Nat) : Except Failure α :=
  throwSyntax ("illegal number: ".toList ++ s) linenum

/-- The loop of `getNumberFromString` (lines 110-123) from position `n` on:
    `prev` is the character `s[n-1]`, or `none` when `n` is 0; the result
    tells whether the end of the string is reached without `return UNDEF`. -/
def numberScan : Option Char → Bool → Str → Bool
  | _, _, [] => true
  | prev, inexp, ch :: rest =>
    if inexp = false ∧ (ch = 'E' ∨ ch = 'e' ∨ ch = 'd') then numberScan (some ch) true rest
    else if ch = '+' ∨ ch = '-' then
      match prev with
      | none => numberScan (some ch) inexp rest
      | some pc =>
        if pc ≠ 'E' ∧ pc ≠ 'e' ∧ pc ≠ 'd' then false
        else numberScan (some ch) inexp rest
    else if ch ≠ '.' ∧ isDigit ch = false then false
    else numberScan (some ch) inexp rest

/-- `getNumberFromString` (lines 104-125); `UNDEF` is the constant of that name,
    which is defined outside the given sources. -/
def getNumberFromString (UNDEF : Dbl) (s : Str) : Dbl :=
  let s1 := removeWhiteSpace s
  if numberScan none false s1 then atof s1 else UNDEF

/-- `addElement` (lines 135-145). -/
def addElement (symbol : Str) (atoms : Dbl) (sp : Species) : Species :=
  if atoms.mant ≠ 0 then
    { sp with elements := sp.elements ++ [⟨symbol, atoms⟩],
              comp := mapSet sp.comp symbol atoms }
  else sp

/-- The loop that looks for line 1 of a record (lines 701-709): the line, or
    `none` when a keyword or the end of the stream comes first, that line
    being put back. -/
def seekThermoLine1 : Nat → CKParser → Except Failure (Option Str × CKParser)
  | 0, _ => Except.error Failure.outOfFuel
  | fuel + 1, p =>
    let r := getCKLine p
    if isKeyword r.1 = true ∨ matchKw r.1 "<EOF>".toList = true then
      Except.ok (none, putCKLine r.2.2 r.1 r.2.1)
    else if r.1.length < 80 ∨ r.1.getD 79 '\x00' ≠ '1' then seekThermoLine1 fuel r.2.2
    else Except.ok (some r.1, r.2.2)

/-- The identifier string: the tokens after the name, separated by blanks
    (lines 723-728). -/
def joinId : List Str → Str
  | [] => []
  | [t] => t
  | t :: t1 :: ts => t ++ ' ' :: joinId (t1 :: ts)

/-- One of the first four element slots of line 1 (lines 736-744), at
    position `iloc`. -/
def elementSlot (s : Str) (iloc : Nat) (sp : Species) : Except Failure Species :=
  match strAt s iloc, strAt s (iloc + 1), substrE s iloc 2, substrE s iloc 1,
      substrE s (iloc + 1) 1, substrE s (iloc + 2) 3 with
  | Except.ok c0, Except.ok c1, Except.ok two, Except.ok one, Except.ok second,
      Except.ok count =>
    let elementSym :=
      if c0 ≠ ' ' then (if c1 ≠ ' ' then two else one)
      else if c1 ≠ ' ' then second
      else []
    Except.ok (addElement elementSym (atof count) sp)
  | _, _, _, _, _, _ => Except.error Failure.outOfRange

/-- The fifth element slot of line 1 (lines 758-762). -/
def fifthElement (s : Str) (sp : Species) : Except Failure Species :=
  match strAt s 73, strAt s 74, substrE s 75 3 with
  | Except.ok c0, Except.ok c1, Except.ok count =>
    let sym0 := if c0 ≠ ' ' then [c0] else []
    let elementSym := if c1 ≠ ' ' then sym0 ++ [c1] else sym0
    Except.ok (addElement elementSym (atof count) sp)
  | _, _, _ => Except.error Failure.outOfRange

/-- The four element slots in order (lines 735-745). -/
def elementSlots (s : Str) : List Nat → Species → Except Failure Species
  | [], sp => Except.ok sp
  | i :: rest, sp =>
    match elementSlot s (24 + 5 * i) sp with
    | Except.error e => Except.error e
    | Except.ok sp1 => elementSlots s rest sp1

/-- Line 1 of a record (lines 716-763); `m_nasafmt` is the member of that
    name, which `readThermoRecord` reads and does not change. -/
def thermoLine1 (m_nasafmt : Bool) (m_line : Nat) (sp : Species) (s : Str) :
    Except Failure Species :=
  match strAt s 79 with
  | Except.error e => Except.error e
  | Except.ok c79 =>
    if c79 ≠ '1' then illegalThermoLine m_line
    else
      match substrE s 0 24 with
      | Except.error e => Except.error e
      | Except.ok nameid =>
        let toks := getTokens nameid
        match vecAt toks 0 with
        | Except.error e => Except.error e
        | Except.ok name =>
          let sp1 := { sp with name := name, id := joinId (toks.drop 1) }
          match elementSlots s [0, 1, 2, 3] sp1 with
          | Except.error e => Except.error e
          | Except.ok sp2 =>
            match strAt s 44, substrE s 45 10, substrE s 55 10 with
            | Except.ok ph, Except.ok tl, Except.ok th =>
              let sp3 := { sp2 with phase := ph, tlow := atof tl, thigh := atof th }
              if m_nasafmt = false then
                match substrE s 65 8 with
                | Except.error e => Except.error e
                | Except.ok tm => fifthElement s { sp3 with tmid := atof tm }
              else Except.ok sp3
            | _, _, _ => Except.error Failure.outOfRange

/-- The reading of one of the lines 2 to 4 and the test of its column 80
    (lines 767-768, 778-779, 795-796). -/
def columnCheck (p : CKParser) (digit : Char) : Except Failure (Str × CKParser) :=
  let r := getCKLine p
  match strAt r.1 79 with
  | Except.error e => Except.error e
  | Except.ok c => if c ≠ digit then illegalThermoLine r.2.2.m_line else Except.ok (r.1, r.2.2)

/-- A loop over coefficient fields of a line (lines 769-774, 780-791,
    797-802): the values of the fields `i` of the list, in order. -/
def readCoeffs (UNDEF : Dbl) (m_line : Nat) (s : Str) : List Nat → Except Failure (List Dbl)
  | [] => Except.ok []
  | i :: rest =>
    match substrE s (i * 15) 15 with
    | Except.error e => Except.error e
    | Except.ok numstr =>
      let cf := getNumberFromString UNDEF numstr
      if cf.eqv UNDEF then illegalNumber numstr m_line
      else
        match readCoeffs UNDEF m_line s rest with
        | Except.error e => Except.error e
        | Except.ok cfs => Except.ok (cf :: cfs)

/-- Lines 2 to 4 of a record (lines 765-803). -/
def thermoCoeffLines (UNDEF : Dbl) (p : CKParser) (sp : Species) :
    Except Failure (Species × CKParser) :=
  match columnCheck p '2' with
  | Except.error e => Except.error e
  | Except.ok (s2, p2) =>
    match readCoeffs UNDEF p2.m_line s2 [0, 1, 2, 3, 4] with
    | Except.error e => Except.error e
    | Except.ok c2 =>
      match columnCheck p2 '3' with
      | Except.error e => Except.error e
      | Except.ok (s3, p3) =>
        match readCoeffs UNDEF p3.m_line s3 [0, 1] with
        | Except.error e => Except.error e
        | Except.ok c3h =>
          match readCoeffs UNDEF p3.m_line s3 [2, 3, 4] with
          | Except.error e => Except.error e
          | Except.ok c3l =>
            match columnCheck p3 '4' with
            | Except.error e => Except.error e
            | Except.ok (s4, p4) =>
              match readCoeffs UNDEF p4.m_line s4 [0, 1, 2, 3] with
              | Except.error e => Except.error e
              | Except.ok c4 =>
                Except.ok ({ sp with highCoeffs := sp.highCoeffs ++ c2 ++ c3h,
                                     lowCoeffs := sp.lowCoeffs ++ c3l ++ c4,
                                     valid := 1 }, p4)

/-- `readThermoRecord` (lines 693-804) on the species `sp`. -/
def readThermoRecord (UNDEF : Dbl) (m_nasafmt : Bool) (p : CKParser) (sp : Species) :
    Except Failure (Species × CKParser) :=
  match seekThermoLine1 (p.m_ckfile.length + 3) p with
  | Except.error e => Except.error e
  | Except.ok (none, p1) => Except.ok ({ sp with name := "<END>".toList }, p1)
  | Except.ok (some s, p1) =>
    match thermoLine1 m_nasafmt p1.m_line sp s with
    | Except.error e => Except.error e
    | Except.ok sp1 => thermoCoeffLines UNDEF p1 sp1

/-! ## Example inputs -/

/-- A value for the constant `UNDEF` in the examples. -/
def exampleUndef : Dbl := ⟨-99991234, -4⟩

/-- Line 1 of a thermo record for the species AR. -/
def arLine1 : Str :=
  "AR                L 6/88AR  1               G   200.000  6000.000 1000.00      1".toList

/-- Line 2 of the record. -/
def arLine2 : Str :=
  " 2.50000000E+00 0.00000000E+00 0.00000000E+00 0.00000000E+00 0.00000000E+00    2".toList

/-- Line 3 of the record. -/
def arLine3 : Str :=
  "-7.45375000E+02 4.37967400E+00 2.50000000E+00 0.00000000E+00 0.00000000E+00    3".toList

/-- Line 4 of the record. -/
def arLine4 : Str :=
  " 0.00000000E+00 0.00000000E+00-7.45375000E+02 4.36600000E+00                   4".toList

/-- Line 2 of the record with the text `1.2.3` in its first field. -/
def arLine2TwoPoints : Str :=
  "     1.2.3      0.00000000E+00 0.00000000E+00 0.00000000E+00 0.00000000E+00    2".toList

/-- The text of a THERMO block that holds the four given lines and `END`. -/
def thermoText (l1 l2 l3 l4 : Str) : Str :=
  l1 ++ '\n' :: (l2 ++ '\n' :: (l3 ++ '\n' :: (l4 ++ "\nEND\n".toList)))

/-- A parser on the thermo record of AR. -/
def arParser : CKParser := CKParser.new (thermoText arLine1 arLine2 arLine3 arLine4)

/-- The species after line 1 of the record of AR. -/
def arLine1Species : Species :=
  { name := "AR".toList, id := "L 6/88".toList, index := 0, phase := 'G',
    elements := [⟨"AR".toList, ⟨1, 0⟩⟩], comp := [("AR".toList, ⟨1, 0⟩)],
    tlow := ⟨200000, -3⟩, tmid := ⟨100000, -2⟩, thigh := ⟨6000000, -3⟩,
    lowCoeffs := [], highCoeffs := [], valid := 0 }

/-- The species of the record of AR. -/
def arSpecies : Species :=
  { arLine1Species with
    lowCoeffs := [⟨250000000, -8⟩, ⟨0, -8⟩, ⟨0, -8⟩, ⟨0, -8⟩, ⟨0, -8⟩, ⟨-745375000, -6⟩,
      ⟨436600000, -8⟩],
    highCoeffs := [⟨250000000, -8⟩, ⟨0, -8⟩, ⟨0, -8⟩, ⟨0, -8⟩, ⟨0, -8⟩, ⟨-745375000, -6⟩,
      ⟨437967400, -8⟩],
    valid := 1 }

/-- The parser after the `n` next lines of `p` are read. -/
def afterLines : Nat → CKParser → CKParser
  | 0, p => p
  | n + 1, p => afterLines n (getCKLine p).2.2

/-! ## advanceToKeyword (lines 380-393) -/

/-- The loop of `advanceToKeyword` (lines 382-392): the return value and the
    parser. -/
def advanceLoop (kw stop : Str) : Nat → CKParser → Except Failure (Bool × CKParser)
  | 0, _ => Except.error Failure.outOfFuel
  | fuel + 1, p =>
    let r := getCKLine p
    if matchKw r.1 "<EOF>".toList then Except.ok (false, r.2.2)
    else if matchKw r.1 kw then Except.ok (true, putCKLine r.2.2 r.1 r.2.1)
    else if matchKw r.1 stop then Except.ok (false, putCKLine r.2.2 r.1 r.2.1)
    else advanceLoop kw stop fuel r.2.2

/-- `advanceToKeyword` (lines 380-393). -/
def advanceToKeyword (kw stop : Str) (p : CKParser) : Except Failure (Bool × CKParser) :=
  advanceLoop kw stop (p.m_ckfile.length + 2) p

/-! ## Notions used to state the properties of the line source -/

/-- The characters of a physical line that `getCKLine` keeps: tabs as
    spaces and the other non-printable characters left out (lines 322, 336). -/
def visible (l : Str) : Str :=
  (l.map (fun c => if c = '\t' then ' ' else c)).filter isPrint

/-- Whether the character `t` ends a line when the last end-of-line character
    seen is `eol` (line 326). -/
def endsLine (eol t : Char) : Bool :=
  decide (t = '\r') || (decide (t = '\n') && decide (eol ≠ '\r'))

/-- The result of the `n`-th next call of `getCKLine`, counted from 0. -/
def lineAt (n : Nat) (p : CKParser) : Str × Str × CKParser := getCKLine (afterLines n p)

/-- Whether a line ends the search of `advanceToKeyword`: it stands for the
    end of the stream or matches one of the two keywords. -/
def deciding (kw stop s : Str) : Bool :=
  matchKw s "<EOF>".toList || matchKw s kw || matchKw s stop

/-- The contents of the `n` next lines of `p`. -/
def nextContents : Nat → CKParser → List Str
  | 0, _ => []
  | n + 1, p => (getCKLine p).1 :: nextContents n (getCKLine p).2.2

/-! ## readElementSection (lines 404-472) and readSpeciesSection (lines 482-533) -/

/-- Modelled from the spec: the `Element` record is declared in a header that
    is not among the given sources; the fields are those of the spec's data
    model: "symbol, index, atomic weight, a flag recording whether the weight
    came from an explicit override or a default table, a validity flag
    (weight > 0), and an attached comment". -/
structure Element where
  name : Str
  atomicWeight : Dbl
  weightFromDB : Bool
  valid : Int
  comment : Str
  index : Int
deriving DecidableEq, Repr

/-- Modelled from the spec: `operator==` of `Element` is declared in a header
    that is not among the given sources; the spec has element "uniqueness
    enforced by name", so two elements are equal when their names are. -/
def Element.same (a b : Element) : Bool := decide (a.name = b.name)

/-- Modelled from the spec: `operator==` of `Species` is declared in a header
    that is not among the given sources; the spec has "names are unique
    within the species table", so two species are equal when their names
    are. -/
def Species.same (a b : Species) : Bool := decide (a.name = b.name)

/-- The loop that reads lines up to one that has a token (lines 423-427 and
    496-500): the line, its comment, its tokens and the parser. -/
def nextTokenLine : Nat → CKParser → Except Failure (Str × Str × List Str × CKParser)
  | 0, _ => Except.error Failure.outOfFuel
  | fuel + 1, p =>
    let r := getCKLine p
    let toks := getTokens r.1
    if toks.length = 0 then nextTokenLine fuel r.2.2
    else Except.ok (r.1, r.2.1, toks, r.2.2)

/-- The loop over the tokens of a line (lines 433-459 and 506-523), `step`
    being what is done with a token that is not `END`: the state after the
    loop, and whether `END` was met (`goto next`). -/
def tokenLoop {σ : Type} (step : σ → Str → Str → σ) (comment : Str) :
    List Str → σ → σ × Bool
  | [], st => (st, false)
  | tok :: rest, st =>
    if matchKw tok "END".toList then (st, true)
    else tokenLoop step comment rest (step st tok comment)

/-- The loop over the lines of one section (lines 422-461 and 495-525), which
    is the same in the two readers; `firsttok` tells whether the line to come
    is the header line, whose first token is passed over. -/
def tokenLines {σ : Type} (step : σ → Str → Str → σ) :
    Nat → Bool → CKParser → σ → Except Failure (σ × CKParser)
  | 0, _, _, _ => Except.error Failure.outOfFuel
  | fuel + 1, firsttok, p, st =>
    match nextTokenLine (p.m_ckfile.length + 2) p with
    | Except.error e => Except.error e
    | Except.ok (s, comment, toks, p1) =>
      if firsttok = false ∧ isKeyword (toks.headD []) = true then
        Except.ok (st, putCKLine p1 s comment)
      else
        let r := tokenLoop step comment (if firsttok then toks.drop 1 else toks) st
        if r.2 then Except.ok (r.1, p1)
        else tokenLines step fuel false p1 r.1

/-- The outer loop of the two readers (lines 417-470 and 490-531): the state
    and the parser when `advanceToKeyword` finds no further section. -/
def tokenSections {σ : Type} (kw stop : Str) (step : σ → Str → Str → σ) :
    Nat → CKParser → σ → Except Failure (σ × CKParser)
  | 0, _, _ => Except.error Failure.outOfFuel
  | fuel + 1, p, st =>
    match advanceToKeyword kw stop p with
    | Except.error e => Except.error e
    | Except.ok (false, p1) => Except.ok (st, p1)
    | Except.ok (true, p1) =>
      match tokenLines step (p1.m_ckfile.length + 3) true p1 st with
      | Except.error e => Except.error e
      | Except.ok (st1, p2) => tokenSections kw stop step fuel p2 st1

/-- The element that a token stands for (lines 436-449), `n` being the size of
    the list; `defaultWeight name` is the value `defaultWeights[capitalize(name)]`
    of the table of default atomic weights, which is filled outside the given
    sources. -/
def elementOfToken (defaultWeight : Str → Dbl) (tok comment : Str) (n : Nat) : Element :=
  let r := extractSlashData tok
  let wt := if r.1 then atof r.2.2.1 else defaultWeight r.2.1
  { name := r.2.1, atomicWeight := wt, weightFromDB := !r.1,
    valid := if wt.isPos then 1 else 0, comment := comment, index := (n : Int) }

/-- What is done with an element token (lines 436-457). -/
def addElementToken (defaultWeight : Str → Dbl) (elements : List Element)
    (tok comment : Str) : List Element :=
  let el := elementOfToken defaultWeight tok comment elements.length
  if elements.any (fun e => e.same el) then elements else elements ++ [el]

/-- `readElementSection` (lines 404-472): the return value, the element list
    and the parser. `validElements` is the function `valid` on element
    lists, which is defined outside the given sources. -/
def readElementSection (defaultWeight : Str → Dbl) (validElements : List Element → Bool)
    (p : CKParser) : Except Failure (Bool × List Element × CKParser) :=
  match tokenSections "ELEM".toList "SPEC".toList (addElementToken defaultWeight)
      (2 * p.m_ckfile.length + 4) p [] with
  | Except.error e => Except.error e
  | Except.ok (elements, p1) =>
    if elements.length = 0 then Except.ok (false, elements, p1)
    else Except.ok (validElements elements, elements, p1)

/-- What is done with a species token (lines 509-521); the state is the
    species list and the counter `nsp`. -/
def addSpeciesToken (st : List Species × Nat) (tok _comment : Str) : List Species × Nat :=
  let sp := { Species.fresh with name := tok }
  if st.1.any (fun e => e.same sp) then st
  else (st.1 ++ [{ sp with index := ((st.2 + 1 : Nat) : Int) }], st.2 + 1)

/-- `readSpeciesSection` (lines 482-533) on the list `species`: the return
    value, the list and the parser. -/
def readSpeciesSection (p : CKParser) (species : List Species) :
    Except Failure (Bool × List Species × CKParser) :=
  match tokenSections "SPEC".toList "THER".toList addSpeciesToken
      (2 * p.m_ckfile.length + 4) p (species, 0) with
  | Except.error e => Except.error e
  | Except.ok (st, p1) => Except.ok (decide (st.1.length ≠ 0), st.1, p1)

/-- The step that records a token and the comment of its line. -/
def recordToken (tr : List (Str × Str)) (tok comment : Str) : List (Str × Str) :=
  tr ++ [(tok, comment)]

/-- The tokens that the reader of the sections `kw` handles, in order, each
    with the comment of its line: what the loops of the reader give with the
    recording step. -/
def sectionTokens (kw stop : Str) (p : CKParser) : List (Str × Str) :=
  match tokenSections kw stop recordToken (2 * p.m_ckfile.length + 4) p [] with
  | Except.ok r => r.1
  | Except.error _ => []

/-- The names of a list in the order of their first occurrence. -/
def firstNames : List Str → List Str
  | [] => []
  | n :: ns => n :: (firstNames ns).filter (fun m => decide (m ≠ n))

/-- The name of the element that a token stands for. -/
def tokenName (tok : Str) : Str := (extractSlashData tok).2.1

/-! ## readThermoSection (lines 549-684) -/

/-- Modelled from the spec: the default value of the parameter `linenum` of
    the constructor of `CK_SyntaxError` is declared in a header that is not
    among the given sources; the constructor (lines 63-68) shows a line only
    for `linenum > 0`, and the error is "parameterized by message text and
    source line number", so an error thrown without a line number carries a
    number that is not positive: -1, the default that `illegalThermoLine` and
    `illegalNumber` declare (lines 84, 95). -/
def noLinenum : Int := -1

/-- `checkTemps` (lines 157-168). -/
def checkTemps (tmin tmid tmax : Dbl) : Except Failure Unit :=
  if tmin.mant = 0 ∨ tmid.mant = 0 ∨ tmax.mant = 0 then
    Except.error (Failure.syntaxError ⟨"error reading Tmin, Tmid, or Tmax".toList, noLinenum⟩)
  else Except.ok ()

/-- The loop that looks for the THERMO header (lines 568-576): the header
    line, or `none` at the end of the stream or at the REACTIONS header, which
    is put back. -/
def seekThermo : Nat → CKParser → Except Failure (Option Str × CKParser)
  | 0, _ => Except.error Failure.outOfFuel
  | fuel + 1, p =>
    let r := getCKLine p
    if matchKw r.1 "<EOF>".toList then Except.ok (none, r.2.2)
    else if matchKw r.1 "REAC".toList then Except.ok (none, putCKLine r.2.2 r.1 r.2.1)
    else if matchKw r.1 "THER".toList then Except.ok (some r.1, r.2.2)
    else seekThermo fuel r.2.2

/-- The options on the THERMO line (lines 581-596); `toks` are the tokens
    after the keyword, and the state is `optionFlag` and `m_nasafmt`. -/
def thermoOptions (NoThermoDatabase : Int) (m_line : Nat) :
    List Str → Int × Bool → Except Failure (Int × Bool)
  | [], st => Except.ok st
  | tok :: rest, st =>
    if matchKw tok "ALL".toList then
      thermoOptions NoThermoDatabase m_line rest (NoThermoDatabase, st.2)
    else if matchKw tok "NO_TMID".toList then
      thermoOptions NoThermoDatabase m_line rest (st.1, true)
    else throwSyntax "unrecognized THERMO option.".toList m_line

/-- What `readThermoSection` has before its loop over the records (lines
    555-626): the parser, the local `tmid`, the vector `temp`, `optionFlag`,
    `m_nasafmt`, `getAllSpecies`, the list `names` and the counter `nsp`. -/
structure ThermoSetup where
  p : CKParser
  tmid : Dbl
  temp : List Dbl
  optionFlag : Int
  m_nasafmt : Bool
  getAllSpecies : Bool
  names : List Str
  nsp : Nat
deriving DecidableEq, Repr

/-- The part of `readThermoSection` before the loop over the records (lines
    555-626); `none` stands for the two early `return false`, with the parser
    then. `NoThermoDatabase` and `HasTempRange` are the constants of these
    names, which are defined outside the given sources. -/
def thermoSetup (NoThermoDatabase HasTempRange : Int) (names : List Str) (temp : List Dbl)
    (optionFlag : Int) (p : CKParser) : Except Failure (Option ThermoSetup × CKParser) :=
  let t0 : Dbl × Dbl × Dbl :=
    match temp with
    | [a, b, c] => (a, b, c)
    | _ => (⟨-1, 0⟩, ⟨-1, 0⟩, ⟨-1, 0⟩)
  match seekThermo (p.m_ckfile.length + 2) p with
  | Except.error e => Except.error e
  | Except.ok (none, p1) => Except.ok (none, p1)
  | Except.ok (some s, p1) =>
    match thermoOptions NoThermoDatabase p1.m_line ((getTokens s).drop 1)
        (optionFlag, false) with
    | Except.error e => Except.error e
    | Except.ok (flag1, nasafmt) =>
      let getAll := decide (names.length > 0) && matchKw (names.headD []) "<ALL>".toList
      let names1 := if getAll then [] else names
      if flag1 = NoThermoDatabase ∨ flag1 = HasTempRange then
        let r := getCKLine p1
        let toks := getTokens r.1
        let t1 : Dbl × Dbl × Dbl :=
          if toks.length ≥ 3 then
            (atof (toks.getD 0 []), atof (toks.getD 1 []), atof (toks.getD 2 []))
          else t0
        match checkTemps t1.1 t1.2.1 t1.2.2 with
        | Except.error e => Except.error e
        | Except.ok _ =>
          Except.ok (some ⟨r.2.2, t1.2.1, [t1.1, t1.2.1, t1.2.2], flag1, nasafmt, getAll,
            names1, names.length⟩, r.2.2)
      else
        Except.ok (some ⟨p1, t0.2.1, temp, flag1, nasafmt, getAll, names1, names.length⟩, p1)

/-- The variables of the loop over the records. -/
structure ThermoState where
  p : CKParser
  names : List Str
  nsp : Nat
  dup : List (Str × Int)
  species : List (Str × Species)
deriving DecidableEq, Repr

/-- One pass of the loop over the records (lines 632-681): the state after
    it, with the record read when the loop goes on and `none` when it is
    left. -/
def thermoStep (UNDEF : Dbl) (m_nasafmt getAllSpecies : Bool) (tmid : Dbl)
    (st : ThermoState) : Except Failure (ThermoState × Option Species) :=
  if st.nsp = 0 then Except.ok (st, none)
  else
    match readThermoRecord UNDEF m_nasafmt st.p Species.fresh with
    | Except.error e => Except.error e
    | Except.ok (spec, p1) =>
      if spec.name = "<END>".toList then Except.ok ({ st with p := p1 }, none)
      else
        let already_read := decide (mapGet st.dup spec.name 0 = 2)
        let dup1 := mapSet st.dup spec.name 2
        if already_read = false ∧ (getAllSpecies = true ∨ spec.name ∈ st.names) then
          let spec1 := if spec.tmid.mant = 0 then { spec with tmid := tmid } else spec
          let species1 := mapSet st.species spec.name spec1
          match checkTemps spec1.tlow spec1.tmid spec1.thigh with
          | Except.error e => Except.error e
          | Except.ok _ =>
            if getAllSpecies then
              Except.ok (⟨p1, st.names ++ [spec.name], (st.names ++ [spec.name]).length,
                dup1, species1⟩, some spec)
            else Except.ok (⟨p1, st.names, st.nsp - 1, dup1, species1⟩, some spec)
        else Except.ok ({ st with p := p1, dup := dup1 }, some spec)

/-- The loop over the records (lines 631-682). -/
def thermoLoop (UNDEF : Dbl) (m_nasafmt getAllSpecies : Bool) (tmid : Dbl) :
    Nat → ThermoState → Except Failure ThermoState
  | 0, _ => Except.error Failure.outOfFuel
  | fuel + 1, st =>
    match thermoStep UNDEF m_nasafmt getAllSpecies tmid st with
    | Except.error e => Except.error e
    | Except.ok (st1, none) => Except.ok st1
    | Except.ok (st1, some _) => thermoLoop UNDEF m_nasafmt getAllSpecies tmid fuel st1

/-- What `readThermoSection` leaves: the return value, the list `names`, the
    table `species`, the vector `temp`, `optionFlag`, `m_nasafmt` and the
    parser. -/
structure ThermoResult where
  found : Bool
  names : List Str
  species : List (Str × Species)
  temp : List Dbl
  optionFlag : Int
  m_nasafmt : Bool
  p : CKParser
deriving DecidableEq, Repr

/-- `readThermoSection` (lines 549-684); `m_nasafmt` is the member of that
    name before the call. -/
def readThermoSection (UNDEF : Dbl) (NoThermoDatabase HasTempRange : Int)
    (names : List Str) (species : List (Str × Species)) (temp : List Dbl) (optionFlag : Int)
    (m_nasafmt : Bool) (p : CKParser) : Except Failure ThermoResult :=
  match thermoSetup NoThermoDatabase HasTempRange names temp optionFlag p with
  | Except.error e => Except.error e
  | Except.ok (none, p1) =>
    Except.ok ⟨false, names, species, temp, optionFlag, m_nasafmt, p1⟩
  | Except.ok (some su, _) =>
    match thermoLoop UNDEF su.m_nasafmt su.getAllSpecies su.tmid (su.p.m_ckfile.length + 2)
        ⟨su.p, su.names, su.nsp, [], species⟩ with
    | Except.error e => Except.error e
    | Except.ok st =>
      Except.ok ⟨true, st.names, st.species, su.temp, su.optionFlag, su.m_nasafmt, st.p⟩

/-- The records that the loop over the records reads, in order: the loop of
    `thermoLoop` with its records kept. -/
def thermoRecords (UNDEF : Dbl) (m_nasafmt getAllSpecies : Bool) (tmid : Dbl) :
    Nat → ThermoState → List Species
  | 0, _ => []
  | fuel + 1, st =>
    match thermoStep UNDEF m_nasafmt getAllSpecies tmid st with
    | Except.ok (st1, some spec) =>
      spec :: thermoRecords UNDEF m_nasafmt getAllSpecies tmid fuel st1
    | _ => []

/-- The record as it is stored: with the default `tmid` when its own is 0
    (lines 657-665). -/
def withDefaultTmid (tmid : Dbl) (spec : Species) : Species :=
  if spec.tmid.mant = 0 then { spec with tmid := tmid } else spec

/-- The entry of the species table under the name `n` that the records `rs`,
    read in this order, stand for: the first record of that name as it is
    stored when the name is asked for, and the entry `old` that the table had
    otherwise. -/
def firstRecordEntry (requested : Bool) (tmid : Dbl) (old : Species) (rs : List Species)
    (n : Str) : Species :=
  match rs.find? (fun r => decide (r.name = n)) with
  | some r => if requested then withDefaultTmid tmid r else old
  | none => old

/-- The symbol of the element slot `i` of line 1: the characters of its first
    two columns that are not blank. -/
def slotSymbol (s : Str) (i : Nat) : Str :=
  (substr s (24 + 5 * i) 2).filter (fun c => decide (c ≠ ' '))

/-- The count of the element slot `i` of line 1: the value of its last three
    columns. -/
def slotCount (s : Str) (i : Nat) : Dbl := atof (substr s (24 + 5 * i + 2) 3)

/-- The constituents that the slots of the list stand for: those with a count
    that is not 0, in the order of the slots. -/
def slotConstituents (s : Str) (slots : List Nat) : List Constituent :=
  (slots.filter (fun i => decide ((slotCount s i).mant ≠ 0))).map
    (fun i => ⟨slotSymbol s i, slotCount s i⟩)

/-- The symbol table after the constituents are entered in order. -/
def enterAll (comp : List (Str × Dbl)) (cs : List Constituent) : List (Str × Dbl) :=
  cs.foldl (fun m c => mapSet m c.name c.number) comp

/-! ## Example inputs of the section readers -/

/-- Atomic weights for the examples. -/
def exampleWeight (name : Str) : Dbl :=
  if name = "H".toList then ⟨100797, -5⟩
  else if name = "O".toList then ⟨159994, -4⟩
  else Dbl.zero

/-- A validity test for the examples: every element of the list is valid. -/
def exampleValid (elements : List Element) : Bool :=
  elements.all (fun e => decide (e.valid = 1))

/-- The head of a mechanism in which an element and a species are named
    twice. -/
def headText : Str :=
  "ELEMENTS H O ! first\nH/2.0/ N/14.0/\nEND\nSPECIES\nH2 O2 H2 ! sp\nH2O END\nTHERMO\n".toList

/-- A value for the constant `NoThermoDatabase` in the examples. -/
def exampleNoThermoDatabase : Int := 10

/-- A value for the constant `HasTempRange` in the examples. -/
def exampleHasTempRange : Int := 11

/-- A THERMO section with the option ALL whose next line holds two numbers,
    followed by the record of AR. -/
def shortTempText : Str :=
  "THERMO ALL\n   300.000  1000.000\n".toList ++ thermoText arLine1 arLine2 arLine3 arLine4

/-- The same section with three numbers on the line after the header. -/
def fullTempText : Str :=
  "THERMO ALL\n   300.000  1000.000  5000.000\n".toList ++
    thermoText arLine1 arLine2 arLine3 arLine4

/-- Line 1 of a second record for the species AR, with other temperatures. -/
def arLine1Late : Str :=
  "AR                L 6/88AR  1               G   300.000  5000.000 1000.00      1".toList

/-- A THERMO section with two records for AR: the four lines of the first
    record, then the second record and `END`. -/
def twoRecordsText : Str :=
  "THERMO\n".toList ++ (arLine1 ++ '\n' :: (arLine2 ++ '\n' :: (arLine3 ++ '\n' ::
    (arLine4 ++ '\n' :: thermoText arLine1Late arLine2 arLine3 arLine4))))

/-- Line 1 of a record whose first two element slots both hold the symbol
    H. -/
def hhLine1 : Str :=
  "H2                L 6/88H   2H   3          G   200.000  6000.000 1000.00      1".toList

/-! ## Notions and examples for the error line numbers -/

/-- A THERMO section with the option ALL whose default temperatures begin
    with the value 0, on line 2. -/
def zeroTempText : Str :=
  "THERMO ALL\n     0.000  1000.000  5000.000\n".toList ++
    thermoText arLine1 arLine2 arLine3 arLine4

/-- The same section after a comment line, so that the temperatures are on
    line 3. -/
def zeroTempTextLate : Str := "! thermo data\n".toList ++ zeroTempText

/-- Line 1 of a record for AR whose low temperature is 0. -/
def arLine1ZeroLow : Str :=
  "AR                L 6/88AR  1               G     0.000  6000.000 1000.00      1".toList

/-- The line number and the message of the syntax error that a run ends
    with, if it ends with one. -/
def errorLine {α : Type} (r : Except Failure α) : Option (Str × Int) :=
  match r with
  | Except.error (Failure.syntaxError e) => some (e.msg, e.linenum)
  | _ => none

/-! ## The fifth element slot of line 1 -/

/-- The symbol of the fifth element slot: the characters at the positions 73
    and 74 that are not blank. -/
def fifthSymbol (s : Str) : Str := (substr s 73 2).filter (fun c => decide (c ≠ ' '))

/-- The count of the fifth element slot: the value of the positions 75 to
    77. -/
def fifthCount (s : Str) : Dbl := atof (substr s 75 3)

/-- The constituent that the fifth slot stands for, if its count is not 0. -/
def fifthConstituent (s : Str) : List Constituent :=
  if (fifthCount s).mant ≠ 0 then [⟨fifthSymbol s, fifthCount s⟩] else []

/-- Line 1 of a record for AR with `H   2` in the fifth element slot. -/
def fiveLine1 : Str :=
  "AR                L 6/88AR  1               G   200.000  6000.000 1000.00H   2 1".toList

/-! ## Notions for group strings -/

/-- An item of a group string: a symbol and the digits of its count, which
    may be missing. -/
structure GroupItem where
  sym : Str
  num : Str
deriving DecidableEq, Repr

/-- The text of an item. -/
def GroupItem.text (it : GroupItem) : Str := it.sym ++ it.num

/-- The count of an item: the value of its digits, 1 without digits. -/
def GroupItem.count (it : GroupItem) : Int := if it.num ≠ [] then atoi it.num else 1

/-- An item is well formed when its symbol is made of letters and its count
    of digits. -/
def GroupItem.wf (it : GroupItem) : Bool :=
  it.sym.all isAlpha && it.num.all isDigit

/-- The group string of a list of items: their texts separated by `-`. -/
def groupText : List GroupItem → Str
  | [] => []
  | [it] => it.text
  | it :: it1 :: rest => it.text ++ '-' :: groupText (it1 :: rest)

/-- The vector that the items stand for: each item, in order, writes its
    count at the position of its symbol in the element list. -/
def groupVector (esyms : List Str) (items : List GroupItem) : Group :=
  items.foldl (fun r it => r.set (esyms.indexOf it.sym) it.count)
    (List.replicate esyms.length 0)

/-! ## Examples for the reaction reader -/

/-- A REACTIONS section whose reaction has the reactants `5A`, with the
    coefficient 0.5, and `B`, followed by a metadata line with one group list
    on each side. -/
def halfCoefficientText : Str :=
  "REACTIONS\n.5A+B=B 1 0 0\n%(H)=(H)\nEND\n".toList

/-- The same section with two group lists for the one product. -/
def halfCoefficientTextTwo : Str :=
  "REACTIONS\n.5A+B=B 1 0 0\n%(H)=(H)+(H)\nEND\n".toList

/-- A REACTIONS section whose reaction has the suffix `+M` on the product
    side only. -/
def rightMarkerText : Str := "REACTIONS\nA=B+M 1 0 0\nEND\n".toList

/-- The same reaction with the suffix on both sides. -/
def bothMarkersText : Str := "REACTIONS\nA+M=B+M 1 0 0\nEND\n".toList

/-! ## Examples for the element and species readers -/

/-- An ELEMENTS block at the end of the stream, without `END`. -/
def openElementsText : Str := "ELEMENTS\nH O\n".toList

/-- A SPECIES block at the end of the stream, without `END`. -/
def openSpeciesText : Str := "SPECIES\nH2 O2\n".toList

/-! ## GasKinetics: the Arrhenius rates (GasKinetics.cpp, lines 247-255 and 424-435) -/

/-- Modelled from the spec: `ArrheniusRate` is declared in a header that is
    not among the given sources. Of a rate, `addReaction` and
    `modifyArrheniusRate` use the index of its reaction, which `setIndex` sets
    and `index()` returns; the rest of a rate is its "Arrhenius triple: the
    (prefactor, temperature exponent, activation energy) parameters". -/
structure ArrheniusRate where
  rate_index : Nat
  A : Dbl
  b : Dbl
  Ea : Dbl
deriving DecidableEq, Repr

/-- How a function of `GasKinetics` fails: with a `CanteraError`, which holds
    the name of the procedure and a message, or by an index beyond the end of
    a vector. -/
inductive KineticsFailure where
  | canteraError (procedure msg : Str)
  | outOfRange
deriving DecidableEq, Repr

/-- The members `m_arrhenius_indices` (a `std::map` from the index of a
    reaction to a position) and `m_arrhenius_rates` of `GasKinetics`. -/
structure GasKinetics where
  m_arrhenius_indices : List (Nat × Nat)
  m_arrhenius_rates : List ArrheniusRate
deriving DecidableEq, Repr

/-- `std::map::find` on the index map: the value under the key, if any. -/
def indexFind (m : List (Nat × Nat)) (i : Nat) : Option Nat :=
  match m with
  | [] => none
  | (k, v) :: rest => if k = i then some v else indexFind rest i

/-- The assignment `m[i] = j` on the index map. -/
def indexSet (m : List (Nat × Nat)) (i j : Nat) : List (Nat × Nat) :=
  match m with
  | [] => [(i, j)]
  | (k, v) :: rest => if k = i then (i, j) :: rest else (k, v) :: indexSet rest i j

/-- The branch of `addReaction` for a rate of the type `ArrheniusRate` (lines
    249-255); `nRxn` is `nReactions() - 1`. -/
def addArrheniusRate (nRxn : Nat) (rate : ArrheniusRate) (k : GasKinetics) : GasKinetics :=
  { m_arrhenius_indices := indexSet k.m_arrhenius_indices nRxn k.m_arrhenius_rates.length,
    m_arrhenius_rates := k.m_arrhenius_rates ++ [{ rate with rate_index := nRxn }] }

/-- The message `Index i does not exist.` of `modifyArrheniusRate`. -/
def noIndexMessage (i : Nat) : Str :=
  "Index ".toList ++ (Nat.repr i).toList ++ " does not exist.".toList

/-- `modifyArrheniusRate` (lines 424-435): the members afterwards and the
    object `*newRate`, whose index the function sets. -/
def modifyArrheniusRate (i : Nat) (newRate : ArrheniusRate) (k : GasKinetics) :
    Except KineticsFailure (GasKinetics × ArrheniusRate) :=
  match indexFind k.m_arrhenius_indices i with
  | some j =>
    match k.m_arrhenius_rates.get? j with
    | none => Except.error KineticsFailure.outOfRange
    | some old =>
      let r := { newRate with rate_index := old.rate_index }
      Except.ok ({ k with m_arrhenius_rates := k.m_arrhenius_rates.set j r }, r)
  | none =>
    Except.error (KineticsFailure.canteraError "GasKinetics::modifyArrheniusRate".toList
      (noIndexMessage i))

/-- The positions of the index map lie within the vector of rates. -/
def GasKinetics.inRange (k : GasKinetics) : Bool :=
  k.m_arrhenius_indices.all (fun e => decide (e.2 < k.m_arrhenius_rates.length))

/-- The members after the rates of a list are added, one reaction after the
    other, to a `GasKinetics` without rates; an entry is the index of the
    reaction and its rate. -/
def GasKinetics.built (rs : List (Nat × ArrheniusRate)) : GasKinetics :=
  rs.foldl (fun k e => addArrheniusRate e.1 e.2 k) ⟨[], []⟩

/-- Three rates for the examples, added for the reactions 0, 2 and 5. -/
def exampleKinetics : GasKinetics :=
  GasKinetics.built [(0, ⟨0, ⟨1, 0⟩, ⟨0, 0⟩, ⟨0, 0⟩⟩), (2, ⟨0, ⟨2, 0⟩, ⟨0, 0⟩, ⟨0, 0⟩⟩),
    (5, ⟨0, ⟨3, 0⟩, ⟨0, 0⟩, ⟨0, 0⟩⟩)]

/-! ## Decimal numerals

The values of `atof` in this file are exact decimals, and the tests of the
source on a double (`== 0.0`, `!= 0.0`, `> 0.0`, `< 0.0`) are tests on the
decimal. For a text that is a decimal numeral of at most 15 digits with an
exponent of at most two digits, this is what the C library gives as well: the
double that `atof` returns is the one nearest to the value of the numeral, it
is 0.0 just when all digits of the numeral are 0, and it has the sign of the
numeral. The predicates of this section name these texts; the properties of
values and of decisions that come from `atof` are stated for them. -/

/-- What may follow the digits of a numeral: nothing, or `e` or `E`, an
    optional sign and one or two digits. -/
def exponentText : Str → Bool
  | [] => true
  | c :: cs =>
    (c = 'e' || c = 'E') &&
      (match cs with
       | '-' :: ds => ds.all isDigit && decide (1 ≤ ds.length) && decide (ds.length ≤ 2)
       | '+' :: ds => ds.all isDigit && decide (1 ≤ ds.length) && decide (ds.length ≤ 2)
       | ds => ds.all isDigit && decide (1 ≤ ds.length) && decide (ds.length ≤ 2))

/-- A numeral without sign: digits with at most one point among them, at least
    one digit and at most 15, and then an exponent or nothing. -/
def unsignedDecimal (s : Str) : Bool :=
  match s.dropWhile isDigit with
  | '.' :: fs =>
    decide (1 ≤ (s.takeWhile isDigit).length + (fs.takeWhile isDigit).length) &&
      decide ((s.takeWhile isDigit).length + (fs.takeWhile isDigit).length ≤ 15) &&
      exponentText (fs.dropWhile isDigit)
  | rest =>
    decide (1 ≤ (s.takeWhile isDigit).length) && decide ((s.takeWhile isDigit).length ≤ 15) &&
      exponentText rest

/-- The text is a decimal numeral and nothing else: an optional sign and a
    numeral without sign. Hexadecimal literals, `INF`, `NAN`, and numerals
    whose value is too large or too small for a double are not such texts. -/
def decimalText (s : Str) : Bool :=
  match s with
  | '-' :: cs => unsignedDecimal cs
  | '+' :: cs => unsignedDecimal cs
  | cs => unsignedDecimal cs

/-- A field of fixed columns, or the data between two slashes, that is blank
    or holds one decimal numeral between blanks. -/
def decimalField (s : Str) : Bool :=
  let t := s.dropWhile (fun c => decide (c = ' '))
  t.isEmpty ||
    (decimalText (t.takeWhile (fun c => decide (c ≠ ' '))) &&
      (t.dropWhile (fun c => decide (c ≠ ' '))).all (fun c => decide (c = ' ')))

/-- The fields of line 1 of a thermo record that `atof` reads are decimal
    fields: the counts of the four element slots and the temperatures of the
    columns 45 to 54 and 55 to 64 (lines 743, 751-752), and, when `m_nasafmt`
    is not set, the temperature of the columns 65 to 72 and the count of the
    fifth slot (lines 755, 761). -/
def line1Decimal (m_nasafmt : Bool) (s : Str) : Bool :=
  [0, 1, 2, 3].all (fun i => decimalField (substr s (24 + 5 * i + 2) 3)) &&
    decimalField (substr s 45 10) && decimalField (substr s 55 10) &&
    (m_nasafmt || (decimalField (substr s 65 8) && decimalField (substr s 75 3)))

/-- The contents of the lines that `getCKLine` returns from `p` on, up to the
    line that stands for the end of the stream. -/
def contentsToEnd : Nat → CKParser → List Str
  | 0, _ => []
  | n + 1, p =>
    if (getCKLine p).1 = "<EOF>".toList then []
    else (getCKLine p).1 :: contentsToEnd n (getCKLine p).2.2

/-- The line from which `readThermoSection` takes the default temperatures
    (lines 601-607), when the options of the header line and `optionFlag`
    make it read one; `none` otherwise. -/
def defaultTempLine (NoThermoDatabase HasTempRange : Int) (optionFlag : Int)
    (p : CKParser) : Option Str :=
  match seekThermo (p.m_ckfile.length + 2) p with
  | Except.ok (some s, p1) =>
    match thermoOptions NoThermoDatabase p1.m_line ((getTokens s).drop 1)
        (optionFlag, false) with
    | Except.ok (flag1, _) =>
      if flag1 = NoThermoDatabase ∨ flag1 = HasTempRange then some (getCKLine p1).1 else none
    | Except.error _ => none
  | _ => none

/-- A THERMO section read with the option flag `HasTempRange`: the line of the
    default temperatures, then two records for AR and `END`. -/
def rangeRecordsText : Str :=
  "THERMO\n   300.000  1000.000  5000.000\n".toList ++ (arLine1 ++ '\n' :: (arLine2 ++ '\n' ::
    (arLine3 ++ '\n' :: (arLine4 ++ '\n' :: thermoText arLine1Late arLine2 arLine3 arLine4))))

end ckr

namespace ckr

/-! # Properties -/

/-! ## `find` -/

theorem startsWith_iff (pat s : Str) : startsWith pat s = true ↔ ∃ t, s = pat ++ t := by
  induction pat generalizing s with
  | nil => simp [startsWith]
  | cons p ps ih =>
    cases s with
    | nil => simp [startsWith]
    | cons c cs =>
      simp only [startsWith, Bool.and_eq_true, decide_eq_true_eq, ih, List.cons_append,
        List.cons.injEq]
      constructor
      · rintro ⟨rfl, t, rfl⟩
        exact ⟨t, rfl, rfl⟩
      · rintro ⟨t, rfl, rfl⟩
        exact ⟨rfl, t, rfl⟩

/-- What `find` returns: the first position of an occurrence of `pat`, or
    `none` when `pat` does not occur. -/
theorem find_spec (pat s : Str) :
    (∀ i, find pat s = some i →
      ∃ post, s = s.take i ++ pat ++ post ∧ i ≤ s.length ∧
        ∀ a b, s = a ++ pat ++ b → i ≤ a.length) ∧
    (find pat s = none → ∀ a b, s ≠ a ++ pat ++ b) := by
  induction s with
  | nil =>
    constructor
    · intro i hi
      by_cases hp : pat = []
      · subst hp
        simp [find] at hi
        subst hi
        exact ⟨[], by simp, by simp, by simp⟩
      · simp [find, hp] at hi
    · intro h a b hab
      by_cases hp : pat = []
      · simp [find, hp] at h
      · have := congrArg List.length hab
        simp at this
        exact hp (List.eq_nil_of_length_eq_zero (by omega))
  | cons c cs ih =>
    obtain ⟨ih1, ih2⟩ := ih
    by_cases hsw : startsWith pat (c :: cs) = true
    · constructor
      · intro i hi
        simp [find, hsw] at hi
        subst hi
        obtain ⟨t, ht⟩ := (startsWith_iff _ _).1 hsw
        exact ⟨t, by simpa using ht, by simp, by simp⟩
      · intro h
        simp [find, hsw] at h
    · have hno : ∀ b, c :: cs ≠ pat ++ b := by
        intro b hb
        exact hsw ((startsWith_iff _ _).2 ⟨b, hb⟩)
      constructor
      · intro i hi
        simp only [find, hsw, Bool.false_eq_true, if_false, Option.map_eq_some'] at hi
        obtain ⟨j, hj, rfl⟩ := hi
        obtain ⟨post, hpost, hle, hmin⟩ := ih1 j hj
        refine ⟨post, ?_, by simpa using hle, ?_⟩
        · simp only [List.take_succ_cons, List.cons_append, List.cons.injEq, true_and]
          simpa using hpost
        · intro a b hab
          cases a with
          | nil => exact absurd (by simpa using hab) (hno b)
          | cons a0 a1 =>
            simp only [List.cons_append, List.cons.injEq] at hab
            have := hmin a1 b (by simpa using hab.2)
            simp
            omega
      · intro h a b hab
        simp only [find, hsw, Bool.false_eq_true, if_false, Option.map_eq_none'] at h
        cases a with
        | nil => exact hno b (by simpa using hab)
        | cons a0 a1 =>
          simp only [List.cons_append, List.cons.injEq] at hab
          exact ih2 h a1 b (by simpa using hab.2)

theorem find_some (pat s : Str) (i : Nat) (h : find pat s = some i) :
    ∃ post, s = s.take i ++ pat ++ post ∧ i ≤ s.length ∧
      ∀ a b, s = a ++ pat ++ b → i ≤ a.length :=
  (find_spec pat s).1 i h

theorem find_none (pat s : Str) (h : find pat s = none) (a b : Str) : s ≠ a ++ pat ++ b :=
  (find_spec pat s).2 h a b

theorem find_isSome_of_occurs (pat s a b : Str) (h : s = a ++ pat ++ b) :
    ∃ i, find pat s = some i := by
  cases hf : find pat s with
  | none => exact absurd h (find_none pat s hf a b)
  | some i => exact ⟨i, rfl⟩

/-- The two sides `substr` cuts at a position found by `find`. -/
theorem substr_sides (pat s : Str) (i : Nat) (h : find pat s = some i) :
    ∃ post, s = substr s 0 i ++ pat ++ post ∧
      substr s (i + pat.length) 1000 = post.take 1000 ∧
      ∀ a b, s = a ++ pat ++ b → (substr s 0 i).length ≤ a.length := by
  obtain ⟨post, hpost, hle, hmin⟩ := find_some pat s i h
  have hlen : (s.take i).length = i := by simp [hle]
  refine ⟨post, ?_, ?_, ?_⟩
  · simp only [substr, List.drop_zero]
    exact hpost
  · have hd : s.drop (i + pat.length) = post := by
      conv_lhs => rw [hpost]
      rw [List.append_assoc, List.drop_append_eq_append_drop]
      simp [hlen]
    unfold substr
    rw [hd]
  · intro a b hab
    simp only [substr, List.drop_zero]
    rw [hlen]
    exact hmin a b hab

/-- A pattern with a character that the string lacks is not found. -/
theorem find_none_of_not_mem (pat s : Str) (c : Char) (hc : c ∈ pat) (hs : c ∉ s) :
    find pat s = none := by
  cases hf : find pat s with
  | none => rfl
  | some i =>
    obtain ⟨post, hpost, _, _⟩ := find_some pat s i hf
    exact absurd (by rw [hpost]; simp [hc]) hs

/-- C4 as amended. For every line that contains `=`, `splitEquation` finds a
    separator `sep`, chosen in the priority order `<=>`, `=>`, `=`; the left
    side is the text before the first occurrence of `sep`, the right side the
    first 1000 characters of the text after it, and the reaction is
    irreversible exactly when the line contains `=>` but no `<=>`. -/
theorem splitEquation_separator (s : Str) (h : '=' ∈ s) :
    ∃ sides sep pre post, splitEquation s = some sides ∧
      ("<=>".toList <:+: s → sep = "<=>".toList) ∧
      (¬ "<=>".toList <:+: s → "=>".toList <:+: s → sep = "=>".toList) ∧
      (¬ "=>".toList <:+: s → sep = "=".toList) ∧
      s = pre ++ sep ++ post ∧
      (∀ a b, s = a ++ sep ++ b → pre.length ≤ a.length) ∧
      sides.sleft = pre ∧ sides.sright = post.take 1000 ∧
      (sides.isReversible = false ↔ ("=>".toList <:+: s ∧ ¬ "<=>".toList <:+: s)) := by
  have infix_iff : ∀ pat : Str, pat <:+: s ↔ ∃ a b, s = a ++ pat ++ b := by
    intro pat
    constructor
    · rintro ⟨a, b, hab⟩
      exact ⟨a, b, hab.symm⟩
    · rintro ⟨a, b, hab⟩
      exact ⟨a, b, hab.symm⟩
  have sub : "=>".toList <:+: "<=>".toList := ⟨['<'], [], rfl⟩
  cases h3 : find "<=>".toList s with
  | some i =>
    obtain ⟨post, hs, hr, hmin⟩ := substr_sides _ s i h3
    have hin : "<=>".toList <:+: s := (infix_iff _).2 ⟨_, _, hs⟩
    refine ⟨⟨true, substr s 0 i, substr s (i + 3) 1000⟩, "<=>".toList, substr s 0 i, post,
      by rw [splitEquation, h3], fun _ => rfl, fun hn => absurd hin hn,
      fun hn => absurd (sub.trans hin) hn, hs, hmin, rfl, hr, ?_⟩
    simp only [true_iff, not_and, not_not, Bool.true_eq_false, false_iff]
    exact fun _ => hin
  | none =>
    have hn3 : ¬ "<=>".toList <:+: s := by
      rw [infix_iff]
      rintro ⟨a, b, hab⟩
      exact find_none _ s h3 a b hab
    cases h2 : find "=>".toList s with
    | some i =>
      obtain ⟨post, hs, hr, hmin⟩ := substr_sides _ s i h2
      have hin : "=>".toList <:+: s := (infix_iff _).2 ⟨_, _, hs⟩
      refine ⟨⟨false, substr s 0 i, substr s (i + 2) 1000⟩, "=>".toList, substr s 0 i, post,
        by rw [splitEquation, h3]; simp only [h2], fun h => absurd h hn3, fun _ _ => rfl,
        fun hn => absurd hin hn, hs, hmin, rfl, hr, ?_⟩
      simp only [true_iff]
      exact ⟨hin, hn3⟩
    | none =>
      have hn2 : ¬ "=>".toList <:+: s := by
        rw [infix_iff]
        rintro ⟨a, b, hab⟩
        exact find_none _ s h2 a b hab
      obtain ⟨a, b, hab⟩ := List.append_of_mem h
      obtain ⟨i, h1⟩ := find_isSome_of_occurs "=".toList s a b (by simpa using hab)
      obtain ⟨post, hs, hr, hmin⟩ := substr_sides _ s i h1
      refine ⟨⟨true, substr s 0 i, substr s (i + 1) 1000⟩, "=".toList, substr s 0 i, post,
        by rw [splitEquation, h3]; simp only [h2, h1], fun h => absurd h hn3, fun _ h => absurd h hn2,
        fun _ => rfl, hs, hmin, rfl, hr, ?_⟩
      simp only [Bool.true_eq_false, false_iff, not_and]
      exact fun h => absurd h hn2

/-- The sides of a line `A=BB...B`. -/
theorem splitEquation_replicate (n : Nat) :
    splitEquation ('A' :: '=' :: List.replicate n 'B') =
      some ⟨true, "A".toList, (List.replicate n 'B').take 1000⟩ := by
  have hlt : '<' ∉ 'A' :: '=' :: List.replicate n 'B' := by
    simp [List.mem_replicate]
  have hgt : '>' ∉ 'A' :: '=' :: List.replicate n 'B' := by
    simp [List.mem_replicate]
  have h3 : find "<=>".toList ('A' :: '=' :: List.replicate n 'B') = none :=
    find_none_of_not_mem _ _ '<' (by decide) hlt
  have h2 : find "=>".toList ('A' :: '=' :: List.replicate n 'B') = none :=
    find_none_of_not_mem _ _ '>' (by decide) hgt
  have h1 : find "=".toList ('A' :: '=' :: List.replicate n 'B') = some 1 := by
    simp [find, startsWith]
  rw [splitEquation, h3]
  simp only [h2, h1]
  simp [substr]

/-- C4, counterexample. On a line with 1001 characters after its `=`, the
    right side `splitEquation` returns is not the text after the separator:
    it holds the first 1000 of these characters only. -/
theorem splitEquation_long_line :
    longLine = "A".toList ++ "=".toList ++ List.replicate 1001 'B' ∧
      splitEquation longLine = some ⟨true, "A".toList, List.replicate 1000 'B'⟩ ∧
      List.replicate 1000 'B' ≠ List.replicate 1001 'B' := by
  refine ⟨rfl, ?_, ?_⟩
  · have h := splitEquation_replicate 1001
    rw [List.take_replicate] at h
    exact h
  · intro h
    have := congrArg List.length h
    rw [List.length_replicate, List.length_replicate] at this
    exact absurd this (by decide)

end ckr

namespace ckr

/-! ## `atof` on the terms of an equation side -/

theorem isDigit_not_special (d : Char) (hd : isDigit d = true) :
    isSpace d = false ∧ d ≠ '-' ∧ d ≠ '+' ∧ d ≠ '.' := by
  refine ⟨?_, ?_, ?_, ?_⟩
  · cases h : isSpace d with
    | false => rfl
    | true =>
      simp only [isSpace, Bool.or_eq_true, decide_eq_true_eq] at h
      rcases h with ((((h | h) | h) | h) | h) | h <;> (subst h; revert hd; decide)
  all_goals (intro h; subst h; revert hd; decide)

theorem digit_toNat_pos (d : Char) (hd : isDigit d = true) (h0 : d ≠ '0') : 48 < d.toNat := by
  simp only [isDigit, Bool.and_eq_true, decide_eq_true_eq] at hd
  have : d.toNat ≠ 48 := by
    intro h
    apply h0
    have h1 := Char.ofNat_toNat d
    rw [h] at h1
    exact h1.symm
  omega

theorem readDigits_nondigit (c : Char) (rest : Str) (acc k : Nat) (hc : isDigit c = false) :
    readDigits (c :: rest) acc k = (acc, k, c :: rest) := by
  simp [readDigits, hc]

theorem readUnsigned_nondigit (c : Char) (rest : Str) (hc : isDigit c = false)
    (hp : c ≠ '.') : readUnsigned (c :: rest) = Dbl.zero := by
  unfold readUnsigned
  simp only [readDigits_nondigit c rest 0 0 hc]
  split
  · rename_i fs heq
    simp only [List.cons.injEq] at heq
    exact absurd heq.1 hp
  · simp

theorem readUnsigned_mant_nonneg (s : Str) : 0 ≤ (readUnsigned s).mant := by
  unfold readUnsigned
  simp only []
  split <;> split <;> simp [Dbl.zero]

theorem skipSpace_cons (c : Char) (rest : Str) (hc : isSpace c = false) :
    skipSpace (c :: rest) = c :: rest := by
  simp [skipSpace, hc]

/-- A text that begins with no digit, point, plus sign or white space has no
    positive value. -/
theorem atof_not_pos (c : Char) (rest : Str) (hd : isDigit c = false) (hp : c ≠ '.')
    (hs : isSpace c = false) (hplus : c ≠ '+') : (atof (c :: rest)).isPos = false := by
  unfold atof
  rw [skipSpace_cons c rest hs]
  split
  · rename_i cs heq
    simp only [Dbl.isPos, decide_eq_false_iff_not, not_lt]
    have := readUnsigned_mant_nonneg cs
    omega
  · rename_i cs heq
    simp only [List.cons.injEq] at heq
    exact absurd heq.1 hplus
  · rw [readUnsigned_nondigit c rest hd hp]
    rfl

/-- A digit followed by a character that continues no number has the value of
    the digit. -/
theorem atof_digit (d c : Char) (rest : Str) (hd : isDigit d = true)
    (hc : isDigit c = false) (hp : c ≠ '.') (he : c ≠ 'e') (hE : c ≠ 'E') :
    atof (d :: c :: rest) = ⟨((d.toNat - 48 : Nat) : Int), 0⟩ := by
  obtain ⟨hs, hm, hpl, hdot⟩ := isDigit_not_special d hd
  unfold atof
  rw [skipSpace_cons d _ hs]
  have key : readUnsigned (d :: c :: rest) = ⟨((d.toNat - 48 : Nat) : Int), 0⟩ := by
    unfold readUnsigned
    have h1 : readDigits (d :: c :: rest) 0 0 = (d.toNat - 48, 1, c :: rest) := by
      simp [readDigits, hd, hc]
    simp only [h1]
    split
    · rename_i fs heq
      simp only [List.cons.injEq] at heq
      exact absurd heq.1 hp
    · simp [readExponent, he, hE]
  split
  · rename_i cs heq
    simp only [List.cons.injEq] at heq
    exact absurd heq.1 hm
  · rename_i cs heq
    simp only [List.cons.injEq] at heq
    exact absurd heq.1 hpl
  · exact key

end ckr

namespace ckr

/-! ## `getTokens` -/

theorem getTokensAux_word (w rest cur : Str) (hw : ∀ c ∈ w, isSpace c = false) :
    getTokensAux (w ++ rest) cur = getTokensAux rest (cur ++ w) := by
  induction w generalizing cur with
  | nil => simp
  | cons c cs ih =>
    have hc : isSpace c = false := hw c (List.mem_cons_self _ _)
    have hcs : ∀ x ∈ cs, isSpace x = false := fun x hx => hw x (List.mem_cons_of_mem _ hx)
    rw [List.cons_append]
    simp only [getTokensAux, hc, Bool.false_eq_true, if_false]
    rw [ih (cur ++ [c]) hcs]
    simp

theorem getTokens_space (rest : Str) : getTokens (' ' :: rest) = getTokens rest := by
  simp [getTokens, getTokensAux, isSpace]

theorem getTokens_word (w : Str) (hw : ∀ c ∈ w, isSpace c = false) (hne : w ≠ []) :
    getTokens w = [w] := by
  have := getTokensAux_word w [] [] hw
  simp only [List.append_nil, List.nil_append] at this
  rw [getTokens, this]
  simp [getTokensAux, hne]

theorem getTokens_word_space (w rest : Str) (hw : ∀ c ∈ w, isSpace c = false) (hne : w ≠ []) :
    getTokens (w ++ ' ' :: rest) = w :: getTokens rest := by
  rw [getTokens, getTokensAux_word w _ [] hw]
  simp [getTokensAux, isSpace, hne, getTokens]

/-! ## `getSpecies` on a list of terms -/

theorem getSpeciesLoop_word (w rest done : Str) (coeffs : List Dbl) (hw : ∀ c ∈ w, c ≠ '+') :
    getSpeciesLoop done (w ++ rest) false coeffs =
      getSpeciesLoop (w.reverse ++ done) rest false coeffs := by
  induction w generalizing done with
  | nil => simp
  | cons c cs ih =>
    have hc : c ≠ '+' := hw c (List.mem_cons_self _ _)
    have hcs : ∀ x ∈ cs, x ≠ '+' := fun x hx => hw x (List.mem_cons_of_mem _ hx)
    rw [List.cons_append]
    simp only [getSpeciesLoop, hc, Bool.false_eq_true, and_false, if_false]
    rw [ih (c :: done) hcs]
    simp

theorem nameOk_facts (name : Str) (h : Term.nameOk name = true) :
    ∃ c tl, name = c :: tl ∧ isDigit c = false ∧ c ≠ '.' ∧
      (∀ x ∈ name, x ≠ '+') ∧ (∀ x ∈ name, isSpace x = false) := by
  cases name with
  | nil => simp [Term.nameOk] at h
  | cons c tl =>
    simp only [Term.nameOk, Bool.and_eq_true, Bool.not_eq_true', decide_eq_true_eq,
      List.all_eq_true] at h
    obtain ⟨⟨⟨hd, hp⟩, _⟩, hall⟩ := h
    exact ⟨c, tl, rfl, hd, hp, fun x hx => (hall x hx).1, fun x hx => (hall x hx).2⟩

/-- The scan of one well-formed term: its digit, when it has one, is blanked
    together with the separator before the term, its coefficient is recorded,
    and its name is left in the buffer. -/
theorem getSpeciesLoop_term (t : Term) (hwf : t.wf = true) (rest done : Str)
    (coeffs : List Dbl) :
    getSpeciesLoop done (t.text ++ rest) true coeffs =
      getSpeciesLoop (t.blanked.reverse ++ blankPrev done) rest false
        (coeffs ++ [t.coeff]) := by
  obtain ⟨dg, name⟩ := t
  simp only [Term.wf, Bool.and_eq_true] at hwf
  obtain ⟨hname, hdig⟩ := hwf
  obtain ⟨c, tl, rfl, hcd, hcp, hplus, hspace⟩ := nameOk_facts name hname
  have hc_plus : c ≠ '+' := hplus c (List.mem_cons_self _ _)
  have hc_space : isSpace c = false := hspace c (List.mem_cons_self _ _)
  cases dg with
  | none =>
    have hnp := atof_not_pos c (tl ++ rest) hcd hcp hc_space hc_plus
    have htl : ∀ x ∈ tl, x ≠ '+' := fun x hx => hplus x (List.mem_cons_of_mem _ hx)
    simp only [Term.text, Term.blanked, Term.coeff]
    rw [List.cons_append]
    simp only [getSpeciesLoop, ne_eq, hc_plus, not_false_eq_true, and_self, if_true, hnp,
      Bool.false_eq_true, if_false]
    rw [getSpeciesLoop_word tl rest _ _ htl]
    simp
  | some d =>
    simp only [Bool.and_eq_true, decide_eq_true_eq] at hdig
    obtain ⟨⟨⟨hd, hd0⟩, he⟩, hE⟩ := hdig
    have hce : c ≠ 'e' := by
      intro h
      exact he (by simp [h])
    have hcE : c ≠ 'E' := by
      intro h
      exact hE (by simp [h])
    have hval := atof_digit d c (tl ++ rest) hd hcd hcp hce hcE
    have hd_plus : d ≠ '+' := (isDigit_not_special d hd).2.2.1
    have hpos : (atof (d :: c :: (tl ++ rest))).isPos = true := by
      rw [hval]
      have := digit_toNat_pos d hd hd0
      simp only [Dbl.isPos, decide_eq_true_eq]
      omega
    simp only [Term.text, Term.blanked, Term.coeff]
    rw [List.cons_append, List.cons_append, getSpeciesLoop]
    simp only [ne_eq, hd_plus, not_false_eq_true, and_self, if_true, hpos]
    rw [hval]
    have := getSpeciesLoop_word (c :: tl) rest (' ' :: blankPrev done)
      (coeffs ++ [⟨((d.toNat - 48 : Nat) : Int), 0⟩]) hplus
    rw [List.cons_append] at this
    rw [this]
    simp

/-- The scan of a non-empty list of well-formed terms. -/
theorem getSpeciesLoop_terms (ts : List Term) (hne : ts ≠ [])
    (hwf : ∀ t ∈ ts, t.wf = true) (done : Str) (coeffs : List Dbl) :
    getSpeciesLoop done (joinTerms ts) true coeffs =
      ((blankPrev done).reverse ++ blankedTerms ts, coeffs ++ ts.map Term.coeff) := by
  induction ts generalizing done coeffs with
  | nil => exact absurd rfl hne
  | cons t ts ih =>
    have ht : t.wf = true := hwf t (List.mem_cons_self _ _)
    cases ts with
    | nil =>
      have := getSpeciesLoop_term t ht [] done coeffs
      simp only [List.append_nil] at this
      simp only [joinTerms, blankedTerms, this, getSpeciesLoop, List.reverse_append,
        List.reverse_reverse, List.map_cons, List.map_nil]
    | cons t1 ts1 =>
      have hrest : ∀ x ∈ t1 :: ts1, x.wf = true :=
        fun x hx => hwf x (List.mem_cons_of_mem _ hx)
      rw [joinTerms, getSpeciesLoop_term t ht]
      simp only [getSpeciesLoop, ne_eq, not_true_eq_false, Bool.false_eq_true, and_self,
        if_false, if_true]
      rw [ih (by simp) hrest]
      simp [blankedTerms, blankPrev]

theorem getTokens_blanked (t : Term) (hwf : t.wf = true) (rest : Str) :
    getTokens (t.blanked ++ ' ' :: rest) = t.name :: getTokens rest ∧
      getTokens t.blanked = [t.name] := by
  obtain ⟨dg, name⟩ := t
  simp only [Term.wf, Bool.and_eq_true] at hwf
  obtain ⟨c, tl, rfl, _, _, _, hspace⟩ := nameOk_facts name hwf.1
  cases dg with
  | none =>
    simp only [Term.blanked]
    exact ⟨getTokens_word_space _ rest hspace (by simp), getTokens_word _ hspace (by simp)⟩
  | some d =>
    simp only [Term.blanked]
    rw [List.cons_append, getTokens_space, getTokens_space]
    exact ⟨getTokens_word_space _ rest hspace (by simp), getTokens_word _ hspace (by simp)⟩

theorem getTokens_blankedTerms (ts : List Term) (hwf : ∀ t ∈ ts, t.wf = true) :
    getTokens (blankedTerms ts) = ts.map Term.name := by
  induction ts with
  | nil => rfl
  | cons t ts ih =>
    have ht : t.wf = true := hwf t (List.mem_cons_self _ _)
    cases ts with
    | nil => simpa [blankedTerms] using (getTokens_blanked t ht []).2
    | cons t1 ts1 =>
      have hrest : ∀ x ∈ t1 :: ts1, x.wf = true :=
        fun x hx => hwf x (List.mem_cons_of_mem _ hx)
      rw [blankedTerms, (getTokens_blanked t ht _).1, ih hrest]
      rfl

theorem pairSpecies_terms (ts : List Term) :
    pairSpecies (ts.map Term.name) (ts.map Term.coeff) = ts.map Term.entry := by
  induction ts with
  | nil => rfl
  | cons t ts ih => simp [pairSpecies, ih, Term.entry]

/-- C6 as amended. For every `+`-separated list of terms, each term a species
    name optionally directly preceded by one of the digits 1 to 9, `getSpecies`
    returns one entry per term, in order, whose name is the term without its
    digit and whose coefficient is the value of the digit, or 1.0 when the
    term has none. -/
theorem getSpecies_terms (ts : List Term) (hwf : ∀ t ∈ ts, t.wf = true) :
    getSpecies (joinTerms ts) = ts.map Term.entry := by
  cases ts with
  | nil => rfl
  | cons t ts =>
    rw [getSpecies, getSpeciesLoop_terms (t :: ts) (by simp) hwf]
    simp only [blankPrev, List.reverse_nil, List.nil_append]
    rw [getTokens_blankedTerms _ hwf, pairSpecies_terms]

/-- C6, an instance of the amended property: `2H2+O2`. -/
theorem getSpecies_terms_witness :
    (∀ t ∈ [(⟨some '2', "H2".toList⟩ : Term), ⟨none, "O2".toList⟩], t.wf = true) ∧
      getSpecies (joinTerms [⟨some '2', "H2".toList⟩, ⟨none, "O2".toList⟩]) =
        [(⟨some '2', "H2".toList⟩ : Term), ⟨none, "O2".toList⟩].map Term.entry :=
  ⟨by decide, getSpecies_terms _ (by decide)⟩

/-- C6, counterexample. The terms `1.5H2` and `O`, the first one a species
    name `H2` directly preceded by the positive number 1.5: `getSpecies`
    returns the name `.5H2` for the first term, not the term without its
    numeric part. -/
theorem getSpecies_decimal_coefficient :
    getSpecies "1.5H2+O".toList =
      [⟨".5H2".toList, ⟨15, -1⟩, []⟩, ⟨"O".toList, Dbl.one, []⟩] := by
  decide

end ckr

namespace ckr

/-! ## The main loop on a new-reaction line -/

theorem splitEquation_some_find (s : Str) (sides : EqSides) (h : splitEquation s = some sides) :
    ∃ i, find ['='] s = some i := by
  cases h1 : find ['='] s with
  | some i => exact ⟨i, rfl⟩
  | none =>
    exfalso
    have hno := find_none _ s h1
    cases h3 : find "<=>".toList s with
    | some i =>
      obtain ⟨post, hpost, _, _⟩ := find_some _ s i h3
      exact hno (s.take i ++ ['<']) ('>' :: post) (by simpa using hpost)
    | none =>
      cases h2 : find "=>".toList s with
      | some i =>
        obtain ⟨post, hpost, _, _⟩ := find_some _ s i h2
        exact hno (s.take i) ('>' :: post) (by simpa using hpost)
      | none =>
        rw [splitEquation, h3] at h
        simp only [h2] at h
        have h1b : find "=".toList s = none := h1
        simp only [h1b] at h
        exact absurd h (by simp)

/-- A line that has a separator and does not begin with `%` is handed to
    `reactionLine` together with the record of a new reaction. -/
theorem sectionLine_reaction (speciesNames elementNames : List Str) (st : SectionState)
    (s comment : Str) (sides : EqSides) (hmeta : s.getD 0 '\x00' ≠ '%')
    (hsplit : splitEquation s = some sides) :
    sectionLine speciesNames elementNames st s comment =
      match reactionLine speciesNames st.p.m_line st.p.m_log (newReaction st.cm s comment) s with
      | Except.error e => Except.error e
      | Except.ok (rxn1, log1) =>
        Except.ok { p := { st.p with m_log := log1 }, rxn := rxn1, cm := [],
                    nRxns := st.nRxns + 1,
                    reactions := if st.nRxns > 0 then
                        st.reactions ++ [{ st.rxn with number := st.nRxns }]
                      else st.reactions } := by
  obtain ⟨i, hi⟩ := splitEquation_some_find s sides hsplit
  simp only [sectionLine, hmeta, if_false, hi, Option.isSome_some, if_true]
  try rfl

/-- One pass of the main loop on a line that does not end the section. -/
theorem sectionLoop_step (speciesNames elementNames : List Str) (fuel : Nat)
    (st : SectionState) (s comment : Str) (p1 : CKParser) (cm1 : List Str)
    (hread : skipBlankLines (st.p.m_ckfile.length + 2) st.p st.cm =
      Except.ok (s, comment, p1, cm1))
    (hkw : isKeyword s = false) (heof : s ≠ "<EOF>".toList) :
    sectionLoop speciesNames elementNames (fuel + 1) st =
      match sectionLine speciesNames elementNames { st with p := p1, cm := cm1 } s comment with
      | Except.error e => Except.error e
      | Except.ok st1 => sectionLoop speciesNames elementNames fuel st1 := by
  rw [sectionLoop, hread]
  simp only [hkw, Bool.false_eq_true, heof, or_self, if_false]
  try rfl

/-- A failure of `reactionLine` on the line read ends the main loop with that
    failure. -/
theorem sectionLoop_reaction_error (speciesNames elementNames : List Str) (fuel : Nat)
    (st : SectionState) (s comment : Str) (p1 : CKParser) (cm1 : List Str) (sides : EqSides)
    (e : Failure)
    (hread : skipBlankLines (st.p.m_ckfile.length + 2) st.p st.cm =
      Except.ok (s, comment, p1, cm1))
    (hkw : isKeyword s = false) (heof : s ≠ "<EOF>".toList)
    (hmeta : s.getD 0 '\x00' ≠ '%') (hsplit : splitEquation s = some sides)
    (herr : reactionLine speciesNames p1.m_line p1.m_log (newReaction cm1 s comment) s =
      Except.error e) :
    sectionLoop speciesNames elementNames (fuel + 1) st = Except.error e := by
  rw [sectionLoop_step speciesNames elementNames fuel st s comment p1 cm1 hread hkw heof,
    sectionLine_reaction speciesNames elementNames _ s comment sides hmeta hsplit]
  simp only [herr]

theorem firstUndeclared_some (speciesNames : List Str) (l : List RxnSpecies)
    (h : ∃ sp ∈ l, sp.name ∉ speciesNames) :
    ∃ name, firstUndeclared speciesNames l = some name ∧ name ∉ speciesNames ∧
      name ∈ l.map RxnSpecies.name := by
  induction l with
  | nil =>
    obtain ⟨sp, hsp, _⟩ := h
    exact absurd hsp (List.not_mem_nil _)
  | cons a l ih =>
    by_cases ha : a.name ∈ speciesNames
    · have h1 : ∃ sp ∈ l, sp.name ∉ speciesNames := by
        obtain ⟨sp, hsp, hn⟩ := h
        rcases List.mem_cons.1 hsp with rfl | hin
        · exact absurd ha hn
        · exact ⟨sp, hin, hn⟩
      obtain ⟨name, h2, h3, h4⟩ := ih h1
      exact ⟨name, by simp [firstUndeclared, ha, h2], h3, by simp [h4]⟩
    · exact ⟨a.name, by simp [firstUndeclared, ha], ha, by simp⟩

theorem processRightMarker_kf (m_line : Nat) (rxn rxn4 : Reaction) (sright sright1 : Str)
    (h : processRightMarker m_line rxn sright = Except.ok (rxn4, sright1)) :
    rxn4.kf = rxn.kf := by
  unfold processRightMarker at h
  simp only [] at h
  repeat' split at h
  all_goals first
    | (simp [throwSyntax] at h; done)
    | (simp only [Except.ok.injEq, Prod.mk.injEq] at h
       obtain ⟨rfl, rfl⟩ := h
       rfl)

theorem productSide_kf (speciesNames : List Str) (m_line : Nat) (rxn rxn5 : Reaction)
    (sright : Str) (h : productSide speciesNames m_line rxn sright = Except.ok rxn5) :
    rxn5.kf = rxn.kf := by
  unfold productSide at h
  split at h
  · exact absurd h (by simp)
  · rename_i rxn1 sright1 hm
    have h1 := processRightMarker_kf m_line rxn rxn1 sright sright1 hm
    unfold processProducts at h
    simp only [] at h
    split at h
    · exact absurd h (by simp [throwSyntax])
    · simp only [Except.ok.injEq] at h
      subst h
      exact h1

/-- C2. For every reaction line whose right-hand side splits into at least
    three tokens, the last three of them decimal numerals: the Arrhenius step
    returns the forward rate parameters A, n, E with the values of the last
    three tokens, whatever the sign of the prefactor, and never fails; the
    reaction in progress after the line carries these parameters; and when
    the line is not accepted, the failure is the one of its reactant side or,
    the Arrhenius step done, the one of its product side. -/
theorem arrhenius_last_three_tokens (speciesNames elementNames : List Str)
    (st : SectionState) (s comment : Str) (sides : EqSides)
    (hmeta : s.getD 0 '\x00' ≠ '%') (hsplit : splitEquation s = some sides)
    (htoks : 3 ≤ (getTokens sides.sright).length)
    (_hdec : ∀ t ∈ (getTokens sides.sright).drop ((getTokens sides.sright).length - 3),
      decimalText t = true) :
    (∀ (m_line : Nat) (log : List LogEntry) (rxn : Reaction), ∃ log1,
      processArrhenius m_line log rxn sides.sright =
        Except.ok
          ({ rxn with kf := { rxn.kf with
              A := atof ((getTokens sides.sright).getD ((getTokens sides.sright).length - 3) []),
              n := atof ((getTokens sides.sright).getD ((getTokens sides.sright).length - 2) []),
              E := atof ((getTokens sides.sright).getD ((getTokens sides.sright).length - 1) []) } },
            log1,
            stripArrhenius sides.sright
              ((getTokens sides.sright).getD ((getTokens sides.sright).length - 3) []))) ∧
    (∀ st1, sectionLine speciesNames elementNames st s comment = Except.ok st1 →
      st1.rxn.kf.A = atof ((getTokens sides.sright).getD ((getTokens sides.sright).length - 3) []) ∧
      st1.rxn.kf.n = atof ((getTokens sides.sright).getD ((getTokens sides.sright).length - 2) []) ∧
      st1.rxn.kf.E =
        atof ((getTokens sides.sright).getD ((getTokens sides.sright).length - 1) [])) ∧
    (∀ e, sectionLine speciesNames elementNames st s comment = Except.error e →
      reactantSide speciesNames st.p.m_line
          { newReaction st.cm s comment with isReversible := sides.isReversible }
          sides.sleft = Except.error e ∨
      ∃ rxn2 rxn3 log1 sright,
        reactantSide speciesNames st.p.m_line
          { newReaction st.cm s comment with isReversible := sides.isReversible }
          sides.sleft = Except.ok rxn2 ∧
        processArrhenius st.p.m_line st.p.m_log rxn2 sides.sright =
          Except.ok (rxn3, log1, sright) ∧
        productSide speciesNames st.p.m_line rxn3 sright = Except.error e) := by
  have hA : ∀ (m_line : Nat) (log : List LogEntry) (rxn : Reaction), ∃ log1,
      processArrhenius m_line log rxn sides.sright =
        Except.ok
          ({ rxn with kf := { rxn.kf with
              A := atof ((getTokens sides.sright).getD ((getTokens sides.sright).length - 3) []),
              n := atof ((getTokens sides.sright).getD ((getTokens sides.sright).length - 2) []),
              E := atof ((getTokens sides.sright).getD ((getTokens sides.sright).length - 1) []) } },
            log1,
            stripArrhenius sides.sright
              ((getTokens sides.sright).getD ((getTokens sides.sright).length - 3) [])) := by
    intro m_line log rxn
    refine ⟨if (atof ((getTokens sides.sright).getD
        ((getTokens sides.sright).length - 3) [])).isNeg = true
      then log ++ [LogEntry.negativePrefactor m_line] else log, ?_⟩
    simp only [processArrhenius, Nat.not_lt.2 htoks, if_false]
  refine ⟨hA, ?_, ?_⟩
  rotate_left
  · intro e he
    rw [sectionLine_reaction speciesNames elementNames st s comment sides hmeta hsplit] at he
    simp only [reactionLine, hsplit] at he
    cases hre : reactantSide speciesNames st.p.m_line
        { newReaction st.cm s comment with isReversible := sides.isReversible }
        sides.sleft with
    | error e1 =>
      rw [hre] at he
      simp only [Except.error.injEq] at he
      left
      rw [he]
    | ok rxn2 =>
      rw [hre] at he
      obtain ⟨log2, hA2⟩ := hA st.p.m_line st.p.m_log rxn2
      simp only [hA2] at he
      right
      refine ⟨rxn2, _, _, _, rfl, hA2, ?_⟩
      generalize productSide speciesNames st.p.m_line _ _ = r at he ⊢
      cases r with
      | error e2 =>
        simp only [Except.error.injEq] at he
        rw [he]
      | ok rxn5 => simp at he
  intro st1 hst1
  rw [sectionLine_reaction speciesNames elementNames st s comment sides hmeta hsplit] at hst1
  split at hst1
  · exact absurd hst1 (by simp)
  · rename_i rxn1 log1 hline
    simp only [Except.ok.injEq] at hst1
    subst hst1
    simp only [reactionLine, hsplit] at hline
    split at hline
    · exact absurd hline (by simp)
    · rename_i rxn2 hre
      obtain ⟨log2, hA2⟩ := hA st.p.m_line st.p.m_log rxn2
      rw [hA2] at hline
      simp only [] at hline
      split at hline
      · exact absurd hline (by simp)
      · rename_i rxn5 hprod
        simp only [Except.ok.injEq, Prod.mk.injEq] at hline
        obtain ⟨rfl, _⟩ := hline
        have := productSide_kf _ _ _ _ _ hprod
        rw [this]
        exact ⟨rfl, rfl, rfl⟩

end ckr

namespace ckr

/-- C2, an instance: the line `H+H+M=H2+M -1.0E18 -1.0 0.0` with its negative
    prefactor is accepted, the reaction in progress after it has the forward
    rate parameters -1.0E18, -1.0 and 0.0, and so has the reaction that
    `readReactionSection` returns for the section. -/
theorem arrhenius_last_three_tokens_witness :
    ("H+H+M=H2+M -1.0E18 -1.0 0.0".toList.getD 0 '\x00' ≠ '%' ∧
      splitEquation "H+H+M=H2+M -1.0E18 -1.0 0.0".toList =
        some ⟨true, "H+H+M".toList, "H2+M -1.0E18 -1.0 0.0".toList⟩ ∧
      3 ≤ (getTokens "H2+M -1.0E18 -1.0 0.0".toList).length ∧
      (getTokens "H2+M -1.0E18 -1.0 0.0".toList).drop
          ((getTokens "H2+M -1.0E18 -1.0 0.0".toList).length - 3) =
        ["-1.0E18".toList, "-1.0".toList, "0.0".toList] ∧
      ∀ t ∈ (getTokens "H2+M -1.0E18 -1.0 0.0".toList).drop
          ((getTokens "H2+M -1.0E18 -1.0 0.0".toList).length - 3), decimalText t = true) ∧
    (∃ st1, sectionLine ["H".toList, "H2".toList] []
        (sectionStart "REACTIONS\nH+H+M=H2+M -1.0E18 -1.0 0.0\nEND\n".toList)
        "H+H+M=H2+M -1.0E18 -1.0 0.0".toList [] = Except.ok st1 ∧
      (st1.rxn.kf.A, st1.rxn.kf.n, st1.rxn.kf.E) =
        ((⟨-10, 17⟩ : Dbl), (⟨-10, -1⟩ : Dbl), (⟨0, -1⟩ : Dbl)) ∧
      st1.rxn.kf.A = atof "-1.0E18".toList ∧ st1.rxn.kf.n = atof "-1.0".toList ∧
        st1.rxn.kf.E = atof "0.0".toList) ∧
    Except.map (fun rs => rs.map (fun r =>
        (r.products.map RxnSpecies.name, r.kf.A, r.kf.n, r.kf.E)))
      (storedReactions ["H".toList, "H2".toList]
        "REACTIONS\nH+H+M=H2+M -1.0E18 -1.0 0.0\nEND\n".toList) =
    Except.ok [(["H2".toList], (⟨-10, 17⟩ : Dbl), (⟨-10, -1⟩ : Dbl), (⟨0, -1⟩ : Dbl))] :=
  ⟨⟨by decide, by decide, by decide, by decide, by decide⟩,
    ⟨_, rfl, rfl,
      (arrhenius_last_three_tokens ["H".toList, "H2".toList] []
        (sectionStart "REACTIONS\nH+H+M=H2+M -1.0E18 -1.0 0.0\nEND\n".toList)
        "H+H+M=H2+M -1.0E18 -1.0 0.0".toList []
        ⟨true, "H+H+M".toList, "H2+M -1.0E18 -1.0 0.0".toList⟩
        (by decide) (by decide) (by decide) (by decide)).2.1 _ rfl⟩,
    rfl⟩

/-- The guard of line 1045: when the main loop reads a reaction line whose
    reactant side is accepted and whose right-hand side splits into fewer than
    three tokens in all, product terms included, it fails with the syntax
    error "expected 3 Arrhenius parameters" at the current line; no reaction
    list is returned. -/
theorem arrhenius_tokens_missing (speciesNames elementNames : List Str) (fuel : Nat)
    (st : SectionState) (s comment : Str) (p1 : CKParser) (cm1 : List Str) (sides : EqSides)
    (hread : skipBlankLines (st.p.m_ckfile.length + 2) st.p st.cm =
      Except.ok (s, comment, p1, cm1))
    (hkw : isKeyword s = false) (heof : s ≠ "<EOF>".toList)
    (hmeta : s.getD 0 '\x00' ≠ '%') (hsplit : splitEquation s = some sides)
    (hleft : ∃ rxn2, reactantSide speciesNames p1.m_line
      { newReaction cm1 s comment with isReversible := sides.isReversible } sides.sleft =
        Except.ok rxn2)
    (htoks : (getTokens sides.sright).length < 3) :
    sectionLoop speciesNames elementNames (fuel + 1) st =
      Except.error (Failure.syntaxError
        ⟨"expected 3 Arrhenius parameters".toList, (p1.m_line : Int)⟩) := by
  obtain ⟨rxn2, hleft⟩ := hleft
  apply sectionLoop_reaction_error speciesNames elementNames fuel st s comment p1 cm1 sides _
    hread hkw heof hmeta hsplit
  simp only [reactionLine, hsplit, hleft, processArrhenius, htoks, if_true, throwSyntax]

/-- The guard of line 1045 on the line `A=B 1`. -/
theorem arrhenius_tokens_missing_witness :
    (skipBlankLines ((sectionStart "REACTIONS\nA=B 1\nEND\n".toList).p.m_ckfile.length + 2)
        (sectionStart "REACTIONS\nA=B 1\nEND\n".toList).p [] =
      Except.ok ("A=B 1".toList, [], ⟨"END\n".toList, [], [], 2, '\n', []⟩, [[]]) ∧
      isKeyword "A=B 1".toList = false ∧ "A=B 1".toList ≠ "<EOF>".toList ∧
      "A=B 1".toList.getD 0 '\x00' ≠ '%' ∧
      splitEquation "A=B 1".toList = some ⟨true, "A".toList, "B 1".toList⟩ ∧
      (∃ rxn2, reactantSide ["A".toList, "B".toList] 2
        { newReaction [[]] "A=B 1".toList [] with isReversible := true } "A".toList =
          Except.ok rxn2) ∧
      (getTokens "B 1".toList).length < 3) ∧
    sectionLoop ["A".toList, "B".toList] [] (0 + 1)
        (sectionStart "REACTIONS\nA=B 1\nEND\n".toList) =
      Except.error (Failure.syntaxError ⟨"expected 3 Arrhenius parameters".toList, 2⟩) :=
  ⟨⟨rfl, by decide, by decide, by decide, by decide, ⟨_, rfl⟩, by decide⟩,
    arrhenius_tokens_missing ["A".toList, "B".toList] [] 0
      (sectionStart "REACTIONS\nA=B 1\nEND\n".toList) "A=B 1".toList []
      ⟨"END\n".toList, [], [], 2, '\n', []⟩ [[]] ⟨true, "A".toList, "B 1".toList⟩
      rfl (by decide) (by decide) (by decide) (by decide) ⟨_, rfl⟩ (by decide)⟩

/-- C3, the failing input. On the line `A=B 1 2` only two numbers follow the
    product `B`, and `readReactionSection` does not raise the error "expected
    3 Arrhenius parameters": the product `B` is counted as the third token and
    read as the prefactor, and the product side becomes the text `B12`. With
    the species `A` and `B` declared the section fails with the error
    "undeclared product species B12"; with `B12` declared as well it is
    accepted, and the reaction returned has the product `B12` and the forward
    rate parameters (0, 1, 2). -/
theorem two_numbers_accepted :
    storedReactions ["A".toList, "B".toList] "REACTIONS\nA=B 1 2\nEND\n".toList =
      Except.error (Failure.syntaxError ⟨"undeclared product species B12".toList, 2⟩) ∧
    Except.map (fun rs => rs.map (fun r =>
        (r.products.map RxnSpecies.name, r.kf.A, r.kf.n, r.kf.E)))
      (storedReactions ["A".toList, "B".toList, "B12".toList]
        "REACTIONS\nA=B 1 2\nEND\n".toList) =
    Except.ok [(["B12".toList], Dbl.zero, ⟨1, 0⟩, ⟨2, 0⟩)] := by
  exact ⟨rfl, rfl⟩

/-- The checks of the lines 1033-1039 and 1109-1114. When the main loop reads
    a reaction line: if the tokenization of the reactant side, its marker
    removed, yields a name that is not a declared species, the loop fails with
    the syntax error "undeclared reactant species" followed by such a name, at
    the current line; if the reactant side, the Arrhenius tokens and the
    product marker are accepted and the tokenization of the product side
    yields an undeclared name, it fails with "undeclared product species"
    followed by such a name, at the current line. -/
theorem undeclared_species_error (speciesNames elementNames : List Str) (fuel : Nat)
    (st : SectionState) (s comment : Str) (p1 : CKParser) (cm1 : List Str) (sides : EqSides)
    (hread : skipBlankLines (st.p.m_ckfile.length + 2) st.p st.cm =
      Except.ok (s, comment, p1, cm1))
    (hkw : isKeyword s = false) (heof : s ≠ "<EOF>".toList)
    (hmeta : s.getD 0 '\x00' ≠ '%') (hsplit : splitEquation s = some sides) :
    (∀ rxn1 sleft,
      processLeftMarker p1.m_line
        { newReaction cm1 s comment with isReversible := sides.isReversible } sides.sleft =
          Except.ok (rxn1, sleft) →
      (∃ sp ∈ getSpecies sleft, sp.name ∉ speciesNames) →
      ∃ name, name ∉ speciesNames ∧ name ∈ (getSpecies sleft).map RxnSpecies.name ∧
        sectionLoop speciesNames elementNames (fuel + 1) st =
          Except.error (Failure.syntaxError
            ⟨"undeclared reactant species ".toList ++ name, (p1.m_line : Int)⟩)) ∧
    (∀ rxn2 rxn3 log1 sright rxn4 sright1,
      reactantSide speciesNames p1.m_line
        { newReaction cm1 s comment with isReversible := sides.isReversible } sides.sleft =
          Except.ok rxn2 →
      processArrhenius p1.m_line p1.m_log rxn2 sides.sright = Except.ok (rxn3, log1, sright) →
      processRightMarker p1.m_line rxn3 sright = Except.ok (rxn4, sright1) →
      (∃ sp ∈ getSpecies sright1, sp.name ∉ speciesNames) →
      ∃ name, name ∉ speciesNames ∧ name ∈ (getSpecies sright1).map RxnSpecies.name ∧
        sectionLoop speciesNames elementNames (fuel + 1) st =
          Except.error (Failure.syntaxError
            ⟨"undeclared product species ".toList ++ name, (p1.m_line : Int)⟩)) := by
  constructor
  · intro rxn1 sleft hmark hun
    obtain ⟨name, hfirst, hnot, hmem⟩ := firstUndeclared_some speciesNames _ hun
    refine ⟨name, hnot, hmem, ?_⟩
    apply sectionLoop_reaction_error speciesNames elementNames fuel st s comment p1 cm1 sides _
      hread hkw heof hmeta hsplit
    simp only [reactionLine, hsplit, reactantSide, hmark, processReactants, hfirst, throwSyntax]
  · intro rxn2 rxn3 log1 sright rxn4 sright1 hre harr hmark hun
    obtain ⟨name, hfirst, hnot, hmem⟩ := firstUndeclared_some speciesNames _ hun
    refine ⟨name, hnot, hmem, ?_⟩
    apply sectionLoop_reaction_error speciesNames elementNames fuel st s comment p1 cm1 sides _
      hread hkw heof hmeta hsplit
    simp only [reactionLine, hsplit, hre, harr, productSide, hmark, processProducts, hfirst,
      throwSyntax]

/-- The checks of the lines 1033-1039 and 1109-1114 on the lines `A+X=B 1 0 0`
    and `A=B+X 1 0 0` with `X` not declared. -/
theorem undeclared_species_error_witness :
    (∃ name, name ∉ ["A".toList, "B".toList] ∧
      name ∈ (getSpecies "A+X".toList).map RxnSpecies.name ∧
      sectionLoop ["A".toList, "B".toList] [] (0 + 1)
          (sectionStart "REACTIONS\nA+X=B 1 0 0\nEND\n".toList) =
        Except.error (Failure.syntaxError
          ⟨"undeclared reactant species ".toList ++ name, 2⟩)) ∧
    (∃ name, name ∉ ["A".toList, "B".toList] ∧
      name ∈ (getSpecies "B+X".toList).map RxnSpecies.name ∧
      sectionLoop ["A".toList, "B".toList] [] (0 + 1)
          (sectionStart "REACTIONS\nA=B+X 1 0 0\nEND\n".toList) =
        Except.error (Failure.syntaxError
          ⟨"undeclared product species ".toList ++ name, 2⟩)) :=
  ⟨(undeclared_species_error ["A".toList, "B".toList] [] 0
      (sectionStart "REACTIONS\nA+X=B 1 0 0\nEND\n".toList) "A+X=B 1 0 0".toList []
      ⟨"END\n".toList, [], [], 2, '\n', []⟩ [[]] ⟨true, "A+X".toList, "B 1 0 0".toList⟩
      rfl (by decide) (by decide) (by decide) (by decide)).1
      { newReaction [[]] "A+X=B 1 0 0".toList [] with isFalloffRxn := false }
      "A+X".toList rfl ⟨⟨"X".toList, Dbl.one, []⟩, by decide, by decide⟩,
   (undeclared_species_error ["A".toList, "B".toList] [] 0
      (sectionStart "REACTIONS\nA=B+X 1 0 0\nEND\n".toList) "A=B+X 1 0 0".toList []
      ⟨"END\n".toList, [], [], 2, '\n', []⟩ [[]] ⟨true, "A".toList, "B+X 1 0 0".toList⟩
      rfl (by decide) (by decide) (by decide) (by decide)).2
      _ _ _ _ _ "B+X".toList rfl rfl rfl ⟨⟨"X".toList, Dbl.one, []⟩, by decide, by decide⟩⟩

/-- C5, the failing input. The line `A(+M)+X=B(+M) 1 0 0` has the term `X`,
    which is not a declared species, and `readReactionSection` does not fail:
    the text after the marker is dropped with the marker and the reaction is
    returned with the reactant `A` alone. The same happens to the term `X`
    after the marker of the product side, on the line `A(+M)=B(+M)+X 1 0 0`.
    With the term before the marker, on the line `A+X(+M)=B(+M) 1 0 0`, the
    error "undeclared reactant species X" is raised. -/
theorem undeclared_term_accepted :
    Except.map (fun rs => rs.map (fun r =>
        (r.reactants.map RxnSpecies.name, r.products.map RxnSpecies.name)))
      (storedReactions ["A".toList, "B".toList]
        "REACTIONS\nA(+M)+X=B(+M) 1 0 0\nEND\n".toList) =
    Except.ok [(["A".toList], ["B".toList])] ∧
    Except.map (fun rs => rs.map (fun r =>
        (r.reactants.map RxnSpecies.name, r.products.map RxnSpecies.name)))
      (storedReactions ["A".toList, "B".toList]
        "REACTIONS\nA(+M)=B(+M)+X 1 0 0\nEND\n".toList) =
    Except.ok [(["A".toList], ["B".toList])] ∧
    storedReactions ["A".toList, "B".toList]
        "REACTIONS\nA+X(+M)=B(+M) 1 0 0\nEND\n".toList =
      Except.error (Failure.syntaxError ⟨"undeclared reactant species X".toList, 2⟩) := by
  exact ⟨rfl, rfl, rfl⟩

/-- C1, the failing input. On the line `O+O=>O2 2 0 0` the text of the
    prefactor `2` occurs in the product `O2`: the right-hand side is cut there
    and `readReactionSection` returns the reaction with an empty product list. -/
theorem products_lost :
    Except.map (fun rs => rs.map (fun r =>
        (r.reactants.map RxnSpecies.name, r.products.map RxnSpecies.name)))
      (storedReactions ["O".toList, "O2".toList] "REACTIONS\nO+O=>O2 2 0 0\nEND\n".toList) =
    Except.ok [(["O".toList, "O".toList], [])] := by
  rfl

/-- C8, the failing input. The reactant side `H+MG+M` ends with `+M` and has
    no `(+`, but its first `+M` is the one of `+MG`: the reaction is not marked
    three-body, `M` is taken for a species and the parse fails. -/
theorem three_body_suffix_missed :
    storedReactions ["H".toList, "MG".toList] "REACTIONS\nH+MG+M=H+MG+M 1 0 0\nEND\n".toList =
      Except.error (Failure.syntaxError ⟨"undeclared reactant species M".toList, 2⟩) := by
  rfl

/-- C9, the failing input. The line `A(+B)=C(+M) 1 0 0` names the third body
    `B` on the left and the wildcard on the right: `readReactionSection` does
    not fail and returns a falloff reaction with the third body `M`. -/
theorem third_body_mismatch_accepted :
    Except.map (fun rs => rs.map (fun r => (r.type, r.thirdBody)))
      (storedReactions ["A".toList, "B".toList, "C".toList]
        "REACTIONS\nA(+B)=C(+M) 1 0 0\nEND\n".toList) =
    Except.ok [(RxnType.Falloff, "M".toList)] := by
  rfl

/-- C10, the failing input. A TROE entry and an SRI entry on two auxiliary
    lines of the same reaction: `readReactionSection` does not fail and the
    reaction returned has the falloff parameters of both entries. -/
theorem troe_and_sri_accepted :
    Except.map (fun rs => rs.map (fun r => (r.falloffType, r.falloffParameters)))
      (storedReactions ["A".toList, "B".toList]
        "REACTIONS\nA(+M)=B(+M) 1 0 0\nTROE/0.5 100 200/\nSRI/1 2 3/\nEND\n".toList) =
    Except.ok [(some FalloffType.SRI,
      [⟨5, -1⟩, ⟨100, 0⟩, ⟨200, 0⟩, ⟨1, 0⟩, ⟨2, 0⟩, ⟨3, 0⟩])] := by
  rfl

end ckr

namespace ckr

/-! ## Species names and the falloff marker -/

/-- The position `find` returns for a first occurrence. -/
theorem find_first (pat s pre post : Str) (hs : s = pre ++ pat ++ post)
    (hmin : ∀ a b, s = a ++ pat ++ b → pre.length ≤ a.length) :
    find pat s = some pre.length := by
  obtain ⟨i, hi⟩ := find_isSome_of_occurs pat s pre post hs
  obtain ⟨post1, hpost1, hle, hmin1⟩ := find_some pat s i hi
  have h1 : i ≤ pre.length := hmin1 pre post hs
  have h2 : pre.length ≤ i := by
    have := hmin (s.take i) post1 hpost1
    simpa [hle] using this
  rw [hi, Nat.le_antisymm h1 h2]

/-- The text before the position `find` returns has no occurrence. -/
theorem take_find_no_occurrence (pat s : Str) (i : Nat) (hpat : pat ≠ [])
    (h : find pat s = some i) : ¬ pat <:+: s.take i := by
  rintro ⟨a, b, hab⟩
  obtain ⟨post, _, hle, hmin⟩ := find_some pat s i h
  have hs : s = a ++ pat ++ (b ++ s.drop i) := by
    conv_lhs => rw [← List.take_append_drop i s, ← hab]
    simp
  have h1 := hmin a _ hs
  have h2 := congrArg List.length hab
  simp only [List.length_append, List.length_take, Nat.min_eq_left hle] at h2
  have h3 : 0 < pat.length := List.length_pos.2 hpat
  omega

theorem not_infix_of_find_none (pat s : Str) (h : find pat s = none) : ¬ pat <:+: s := by
  rintro ⟨a, b, hab⟩
  exact find_none pat s h a b hab.symm

theorem not_infix_take (pat s : Str) (n : Nat) (h : ¬ pat <:+: s) : ¬ pat <:+: s.take n :=
  fun h1 => h (h1.trans (List.take_prefix n s).isInfix)

/-- The relation between a character of the buffer after blanking and the
    character before. -/
theorem blanked_occurrence (out inp a b : Str)
    (hrel : List.Forall₂ (fun o i => o = i ∨ o = ' ') out inp)
    (hout : out = a ++ "(+".toList ++ b) : "(+".toList <:+: inp := by
  induction a generalizing out inp with
  | nil =>
    subst hout
    simp only [List.nil_append, String.toList, List.cons_append] at hrel
    rw [List.forall₂_cons_left_iff] at hrel
    obtain ⟨i1, inp1, h1, hrel1, rfl⟩ := hrel
    rw [List.forall₂_cons_left_iff] at hrel1
    obtain ⟨i2, inp2, h2, _, rfl⟩ := hrel1
    have e1 : i1 = '(' := by
      rcases h1 with h | h
      · exact h.symm
      · exact absurd h (by decide)
    have e2 : i2 = '+' := by
      rcases h2 with h | h
      · exact h.symm
      · exact absurd h (by decide)
    subst e1 e2
    exact ⟨[], inp2, rfl⟩
  | cons x a1 ih =>
    subst hout
    simp only [List.cons_append] at hrel
    rw [List.forall₂_cons_left_iff] at hrel
    obtain ⟨i1, inp1, _, hrel1, rfl⟩ := hrel
    obtain ⟨u, v, huv⟩ := ih _ inp1 hrel1 (by simp)
    exact ⟨i1 :: u, v, by simp [← huv]⟩

theorem blankPrev_rel (done done0 : Str)
    (h : List.Forall₂ (fun o i => o = i ∨ o = ' ') done done0) :
    List.Forall₂ (fun o i => o = i ∨ o = ' ') (blankPrev done) done0 := by
  cases h with
  | nil => exact List.Forall₂.nil
  | cons h1 h2 => exact List.Forall₂.cons (Or.inr rfl) h2

/-- The scan of `getSpecies` only replaces characters of the buffer by blanks. -/
theorem getSpeciesLoop_rel (rest : Str) :
    ∀ (done done0 : Str) (inplus : Bool) (coeffs : List Dbl),
      List.Forall₂ (fun o i => o = i ∨ o = ' ') done done0 →
      List.Forall₂ (fun o i => o = i ∨ o = ' ')
        (getSpeciesLoop done rest inplus coeffs).1 (done0.reverse ++ rest) := by
  induction rest with
  | nil =>
    intro done done0 inplus coeffs h
    simpa [getSpeciesLoop] using List.rel_reverse h
  | cons c rest ih =>
    intro done done0 inplus coeffs h
    have hb := blankPrev_rel done done0 h
    have e : done0.reverse ++ c :: rest = (c :: done0).reverse ++ rest := by simp
    rw [e]
    simp only [getSpeciesLoop]
    split
    · split
      · exact ih _ _ _ _ (List.Forall₂.cons (Or.inr rfl) hb)
      · exact ih _ _ _ _ (List.Forall₂.cons (Or.inl rfl) hb)
    · split
      · exact ih _ _ _ _ (List.Forall₂.cons (Or.inl rfl) h)
      · exact ih _ _ _ _ (List.Forall₂.cons (Or.inl rfl) h)

/-- Every token is a piece of the text. -/
theorem getTokensAux_infix (s : Str) :
    ∀ (cur t : Str), t ∈ getTokensAux s cur → t <:+: cur ++ s := by
  induction s with
  | nil =>
    intro cur t ht
    by_cases hc : cur = []
    · simp [getTokensAux, hc] at ht
    · simp only [getTokensAux, hc, if_false, List.mem_singleton] at ht
      subst ht
      simp
  | cons c cs ih =>
    intro cur t ht
    simp only [getTokensAux] at ht
    split at ht
    · split at ht
      · have := ih [] t ht
        simp only [List.nil_append] at this
        exact this.trans ⟨cur ++ [c], [], by simp⟩
      · rcases List.mem_cons.1 ht with rfl | h1
        · exact ⟨[], c :: cs, by simp⟩
        · have := ih [] t h1
          simp only [List.nil_append] at this
          exact this.trans ⟨cur ++ [c], [], by simp⟩
    · have := ih (cur ++ [c]) t ht
      simpa using this

theorem pairSpecies_name_mem (syms : List Str) :
    ∀ (coeffs : List Dbl) (sp : RxnSpecies), sp ∈ pairSpecies syms coeffs → sp.name ∈ syms := by
  induction syms with
  | nil =>
    intro coeffs sp h
    simp [pairSpecies] at h
  | cons sym syms ih =>
    intro coeffs sp h
    cases coeffs with
    | nil =>
      simp only [pairSpecies, List.mem_cons] at h
      rcases h with rfl | h
      · simp
      · exact List.mem_cons_of_mem _ (ih _ sp h)
    | cons c coeffs =>
      simp only [pairSpecies, List.mem_cons] at h
      rcases h with rfl | h
      · simp
      · exact List.mem_cons_of_mem _ (ih _ sp h)

/-- No species name that `getSpecies` returns holds the opening `(+` of a
    marker when the text has none. -/
theorem getSpecies_no_marker (x : Str) (hx : ¬ "(+".toList <:+: x) (sp : RxnSpecies)
    (hsp : sp ∈ getSpecies x) : ¬ "(+M)".toList <:+: sp.name := by
  intro hin
  have h1 : sp.name ∈ getTokens (getSpeciesLoop [] x true []).1 :=
    pairSpecies_name_mem _ _ sp hsp
  have h2 : sp.name <:+: (getSpeciesLoop [] x true []).1 := by
    have := getTokensAux_infix _ [] sp.name h1
    simpa using this
  have h0 : "(+".toList <:+: "(+M)".toList := ⟨[], "M)".toList, rfl⟩
  have h3 : "(+".toList <:+: sp.name := h0.trans hin
  obtain ⟨a, b, hab⟩ := h3.trans h2
  have hrel := getSpeciesLoop_rel x [] [] true [] List.Forall₂.nil
  simp only [List.reverse_nil, List.nil_append] at hrel
  exact hx (blanked_occurrence _ x a b hrel hab.symm)

end ckr

namespace ckr

/-! ## A falloff reaction with the wildcard third body and a LOW entry -/

/-- The reactant side whose first `(+` opens the marker `(+M)`. -/
theorem processLeftMarker_wildcard (m_line : Nat) (rxn : Reaction) (sleft0 pre post : Str)
    (hs : removeWhiteSpace sleft0 = pre ++ "(+M)".toList ++ post)
    (hmin : ∀ a b, removeWhiteSpace sleft0 = a ++ "(+".toList ++ b → pre.length ≤ a.length) :
    processLeftMarker m_line rxn sleft0 =
      Except.ok ({ rxn with isFalloffRxn := true, type := RxnType.Falloff,
                            thirdBody := "M".toList }, pre) := by
  have hs2 : removeWhiteSpace sleft0 = pre ++ "(+".toList ++ ("M)".toList ++ post) := by
    rw [hs]
    simp
  have hf := find_first "(+".toList _ pre _ hs2 hmin
  have hsm : substr (removeWhiteSpace sleft0) (pre.length + 2) 1000 =
      'M' :: ')' :: post.take 998 := by
    rw [hs]
    simp [substr]
  have hf2 : find ")".toList ('M' :: ')' :: post.take 998) = some 1 := by
    simp [find, startsWith]
  have hpre : substr (removeWhiteSpace sleft0) 0 pre.length = pre := by
    rw [hs]
    simp [substr]
  simp only [processLeftMarker, hf, hsm, hf2, hpre]
  simp [substr, thirdBodyName]

theorem processArrhenius_frame (m_line : Nat) (log log1 : List LogEntry)
    (rxn rxn3 : Reaction) (sright sright1 : Str)
    (h : processArrhenius m_line log rxn sright = Except.ok (rxn3, log1, sright1)) :
    rxn3.type = rxn.type ∧ rxn3.thirdBody = rxn.thirdBody ∧ rxn3.reactants = rxn.reactants := by
  unfold processArrhenius at h
  simp only [] at h
  split at h
  · exact absurd h (by simp [throwSyntax])
  · simp only [Except.ok.injEq, Prod.mk.injEq] at h
    obtain ⟨rfl, _, _⟩ := h
    exact ⟨rfl, rfl, rfl⟩

/-- The product side of a reaction that is a falloff reaction with the
    wildcard third body: when it is accepted, the reaction stays so, and the
    text left for the products has no `(+`. -/
theorem processRightMarker_wildcard (m_line : Nat) (rxn rxn4 : Reaction) (sright sright1 : Str)
    (htype : rxn.type = RxnType.Falloff) (hthird : rxn.thirdBody = "M".toList)
    (h : processRightMarker m_line rxn sright = Except.ok (rxn4, sright1)) :
    rxn4.type = RxnType.Falloff ∧ rxn4.thirdBody = "M".toList ∧
      rxn4.reactants = rxn.reactants ∧ ¬ "(+".toList <:+: sright1 := by
  unfold processRightMarker at h
  simp only [] at h
  split at h
  · rename_i mloc hfind
    have hno := take_find_no_occurrence "(+".toList _ mloc (by decide) hfind
    split at h
    · rename_i mloc2 hfind2
      split at h
      · exact absurd h (by simp [throwSyntax])
      · split at h
        · simp only [Except.ok.injEq, Prod.mk.injEq] at h
          obtain ⟨rfl, rfl⟩ := h
          exact ⟨rfl, rfl, rfl, by simpa [substr] using hno⟩
        · split at h
          · exact absurd h (by simp [throwSyntax])
          · rename_i hne
            simp only [Except.ok.injEq, Prod.mk.injEq] at h
            obtain ⟨rfl, rfl⟩ := h
            refine ⟨rfl, ?_, rfl, by simpa [substr] using hno⟩
            simp only [ne_eq, not_not] at hne
            rw [← hne]
            exact hthird
    · exact absurd h (by simp [throwSyntax])
  · rename_i hfind
    have hno := not_infix_of_find_none _ _ hfind
    split at h
    all_goals repeat' split at h
    all_goals first
      | (simp [throwSyntax] at h
         done)
      | (simp only [Except.ok.injEq, Prod.mk.injEq] at h
         obtain ⟨rfl, rfl⟩ := h
         exact ⟨htype, hthird, rfl, hno⟩)

/-- A reaction line whose reactant side carries the marker `(+M)`: when the
    line is accepted, the reaction is a falloff reaction with the wildcard
    third body and no species name of it holds the marker. -/
theorem reactionLine_wildcard (speciesNames : List Str) (m_line : Nat) (log log1 : List LogEntry)
    (rxn r : Reaction) (s : Str) (sides : EqSides) (pre post : Str)
    (hsplit : splitEquation s = some sides)
    (hs : removeWhiteSpace sides.sleft = pre ++ "(+M)".toList ++ post)
    (hmin : ∀ a b, removeWhiteSpace sides.sleft = a ++ "(+".toList ++ b →
      pre.length ≤ a.length)
    (h : reactionLine speciesNames m_line log rxn s = Except.ok (r, log1)) :
    r.type = RxnType.Falloff ∧ r.thirdBody = "M".toList ∧
      ∀ sp ∈ r.reactants ++ r.products, ¬ "(+M)".toList <:+: sp.name := by
  have hpre : ¬ "(+".toList <:+: pre := by
    rintro ⟨a, b, hab⟩
    have h1 := hmin a (b ++ "(+M)".toList ++ post) (by rw [hs, ← hab]; simp)
    have h2 := congrArg List.length hab
    simp at h2
    omega
  simp only [reactionLine, hsplit, reactantSide,
    processLeftMarker_wildcard m_line _ sides.sleft pre post hs hmin, processReactants] at h
  split at h
  · exact absurd h (by simp)
  · rename_i rxn2 hre
    split at hre
    · exact absurd hre (by simp [throwSyntax])
    · simp only [Except.ok.injEq] at hre
      subst hre
      split at h
      · exact absurd h (by simp)
      · rename_i rxn3 log2 sright harr
        obtain ⟨ht3, hb3, hr3⟩ := processArrhenius_frame _ _ _ _ _ _ _ harr
        simp only [productSide] at h
        split at h
        · exact absurd h (by simp)
        · rename_i rxn5 hprod
          split at hprod
          · exact absurd hprod (by simp)
          · rename_i rxn4 sright1 hmark
            obtain ⟨ht4, hb4, hr4, hno4⟩ :=
              processRightMarker_wildcard m_line rxn3 rxn4 sright sright1 ht3 hb3 hmark
            simp only [processProducts] at hprod
            split at hprod
            · exact absurd hprod (by simp [throwSyntax])
            · simp only [Except.ok.injEq] at hprod
              subst hprod
              simp only [Except.ok.injEq, Prod.mk.injEq] at h
              obtain ⟨rfl, _⟩ := h
              refine ⟨ht4, hb4, ?_⟩
              intro sp hsp
              rcases List.mem_append.1 hsp with h1 | h1
              · have h2 : sp ∈ getSpecies pre := by
                  have : rxn4.reactants = getSpecies pre := by rw [hr4, hr3]
                  simpa [this] using h1
                exact getSpecies_no_marker pre hpre sp h2
              · exact getSpecies_no_marker sright1 hno4 sp h1

theorem span_slash (w rest : Str) (hw : '/' ∉ w) :
    (w ++ '/' :: rest).span (· ≠ '/') = (w, '/' :: rest) := by
  have h1 : ∀ a ∈ w, (fun c => decide (c ≠ '/')) a = true := by
    intro a ha
    simp only [ne_eq, decide_eq_true_eq]
    rintro rfl
    exact hw ha
  rw [List.span_eq_take_drop, List.takeWhile_append_of_pos h1, List.dropWhile_append_of_pos h1]
  simp [List.takeWhile, List.dropWhile]

theorem extractSlashData_entry (kw data rest : Str) (hkw : '/' ∉ kw) (hdata : '/' ∉ data) :
    extractSlashData (kw ++ '/' :: (data ++ '/' :: rest)) =
      (true, removeWhiteSpace kw, data, rest) := by
  simp only [extractSlashData, span_slash kw _ hkw, span_slash data _ hdata]

/-- The auxiliary-data line `LOW/data/` with a payload of three tokens. -/
theorem auxLine_low (speciesNames : List Str) (p : CKParser) (rxn : Reaction)
    (data a b c : Str) (hdata : '/' ∉ data) (htoks : getTokens data = [a, b, c]) :
    auxLine speciesNames p rxn ("LOW/".toList ++ data ++ "/".toList) =
      Except.ok ({ rxn with type := RxnType.Falloff,
                            kf_aux := { rxn.kf_aux with A := atof a, n := atof b, E := atof c } },
        p) := by
  have he := extractSlashData_entry "LOW".toList data [] (by decide) hdata
  have hs : "LOW/".toList ++ data ++ "/".toList = "LOW".toList ++ '/' :: (data ++ ['/']) := by
    simp
  have hm : matchKw (removeWhiteSpace "LOW".toList) "LOW".toList = true := by decide
  have h0 : extractSlashData [] = (false, [], [], []) := by decide
  have hfuel : ∀ n : Nat, n + 2 = (n + 1) + 1 := fun _ => rfl
  rw [auxLine, hs, hfuel, auxLoop, he]
  simp only [mapGet, auxEntry, hm, htoks, if_true]
  simp only [auxLoop, h0]
  simp

/-- A line `LOW/data/` whose payload has no `=` is read as an auxiliary-data
    line of the reaction in progress. -/
theorem sectionLine_low (speciesNames elementNames : List Str) (st : SectionState)
    (comment data a b c : Str) (hdata : '/' ∉ data) (heq : '=' ∉ data)
    (htoks : getTokens data = [a, b, c]) :
    sectionLine speciesNames elementNames st ("LOW/".toList ++ data ++ "/".toList) comment =
      Except.ok { st with rxn :=
        { st.rxn with
          lines := st.rxn.lines ++ [sourceLine ("LOW/".toList ++ data ++ "/".toList) comment],
          type := RxnType.Falloff,
          kf_aux := { st.rxn.kf_aux with A := atof a, n := atof b, E := atof c } } } := by
  have hfind : find ['='] ("LOW/".toList ++ data ++ "/".toList) = none := by
    apply find_none_of_not_mem _ _ '=' (by simp)
    simp [heq]
  have hhead : ("LOW/".toList ++ data ++ "/".toList).getD 0 '\x00' ≠ '%' := by
    simp
  simp only [sectionLine, hhead, if_false, hfind, Option.isSome_none, Bool.false_eq_true,
    auxLine_low speciesNames _ _ data a b c hdata htoks]

/-- The end of the section stores the reaction in progress under its number. -/
theorem sectionLoop_end (speciesNames elementNames : List Str) (fuel : Nat)
    (st : SectionState) (s comment : Str) (p1 : CKParser) (cm1 : List Str)
    (hread : skipBlankLines (st.p.m_ckfile.length + 2) st.p st.cm =
      Except.ok (s, comment, p1, cm1))
    (hend : isKeyword s = true ∨ s = "<EOF>".toList) (hn : 0 < st.nRxns) :
    sectionLoop speciesNames elementNames (fuel + 1) st =
      Except.ok (true, st.reactions ++ [{ st.rxn with number := st.nRxns }], p1) := by
  rw [sectionLoop, hread]
  simp only [hend, if_true, gt_iff_lt, hn]

theorem isKeyword_low (rest : Str) : isKeyword ("LOW/".toList ++ rest) = false := by
  simp [isKeyword, matchKw, startsWith]

/-- C7. For every reaction line whose reactant side carries the marker `(+M)`
    (its first `(+` opening it) and which is accepted, and every following
    auxiliary line `LOW/data/` with a payload of three tokens a, b, c that are
    decimal numerals: the line is read as auxiliary data of the same reaction,
    and the reaction in progress then has type Falloff, the wildcard third
    body `M`, the low-pressure parameters (A, n, E) with the values of a, b,
    c, and no reactant or product name holding the marker; it is the reaction
    stored when the section ends there. The marker of the product side is not
    needed for this. -/
theorem falloff_wildcard_low (speciesNames elementNames : List Str) (st st1 : SectionState)
    (s comment comment2 : Str) (sides : EqSides) (pre post data a b c : Str)
    (p2 : CKParser) (cm2 : List Str)
    (hmeta : s.getD 0 '\x00' ≠ '%') (hsplit : splitEquation s = some sides)
    (hs : removeWhiteSpace sides.sleft = pre ++ "(+M)".toList ++ post)
    (hmin : ∀ u v, removeWhiteSpace sides.sleft = u ++ "(+".toList ++ v →
      pre.length ≤ u.length)
    (hline : sectionLine speciesNames elementNames st s comment = Except.ok st1)
    (hdata : '/' ∉ data) (heq : '=' ∉ data) (htoks : getTokens data = [a, b, c])
    (_hdec : decimalText a = true ∧ decimalText b = true ∧ decimalText c = true) :
    isKeyword ("LOW/".toList ++ data ++ "/".toList) = false ∧
    ∃ st2, sectionLine speciesNames elementNames { st1 with p := p2, cm := cm2 }
        ("LOW/".toList ++ data ++ "/".toList) comment2 = Except.ok st2 ∧
      st2.reactions = st1.reactions ∧
      st2.rxn.type = RxnType.Falloff ∧ st2.rxn.thirdBody = "M".toList ∧
      st2.rxn.kf_aux.A = atof a ∧ st2.rxn.kf_aux.n = atof b ∧ st2.rxn.kf_aux.E = atof c ∧
      (∀ sp ∈ st2.rxn.reactants ++ st2.rxn.products, ¬ "(+M)".toList <:+: sp.name) ∧
      ∀ (fuel : Nat) (s3 c3 : Str) (p3 : CKParser) (cm3 : List Str),
        skipBlankLines (st2.p.m_ckfile.length + 2) st2.p st2.cm =
          Except.ok (s3, c3, p3, cm3) →
        (isKeyword s3 = true ∨ s3 = "<EOF>".toList) →
        sectionLoop speciesNames elementNames (fuel + 1) st2 =
          Except.ok (true, st2.reactions ++ [{ st2.rxn with number := st2.nRxns }], p3) := by
  rw [sectionLine_reaction speciesNames elementNames st s comment sides hmeta hsplit] at hline
  split at hline
  · exact absurd hline (by simp)
  · rename_i rxn1 log1 hre
    simp only [Except.ok.injEq] at hline
    subst hline
    obtain ⟨ht, hb, hn⟩ := reactionLine_wildcard speciesNames _ _ _ _ _ s sides pre post
      hsplit hs hmin hre
    refine ⟨by rw [List.append_assoc]; exact isKeyword_low _, _,
      sectionLine_low speciesNames elementNames _ comment2 data a b c hdata heq htoks,
      rfl, rfl, hb, rfl, rfl, rfl, hn, ?_⟩
    intro fuel s3 c3 p3 cm3 hread hend
    exact sectionLoop_end speciesNames elementNames fuel _ s3 c3 p3 cm3 hread hend
      (Nat.succ_pos _)

end ckr

namespace ckr

/-- C7, an instance: the line `A+B(+M)=C+D(+M) 1.0E14 0.0 5000.0` followed by
    `LOW/1.0E20 -1.0 0.0/`. -/
theorem falloff_wildcard_low_witness :
    ("A+B(+M)=C+D(+M) 1.0E14 0.0 5000.0".toList.getD 0 '\x00' ≠ '%' ∧
      splitEquation "A+B(+M)=C+D(+M) 1.0E14 0.0 5000.0".toList =
        some ⟨true, "A+B(+M)".toList, "C+D(+M) 1.0E14 0.0 5000.0".toList⟩ ∧
      removeWhiteSpace "A+B(+M)".toList = "A+B".toList ++ "(+M)".toList ++ [] ∧
      (∀ u v, removeWhiteSpace "A+B(+M)".toList = u ++ "(+".toList ++ v →
        "A+B".toList.length ≤ u.length) ∧
      '/' ∉ "1.0E20 -1.0 0.0".toList ∧ '=' ∉ "1.0E20 -1.0 0.0".toList ∧
      getTokens "1.0E20 -1.0 0.0".toList = ["1.0E20".toList, "-1.0".toList, "0.0".toList] ∧
      (decimalText "1.0E20".toList = true ∧ decimalText "-1.0".toList = true ∧
        decimalText "0.0".toList = true)) ∧
    ∃ st1, sectionLine ["A".toList, "B".toList, "C".toList, "D".toList] []
        (sectionStart "REACTIONS\nA+B(+M)=C+D(+M) 1.0E14 0.0 5000.0\n".toList)
        "A+B(+M)=C+D(+M) 1.0E14 0.0 5000.0".toList [] = Except.ok st1 ∧
      ∃ st2, sectionLine ["A".toList, "B".toList, "C".toList, "D".toList] []
          { st1 with p := CKParser.new [], cm := [] }
          ("LOW/".toList ++ "1.0E20 -1.0 0.0".toList ++ "/".toList) [] = Except.ok st2 ∧
        st2.reactions = st1.reactions ∧
        st2.rxn.type = RxnType.Falloff ∧ st2.rxn.thirdBody = "M".toList ∧
        st2.rxn.kf_aux.A = atof "1.0E20".toList ∧ st2.rxn.kf_aux.n = atof "-1.0".toList ∧
        st2.rxn.kf_aux.E = atof "0.0".toList ∧
        (∀ sp ∈ st2.rxn.reactants ++ st2.rxn.products, ¬ "(+M)".toList <:+: sp.name) ∧
        ∀ (fuel : Nat) (s3 c3 : Str) (p3 : CKParser) (cm3 : List Str),
          skipBlankLines (st2.p.m_ckfile.length + 2) st2.p st2.cm =
            Except.ok (s3, c3, p3, cm3) →
          (isKeyword s3 = true ∨ s3 = "<EOF>".toList) →
          sectionLoop ["A".toList, "B".toList, "C".toList, "D".toList] [] (fuel + 1) st2 =
            Except.ok (true, st2.reactions ++ [{ st2.rxn with number := st2.nRxns }], p3) :=
  ⟨⟨by decide, by decide, by decide,
      fun u v h => (find_some "(+".toList (removeWhiteSpace "A+B(+M)".toList) 3
        (by decide)).elim (fun _ hp => hp.2.2 u v h),
      by decide, by decide, by decide, by decide⟩,
    _, rfl,
    (falloff_wildcard_low ["A".toList, "B".toList, "C".toList, "D".toList] []
      (sectionStart "REACTIONS\nA+B(+M)=C+D(+M) 1.0E14 0.0 5000.0\n".toList) _
      "A+B(+M)=C+D(+M) 1.0E14 0.0 5000.0".toList [] []
      ⟨true, "A+B(+M)".toList, "C+D(+M) 1.0E14 0.0 5000.0".toList⟩
      "A+B".toList [] "1.0E20 -1.0 0.0".toList "1.0E20".toList "-1.0".toList "0.0".toList
      (CKParser.new []) []
      (by decide) (by decide) (by decide)
      (fun u v h => (find_some "(+".toList (removeWhiteSpace "A+B(+M)".toList) 3
        (by decide)).elim (fun _ hp => hp.2.2 u v h))
      rfl (by decide) (by decide) (by decide) (by decide)).2⟩

/-- C4, an instance of the amended property: the line `A+B=>C 1 0 0`. -/
theorem splitEquation_separator_witness :
    '=' ∈ "A+B=>C 1 0 0".toList ∧
    ∃ sides sep pre post, splitEquation "A+B=>C 1 0 0".toList = some sides ∧
      ("<=>".toList <:+: "A+B=>C 1 0 0".toList → sep = "<=>".toList) ∧
      (¬ "<=>".toList <:+: "A+B=>C 1 0 0".toList → "=>".toList <:+: "A+B=>C 1 0 0".toList →
        sep = "=>".toList) ∧
      (¬ "=>".toList <:+: "A+B=>C 1 0 0".toList → sep = "=".toList) ∧
      "A+B=>C 1 0 0".toList = pre ++ sep ++ post ∧
      (∀ a b, "A+B=>C 1 0 0".toList = a ++ sep ++ b → pre.length ≤ a.length) ∧
      sides.sleft = pre ∧ sides.sright = post.take 1000 ∧
      (sides.isReversible = false ↔
        ("=>".toList <:+: "A+B=>C 1 0 0".toList ∧ ¬ "<=>".toList <:+: "A+B=>C 1 0 0".toList)) :=
  ⟨by decide, splitEquation_separator "A+B=>C 1 0 0".toList (by decide)⟩

end ckr

namespace ckr

/-! ## Evaluations at failing inputs -/

/-- C11, the failing input. The keyword LOW on two auxiliary lines of the same
    reaction: `readReactionSection` does not fail, and the reaction returned
    has the low-pressure parameters of the second entry. -/
theorem duplicate_keyword_accepted :
    Except.map (fun rs => rs.map (fun r => (r.kf_aux.A, r.kf_aux.n, r.kf_aux.E)))
      (storedReactions ["A".toList, "B".toList]
        "REACTIONS\nA(+M)=B(+M) 1 0 0\nLOW/1 2 3/\nLOW/4 5 6/\nEND\n".toList) =
    Except.ok [(⟨4, 0⟩, ⟨5, 0⟩, ⟨6, 0⟩)] := by
  rfl

/-- C12, the failing input. The entry `HIGH/1 2 3 4/` has four tokens:
    `readReactionSection` does not fail, and the reaction returned has the type
    ChemAct and the auxiliary parameters (1, 2, 3). With the two tokens of
    `HIGH/1 2/` the code reads `khigh[2]` beyond the end of the vector, which
    is not a syntax error. -/
theorem high_payload_not_checked :
    Except.map (fun rs => rs.map (fun r => (r.type, r.kf_aux.A, r.kf_aux.n, r.kf_aux.E)))
      (storedReactions ["A".toList, "B".toList]
        "REACTIONS\nA=B 1 0 0\nHIGH/1 2 3 4/\nEND\n".toList) =
    Except.ok [(RxnType.ChemAct, ⟨1, 0⟩, ⟨2, 0⟩, ⟨3, 0⟩)] ∧
    storedReactions ["A".toList, "B".toList] "REACTIONS\nA=B 1 0 0\nHIGH/1 2/\nEND\n".toList =
      Except.error Failure.outOfRange := by
  exact ⟨rfl, rfl⟩

/-- C14, counterexample. The entry `X/2.0/` names `X`, which is not a declared
    species, as if it were a third body with an efficiency, and the marker
    `(+Y)` names the undeclared `Y`: `readReactionSection` does not fail in
    either case; the entry is stored as other auxiliary data and `Y` as the
    third body. -/
theorem undeclared_references_accepted :
    Except.map (fun rs => rs.map (fun r => (r.e3b, r.otherAuxData)))
      (storedReactions ["A".toList, "B".toList]
        "REACTIONS\nA+M=B+M 1 0 0\nX/2.0/\nEND\n".toList) =
    Except.ok [([], [("X".toList, [⟨20, -1⟩])])] ∧
    Except.map (fun rs => rs.map (fun r => r.thirdBody))
      (storedReactions ["A".toList, "B".toList]
        "REACTIONS\nA(+Y)=B(+Y) 1 0 0\nEND\n".toList) =
    Except.ok ["Y".toList] := by
  exact ⟨rfl, rfl⟩

set_option maxRecDepth 100000 in
/-- C19, the failing input. Line 1 of the record has `0` at column 80: no
    syntax error is raised; the four lines are passed over and
    `readThermoRecord` returns the sentinel `<END>` at the keyword END. -/
theorem line1_column_not_enforced :
    (arLine1.set 79 '0').length = 80 ∧ (arLine1.set 79 '0').getD 79 '\x00' ≠ '1' ∧
    Except.map (fun r => (r.1, r.2.m_buf, r.2.m_line))
      (readThermoRecord exampleUndef false
        (CKParser.new (thermoText (arLine1.set 79 '0') arLine2 arLine3 arLine4))
        Species.fresh) =
    Except.ok ({ Species.fresh with name := "<END>".toList }, "END".toList, 5) := by
  refine ⟨by decide, by decide, ?_⟩
  rfl

set_option maxRecDepth 100000 in
/-- C20, the failing input. The first field of line 2 holds `1.2.3`, a text
    with two decimal points: `readThermoRecord` does not fail, and the first
    high-temperature coefficient is the value 1.2 that `atof` reads. -/
theorem two_decimal_points_accepted :
    getNumberFromString exampleUndef (substr arLine2TwoPoints 0 15) = ⟨12, -1⟩ ∧
    Except.map (fun r => (r.1.highCoeffs.head?, r.1.valid))
      (readThermoRecord exampleUndef false
        (CKParser.new (thermoText arLine1 arLine2TwoPoints arLine3 arLine4))
        Species.fresh) =
    Except.ok (some ⟨12, -1⟩, 1) := by
  exact ⟨rfl, rfl⟩

end ckr

namespace ckr

/-! ## Third-body efficiencies -/

theorem mapGet_mapSet_same {β : Type} (m : List (Str × β)) (k : Str) (v d : β) :
    mapGet (mapSet m k v) k d = v := by
  induction m with
  | nil => simp [mapSet, mapGet]
  | cons a m ih =>
    obtain ⟨k1, v1⟩ := a
    by_cases h : k1 = k
    · simp [mapSet, mapGet, h]
    · simp [mapSet, mapGet, h, ih]

theorem mapGet_mapSet_other {β : Type} (m : List (Str × β)) (k k2 : Str) (v d : β)
    (hne : k2 ≠ k) : mapGet (mapSet m k v) k2 d = mapGet m k2 d := by
  induction m with
  | nil => simp [mapSet, mapGet, Ne.symm hne]
  | cons a m ih =>
    obtain ⟨k1, v1⟩ := a
    by_cases h : k1 = k
    · subst h
      simp [mapSet, mapGet, Ne.symm hne]
    · by_cases h2 : k1 = k2
      · subst h2
        simp [mapSet, mapGet, h]
      · simp [mapSet, mapGet, h, h2, ih]

/-- The loop over the entries of a line ends at the end of the line. -/
theorem auxLoop_nil (speciesNames : List Str) (n : Nat) (p : CKParser)
    (kwindex : List (Str × Int)) (rxn : Reaction) :
    auxLoop speciesNames (n + 1) p kwindex rxn [] = Except.ok (rxn, p) := by
  rw [auxLoop]
  simp [extractSlashData, removeWhiteSpace]

/-- C13, counterexample. The entry `H2O/2.0/` follows the entry `H2O/1.0/` on
    the same auxiliary line of a reaction with the wildcard third body: the
    efficiency of H2O is not set to 2.0; the section fails with the syntax
    error "duplicate auxiliary data keyword H2O". With the two entries on two
    auxiliary lines the section is accepted and the efficiency is 2.0. -/
theorem efficiency_duplicate_rejected :
    storedReactions ["A".toList, "B".toList, "H2O".toList]
        "REACTIONS\nA+M=B+M 1 0 0\nH2O/1.0/ H2O/2.0/\nEND\n".toList =
      Except.error (Failure.syntaxError
        ⟨"duplicate auxiliary data keyword H2O".toList, 3⟩) ∧
    Except.map (fun rs => rs.map (fun r => r.e3b))
      (storedReactions ["A".toList, "B".toList, "H2O".toList]
        "REACTIONS\nA+M=B+M 1 0 0\nH2O/1.0/\nH2O/2.0/\nEND\n".toList) =
    Except.ok [[("H2O".toList, ⟨20, -1⟩)]] := by
  exact ⟨rfl, rfl⟩

/-- C13 as amended. For every auxiliary entry `S/x/` that the loop over the
    entries of a line reaches, whose keyword is a declared species name,
    matches none of the keywords of the earlier branches and has not occurred
    before on the line, and whose data is a decimal numeral: if the third
    body of the reaction is that name or the wildcard `M`, the efficiency map
    gets the value of x under the name, whatever it held before, every other
    entry is unchanged, and the loop goes on with the rest of the line, so
    that a line that holds this entry alone returns the reaction with this
    efficiency map; in every other case the loop, and the line that holds the
    entry alone, fail with the syntax error "third-body efficiency error" at
    the current line. -/
theorem efficiency_entry (speciesNames : List Str) (fuel : Nat) (p : CKParser)
    (kwindex : List (Str × Int)) (rxn : Reaction) (S x rest : Str)
    (hS : '/' ∉ S) (hx : '/' ∉ x)
    (hdecl : removeWhiteSpace S ∈ speciesNames)
    (hkw : ∀ kw ∈ ["LOW".toList, "TROE".toList, "SRI".toList, "REV".toList, "DUP".toList,
      "END".toList, "LT".toList, "RLT".toList, "HIGH".toList],
      matchKw (removeWhiteSpace S) kw = false)
    (hnew : mapGet kwindex (removeWhiteSpace S) 0 = 0)
    (_hdec : decimalField x = true) :
    (rxn.thirdBody = removeWhiteSpace S ∨ rxn.thirdBody = "M".toList →
      auxLoop speciesNames (fuel + 1) p kwindex rxn (S ++ '/' :: (x ++ '/' :: rest)) =
        auxLoop speciesNames fuel p (mapSet kwindex (removeWhiteSpace S) 1)
          { rxn with e3b := mapSet rxn.e3b (removeWhiteSpace S) (atof x) } rest ∧
      auxLine speciesNames p rxn (S ++ '/' :: (x ++ ['/'])) =
        Except.ok ({ rxn with e3b := mapSet rxn.e3b (removeWhiteSpace S) (atof x) }, p) ∧
      (∀ d, mapGet (mapSet rxn.e3b (removeWhiteSpace S) (atof x)) (removeWhiteSpace S) d =
        atof x) ∧
      (∀ k d, k ≠ removeWhiteSpace S →
        mapGet (mapSet rxn.e3b (removeWhiteSpace S) (atof x)) k d = mapGet rxn.e3b k d)) ∧
    (¬ (rxn.thirdBody = removeWhiteSpace S ∨ rxn.thirdBody = "M".toList) →
      auxLoop speciesNames (fuel + 1) p kwindex rxn (S ++ '/' :: (x ++ '/' :: rest)) =
        Except.error (Failure.syntaxError
          ⟨"third-body efficiency error".toList, (p.m_line : Int)⟩) ∧
      auxLine speciesNames p rxn (S ++ '/' :: (x ++ ['/'])) =
        Except.error (Failure.syntaxError
          ⟨"third-body efficiency error".toList, (p.m_line : Int)⟩)) := by
  have h1 := hkw "LOW".toList (by simp)
  have h2 := hkw "TROE".toList (by simp)
  have h3 := hkw "SRI".toList (by simp)
  have h4 := hkw "REV".toList (by simp)
  have h5 := hkw "DUP".toList (by simp)
  have h6 := hkw "END".toList (by simp)
  have h7 := hkw "LT".toList (by simp)
  have h8 := hkw "RLT".toList (by simp)
  have h9 := hkw "HIGH".toList (by simp)
  have hempty : mapGet ([] : List (Str × Int)) (removeWhiteSpace S) 0 = 0 := by
    simp [mapGet]
  have hlen : (S ++ '/' :: (x ++ ['/'])).length + 2 =
      ((S ++ '/' :: (x ++ ['/'])).length + 0 + 1) + 1 := by omega
  have step : ∀ (n : Nat) (kw0 : List (Str × Int)) (tl : Str),
      mapGet kw0 (removeWhiteSpace S) 0 = 0 →
      (rxn.thirdBody = removeWhiteSpace S ∨ rxn.thirdBody = "M".toList →
        auxLoop speciesNames (n + 1) p kw0 rxn (S ++ '/' :: (x ++ '/' :: tl)) =
          auxLoop speciesNames n p (mapSet kw0 (removeWhiteSpace S) 1)
            { rxn with e3b := mapSet rxn.e3b (removeWhiteSpace S) (atof x) } tl) ∧
      (¬ (rxn.thirdBody = removeWhiteSpace S ∨ rxn.thirdBody = "M".toList) →
        auxLoop speciesNames (n + 1) p kw0 rxn (S ++ '/' :: (x ++ '/' :: tl)) =
          Except.error (Failure.syntaxError
            ⟨"third-body efficiency error".toList, (p.m_line : Int)⟩)) := by
    intro n kw0 tl hk0
    have he := extractSlashData_entry S x tl hS hx
    constructor
    · intro hthird
      rw [auxLoop, he]
      simp only [hk0, auxEntry, h1, h2, h3, h4, h5, h6, h7, h8, h9, hdecl, hthird]
      simp
    · intro hthird
      rw [auxLoop, he]
      simp only [hk0, auxEntry, h1, h2, h3, h4, h5, h6, h7, h8, h9, hdecl, hthird]
      simp [throwSyntax]
  constructor
  · intro hthird
    refine ⟨(step fuel kwindex rest hnew).1 hthird, ?_,
      fun d => mapGet_mapSet_same _ _ _ _, fun k d hk => mapGet_mapSet_other _ _ _ _ _ hk⟩
    unfold auxLine
    rw [hlen, (step _ [] [] hempty).1 hthird, auxLoop_nil]
  · intro hthird
    refine ⟨(step fuel kwindex rest hnew).2 hthird, ?_⟩
    unfold auxLine
    rw [hlen, (step _ [] [] hempty).2 hthird]

/-- C13, instances of the amended property: the entry `H2O/5.0/` for a
    reaction with the wildcard third body, where the line returns the
    reaction with the efficiency 5.0 of H2O and the section returns it so, and
    for a reaction without third body. -/
theorem efficiency_entry_witness :
    ('/' ∉ "H2O".toList ∧ '/' ∉ "5.0".toList ∧
      removeWhiteSpace "H2O".toList ∈ ["A".toList, "H2O".toList] ∧
      (∀ kw ∈ ["LOW".toList, "TROE".toList, "SRI".toList, "REV".toList, "DUP".toList,
        "END".toList, "LT".toList, "RLT".toList, "HIGH".toList],
        matchKw (removeWhiteSpace "H2O".toList) kw = false) ∧
      mapGet ([] : List (Str × Int)) (removeWhiteSpace "H2O".toList) 0 = 0 ∧
      decimalField "5.0".toList = true) ∧
    (auxLine ["A".toList, "H2O".toList] (CKParser.new [])
        { Reaction.fresh with thirdBody := "M".toList } "H2O/5.0/".toList =
      Except.ok ({ Reaction.fresh with
          thirdBody := "M".toList,
          e3b := mapSet [] (removeWhiteSpace "H2O".toList) (atof "5.0".toList) },
        CKParser.new []) ∧
      mapSet ([] : List (Str × Dbl)) (removeWhiteSpace "H2O".toList) (atof "5.0".toList) =
        [("H2O".toList, ⟨50, -1⟩)]) ∧
    auxLine ["A".toList, "H2O".toList] (CKParser.new []) Reaction.fresh "H2O/5.0/".toList =
      Except.error (Failure.syntaxError ⟨"third-body efficiency error".toList, 0⟩) ∧
    Except.map (fun rs => rs.map (fun r => r.e3b))
      (storedReactions ["A".toList, "B".toList, "H2O".toList]
        "REACTIONS\nA+M=B+M 1 0 0\nH2O/5.0/\nEND\n".toList) =
    Except.ok [[("H2O".toList, ⟨50, -1⟩)]] :=
  ⟨⟨by decide, by decide, by decide, by decide, by decide, by decide⟩,
    ⟨((efficiency_entry ["A".toList, "H2O".toList] 0 (CKParser.new []) []
      { Reaction.fresh with thirdBody := "M".toList } "H2O".toList "5.0".toList []
      (by decide) (by decide) (by decide) (by decide) (by decide) (by decide)).1
        (Or.inr rfl)).2.1, by rfl⟩,
    ((efficiency_entry ["A".toList, "H2O".toList] 0 (CKParser.new []) []
      Reaction.fresh "H2O".toList "5.0".toList []
      (by decide) (by decide) (by decide) (by decide) (by decide) (by decide)).2
        (by decide)).2,
    by rfl⟩

end ckr

namespace ckr

/-! ## Thermo records -/

theorem readCoeffs_ok (UNDEF : Dbl) (m_line : Nat) (s : Str) (fields : List Nat) :
    ∀ cfs, readCoeffs UNDEF m_line s fields = Except.ok cfs →
      cfs = fields.map (fun i => getNumberFromString UNDEF (substr s (i * 15) 15)) := by
  induction fields with
  | nil =>
    intro cfs h
    simp only [readCoeffs, Except.ok.injEq] at h
    simp [← h]
  | cons i rest ih =>
    intro cfs h
    simp only [readCoeffs, substrE] at h
    by_cases hle : i * 15 ≤ s.length
    · simp only [hle, if_true] at h
      split at h
      · exact absurd h (by simp [illegalNumber, throwSyntax])
      · split at h
        · exact absurd h (by simp)
        · rename_i cfs1 hrest
          simp only [Except.ok.injEq] at h
          subst h
          simp [ih cfs1 hrest]
    · simp [hle] at h

theorem columnCheck_ok (p p2 : CKParser) (digit : Char) (s : Str)
    (h : columnCheck p digit = Except.ok (s, p2)) :
    s = (getCKLine p).1 ∧ p2 = (getCKLine p).2.2 := by
  unfold columnCheck at h
  simp only [] at h
  split at h
  · exact absurd h (by simp)
  · split at h
    · exact absurd h (by simp [illegalThermoLine, throwSyntax])
    · simp only [Except.ok.injEq, Prod.mk.injEq] at h
      exact ⟨h.1.symm, h.2.symm⟩

theorem addElement_coeffs (symbol : Str) (atoms : Dbl) (sp : Species) :
    (addElement symbol atoms sp).highCoeffs = sp.highCoeffs ∧
      (addElement symbol atoms sp).lowCoeffs = sp.lowCoeffs := by
  unfold addElement
  split <;> exact ⟨rfl, rfl⟩

theorem elementSlot_coeffs (s : Str) (iloc : Nat) (sp sp1 : Species)
    (h : elementSlot s iloc sp = Except.ok sp1) :
    sp1.highCoeffs = sp.highCoeffs ∧ sp1.lowCoeffs = sp.lowCoeffs := by
  unfold elementSlot at h
  split at h
  · simp only [Except.ok.injEq] at h
    subst h
    exact addElement_coeffs _ _ _
  · exact absurd h (by simp)

theorem elementSlots_coeffs (s : Str) (l : List Nat) :
    ∀ sp sp1, elementSlots s l sp = Except.ok sp1 →
      sp1.highCoeffs = sp.highCoeffs ∧ sp1.lowCoeffs = sp.lowCoeffs := by
  induction l with
  | nil =>
    intro sp sp1 h
    simp only [elementSlots, Except.ok.injEq] at h
    subst h
    exact ⟨rfl, rfl⟩
  | cons i rest ih =>
    intro sp sp1 h
    simp only [elementSlots] at h
    split at h
    · exact absurd h (by simp)
    · rename_i sp2 h2
      obtain ⟨a, b⟩ := elementSlot_coeffs _ _ _ _ h2
      obtain ⟨c, d⟩ := ih _ _ h
      exact ⟨c.trans a, d.trans b⟩

theorem fifthElement_coeffs (s : Str) (sp sp1 : Species)
    (h : fifthElement s sp = Except.ok sp1) :
    sp1.highCoeffs = sp.highCoeffs ∧ sp1.lowCoeffs = sp.lowCoeffs := by
  unfold fifthElement at h
  split at h
  · simp only [Except.ok.injEq] at h
    subst h
    exact addElement_coeffs _ _ _
  · exact absurd h (by simp)

/-- Line 1 leaves the coefficient arrays as they are. -/
theorem thermoLine1_coeffs (m_nasafmt : Bool) (m_line : Nat) (sp sp1 : Species) (s : Str)
    (h : thermoLine1 m_nasafmt m_line sp s = Except.ok sp1) :
    sp1.highCoeffs = sp.highCoeffs ∧ sp1.lowCoeffs = sp.lowCoeffs := by
  unfold thermoLine1 at h
  cases h79 : strAt s 79 with
  | error e => rw [h79] at h; exact absurd h (by simp)
  | ok c79 =>
    rw [h79] at h
    by_cases hc : c79 ≠ '1'
    · simp [hc, illegalThermoLine, throwSyntax] at h
    · simp only [hc, if_false] at h
      cases hn : substrE s 0 24 with
      | error e => rw [hn] at h; exact absurd h (by simp)
      | ok nameid =>
        rw [hn] at h
        simp only [] at h
        cases hv : vecAt (getTokens nameid) 0 with
        | error e => rw [hv] at h; exact absurd h (by simp)
        | ok name =>
          rw [hv] at h
          simp only [] at h
          cases hs : elementSlots s [0, 1, 2, 3]
              { sp with name := name, id := joinId ((getTokens nameid).drop 1) } with
          | error e => rw [hs] at h; exact absurd h (by simp)
          | ok sp2 =>
            rw [hs] at h
            obtain ⟨a, b⟩ := elementSlots_coeffs _ _ _ _ hs
            simp only [] at h
            split at h
            · cases m_nasafmt with
              | false =>
                simp only [if_true] at h
                split at h
                · exact absurd h (by simp)
                · obtain ⟨c, d⟩ := fifthElement_coeffs _ _ _ h
                  exact ⟨c.trans a, d.trans b⟩
              | true =>
                simp only [Bool.true_eq_false, if_false, Except.ok.injEq] at h
                subst h
                exact ⟨a, b⟩
            · exact absurd h (by simp)

/-- C17. For every record that `readThermoRecord` reads successfully into a
    fresh species, `s2`, `s3`, `s4` being the three lines after line 1 and a
    field being 15 columns of a line: the high-temperature array holds the
    values of the fields 0 to 4 of line 2 and 0 to 1 of line 3, the
    low-temperature array those of the fields 2 to 4 of line 3 and 0 to 3 of
    line 4; both arrays have 7 entries and the species is marked valid. -/
theorem thermo_coefficients (UNDEF : Dbl) (m_nasafmt : Bool) (p p1 p4 : CKParser)
    (s1 : Str) (sp : Species)
    (hseek : seekThermoLine1 (p.m_ckfile.length + 3) p = Except.ok (some s1, p1))
    (hread : readThermoRecord UNDEF m_nasafmt p Species.fresh = Except.ok (sp, p4)) :
    sp.highCoeffs =
      [getNumberFromString UNDEF (substr (getCKLine p1).1 (0 * 15) 15),
       getNumberFromString UNDEF (substr (getCKLine p1).1 (1 * 15) 15),
       getNumberFromString UNDEF (substr (getCKLine p1).1 (2 * 15) 15),
       getNumberFromString UNDEF (substr (getCKLine p1).1 (3 * 15) 15),
       getNumberFromString UNDEF (substr (getCKLine p1).1 (4 * 15) 15),
       getNumberFromString UNDEF (substr (getCKLine (getCKLine p1).2.2).1 (0 * 15) 15),
       getNumberFromString UNDEF (substr (getCKLine (getCKLine p1).2.2).1 (1 * 15) 15)] ∧
    sp.lowCoeffs =
      [getNumberFromString UNDEF (substr (getCKLine (getCKLine p1).2.2).1 (2 * 15) 15),
       getNumberFromString UNDEF (substr (getCKLine (getCKLine p1).2.2).1 (3 * 15) 15),
       getNumberFromString UNDEF (substr (getCKLine (getCKLine p1).2.2).1 (4 * 15) 15),
       getNumberFromString UNDEF
         (substr (getCKLine (getCKLine (getCKLine p1).2.2).2.2).1 (0 * 15) 15),
       getNumberFromString UNDEF
         (substr (getCKLine (getCKLine (getCKLine p1).2.2).2.2).1 (1 * 15) 15),
       getNumberFromString UNDEF
         (substr (getCKLine (getCKLine (getCKLine p1).2.2).2.2).1 (2 * 15) 15),
       getNumberFromString UNDEF
         (substr (getCKLine (getCKLine (getCKLine p1).2.2).2.2).1 (3 * 15) 15)] ∧
    sp.highCoeffs.length = 7 ∧ sp.lowCoeffs.length = 7 ∧ sp.valid = 1 := by
  rw [readThermoRecord, hseek] at hread
  simp only [] at hread
  split at hread
  · exact absurd hread (by simp)
  · rename_i sp1 hl1
    obtain ⟨hh, hl⟩ := thermoLine1_coeffs _ _ _ _ _ hl1
    unfold thermoCoeffLines at hread
    split at hread
    · exact absurd hread (by simp)
    · rename_i s2 p2 hc2
      obtain ⟨rfl, rfl⟩ := columnCheck_ok _ _ _ _ hc2
      split at hread
      · exact absurd hread (by simp)
      · rename_i c2 hr2
        have e2 := readCoeffs_ok _ _ _ _ _ hr2
        split at hread
        · exact absurd hread (by simp)
        · rename_i s3 p3 hc3
          obtain ⟨rfl, rfl⟩ := columnCheck_ok _ _ _ _ hc3
          split at hread
          · exact absurd hread (by simp)
          · rename_i c3h hr3h
            have e3h := readCoeffs_ok _ _ _ _ _ hr3h
            split at hread
            · exact absurd hread (by simp)
            · rename_i c3l hr3l
              have e3l := readCoeffs_ok _ _ _ _ _ hr3l
              split at hread
              · exact absurd hread (by simp)
              · rename_i s4 p5 hc4
                obtain ⟨rfl, rfl⟩ := columnCheck_ok _ _ _ _ hc4
                split at hread
                · exact absurd hread (by simp)
                · rename_i c4 hr4
                  have e4 := readCoeffs_ok _ _ _ _ _ hr4
                  simp only [Except.ok.injEq, Prod.mk.injEq] at hread
                  obtain ⟨rfl, _⟩ := hread
                  simp only [hh, hl, Species.fresh, e2, e3h, e3l, e4]
                  simp

end ckr

namespace ckr

/-! ## Line numbers of the thermo lines -/

theorem getCKLine_buf (p : CKParser) : (getCKLine p).2.2.m_buf = [] := by
  unfold getCKLine
  by_cases h : p.m_buf ≠ []
  · rw [if_pos h]
  · rw [if_neg h]
    have h1 : p.m_buf = [] := by simpa using h
    simp only []
    split <;> exact h1

theorem getCKLine_line (p : CKParser) (hbuf : p.m_buf = [])
    (hlen : 6 ≤ (getCKLine p).1.length) : (getCKLine p).2.2.m_line = p.m_line + 1 := by
  unfold getCKLine at hlen ⊢
  have h : ¬ p.m_buf ≠ [] := by simp [hbuf]
  rw [if_neg h] at hlen ⊢
  simp only [] at hlen ⊢
  split
  · rename_i heof
    rw [if_pos heof] at hlen
    have h5 : "<EOF>".toList.length = 5 := rfl
    simp only [h5] at hlen
    omega
  · rfl

theorem seekThermoLine1_buf :
    ∀ (fuel : Nat) (p p1 : CKParser) (s : Str),
      seekThermoLine1 fuel p = Except.ok (some s, p1) → p1.m_buf = [] := by
  intro fuel
  induction fuel with
  | zero => intro p p1 s h; simp [seekThermoLine1] at h
  | succ n ih =>
    intro p p1 s h
    simp only [seekThermoLine1] at h
    split at h
    · simp at h
    · split at h
      · exact ih _ _ _ h
      · simp only [Except.ok.injEq, Prod.mk.injEq] at h
        rw [← h.2]
        exact getCKLine_buf p

theorem columnCheck_error (p : CKParser) (digit : Char)
    (hlen : 79 ≤ (getCKLine p).1.length) (hne : (getCKLine p).1.getD 79 '\x00' ≠ digit) :
    columnCheck p digit =
      Except.error (Failure.syntaxError
        ⟨"column 80 must contain an integer".toList, ((getCKLine p).2.2.m_line : Int)⟩) := by
  unfold columnCheck strAt
  simp only []
  rw [if_pos hlen]
  simp only []
  rw [if_pos hne]
  rfl

theorem columnCheck_len (p p2 : CKParser) (digit : Char) (s : Str)
    (h : columnCheck p digit = Except.ok (s, p2)) : 79 ≤ s.length := by
  obtain ⟨rfl, _⟩ := columnCheck_ok _ _ _ _ h
  unfold columnCheck strAt at h
  by_cases hl : 79 ≤ (getCKLine p).1.length
  · exact hl
  · simp [hl] at h

/-- C18. In a thermo record whose line 1 is found and read, `p1.m_line` being
    the number of line 1: when line 2 has a column 80 and the character there
    is not `2`, `readThermoRecord` fails with the syntax error
    "column 80 must contain an integer" at line `p1.m_line + 1`; when line 2 is
    accepted and line 3 has another character than `3` there, it fails with
    the same error at line `p1.m_line + 2`; when lines 2 and 3 are accepted and
    line 4 has another character than `4` there, at line `p1.m_line + 3`. -/
theorem thermo_column_error (UNDEF : Dbl) (m_nasafmt : Bool) (p p1 : CKParser) (s1 : Str)
    (sp sp1 : Species)
    (hseek : seekThermoLine1 (p.m_ckfile.length + 3) p = Except.ok (some s1, p1))
    (hline1 : thermoLine1 m_nasafmt p1.m_line sp s1 = Except.ok sp1) :
    (79 ≤ (getCKLine p1).1.length → (getCKLine p1).1.getD 79 '\x00' ≠ '2' →
      readThermoRecord UNDEF m_nasafmt p sp =
        Except.error (Failure.syntaxError
          ⟨"column 80 must contain an integer".toList, ((p1.m_line + 1 : Nat) : Int)⟩)) ∧
    (∀ s2 p2 c2, columnCheck p1 '2' = Except.ok (s2, p2) →
      readCoeffs UNDEF p2.m_line s2 [0, 1, 2, 3, 4] = Except.ok c2 →
      79 ≤ (getCKLine p2).1.length → (getCKLine p2).1.getD 79 '\x00' ≠ '3' →
      readThermoRecord UNDEF m_nasafmt p sp =
        Except.error (Failure.syntaxError
          ⟨"column 80 must contain an integer".toList, ((p1.m_line + 2 : Nat) : Int)⟩)) ∧
    (∀ s2 p2 c2 s3 p3 c3h c3l, columnCheck p1 '2' = Except.ok (s2, p2) →
      readCoeffs UNDEF p2.m_line s2 [0, 1, 2, 3, 4] = Except.ok c2 →
      columnCheck p2 '3' = Except.ok (s3, p3) →
      readCoeffs UNDEF p3.m_line s3 [0, 1] = Except.ok c3h →
      readCoeffs UNDEF p3.m_line s3 [2, 3, 4] = Except.ok c3l →
      79 ≤ (getCKLine p3).1.length → (getCKLine p3).1.getD 79 '\x00' ≠ '4' →
      readThermoRecord UNDEF m_nasafmt p sp =
        Except.error (Failure.syntaxError
          ⟨"column 80 must contain an integer".toList, ((p1.m_line + 3 : Nat) : Int)⟩)) := by
  have hbuf1 : p1.m_buf = [] := seekThermoLine1_buf _ _ _ _ hseek
  refine ⟨?_, ?_, ?_⟩
  · intro hlen hne
    rw [readThermoRecord, hseek]
    simp only [hline1]
    unfold thermoCoeffLines
    rw [columnCheck_error p1 '2' hlen hne, getCKLine_line p1 hbuf1 (by omega)]
  · intro s2 p2 c2 hc2 hr2 hlen hne
    have hl2 := columnCheck_len _ _ _ _ hc2
    obtain ⟨e1, e2⟩ := columnCheck_ok _ _ _ _ hc2
    have hbuf2 : p2.m_buf = [] := by rw [e2]; exact getCKLine_buf p1
    have hm2 : p2.m_line = p1.m_line + 1 := by
      rw [e2]; exact getCKLine_line p1 hbuf1 (by rw [← e1]; omega)
    rw [readThermoRecord, hseek]
    simp only [hline1]
    unfold thermoCoeffLines
    simp only [hc2, hr2]
    rw [columnCheck_error p2 '3' hlen hne, getCKLine_line p2 hbuf2 (by omega), hm2]
  · intro s2 p2 c2 s3 p3 c3h c3l hc2 hr2 hc3 hr3h hr3l hlen hne
    have hl2 := columnCheck_len _ _ _ _ hc2
    obtain ⟨e1, e2⟩ := columnCheck_ok _ _ _ _ hc2
    have hbuf2 : p2.m_buf = [] := by rw [e2]; exact getCKLine_buf p1
    have hm2 : p2.m_line = p1.m_line + 1 := by
      rw [e2]; exact getCKLine_line p1 hbuf1 (by rw [← e1]; omega)
    have hl3 := columnCheck_len _ _ _ _ hc3
    obtain ⟨e3, e4⟩ := columnCheck_ok _ _ _ _ hc3
    have hbuf3 : p3.m_buf = [] := by rw [e4]; exact getCKLine_buf p2
    have hm3 : p3.m_line = p2.m_line + 1 := by
      rw [e4]; exact getCKLine_line p2 hbuf2 (by rw [← e3]; omega)
    rw [readThermoRecord, hseek]
    simp only [hline1]
    unfold thermoCoeffLines
    simp only [hc2, hr2, hc3, hr3h, hr3l]
    rw [columnCheck_error p3 '4' hlen hne, getCKLine_line p3 hbuf3 (by omega), hm3, hm2]

set_option maxRecDepth 100000 in
/-- C18, instances: the record of AR with a blank at column 80 of its
    line 2, of its line 3 and of its line 4; line 1 is line 1 of the text. -/
theorem thermo_column_error_witness :
    readThermoRecord exampleUndef false
        (CKParser.new (thermoText arLine1 (arLine2.set 79 ' ') arLine3 arLine4))
        Species.fresh =
      Except.error (Failure.syntaxError
        ⟨"column 80 must contain an integer".toList, ((1 + 1 : Nat) : Int)⟩) ∧
    readThermoRecord exampleUndef false
        (CKParser.new (thermoText arLine1 arLine2 (arLine3.set 79 ' ') arLine4))
        Species.fresh =
      Except.error (Failure.syntaxError
        ⟨"column 80 must contain an integer".toList, ((1 + 2 : Nat) : Int)⟩) ∧
    readThermoRecord exampleUndef false
        (CKParser.new (thermoText arLine1 arLine2 arLine3 (arLine4.set 79 ' ')))
        Species.fresh =
      Except.error (Failure.syntaxError
        ⟨"column 80 must contain an integer".toList, ((1 + 3 : Nat) : Int)⟩) :=
  ⟨(thermo_column_error exampleUndef false
      (CKParser.new (thermoText arLine1 (arLine2.set 79 ' ') arLine3 arLine4))
      (afterLines 1 (CKParser.new (thermoText arLine1 (arLine2.set 79 ' ') arLine3 arLine4)))
      arLine1 Species.fresh arLine1Species rfl rfl).1 (by decide) (by decide),
   (thermo_column_error exampleUndef false
      (CKParser.new (thermoText arLine1 arLine2 (arLine3.set 79 ' ') arLine4))
      (afterLines 1 (CKParser.new (thermoText arLine1 arLine2 (arLine3.set 79 ' ') arLine4)))
      arLine1 Species.fresh arLine1Species rfl rfl).2.1 arLine2
      (afterLines 2 (CKParser.new (thermoText arLine1 arLine2 (arLine3.set 79 ' ') arLine4)))
      [⟨250000000, -8⟩, ⟨0, -8⟩, ⟨0, -8⟩, ⟨0, -8⟩, ⟨0, -8⟩] (by rfl) (by rfl) (by decide) (by decide),
   (thermo_column_error exampleUndef false
      (CKParser.new (thermoText arLine1 arLine2 arLine3 (arLine4.set 79 ' ')))
      (afterLines 1 (CKParser.new (thermoText arLine1 arLine2 arLine3 (arLine4.set 79 ' '))))
      arLine1 Species.fresh arLine1Species rfl rfl).2.2 arLine2
      (afterLines 2 (CKParser.new (thermoText arLine1 arLine2 arLine3 (arLine4.set 79 ' '))))
      [⟨250000000, -8⟩, ⟨0, -8⟩, ⟨0, -8⟩, ⟨0, -8⟩, ⟨0, -8⟩] arLine3
      (afterLines 3 (CKParser.new (thermoText arLine1 arLine2 arLine3 (arLine4.set 79 ' '))))
      [⟨-745375000, -6⟩, ⟨437967400, -8⟩] [⟨250000000, -8⟩, ⟨0, -8⟩, ⟨0, -8⟩]
      (by rfl) (by rfl) (by rfl) (by rfl) (by rfl) (by decide) (by decide)⟩

set_option maxRecDepth 100000 in
/-- C17, instance: the record of AR. -/
theorem thermo_coefficients_witness :
    (seekThermoLine1 (arParser.m_ckfile.length + 3) arParser =
        Except.ok (some arLine1, afterLines 1 arParser) ∧
      readThermoRecord exampleUndef false arParser Species.fresh =
        Except.ok (arSpecies, afterLines 4 arParser)) ∧
    arSpecies.highCoeffs =
      [⟨250000000, -8⟩, ⟨0, -8⟩, ⟨0, -8⟩, ⟨0, -8⟩, ⟨0, -8⟩, ⟨-745375000, -6⟩,
        ⟨437967400, -8⟩] ∧
    arSpecies.lowCoeffs =
      [⟨250000000, -8⟩, ⟨0, -8⟩, ⟨0, -8⟩, ⟨0, -8⟩, ⟨0, -8⟩, ⟨-745375000, -6⟩,
        ⟨436600000, -8⟩] ∧
    arSpecies.highCoeffs.length = 7 ∧ arSpecies.lowCoeffs.length = 7 ∧ arSpecies.valid = 1 :=
  ⟨⟨rfl, rfl⟩,
    thermo_coefficients exampleUndef false arParser (afterLines 1 arParser)
      (afterLines 4 arParser) arLine1 arSpecies rfl rfl⟩

end ckr

namespace ckr

/-! ## What the steps of a reaction line leave unchanged -/

theorem processLeftMarker_frame (m_line : Nat) (rxn rxn1 : Reaction) (sleft sleft1 : Str)
    (h : processLeftMarker m_line rxn sleft = Except.ok (rxn1, sleft1)) :
    rxn1.lines = rxn.lines ∧ rxn1.reactants = rxn.reactants ∧ rxn1.products = rxn.products ∧
      (rxn.isThreeBodyRxn = false →
        (rxn1.isFalloffRxn = true → rxn1.type = RxnType.Falloff) ∧
        (rxn1.isThreeBodyRxn = true → rxn1.type = RxnType.ThreeBody)) := by
  unfold processLeftMarker at h
  simp only [] at h
  repeat' split at h
  all_goals first
    | (simp [throwSyntax] at h; done)
    | (simp only [Except.ok.injEq, Prod.mk.injEq] at h
       obtain ⟨rfl, _⟩ := h
       simp
       try (intro h1 h2; rw [h1] at h2; exact absurd h2 (by decide)))

theorem processReactants_frame (speciesNames : List Str) (m_line : Nat) (rxn rxn1 : Reaction)
    (sleft : Str) (h : processReactants speciesNames m_line rxn sleft = Except.ok rxn1) :
    rxn1.lines = rxn.lines ∧ rxn1.products = rxn.products ∧
      rxn1.isFalloffRxn = rxn.isFalloffRxn ∧ rxn1.isThreeBodyRxn = rxn.isThreeBodyRxn ∧
      rxn1.type = rxn.type ∧ rxn1.reactants = getSpecies sleft ∧
      firstUndeclared speciesNames (getSpecies sleft) = none := by
  unfold processReactants at h
  simp only [] at h
  split at h
  · simp [throwSyntax] at h
  · rename_i hnone
    simp only [Except.ok.injEq] at h
    subst h
    exact ⟨rfl, rfl, rfl, rfl, rfl, rfl, hnone⟩

theorem processArrhenius_fields (m_line : Nat) (log log1 : List LogEntry)
    (rxn rxn3 : Reaction) (sright sright1 : Str)
    (h : processArrhenius m_line log rxn sright = Except.ok (rxn3, log1, sright1)) :
    rxn3.lines = rxn.lines ∧ rxn3.reactants = rxn.reactants ∧ rxn3.products = rxn.products ∧
      rxn3.isFalloffRxn = rxn.isFalloffRxn ∧ rxn3.isThreeBodyRxn = rxn.isThreeBodyRxn ∧
      rxn3.type = rxn.type := by
  unfold processArrhenius at h
  simp only [] at h
  split at h
  · exact absurd h (by simp [throwSyntax])
  · simp only [Except.ok.injEq, Prod.mk.injEq] at h
    obtain ⟨rfl, _, _⟩ := h
    exact ⟨rfl, rfl, rfl, rfl, rfl, rfl⟩

theorem processRightMarker_frame (m_line : Nat) (rxn rxn4 : Reaction) (sright sright1 : Str)
    (h : processRightMarker m_line rxn sright = Except.ok (rxn4, sright1)) :
    rxn4.lines = rxn.lines ∧ rxn4.reactants = rxn.reactants ∧ rxn4.products = rxn.products ∧
      ((rxn.isFalloffRxn = true → rxn.type = RxnType.Falloff) →
        (rxn.isThreeBodyRxn = true → rxn.type = RxnType.ThreeBody) →
        ¬ (rxn4.isFalloffRxn = true ∧ rxn4.isThreeBodyRxn = true)) := by
  unfold processRightMarker at h
  simp only [] at h
  repeat' split at h
  all_goals first
    | (simp [throwSyntax] at h; done)
    | (simp only [Except.ok.injEq, Prod.mk.injEq] at h
       obtain ⟨rfl, _⟩ := h
       refine ⟨rfl, rfl, rfl, ?_⟩
       intro hF hT
       cases hf : rxn.isFalloffRxn <;> cases ht : rxn.isThreeBodyRxn <;> simp_all)

theorem processProducts_frame (speciesNames : List Str) (m_line : Nat) (rxn rxn1 : Reaction)
    (sright : Str) (h : processProducts speciesNames m_line rxn sright = Except.ok rxn1) :
    rxn1.lines = rxn.lines ∧ rxn1.reactants = rxn.reactants ∧
      rxn1.isFalloffRxn = rxn.isFalloffRxn ∧ rxn1.isThreeBodyRxn = rxn.isThreeBodyRxn ∧
      rxn1.products = getSpecies sright ∧
      firstUndeclared speciesNames (getSpecies sright) = none := by
  unfold processProducts at h
  simp only [] at h
  split at h
  · simp [throwSyntax] at h
  · rename_i hnone
    simp only [Except.ok.injEq] at h
    subst h
    exact ⟨rfl, rfl, rfl, rfl, rfl, hnone⟩

theorem firstUndeclared_none (speciesNames : List Str) (l : List RxnSpecies)
    (h : firstUndeclared speciesNames l = none) : ∀ sp ∈ l, sp.name ∈ speciesNames := by
  induction l with
  | nil => intro sp hsp; simp at hsp
  | cons a rest ih =>
    simp only [firstUndeclared] at h
    split at h
    · rename_i ha
      intro sp hsp
      rcases List.mem_cons.1 hsp with rfl | hr
      · exact ha
      · exact ih h sp hr
    · simp at h

/-- What a reaction line that is accepted gives: the source lines of the
    record are kept, the names of its reactants and products are declared
    species, and the two marker flags are not both set when the three-body
    flag of the record was clear. -/
theorem reactionLine_frame (speciesNames : List Str) (m_line : Nat) (log log1 : List LogEntry)
    (rxn r : Reaction) (s : Str)
    (h : reactionLine speciesNames m_line log rxn s = Except.ok (r, log1)) :
    r.lines = rxn.lines ∧
      (∀ sp ∈ r.reactants, sp.name ∈ speciesNames) ∧
      (∀ sp ∈ r.products, sp.name ∈ speciesNames) ∧
      (rxn.isThreeBodyRxn = false → ¬ (r.isFalloffRxn = true ∧ r.isThreeBodyRxn = true)) := by
  unfold reactionLine at h
  split at h
  · simp [throwSyntax] at h
  · rename_i sides hsplit
    split at h
    · simp at h
    · rename_i rxn2 hleft
      unfold reactantSide at hleft
      split at hleft
      · simp at hleft
      · rename_i rxn1 sleft1 hmark
        obtain ⟨a1, a2, a3, a4⟩ := processLeftMarker_frame _ _ _ _ _ hmark
        obtain ⟨b1, b2, b3, b4, b5, b6, b7⟩ := processReactants_frame _ _ _ _ _ hleft
        split at h
        · simp at h
        · rename_i rxn3 log2 sright harr
          obtain ⟨c1, c2, c3, c4, c5, c6⟩ := processArrhenius_fields _ _ _ _ _ _ _ harr
          split at h
          · simp at h
          · rename_i rxn5 hprod
            simp only [Except.ok.injEq, Prod.mk.injEq] at h
            obtain ⟨rfl, _⟩ := h
            unfold productSide at hprod
            split at hprod
            · simp at hprod
            · rename_i rxn4 sright1 hmark2
              obtain ⟨d1, d2, d3, d4⟩ := processRightMarker_frame _ _ _ _ _ hmark2
              obtain ⟨e1, e2, e3, e4, e5, e6⟩ := processProducts_frame _ _ _ _ _ hprod
              refine ⟨?_, ?_, ?_, ?_⟩
              · rw [e1, d1, c1, b1, a1]
              · rw [e2, d2, c2, b6]
                exact firstUndeclared_none _ _ b7
              · rw [e5]
                exact firstUndeclared_none _ _ e6
              · intro hT
                rw [e3, e4]
                have q := a4 hT
                apply d4
                · rw [c4, c6, b3, b5]; exact q.1
                · rw [c5, c6, b4, b5]; exact q.2

end ckr

namespace ckr

/-! ## What auxiliary-data and metadata lines leave unchanged -/

theorem auxEntry_frame (speciesNames : List Str) (p p1 : CKParser)
    (kwindex : List (Str × Int)) (rxn rxn1 : Reaction) (hasAuxData b : Bool) (name data : Str)
    (h : auxEntry speciesNames p kwindex rxn hasAuxData name data = Except.ok (rxn1, p1, b)) :
    (rxn1.lines = rxn.lines ∧ rxn1.reactants = rxn.reactants ∧ rxn1.products = rxn.products ∧
      rxn1.isFalloffRxn = rxn.isFalloffRxn ∧ rxn1.isThreeBodyRxn = rxn.isThreeBodyRxn) ∧
    p1.m_ckfile = p.m_ckfile ∧ (p1.m_buf = p.m_buf ∨ isKeyword p1.m_buf = true) := by
  unfold auxEntry at h
  by_cases h0 : matchKw name "LOW".toList = true
  · rw [if_pos h0] at h
    repeat' ((try simp only [] at h); split at h)
    all_goals first
      | (simp [throwSyntax, missingAuxData] at h; done)
      | (simp only [Except.ok.injEq, Prod.mk.injEq] at h
         obtain ⟨rfl, rfl, _⟩ := h
         simp_all [putCKLine, isKeyword])
  rw [if_neg h0] at h
  by_cases h1 : matchKw name "TROE".toList = true
  · rw [if_pos h1] at h
    repeat' ((try simp only [] at h); split at h)
    all_goals first
      | (simp [throwSyntax, missingAuxData] at h; done)
      | (simp only [Except.ok.injEq, Prod.mk.injEq] at h
         obtain ⟨rfl, rfl, _⟩ := h
         simp_all [putCKLine, isKeyword])
  rw [if_neg h1] at h
  by_cases h2 : matchKw name "SRI".toList = true
  · rw [if_pos h2] at h
    repeat' ((try simp only [] at h); split at h)
    all_goals first
      | (simp [throwSyntax, missingAuxData] at h; done)
      | (simp only [Except.ok.injEq, Prod.mk.injEq] at h
         obtain ⟨rfl, rfl, _⟩ := h
         simp_all [putCKLine, isKeyword])
  rw [if_neg h2] at h
  by_cases h3 : matchKw name "REV".toList = true
  · rw [if_pos h3] at h
    repeat' ((try simp only [] at h); split at h)
    all_goals first
      | (simp [throwSyntax, missingAuxData] at h; done)
      | (simp only [Except.ok.injEq, Prod.mk.injEq] at h
         obtain ⟨rfl, rfl, _⟩ := h
         simp_all [putCKLine, isKeyword])
  rw [if_neg h3] at h
  by_cases h4 : matchKw name "DUP".toList = true
  · rw [if_pos h4] at h
    simp only [Except.ok.injEq, Prod.mk.injEq] at h
    obtain ⟨rfl, rfl, _⟩ := h
    simp_all [putCKLine, isKeyword]
  rw [if_neg h4] at h
  by_cases h5 : matchKw name "END".toList = true
  · rw [if_pos h5] at h
    simp only [Except.ok.injEq, Prod.mk.injEq] at h
    obtain ⟨rfl, rfl, _⟩ := h
    simp_all [putCKLine, isKeyword]
  rw [if_neg h5] at h
  by_cases h6 : matchKw name "LT".toList = true
  · rw [if_pos h6] at h
    repeat' ((try simp only [] at h); split at h)
    all_goals first
      | (simp [throwSyntax, missingAuxData] at h; done)
      | (simp only [Except.ok.injEq, Prod.mk.injEq] at h
         obtain ⟨rfl, rfl, _⟩ := h
         simp_all [putCKLine, isKeyword])
  rw [if_neg h6] at h
  by_cases h7 : matchKw name "RLT".toList = true
  · rw [if_pos h7] at h
    repeat' ((try simp only [] at h); split at h)
    all_goals first
      | (simp [throwSyntax, missingAuxData] at h; done)
      | (simp only [Except.ok.injEq, Prod.mk.injEq] at h
         obtain ⟨rfl, rfl, _⟩ := h
         simp_all [putCKLine, isKeyword])
  rw [if_neg h7] at h
  by_cases h8 : matchKw name "HIGH".toList = true
  · rw [if_pos h8] at h
    repeat' ((try simp only [] at h); split at h)
    all_goals first
      | (simp [throwSyntax, missingAuxData] at h; done)
      | (simp only [Except.ok.injEq, Prod.mk.injEq] at h
         obtain ⟨rfl, rfl, _⟩ := h
         simp_all [putCKLine, isKeyword])
  rw [if_neg h8] at h
  repeat' ((try simp only [] at h); split at h)
  all_goals first
    | (simp [throwSyntax, missingAuxData] at h; done)
    | (simp only [Except.ok.injEq, Prod.mk.injEq] at h
       obtain ⟨rfl, rfl, _⟩ := h
       simp_all [putCKLine, isKeyword])

theorem auxLoop_frame (speciesNames : List Str) :
    ∀ (fuel : Nat) (p p1 : CKParser) (kwindex : List (Str × Int)) (rxn rxn1 : Reaction) (s : Str),
      auxLoop speciesNames fuel p kwindex rxn s = Except.ok (rxn1, p1) →
      (rxn1.lines = rxn.lines ∧ rxn1.reactants = rxn.reactants ∧
        rxn1.products = rxn.products ∧
        rxn1.isFalloffRxn = rxn.isFalloffRxn ∧ rxn1.isThreeBodyRxn = rxn.isThreeBodyRxn) ∧
      p1.m_ckfile = p.m_ckfile ∧ (p1.m_buf = p.m_buf ∨ isKeyword p1.m_buf = true) := by
  intro fuel
  induction fuel with
  | zero => intro p p1 kwindex rxn rxn1 s h; simp [auxLoop] at h
  | succ n ih =>
    intro p p1 kwindex rxn rxn1 s h
    simp only [auxLoop] at h
    split at h
    · simp only [Except.ok.injEq, Prod.mk.injEq] at h
      obtain ⟨rfl, rfl⟩ := h
      exact ⟨⟨rfl, rfl, rfl, rfl, rfl⟩, rfl, Or.inl rfl⟩
    · split at h
      · simp [throwSyntax] at h
      · split at h
        · simp at h
        · rename_i rxn2 p2 hentry
          simp only [Except.ok.injEq, Prod.mk.injEq] at h
          obtain ⟨rfl, rfl⟩ := h
          exact auxEntry_frame _ _ _ _ _ _ _ _ _ _ hentry
        · rename_i rxn2 p2 hentry
          obtain ⟨⟨a1, a2, a3, a4, a5⟩, a6, a7⟩ := auxEntry_frame _ _ _ _ _ _ _ _ _ _ hentry
          obtain ⟨⟨b1, b2, b3, b4, b5⟩, b6, b7⟩ := ih _ _ _ _ _ _ h
          refine ⟨⟨b1.trans a1, b2.trans a2, b3.trans a3, b4.trans a4, b5.trans a5⟩,
            b6.trans a6, ?_⟩
          rcases b7 with b7 | b7
          · rcases a7 with a7 | a7
            · exact Or.inl (b7.trans a7)
            · exact Or.inr (by rw [b7]; exact a7)
          · exact Or.inr b7

theorem assignGroups_names :
    ∀ (l l1 : List RxnSpecies) (g : List (List Group)),
      assignGroups l g = Except.ok l1 → l1.map RxnSpecies.name = l.map RxnSpecies.name := by
  intro l
  induction l with
  | nil =>
    intro l1 g h
    simp only [assignGroups, Except.ok.injEq] at h
    subst h
    rfl
  | cons a rest ih =>
    intro l1 g h
    cases g with
    | nil => simp [assignGroups] at h
    | cons g0 gs =>
      simp only [assignGroups] at h
      split at h
      · simp at h
      · rename_i rest1 hrest
        simp only [Except.ok.injEq] at h
        subst h
        simp [ih _ _ hrest]

theorem metaDataLine_frame (elementNames : List Str) (m_line : Nat) (rxn rxn1 : Reaction)
    (s : Str) (eqloc : Nat)
    (h : metaDataLine elementNames m_line rxn s eqloc = Except.ok rxn1) :
    rxn1.lines = rxn.lines ∧
      rxn1.reactants.map RxnSpecies.name = rxn.reactants.map RxnSpecies.name ∧
      rxn1.products.map RxnSpecies.name = rxn.products.map RxnSpecies.name ∧
      rxn1.isFalloffRxn = rxn.isFalloffRxn ∧ rxn1.isThreeBodyRxn = rxn.isThreeBodyRxn := by
  unfold metaDataLine at h
  simp only [] at h
  split at h
  · simp [throwSyntax] at h
  · split at h
    · simp [throwSyntax] at h
    · split at h
      · simp at h
      · rename_i reactants hre
        split at h
        · simp [throwSyntax] at h
        · split at h
          · simp [throwSyntax] at h
          · split at h
            · simp at h
            · rename_i products hpr
              simp only [Except.ok.injEq] at h
              subst h
              exact ⟨rfl, assignGroups_names _ _ _ hre, assignGroups_names _ _ _ hpr, rfl, rfl⟩

end ckr

namespace ckr

/-! ## The passes of the main loop -/

/-- What one pass of the main loop does: on a new-reaction line the reaction
    in progress, if there is one, is stored with its number and the record
    becomes the one `reactionLine` gives; on any other line nothing is stored,
    a line is added to the source lines of the record, and the species names
    and marker flags of the record stay. -/
theorem sectionLine_cases (speciesNames elementNames : List Str) (st st1 : SectionState)
    (s comment : Str)
    (h : sectionLine speciesNames elementNames st s comment = Except.ok st1) :
    (newReactionLine s = true ∧ st1.nRxns = st.nRxns + 1 ∧
      st1.reactions =
        (if st.nRxns > 0 then st.reactions ++ [{ st.rxn with number := st.nRxns }]
         else st.reactions) ∧
      st1.p.m_ckfile = st.p.m_ckfile ∧ st1.p.m_buf = st.p.m_buf ∧
      ∃ log1, reactionLine speciesNames st.p.m_line st.p.m_log
        (newReaction st.cm s comment) s = Except.ok (st1.rxn, log1)) ∨
    (newReactionLine s = false ∧ st1.nRxns = st.nRxns ∧ st1.reactions = st.reactions ∧
      st1.p.m_ckfile = st.p.m_ckfile ∧
      (st1.p.m_buf = st.p.m_buf ∨ isKeyword st1.p.m_buf = true) ∧
      (∃ l, st1.rxn.lines = st.rxn.lines ++ [l]) ∧
      st1.rxn.reactants.map RxnSpecies.name = st.rxn.reactants.map RxnSpecies.name ∧
      st1.rxn.products.map RxnSpecies.name = st.rxn.products.map RxnSpecies.name ∧
      st1.rxn.isFalloffRxn = st.rxn.isFalloffRxn ∧
      st1.rxn.isThreeBodyRxn = st.rxn.isThreeBodyRxn) := by
  unfold sectionLine at h
  simp only [] at h
  by_cases hpc : s.getD 0 '\x00' = '%'
  · rw [if_pos hpc] at h
    right
    have hn : newReactionLine s = false := by
      unfold newReactionLine
      rw [hpc]
      rfl
    split at h
    · split at h
      · simp at h
      · rename_i rxn1 hmeta
        obtain ⟨m1, m2, m3, m4, m5⟩ := metaDataLine_frame _ _ _ _ _ _ hmeta
        simp only [Except.ok.injEq] at h
        subst h
        exact ⟨hn, rfl, rfl, rfl, Or.inl rfl, ⟨_, by rw [m1]⟩, m2, m3, m4, m5⟩
    · simp only [Except.ok.injEq] at h
      subst h
      exact ⟨hn, rfl, rfl, rfl, Or.inl rfl, ⟨_, rfl⟩, rfl, rfl, rfl, rfl⟩
  · rw [if_neg hpc] at h
    by_cases heq : (find ['='] s).isSome = true
    · rw [if_pos heq] at h
      left
      have hn : newReactionLine s = true := by
        simp only [newReactionLine, heq, Bool.and_true, decide_eq_true_eq]
        exact hpc
      split at h
      · simp at h
      · rename_i rxn1 log1 hline
        simp only [Except.ok.injEq] at h
        subst h
        exact ⟨hn, rfl, rfl, rfl, rfl, log1, hline⟩
    · rw [if_neg heq] at h
      right
      have hn : newReactionLine s = false := by
        rw [Bool.not_eq_true] at heq
        simp only [newReactionLine, heq, Bool.and_false]
      split at h
      · simp at h
      · rename_i rxn1 p1 haux
        unfold auxLine at haux
        obtain ⟨⟨a1, a2, a3, a4, a5⟩, a6, a7⟩ := auxLoop_frame _ _ _ _ _ _ _ _ haux
        simp only [Except.ok.injEq] at h
        subst h
        exact ⟨hn, rfl, rfl, a6, a7, ⟨_, a1⟩, by rw [a2], by rw [a3], a4, a5⟩

/-- A property of reaction records that every accepted new-reaction line
    establishes, and that the number, the source lines and the group
    annotations of a record do not bear on, holds of every reaction that the
    main loop adds to the list. -/
theorem sectionLoop_invariant (speciesNames elementNames : List Str) (P : Reaction → Prop)
    (hnum : ∀ (r : Reaction) (n : Nat), P r → P { r with number := n })
    (hnew : ∀ m log cm s c r log1,
      reactionLine speciesNames m log (newReaction cm s c) s = Except.ok (r, log1) → P r)
    (hkeep : ∀ r r1 : Reaction, P r →
      r1.reactants.map RxnSpecies.name = r.reactants.map RxnSpecies.name →
      r1.products.map RxnSpecies.name = r.products.map RxnSpecies.name →
      r1.isFalloffRxn = r.isFalloffRxn → r1.isThreeBodyRxn = r.isThreeBodyRxn → P r1) :
    ∀ (fuel : Nat) (st : SectionState) (b : Bool) (rs : List Reaction) (p1 : CKParser),
      sectionLoop speciesNames elementNames fuel st = Except.ok (b, rs, p1) → P st.rxn →
      ∀ r ∈ rs, r ∈ st.reactions ∨ P r := by
  intro fuel
  induction fuel with
  | zero => intro st b rs p1 h; simp [sectionLoop] at h
  | succ n ih =>
    intro st b rs p1 h hP r hr
    simp only [sectionLoop] at h
    split at h
    · simp at h
    · rename_i s comment p2 cm1 hskip
      split at h
      · split at h
        · simp only [Except.ok.injEq, Prod.mk.injEq] at h
          obtain ⟨_, rfl, _⟩ := h
          rcases List.mem_append.1 hr with hr | hr
          · exact Or.inl hr
          · right
            rw [List.mem_singleton] at hr
            rw [hr]
            exact hnum _ _ hP
        · simp only [Except.ok.injEq, Prod.mk.injEq] at h
          obtain ⟨_, rfl, _⟩ := h
          exact Or.inl hr
      · split at h
        · simp at h
        · rename_i st1 hline
          rcases sectionLine_cases _ _ _ _ _ _ hline with
            ⟨_, _, hre, _, _, log1, hrl⟩ | ⟨_, _, hre, _, _, _, k1, k2, k3, k4⟩
          · have hP1 : P st1.rxn := hnew _ _ _ _ _ _ _ hrl
            rcases ih st1 b rs p1 h hP1 r hr with hmem | hPr
            · rw [hre] at hmem
              simp only [] at hmem
              split at hmem
              · rcases List.mem_append.1 hmem with hm | hm
                · exact Or.inl hm
                · right
                  rw [List.mem_singleton] at hm
                  rw [hm]
                  exact hnum _ _ hP
              · exact Or.inl hmem
            · exact Or.inr hPr
          · have hP1 : P st1.rxn := hkeep _ _ hP k1 k2 k3 k4
            rcases ih st1 b rs p1 h hP1 r hr with hmem | hPr
            · rw [hre] at hmem
              exact Or.inl hmem
            · exact Or.inr hPr

/-- The same for `readReactionSection`, a fresh record having the property. -/
theorem readReactionSection_invariant (speciesNames elementNames : List Str)
    (P : Reaction → Prop) (hfresh : P Reaction.fresh)
    (hnum : ∀ (r : Reaction) (n : Nat), P r → P { r with number := n })
    (hnew : ∀ m log cm s c r log1,
      reactionLine speciesNames m log (newReaction cm s c) s = Except.ok (r, log1) → P r)
    (hkeep : ∀ r r1 : Reaction, P r →
      r1.reactants.map RxnSpecies.name = r.reactants.map RxnSpecies.name →
      r1.products.map RxnSpecies.name = r.products.map RxnSpecies.name →
      r1.isFalloffRxn = r.isFalloffRxn → r1.isThreeBodyRxn = r.isThreeBodyRxn → P r1)
    (reactions rs : List Reaction) (units u : ReactionUnits) (p p1 : CKParser) (b : Bool)
    (h : readReactionSection speciesNames elementNames reactions units p =
      Except.ok (b, rs, u, p1)) :
    ∀ r ∈ rs, r ∈ reactions ∨ P r := by
  unfold readReactionSection at h
  split at h
  · simp at h
  · simp only [Except.ok.injEq, Prod.mk.injEq] at h
    obtain ⟨_, rfl, _⟩ := h
    exact fun r hr => Or.inl hr
  · simp only [] at h
    split at h
    · simp at h
    · rename_i b1 rs1 p2 hloop
      simp only [Except.ok.injEq, Prod.mk.injEq] at h
      obtain ⟨_, rfl, _⟩ := h
      exact sectionLoop_invariant speciesNames elementNames P hnum hnew hkeep _ _ _ _ _
        hloop hfresh

/-- C16. Every reaction in the list that `readReactionSection` returns is one
    of the list it was given or has not both `isFalloffRxn` and
    `isThreeBodyRxn` set. -/
theorem marker_flags_exclusive (speciesNames elementNames : List Str)
    (reactions rs : List Reaction) (units u : ReactionUnits) (p p1 : CKParser) (b : Bool)
    (h : readReactionSection speciesNames elementNames reactions units p =
      Except.ok (b, rs, u, p1)) :
    ∀ r ∈ rs, r ∈ reactions ∨ ¬ (r.isFalloffRxn = true ∧ r.isThreeBodyRxn = true) := by
  apply readReactionSection_invariant speciesNames elementNames
    (fun r => ¬ (r.isFalloffRxn = true ∧ r.isThreeBodyRxn = true)) (by decide)
    (fun r n hr => hr) ?_ ?_ reactions rs units u p p1 b h
  · intro m log cm s c r log1 hrl
    exact (reactionLine_frame _ _ _ _ _ _ _ hrl).2.2.2 rfl
  · intro r r1 hr _ _ k3 k4
    rw [k3, k4]
    exact hr

end ckr

namespace ckr

/-! ## Species references -/

/-- C16, an instance: a section with a falloff reaction and a three-body
    reaction. -/
theorem marker_flags_exclusive_witness :
    ∃ b rs u p1,
      readReactionSection ["A".toList, "B".toList] [] [] stdUnits
        (CKParser.new "REACTIONS\nA(+M)=B(+M) 1 0 0\nA+M=B+M 1 0 0\nEND\n".toList) =
          Except.ok (b, rs, u, p1) ∧
      rs.map (fun r => (r.isFalloffRxn, r.isThreeBodyRxn)) = [(true, false), (false, true)] ∧
      ∀ r ∈ rs, r ∈ ([] : List Reaction) ∨
        ¬ (r.isFalloffRxn = true ∧ r.isThreeBodyRxn = true) :=
  ⟨_, _, _, _, rfl, rfl,
    marker_flags_exclusive ["A".toList, "B".toList] [] [] _ stdUnits _
      (CKParser.new "REACTIONS\nA(+M)=B(+M) 1 0 0\nA+M=B+M 1 0 0\nEND\n".toList) _ _ rfl⟩

/-- C14 as amended. Every reaction in the list that `readReactionSection`
    returns is one of the list it was given or has only declared species as
    reactants and products. An auxiliary entry `X/v/` that the loop over the
    entries of a line reaches, whose keyword is not a declared species,
    matches none of the keywords and has not occurred before on the line, and
    whose data holds decimal numerals, is no error: the values of `v` are
    stored under the keyword in the other auxiliary data of the reaction, and
    the loop goes on with the rest of the line, so that a line that holds this
    entry alone returns the reaction with these data. -/
theorem undeclared_references (speciesNames elementNames : List Str)
    (reactions rs : List Reaction) (units u : ReactionUnits) (p p1 : CKParser) (b : Bool)
    (h : readReactionSection speciesNames elementNames reactions units p =
      Except.ok (b, rs, u, p1)) :
    (∀ r ∈ rs, r ∈ reactions ∨ ∀ sp ∈ r.reactants ++ r.products, sp.name ∈ speciesNames) ∧
    (∀ (fuel : Nat) (q : CKParser) (kwindex : List (Str × Int)) (rxn : Reaction)
      (X v rest : Str), '/' ∉ X → '/' ∉ v → removeWhiteSpace X ∉ speciesNames →
      (∀ kw ∈ ["LOW".toList, "TROE".toList, "SRI".toList, "REV".toList, "DUP".toList,
        "END".toList, "LT".toList, "RLT".toList, "HIGH".toList],
        matchKw (removeWhiteSpace X) kw = false) →
      mapGet kwindex (removeWhiteSpace X) 0 = 0 →
      (∀ t ∈ getTokens v, decimalText t = true) →
      auxLoop speciesNames (fuel + 1) q kwindex rxn (X ++ '/' :: (v ++ '/' :: rest)) =
        auxLoop speciesNames fuel q (mapSet kwindex (removeWhiteSpace X) 1)
          { rxn with
            otherAuxData :=
              mapSet rxn.otherAuxData (removeWhiteSpace X) ((getTokens v).map atof) } rest ∧
      auxLine speciesNames q rxn (X ++ '/' :: (v ++ ['/'])) =
        Except.ok ({ rxn with
            otherAuxData :=
              mapSet rxn.otherAuxData (removeWhiteSpace X) ((getTokens v).map atof) }, q)) := by
  constructor
  · have key := readReactionSection_invariant speciesNames elementNames
      (fun r => ∀ n ∈ r.reactants.map RxnSpecies.name ++ r.products.map RxnSpecies.name,
        n ∈ speciesNames)
      (by intro n hn; simp [Reaction.fresh] at hn)
      (fun r n hr => hr) ?_ ?_ reactions rs units u p p1 b h
    · intro r hr
      rcases key r hr with hm | hP
      · exact Or.inl hm
      · right
        intro sp hsp
        apply hP
        rcases List.mem_append.1 hsp with hs | hs
        · exact List.mem_append.2 (Or.inl (List.mem_map.2 ⟨sp, hs, rfl⟩))
        · exact List.mem_append.2 (Or.inr (List.mem_map.2 ⟨sp, hs, rfl⟩))
    · intro m log cm s c r log1 hrl n hn
      obtain ⟨_, f2, f3, _⟩ := reactionLine_frame _ _ _ _ _ _ _ hrl
      rcases List.mem_append.1 hn with hs | hs
      · obtain ⟨sp, hsp, rfl⟩ := List.mem_map.1 hs
        exact f2 sp hsp
      · obtain ⟨sp, hsp, rfl⟩ := List.mem_map.1 hs
        exact f3 sp hsp
    · intro r r1 hr k1 k2 _ _
      show ∀ n ∈ r1.reactants.map RxnSpecies.name ++ r1.products.map RxnSpecies.name,
        n ∈ speciesNames
      rw [k1, k2]
      exact hr
  · intro fuel q kwindex rxn X v rest hX hv hdecl hkw hnew _
    have h1 := hkw "LOW".toList (by simp)
    have h2 := hkw "TROE".toList (by simp)
    have h3 := hkw "SRI".toList (by simp)
    have h4 := hkw "REV".toList (by simp)
    have h5 := hkw "DUP".toList (by simp)
    have h6 := hkw "END".toList (by simp)
    have h7 := hkw "LT".toList (by simp)
    have h8 := hkw "RLT".toList (by simp)
    have h9 := hkw "HIGH".toList (by simp)
    have hempty : mapGet ([] : List (Str × Int)) (removeWhiteSpace X) 0 = 0 := by
      simp [mapGet]
    have hlen : (X ++ '/' :: (v ++ ['/'])).length + 2 =
        ((X ++ '/' :: (v ++ ['/'])).length + 0 + 1) + 1 := by omega
    have step : ∀ (n : Nat) (kw0 : List (Str × Int)) (tl : Str),
        mapGet kw0 (removeWhiteSpace X) 0 = 0 →
        auxLoop speciesNames (n + 1) q kw0 rxn (X ++ '/' :: (v ++ '/' :: tl)) =
          auxLoop speciesNames n q (mapSet kw0 (removeWhiteSpace X) 1)
            { rxn with
              otherAuxData :=
                mapSet rxn.otherAuxData (removeWhiteSpace X) ((getTokens v).map atof) }
            tl := by
      intro n kw0 tl hk0
      have he := extractSlashData_entry X v tl hX hv
      rw [auxLoop, he]
      simp only [hk0, auxEntry, h1, h2, h3, h4, h5, h6, h7, h8, h9, hdecl]
      simp
    refine ⟨step fuel kwindex rest hnew, ?_⟩
    unfold auxLine
    rw [hlen, step _ [] [] hempty, auxLoop_nil]

/-- C14, instances of the amended property: a section whose reaction has the
    declared species `A` and `B`, and the entry `X/2.0/` with `X` not
    declared, whose line returns the reaction with the value 2.0 stored under
    `X`. -/
theorem undeclared_references_witness :
    (∃ b rs u p1,
      readReactionSection ["A".toList, "B".toList] [] [] stdUnits
        (CKParser.new "REACTIONS\nA+M=B+M 1 0 0\nX/2.0/\nEND\n".toList) =
          Except.ok (b, rs, u, p1) ∧
      rs.map (fun r => (r.reactants ++ r.products).map RxnSpecies.name) =
        [["A".toList, "B".toList]] ∧
      ∀ r ∈ rs, r ∈ ([] : List Reaction) ∨
        ∀ sp ∈ r.reactants ++ r.products, sp.name ∈ ["A".toList, "B".toList]) ∧
    ('/' ∉ "X".toList ∧ '/' ∉ "2.0".toList ∧
      removeWhiteSpace "X".toList ∉ ["A".toList, "B".toList] ∧
      (∀ kw ∈ ["LOW".toList, "TROE".toList, "SRI".toList, "REV".toList, "DUP".toList,
        "END".toList, "LT".toList, "RLT".toList, "HIGH".toList],
        matchKw (removeWhiteSpace "X".toList) kw = false) ∧
      mapGet ([] : List (Str × Int)) (removeWhiteSpace "X".toList) 0 = 0 ∧
      ∀ t ∈ getTokens "2.0".toList, decimalText t = true) ∧
    auxLine ["A".toList, "B".toList] (CKParser.new []) Reaction.fresh "X/2.0/".toList =
      Except.ok ({ Reaction.fresh with
          otherAuxData := mapSet Reaction.fresh.otherAuxData (removeWhiteSpace "X".toList)
            ((getTokens "2.0".toList).map atof) }, CKParser.new []) ∧
    mapSet Reaction.fresh.otherAuxData (removeWhiteSpace "X".toList)
        ((getTokens "2.0".toList).map atof) = [("X".toList, [⟨20, -1⟩])] :=
  ⟨⟨_, _, _, _, rfl, rfl,
      (undeclared_references ["A".toList, "B".toList] [] [] _ stdUnits _
        (CKParser.new "REACTIONS\nA+M=B+M 1 0 0\nX/2.0/\nEND\n".toList) _ _ rfl).1⟩,
    ⟨by decide, by decide, by decide, by decide, by decide, by decide⟩,
    ((undeclared_references ["A".toList, "B".toList] [] [] _ stdUnits _
      (CKParser.new "REACTIONS\nA+M=B+M 1 0 0\nX/2.0/\nEND\n".toList) _ _ rfl).2
      0 (CKParser.new []) [] Reaction.fresh "X".toList "2.0".toList []
      (by decide) (by decide) (by decide) (by decide) (by decide) (by decide)).2,
    by rfl⟩

end ckr

namespace ckr

/-! ## The loops of the reaction reader end -/

theorem readLine_length :
    ∀ (cs : List Char) (eol : Char) (line : Str),
      (readLine cs eol line).2.1.length ≤ cs.length ∧
      ((readLine cs eol line).2.2.2 = false → (readLine cs eol line).2.1.length < cs.length) := by
  intro cs
  induction cs with
  | nil => intro eol line; simp [readLine]
  | cons c cs ih =>
    intro eol line
    rw [readLine]
    split_ifs <;>
      first
        | exact ⟨Nat.le_succ_of_le (ih eol _).1, fun _ => Nat.lt_succ_of_le (ih eol _).1⟩
        | simp

/-- What `getCKLine` does to the stream: with a line in the buffer, that line
    is returned and the stream is left alone; otherwise either the end of the
    stream is reported or characters are used up. -/
theorem getCKLine_stream (p : CKParser) :
    (getCKLine p).2.2.m_ckfile.length ≤ p.m_ckfile.length ∧
    (p.m_buf ≠ [] → (getCKLine p).1 = p.m_buf ∧ (getCKLine p).2.2.m_ckfile = p.m_ckfile) ∧
    (p.m_buf = [] → (getCKLine p).1 = "<EOF>".toList ∨
      (getCKLine p).2.2.m_ckfile.length < p.m_ckfile.length) := by
  obtain ⟨a, b⟩ := readLine_length p.m_ckfile p.m_last_eol []
  unfold getCKLine
  by_cases h : p.m_buf ≠ []
  · rw [if_pos h]
    exact ⟨Nat.le_refl _, fun _ => ⟨rfl, rfl⟩, fun h0 => absurd h0 h⟩
  · rw [if_neg h]
    simp only []
    by_cases he : (readLine p.m_ckfile p.m_last_eol []).2.2.2 = true
    · rw [if_pos he]
      exact ⟨a, fun h0 => absurd h0 h, fun _ => Or.inl rfl⟩
    · rw [if_neg he]
      have he1 : (readLine p.m_ckfile p.m_last_eol []).2.2.2 = false := by simpa using he
      exact ⟨a, fun h0 => absurd h0 h, fun _ => Or.inr (b he1)⟩

theorem skipBlankLines_total :
    ∀ (fuel : Nat) (p : CKParser) (cm : List Str), p.m_ckfile.length + 1 ≤ fuel →
      ∃ s c p1 cm1, skipBlankLines fuel p cm = Except.ok (s, c, p1, cm1) ∧
        p1.m_buf = [] ∧ p1.m_ckfile.length ≤ p.m_ckfile.length ∧
        (p.m_buf ≠ [] → s = p.m_buf) ∧
        (p.m_buf = [] → s = "<EOF>".toList ∨ p1.m_ckfile.length < p.m_ckfile.length) := by
  intro fuel
  induction fuel with
  | zero => intro p cm h; omega
  | succ n ih =>
    intro p cm h
    obtain ⟨g1, g2, g3⟩ := getCKLine_stream p
    have g0 := getCKLine_buf p
    simp only [skipBlankLines]
    split
    · rename_i hcont
      have hbuf : p.m_buf = [] := by
        by_contra hne
        exact hne ((g2 hne).1 ▸ hcont.1)
      have hlt : (getCKLine p).2.2.m_ckfile.length < p.m_ckfile.length := by
        rcases g3 hbuf with h1 | h1
        · rw [hcont.1] at h1
          exact absurd h1 (by decide)
        · exact h1
      obtain ⟨s, c, p1, cm1, e, i1, i2, _, _⟩ :=
        ih (getCKLine p).2.2 (cm ++ [(getCKLine p).2.1]) (by omega)
      exact ⟨s, c, p1, cm1, e, i1, by omega, fun hne => absurd hbuf hne,
        fun _ => Or.inr (by omega)⟩
    · exact ⟨_, _, _, _, rfl, g0, g1, fun hne => (g2 hne).1, g3⟩

theorem seekReactions_total :
    ∀ (fuel : Nat) (p : CKParser),
      p.m_ckfile.length + (if p.m_buf ≠ [] then 1 else 0) + 1 ≤ fuel →
      ∃ r, seekReactions fuel p = Except.ok r ∧ r.2.m_buf = [] := by
  intro fuel
  induction fuel with
  | zero => intro p h; omega
  | succ n ih =>
    intro p h
    obtain ⟨g1, g2, g3⟩ := getCKLine_stream p
    have g0 := getCKLine_buf p
    simp only [seekReactions]
    split
    · exact ⟨_, rfl, g0⟩
    · rename_i hneof
      split
      · exact ⟨_, rfl, g0⟩
      · apply ih
        rw [g0]
        simp only [ne_eq, not_true_eq_false, if_false]
        by_cases hb : p.m_buf ≠ []
        · rw [if_pos hb] at h
          rw [(g2 hb).2]
          omega
        · have hb1 : p.m_buf = [] := by simpa using hb
          rcases g3 hb1 with h1 | h1
          · rw [h1] at hneof
            exact absurd rfl hneof
          · omega

theorem extractSlashData_rest (s : Str)
    (h : ¬ ((extractSlashData s).1 = false ∧ (extractSlashData s).2.1 = [])) :
    (extractSlashData s).2.2.2.length < s.length := by
  unfold extractSlashData at h ⊢
  rw [List.span_eq_take_drop] at h ⊢
  have e2 := List.takeWhile_append_dropWhile (fun c => decide (c ≠ '/')) s
  have hlen := congrArg List.length e2
  rw [List.length_append] at hlen
  generalize s.takeWhile (fun c => decide (c ≠ '/')) = nm at h hlen ⊢
  generalize s.dropWhile (fun c => decide (c ≠ '/')) = after at h hlen ⊢
  cases after with
  | nil =>
    simp only [] at h ⊢
    have hne : removeWhiteSpace nm ≠ [] := by
      intro h0
      apply h
      simp [h0]
    have hnm : nm ≠ [] := by
      intro h0
      rw [h0] at hne
      exact hne rfl
    have := List.length_pos.2 hnm
    simp only [List.length_nil] at hlen ⊢
    omega
  | cons a after1 =>
    simp only [] at h ⊢
    rw [List.span_eq_take_drop] at h ⊢
    have f2 := List.takeWhile_append_dropWhile (fun c => decide (c ≠ '/')) after1
    have hlen2 := congrArg List.length f2
    rw [List.length_append] at hlen2
    generalize after1.takeWhile (fun c => decide (c ≠ '/')) = dat at h hlen2 ⊢
    generalize after1.dropWhile (fun c => decide (c ≠ '/')) = rest0 at h hlen2 ⊢
    cases rest0 with
    | nil =>
      simp only [] at h ⊢
      simp only [List.length_nil, List.length_cons] at hlen ⊢
      omega
    | cons b rest1 =>
      simp only [] at h ⊢
      simp only [List.length_cons] at hlen hlen2 ⊢
      omega

end ckr

namespace ckr

/-! ## No step of the reaction reader uses up the recursion bound -/

theorem auxEntry_fuel (speciesNames : List Str) (p : CKParser)
    (kwindex : List (Str × Int)) (rxn : Reaction) (hasAuxData : Bool) (name data : Str) :
    auxEntry speciesNames p kwindex rxn hasAuxData name data ≠
      Except.error Failure.outOfFuel := by
  intro h
  unfold auxEntry at h
  by_cases h0 : matchKw name "LOW".toList = true
  · rw [if_pos h0] at h
    repeat' ((try simp only [] at h); split at h)
    all_goals simp [throwSyntax, missingAuxData] at h
  rw [if_neg h0] at h
  by_cases h1 : matchKw name "TROE".toList = true
  · rw [if_pos h1] at h
    repeat' ((try simp only [] at h); split at h)
    all_goals simp [throwSyntax, missingAuxData] at h
  rw [if_neg h1] at h
  by_cases h2 : matchKw name "SRI".toList = true
  · rw [if_pos h2] at h
    repeat' ((try simp only [] at h); split at h)
    all_goals simp [throwSyntax, missingAuxData] at h
  rw [if_neg h2] at h
  by_cases h3 : matchKw name "REV".toList = true
  · rw [if_pos h3] at h
    repeat' ((try simp only [] at h); split at h)
    all_goals simp [throwSyntax, missingAuxData] at h
  rw [if_neg h3] at h
  by_cases h4 : matchKw name "DUP".toList = true
  · rw [if_pos h4] at h
    simp at h
  rw [if_neg h4] at h
  by_cases h5 : matchKw name "END".toList = true
  · rw [if_pos h5] at h
    simp at h
  rw [if_neg h5] at h
  by_cases h6 : matchKw name "LT".toList = true
  · rw [if_pos h6] at h
    repeat' ((try simp only [] at h); split at h)
    all_goals simp [throwSyntax, missingAuxData] at h
  rw [if_neg h6] at h
  by_cases h7 : matchKw name "RLT".toList = true
  · rw [if_pos h7] at h
    repeat' ((try simp only [] at h); split at h)
    all_goals simp [throwSyntax, missingAuxData] at h
  rw [if_neg h7] at h
  by_cases h8 : matchKw name "HIGH".toList = true
  · rw [if_pos h8] at h
    repeat' ((try simp only [] at h); split at h)
    all_goals simp [throwSyntax, missingAuxData] at h
  rw [if_neg h8] at h
  repeat' ((try simp only [] at h); split at h)
  all_goals simp [throwSyntax, missingAuxData] at h

theorem auxLoop_total (speciesNames : List Str) :
    ∀ (fuel : Nat) (p : CKParser) (kwindex : List (Str × Int)) (rxn : Reaction) (s : Str),
      s.length + 1 ≤ fuel →
      auxLoop speciesNames fuel p kwindex rxn s ≠ Except.error Failure.outOfFuel := by
  intro fuel
  induction fuel with
  | zero => intro p kwindex rxn s h; omega
  | succ n ih =>
    intro p kwindex rxn s hlen h
    simp only [auxLoop] at h
    split at h
    · simp at h
    · rename_i hgo
      have hrest := extractSlashData_rest s hgo
      split at h
      · simp [throwSyntax] at h
      · split at h
        · rename_i e hentry
          simp only [Except.error.injEq] at h
          rw [h] at hentry
          exact auxEntry_fuel _ _ _ _ _ _ _ hentry
        · simp at h
        · exact ih _ _ _ _ (by omega) h

theorem processLeftMarker_fuel (m_line : Nat) (rxn : Reaction) (sleft : Str) :
    processLeftMarker m_line rxn sleft ≠ Except.error Failure.outOfFuel := by
  intro h
  unfold processLeftMarker at h
  simp only [] at h
  repeat' split at h
  all_goals simp [throwSyntax] at h

theorem processRightMarker_fuel (m_line : Nat) (rxn : Reaction) (sright : Str) :
    processRightMarker m_line rxn sright ≠ Except.error Failure.outOfFuel := by
  intro h
  unfold processRightMarker at h
  simp only [] at h
  repeat' split at h
  all_goals simp [throwSyntax] at h

theorem reactionLine_fuel (speciesNames : List Str) (m_line : Nat) (log : List LogEntry)
    (rxn : Reaction) (s : Str) :
    reactionLine speciesNames m_line log rxn s ≠ Except.error Failure.outOfFuel := by
  intro h
  unfold reactionLine at h
  split at h
  · simp [throwSyntax] at h
  · split at h
    · rename_i e hleft
      simp only [Except.error.injEq] at h
      subst h
      unfold reactantSide at hleft
      split at hleft
      · rename_i e1 hmark
        simp only [Except.error.injEq] at hleft
        subst hleft
        exact processLeftMarker_fuel _ _ _ hmark
      · unfold processReactants at hleft
        simp only [] at hleft
        split at hleft <;> simp [throwSyntax] at hleft
    · split at h
      · rename_i e harr
        simp only [Except.error.injEq] at h
        subst h
        unfold processArrhenius at harr
        simp only [] at harr
        split at harr <;> simp [throwSyntax] at harr
      · split at h
        · rename_i e hprod
          simp only [Except.error.injEq] at h
          subst h
          unfold productSide at hprod
          split at hprod
          · rename_i e1 hmark
            simp only [Except.error.injEq] at hprod
            subst hprod
            exact processRightMarker_fuel _ _ _ hmark
          · unfold processProducts at hprod
            simp only [] at hprod
            split at hprod <;> simp [throwSyntax] at hprod
        · simp at h

theorem assignGroups_fuel :
    ∀ (l : List RxnSpecies) (g : List (List Group)),
      assignGroups l g ≠ Except.error Failure.outOfFuel := by
  intro l
  induction l with
  | nil => intro g h; simp [assignGroups] at h
  | cons a rest ih =>
    intro g h
    cases g with
    | nil => simp [assignGroups] at h
    | cons g0 gs =>
      simp only [assignGroups] at h
      split at h
      · rename_i e hrest
        simp only [Except.error.injEq] at h
        subst h
        exact ih _ hrest
      · simp at h

theorem metaDataLine_fuel (elementNames : List Str) (m_line : Nat) (rxn : Reaction)
    (s : Str) (eqloc : Nat) :
    metaDataLine elementNames m_line rxn s eqloc ≠ Except.error Failure.outOfFuel := by
  intro h
  unfold metaDataLine at h
  simp only [] at h
  split at h
  · simp [throwSyntax] at h
  · split at h
    · simp [throwSyntax] at h
    · split at h
      · rename_i e hre
        simp only [Except.error.injEq] at h
        subst h
        exact assignGroups_fuel _ _ hre
      · split at h
        · simp [throwSyntax] at h
        · split at h
          · simp [throwSyntax] at h
          · split at h
            · rename_i e hpr
              simp only [Except.error.injEq] at h
              subst h
              exact assignGroups_fuel _ _ hpr
            · simp at h

theorem sectionLine_fuel (speciesNames elementNames : List Str) (st : SectionState)
    (s comment : Str) :
    sectionLine speciesNames elementNames st s comment ≠ Except.error Failure.outOfFuel := by
  intro h
  unfold sectionLine at h
  simp only [] at h
  by_cases hpc : s.getD 0 '\x00' = '%'
  · rw [if_pos hpc] at h
    split at h
    · split at h
      · rename_i e hmeta
        simp only [Except.error.injEq] at h
        subst h
        exact metaDataLine_fuel _ _ _ _ _ hmeta
      · simp at h
    · simp at h
  · rw [if_neg hpc] at h
    by_cases heq : (find ['='] s).isSome = true
    · rw [if_pos heq] at h
      split at h
      · rename_i e hline
        simp only [Except.error.injEq] at h
        subst h
        exact reactionLine_fuel _ _ _ _ _ hline
      · simp at h
    · rw [if_neg heq] at h
      split at h
      · rename_i e haux
        simp only [Except.error.injEq] at h
        subst h
        unfold auxLine at haux
        exact auxLoop_total _ _ _ _ _ _ (by omega) haux
      · simp at h

theorem sectionLoop_total (speciesNames elementNames : List Str) :
    ∀ (fuel : Nat) (st : SectionState),
      (st.p.m_buf = [] ∧ st.p.m_ckfile.length + 2 ≤ fuel) ∨
        (isKeyword st.p.m_buf = true ∧ 1 ≤ fuel) →
      sectionLoop speciesNames elementNames fuel st ≠ Except.error Failure.outOfFuel := by
  intro fuel
  induction fuel with
  | zero => intro st h; omega
  | succ n ih =>
    intro st hst h
    have hk0 : isKeyword [] = false := by decide
    obtain ⟨s, c, p1, cm1, e, i1, i2, i3, i4⟩ :=
      skipBlankLines_total (st.p.m_ckfile.length + 2) st.p st.cm (by omega)
    simp only [sectionLoop, e] at h
    split at h
    · split at h <;> simp at h
    · rename_i hgo
      have hbuf : st.p.m_buf = [] ∧ st.p.m_ckfile.length + 2 ≤ n + 1 := by
        rcases hst with hst | hst
        · exact hst
        · exfalso
          have hne : st.p.m_buf ≠ [] := by
            intro h0
            rw [h0, hk0] at hst
            exact absurd hst.1 (by decide)
          rw [i3 hne] at hgo
          exact hgo (Or.inl hst.1)
      have hlt : p1.m_ckfile.length < st.p.m_ckfile.length := by
        rcases i4 hbuf.1 with h1 | h1
        · exact absurd (Or.inr h1) hgo
        · exact h1
      split at h
      · rename_i e1 hline
        simp only [Except.error.injEq] at h
        subst h
        exact sectionLine_fuel _ _ _ _ _ hline
      · rename_i st1 hline
        apply ih st1 ?_ h
        have hfile : st1.p.m_ckfile = p1.m_ckfile ∧
            (st1.p.m_buf = p1.m_buf ∨ isKeyword st1.p.m_buf = true) := by
          rcases sectionLine_cases _ _ _ _ _ _ hline with
            ⟨_, _, _, a, b, _⟩ | ⟨_, _, _, a, b, _⟩
          · exact ⟨a, Or.inl b⟩
          · exact ⟨a, b⟩
        rcases hfile.2 with hb | hb
        · left
          rw [hb, hfile.1]
          exact ⟨i1, by omega⟩
        · right
          exact ⟨hb, by omega⟩

/-- `readReactionSection` never uses up the recursion bound of the model: on
    every input it returns or fails with an error of the code. -/
theorem readReactionSection_total (speciesNames elementNames : List Str)
    (reactions : List Reaction) (units : ReactionUnits) (p : CKParser) :
    readReactionSection speciesNames elementNames reactions units p ≠
      Except.error Failure.outOfFuel := by
  intro h
  obtain ⟨r, e, hb⟩ := seekReactions_total (p.m_ckfile.length + 2) p (by split <;> omega)
  unfold readReactionSection at h
  rw [e] at h
  obtain ⟨o, p1⟩ := r
  cases o with
  | none => simp at h
  | some s =>
    simp only [] at h
    split at h
    · rename_i e1 hloop
      simp only [Except.error.injEq] at h
      subst h
      exact sectionLoop_total _ _ _ _ (Or.inl ⟨hb, Nat.le_succ _⟩) hloop
    · simp at h

end ckr

namespace ckr

/-! ## The numbers of the reactions -/

theorem numberedFrom_length (l : List (Str × Str)) :
    ∀ k : Nat, (numberedFrom k l).length = l.length := by
  induction l with
  | nil => intro k; rfl
  | cons a rest ih => intro k; simp [numberedFrom, ih]

/-- The main loop from any of its states: the reactions it adds to the list
    are the reaction in progress, if there is one, and one reaction for each
    new-reaction line still to come, in the order of the lines, numbered from
    the number of the reaction in progress on. -/
theorem sectionLoop_numbered (speciesNames elementNames : List Str) :
    ∀ (fuel : Nat) (st : SectionState) (b : Bool) (rs : List Reaction) (p1 : CKParser),
      sectionLoop speciesNames elementNames fuel st = Except.ok (b, rs, p1) →
      (st.nRxns > 0 → st.rxn.lines ≠ []) →
      ∃ added, rs = st.reactions ++ added ∧
        added.map (fun r => (r.number, r.lines.head?)) =
          (if st.nRxns > 0 then [(st.nRxns, st.rxn.lines.head?)] else []) ++
            numberedFrom (st.nRxns + 1)
              ((sectionLines speciesNames elementNames fuel st).filter
                (fun l => newReactionLine l.1)) ∧
        (b = true ↔ 0 < st.nRxns +
          ((sectionLines speciesNames elementNames fuel st).filter
            (fun l => newReactionLine l.1)).length) := by
  intro fuel
  induction fuel with
  | zero => intro st b rs p1 h; simp [sectionLoop] at h
  | succ n ih =>
    intro st b rs p1 h hinv
    simp only [sectionLoop] at h
    simp only [sectionLines]
    cases hskip : skipBlankLines (st.p.m_ckfile.length + 2) st.p st.cm with
    | error e => rw [hskip] at h; simp at h
    | ok r =>
      obtain ⟨s, c, p2, cm1⟩ := r
      rw [hskip] at h
      simp only [] at h ⊢
      by_cases hend : isKeyword s = true ∨ s = "<EOF>".toList
      · rw [if_pos hend] at h
        rw [if_pos hend]
        by_cases hk : st.nRxns > 0
        · rw [if_pos hk] at h
          simp only [Except.ok.injEq, Prod.mk.injEq] at h
          obtain ⟨rfl, rfl, _⟩ := h
          refine ⟨_, rfl, ?_, ?_⟩
          · simp [hk, numberedFrom]
          · simp [hk]
        · rw [if_neg hk] at h
          simp only [Except.ok.injEq, Prod.mk.injEq] at h
          obtain ⟨rfl, rfl, _⟩ := h
          refine ⟨[], by simp, ?_, ?_⟩
          · simp [hk, numberedFrom]
          · simp at hk
            simp [hk]
      · rw [if_neg hend] at h
        rw [if_neg hend]
        cases hline : sectionLine speciesNames elementNames { st with p := p2, cm := cm1 } s c with
        | error e => rw [hline] at h; simp at h
        | ok st1 =>
          rw [hline] at h
          simp only [] at h ⊢
          rcases sectionLine_cases _ _ _ _ _ _ hline with
            ⟨hn, hnr, hre, _, _, log1, hrl⟩ | ⟨hn, hnr, hre, _, _, ⟨l, hl⟩, _⟩
          · have hlines : st1.rxn.lines = [sourceLine s c] :=
              (reactionLine_frame _ _ _ _ _ _ _ hrl).1
            obtain ⟨added1, hrs, hmap, hb⟩ := ih st1 b rs p1 h (fun _ => by rw [hlines]; simp)
            have hpos : st1.nRxns > 0 := by rw [hnr]; exact Nat.succ_pos _
            rw [if_pos hpos, hlines, hnr] at hmap
            rw [hnr] at hb
            simp only [] at hnr hre
            rw [List.filter_cons_of_pos (by simpa using hn)]
            by_cases hk : st.nRxns > 0
            · rw [if_pos hk] at hre
              refine ⟨{ st.rxn with number := st.nRxns } :: added1, ?_, ?_, ?_⟩
              · rw [hrs, hre]; simp
              · rw [if_pos hk]
                simp only [List.map_cons, hmap, numberedFrom]
                simp
              · rw [hb]
                simp only [List.length_cons]
                omega
            · rw [if_neg hk] at hre
              refine ⟨added1, ?_, ?_, ?_⟩
              · rw [hrs, hre]
              · rw [if_neg hk]
                simp only [hmap, numberedFrom]
                simp
              · rw [hb]
                simp only [List.length_cons]
                omega
          · simp only [] at hnr hre hl
            have hinv1 : st1.nRxns > 0 → st1.rxn.lines ≠ [] := by
              intro _
              rw [hl]
              simp
            obtain ⟨added1, hrs, hmap, hb⟩ := ih st1 b rs p1 h hinv1
            rw [hnr] at hmap hb
            rw [List.filter_cons_of_neg (by simpa using hn)]
            refine ⟨added1, ?_, ?_, hb⟩
            · rw [hrs, hre]
            · rw [hmap]
              by_cases hk : st.nRxns > 0
              · rw [if_pos hk, if_pos hk, hl, List.head?_append_of_ne_nil _ (hinv hk)]
              · rw [if_neg hk, if_neg hk]

/-- C15. `readReactionSection` returns or fails with an error of the code
    on every input. When it returns, `n` being the number of new-reaction
    lines among the lines of the section: the list returned is the list given
    followed by `n` reactions, the i-th of them has the number i and the i-th
    new-reaction line as its first source line, and the value returned is true
    exactly when `n` is at least 1, so that with no new-reaction line nothing
    is added and false is returned. -/
theorem reactions_numbered (speciesNames elementNames : List Str)
    (reactions : List Reaction) (units : ReactionUnits) (p : CKParser) :
    readReactionSection speciesNames elementNames reactions units p ≠
      Except.error Failure.outOfFuel ∧
    ∀ b rs u p1,
      readReactionSection speciesNames elementNames reactions units p =
        Except.ok (b, rs, u, p1) →
      ∃ added, rs = reactions ++ added ∧
        added.length =
          ((sectionLinesOf speciesNames elementNames reactions p).filter
            (fun l => newReactionLine l.1)).length ∧
        added.map (fun r => (r.number, r.lines.head?)) =
          numberedFrom 1 ((sectionLinesOf speciesNames elementNames reactions p).filter
            (fun l => newReactionLine l.1)) ∧
        (b = true ↔ 1 ≤ ((sectionLinesOf speciesNames elementNames reactions p).filter
          (fun l => newReactionLine l.1)).length) := by
  refine ⟨readReactionSection_total _ _ _ _ _, ?_⟩
  intro b rs u p1 h
  unfold readReactionSection at h
  unfold sectionLinesOf
  cases hseek : seekReactions (p.m_ckfile.length + 2) p with
  | error e => rw [hseek] at h; simp at h
  | ok r =>
    obtain ⟨o, p2⟩ := r
    rw [hseek] at h
    cases o with
    | none =>
      simp only [Except.ok.injEq, Prod.mk.injEq] at h
      obtain ⟨rfl, rfl, _⟩ := h
      exact ⟨[], by simp, by simp, by simp [numberedFrom], by simp⟩
    | some s =>
      simp only [] at h ⊢
      cases hloop : sectionLoop speciesNames elementNames (p2.m_ckfile.length + 3)
          ⟨p2, Reaction.fresh, [], 0, reactions⟩ with
      | error e => rw [hloop] at h; simp at h
      | ok r2 =>
        obtain ⟨b2, rs2, p3⟩ := r2
        rw [hloop] at h
        simp only [Except.ok.injEq, Prod.mk.injEq] at h
        obtain ⟨rfl, rfl, _⟩ := h
        obtain ⟨added, hrs, hmap, hb⟩ :=
          sectionLoop_numbered speciesNames elementNames _ _ _ _ _ hloop
            (fun h0 => absurd h0 (Nat.lt_irrefl 0))
        simp only [gt_iff_lt, Nat.lt_irrefl, if_false, List.nil_append, Nat.zero_add] at hmap hb
        refine ⟨added, hrs, ?_, hmap, hb⟩
        have := congrArg List.length hmap
        rw [List.length_map, numberedFrom_length] at this
        exact this

/-- C15, instances: a section with two reactions and an auxiliary line, and a
    section without reaction. -/
theorem reactions_numbered_witness :
    (∃ b rs u p1,
      readReactionSection ["A".toList, "B".toList] [] [] stdUnits
        (CKParser.new "REACTIONS\nA=B 1 0 0\nDUP\nB=A 2 0 0\nEND\n".toList) =
          Except.ok (b, rs, u, p1) ∧
      b = true ∧
      rs.map (fun r => (r.number, r.lines.head?)) =
        [(1, some "A=B 1 0 0".toList), (2, some "B=A 2 0 0".toList)] ∧
      (sectionLinesOf ["A".toList, "B".toList] [] []
        (CKParser.new "REACTIONS\nA=B 1 0 0\nDUP\nB=A 2 0 0\nEND\n".toList)).filter
          (fun l => newReactionLine l.1) =
        [("A=B 1 0 0".toList, []), ("B=A 2 0 0".toList, [])] ∧
      ∃ added, rs = [] ++ added ∧
        added.length =
          ((sectionLinesOf ["A".toList, "B".toList] [] []
            (CKParser.new "REACTIONS\nA=B 1 0 0\nDUP\nB=A 2 0 0\nEND\n".toList)).filter
            (fun l => newReactionLine l.1)).length ∧
        added.map (fun r => (r.number, r.lines.head?)) =
          numberedFrom 1 ((sectionLinesOf ["A".toList, "B".toList] [] []
            (CKParser.new "REACTIONS\nA=B 1 0 0\nDUP\nB=A 2 0 0\nEND\n".toList)).filter
            (fun l => newReactionLine l.1)) ∧
        (b = true ↔ 1 ≤ ((sectionLinesOf ["A".toList, "B".toList] [] []
          (CKParser.new "REACTIONS\nA=B 1 0 0\nDUP\nB=A 2 0 0\nEND\n".toList)).filter
          (fun l => newReactionLine l.1)).length)) ∧
    (∃ b rs u p1,
      readReactionSection ["A".toList, "B".toList] [] [] stdUnits
        (CKParser.new "REACTIONS\nEND\n".toList) = Except.ok (b, rs, u, p1) ∧
      b = false ∧ rs = [] ∧
      ∃ added, rs = [] ++ added ∧
        added.length =
          ((sectionLinesOf ["A".toList, "B".toList] [] []
            (CKParser.new "REACTIONS\nEND\n".toList)).filter
            (fun l => newReactionLine l.1)).length ∧
        added.map (fun r => (r.number, r.lines.head?)) =
          numberedFrom 1 ((sectionLinesOf ["A".toList, "B".toList] [] []
            (CKParser.new "REACTIONS\nEND\n".toList)).filter
            (fun l => newReactionLine l.1)) ∧
        (b = true ↔ 1 ≤ ((sectionLinesOf ["A".toList, "B".toList] [] []
          (CKParser.new "REACTIONS\nEND\n".toList)).filter
          (fun l => newReactionLine l.1)).length)) :=
  ⟨⟨_, _, _, _, rfl, rfl, rfl, rfl,
      (reactions_numbered ["A".toList, "B".toList] [] [] stdUnits
        (CKParser.new "REACTIONS\nA=B 1 0 0\nDUP\nB=A 2 0 0\nEND\n".toList)).2 _ _ _ _ rfl⟩,
    ⟨_, _, _, _, rfl, rfl, rfl,
      (reactions_numbered ["A".toList, "B".toList] [] [] stdUnits
        (CKParser.new "REACTIONS\nEND\n".toList)).2 _ _ _ _ rfl⟩⟩

end ckr

namespace ckr

/-! ## The line source -/

/-- C26, the failing input. The line `A`, character 1, `B`, tab, `C`: the
    non-printable character is left out, not replaced by a space, so the
    content has four characters for five and `B` is at position 1 instead
    of 2; the tab is replaced by a space. -/
theorem nonprintable_dropped :
    (getCKLine (CKParser.new ['A', '\x01', 'B', '\t', 'C', '\n'])).1 = "AB C".toList ∧
    ((getCKLine (CKParser.new ['A', '\x01', 'B', '\t', 'C', '\n'])).1.length = 4 ∧
      ['A', '\x01', 'B', '\t', 'C'].length = 5) := by
  exact ⟨rfl, rfl, rfl⟩

/-- C27, the failing input. The lines `a`, `b`, `c` with the terminators CRLF,
    LF, LF: after the carriage return no line feed ends a line any more, so
    the calls return `a` and then the end of the stream, with one line
    counted; with LF after every line they return `a`, `b`, `c` and count
    three lines. -/
theorem mixed_terminators_lose_lines :
    nextContents 4 (CKParser.new "a\r\nb\nc\n".toList) =
      ["a".toList, "<EOF>".toList, "<EOF>".toList, "<EOF>".toList] ∧
    (afterLines 4 (CKParser.new "a\r\nb\nc\n".toList)).m_line = 1 ∧
    nextContents 4 (CKParser.new "a\nb\nc\n".toList) =
      ["a".toList, "b".toList, "c".toList, "<EOF>".toList] ∧
    (afterLines 4 (CKParser.new "a\nb\nc\n".toList)).m_line = 3 := by
  exact ⟨rfl, rfl, rfl, rfl⟩

theorem readLine_visible (eol t : Char) (rest : List Char) (ht : endsLine eol t = true) :
    ∀ (l acc : Str), (∀ c ∈ l, endsLine eol c = false) →
      readLine (l ++ t :: rest) eol acc = (acc ++ visible l, rest, t, false) := by
  have htab : t ≠ '\t' := by
    intro h
    rw [h] at ht
    simp [endsLine] at ht
  have ht1 : t = '\r' ∨ (t = '\n' ∧ eol ≠ '\r') := by
    simpa [endsLine] using ht
  intro l
  induction l with
  | nil =>
    intro acc _
    rw [List.nil_append, readLine]
    rw [if_neg htab, if_pos ht1]
    simp [visible]
  | cons c l ih =>
    intro acc hl
    have hc : endsLine eol c = false := hl c (List.mem_cons_self _ _)
    have hc1 : ¬ (c = '\r' ∨ (c = '\n' ∧ eol ≠ '\r')) := by
      simpa [endsLine] using hc
    rw [List.cons_append, readLine]
    by_cases htb : c = '\t'
    · subst htb
      have h1 : ¬ ((' ' : Char) = '\r' ∨ ((' ' : Char) = '\n' ∧ eol ≠ '\r')) := by
        simp
      rw [if_pos rfl, if_neg h1, ih _ (fun x hx => hl x (List.mem_cons_of_mem _ hx))]
      simp [visible, isPrint]
    · rw [if_neg htb, if_neg hc1, ih _ (fun x hx => hl x (List.mem_cons_of_mem _ hx))]
      by_cases hp : isPrint c = true
      · simp [visible, hp, htb]
      · simp [visible, hp, htb]

theorem find_char (ch : Char) (post : Str) :
    ∀ pre : Str, ch ∉ pre → find [ch] (pre ++ ch :: post) = some pre.length := by
  intro pre
  induction pre with
  | nil => intro _; simp [find, startsWith]
  | cons c pre ih =>
    intro h
    have hc : ch ≠ c := fun h0 => h (h0 ▸ List.mem_cons_self _ _)
    have hpre : ch ∉ pre := fun h0 => h (List.mem_cons_of_mem _ h0)
    rw [List.cons_append, find]
    simp [startsWith, hc, ih hpre]

theorem visible_printable (l : Str) : ∀ c ∈ visible l, isPrint c = true := by
  intro c hc
  unfold visible at hc
  exact (List.mem_filter.1 hc).2

theorem map_printable (l : Str) (h : ∀ c ∈ l, isPrint c = true) :
    l.map (fun c => if isPrint c = true then c else ' ') = l := by
  induction l with
  | nil => rfl
  | cons a l ih =>
    simp only [List.map_cons, h a (List.mem_cons_self _ _), if_true]
    rw [ih (fun c hc => h c (List.mem_cons_of_mem _ hc))]

end ckr

namespace ckr

/-! ## Comments -/

theorem find_char_zero (s : Str) (h : find ['!'] s = some 0) : ∃ x, s = '!' :: x := by
  cases s with
  | nil => simp [find] at h
  | cons c cs =>
    rw [find] at h
    by_cases hs : startsWith ['!'] (c :: cs) = true
    · simp only [startsWith, Bool.and_true, decide_eq_true_eq] at hs
      exact ⟨cs, by rw [hs]⟩
    · rw [if_neg hs] at h
      cases hf : find ['!'] cs with
      | none => rw [hf] at h; simp at h
      | some i => rw [hf] at h; simp at h

theorem visible_of_printable (l : Str) (h : ∀ c ∈ l, isPrint c = true) : visible l = l := by
  induction l with
  | nil => rfl
  | cons a l ih =>
    have ha : isPrint a = true := h a (List.mem_cons_self _ _)
    have hat : a ≠ '\t' := by
      intro h0
      rw [h0] at ha
      exact absurd ha (by decide)
    have ih1 := ih (fun c hc => h c (List.mem_cons_of_mem _ hc))
    unfold visible at ih1 ⊢
    simp only [List.map_cons, if_neg hat]
    rw [List.filter_cons_of_pos ha, ih1]

/-- What `getCKLine` returns from the text `line0` that the character loop has
    read, `line` being that text after the rewriting of a leading `!%`. -/
theorem getCKLine_split (p : CKParser) (line0 rest : Str) (t : Char)
    (hbuf : p.m_buf = [])
    (hread : readLine p.m_ckfile p.m_last_eol [] = (line0, rest, t, false))
    (hprint : ∀ c ∈ line0, isPrint c = true) (line : Str)
    (hline : (∃ tail, line0 = '!' :: '%' :: tail ∧ line = '%' :: ' ' :: tail) ∨
      ((∀ tail, line0 ≠ '!' :: '%' :: tail) ∧ line = line0)) :
    ('!' ∉ line → getCKLine p =
      (line, [], { p with m_ckfile := rest, m_last_eol := t, m_line := p.m_line + 1 })) ∧
    (∀ pre post, line = pre ++ '!' :: post → '!' ∉ pre → getCKLine p =
      (pre, post, { p with m_ckfile := rest, m_last_eol := t, m_line := p.m_line + 1 })) := by
  have hb : ¬ p.m_buf ≠ [] := by simp [hbuf]
  have hundo : (if (decide (find ['!'] line0 = some 0) &&
      decide (line0.getD 1 '\x00' = '%')) = true then '%' :: ' ' :: line0.drop 2 else line0) =
      line := by
    rcases hline with ⟨tail, h0, h1⟩ | ⟨h0, h1⟩
    · rw [h0, h1]
      rfl
    · rw [h1]
      by_cases hu : (decide (find ['!'] line0 = some 0) &&
          decide (line0.getD 1 '\x00' = '%')) = true
      · exfalso
        simp only [Bool.and_eq_true, decide_eq_true_eq] at hu
        obtain ⟨x, hx⟩ := find_char_zero line0 hu.1
        cases x with
        | nil =>
          rw [hx] at hu
          exact absurd hu.2 (by decide)
        | cons y ys =>
          have hy : y = '%' := by
            have := hu.2
            rw [hx] at this
            exact this
          exact h0 ys (by rw [hx, hy])
      · rw [if_neg hu]
  have hicom : (if (decide (find ['!'] line0 = some 0) &&
      decide (line0.getD 1 '\x00' = '%')) = true then find ['!'] line
      else find ['!'] line0) = find ['!'] line := by
    by_cases hu : (decide (find ['!'] line0 = some 0) &&
        decide (line0.getD 1 '\x00' = '%')) = true
    · rw [if_pos hu]
    · rw [if_neg hu]
      rcases hline with ⟨tail, h0, h1⟩ | ⟨h0, h1⟩
      · exfalso
        apply hu
        rw [h0]
        rfl
      · rw [h1]
  have hpl : ∀ c ∈ line, isPrint c = true := by
    rcases hline with ⟨tail, h0, h1⟩ | ⟨h0, h1⟩
    · intro c hc
      rw [h1] at hc
      rcases List.mem_cons.1 hc with rfl | hc
      · decide
      · rcases List.mem_cons.1 hc with rfl | hc
        · decide
        · exact hprint c (by rw [h0]; simp [hc])
    · rw [h1]
      exact hprint
  have hmap := map_printable line hpl
  have key : ∀ o, find ['!'] line = o → getCKLine p =
      (Option.elim o line (fun i => substr line 0 i),
       Option.elim o [] (fun i => substr line (i + 1) (line.length - i - 1)),
       { p with m_ckfile := rest, m_last_eol := t, m_line := p.m_line + 1 }) := by
    intro o ho
    unfold getCKLine
    rw [if_neg hb, hread]
    simp only [hundo, hicom, hmap, Bool.false_eq_true, if_false]
    rw [ho]
    cases o with
    | none => rfl
    | some i => rfl
  constructor
  · intro hno
    rw [key none (find_none_of_not_mem ['!'] line '!' (by simp) hno)]
    rfl
  · intro pre post hsplit hpre
    rw [key (some pre.length) (by rw [hsplit]; exact find_char '!' post pre hpre), hsplit]
    simp [substr, Option.elim]

/-- C25. A physical line `l` that the character loop of `getCKLine` reads up
    to its terminator `t`; `visible l` is the text read (tabs as spaces, other
    non-printable characters left out), which is `l` itself when `l` is
    printable, and `line` is that text with a leading `!%` rewritten to a
    percent sign and a blank. If `line` has no `!`, it is returned whole with
    an empty comment; otherwise the content returned is the text before its
    first `!` and the comment the text after it. The line is counted. -/
theorem comment_split (p : CKParser) (l rest : Str) (t : Char)
    (hbuf : p.m_buf = []) (hfile : p.m_ckfile = l ++ t :: rest)
    (hl : ∀ c ∈ l, endsLine p.m_last_eol c = false)
    (ht : endsLine p.m_last_eol t = true) (line : Str)
    (hline : (∃ tail, visible l = '!' :: '%' :: tail ∧ line = '%' :: ' ' :: tail) ∨
      ((∀ tail, visible l ≠ '!' :: '%' :: tail) ∧ line = visible l)) :
    ((∀ c ∈ l, isPrint c = true) → visible l = l) ∧
    ('!' ∉ line → getCKLine p =
      (line, [], { p with m_ckfile := rest, m_last_eol := t, m_line := p.m_line + 1 })) ∧
    (∀ pre post, line = pre ++ '!' :: post → '!' ∉ pre → getCKLine p =
      (pre, post, { p with m_ckfile := rest, m_last_eol := t, m_line := p.m_line + 1 })) := by
  refine ⟨?_, ?_⟩
  · intro hp
    exact visible_of_printable l hp
  · have hread : readLine p.m_ckfile p.m_last_eol [] = (visible l, rest, t, false) := by
      rw [hfile, readLine_visible p.m_last_eol t rest ht l [] hl]
      rfl
    exact getCKLine_split p (visible l) rest t hbuf hread (visible_printable l) line hline

/-- C25, instances: the lines `!% A=B ! note`, `H O ! elements` and `END`. -/
theorem comment_split_witness :
    getCKLine (CKParser.new "!% A=B ! note\nX".toList) =
      ("%  A=B ".toList, " note".toList, ⟨"X".toList, [], [], 1, '\n', []⟩) ∧
    getCKLine (CKParser.new "H O ! elements\nX".toList) =
      ("H O ".toList, " elements".toList, ⟨"X".toList, [], [], 1, '\n', []⟩) ∧
    getCKLine (CKParser.new "END\nX".toList) =
      ("END".toList, [], ⟨"X".toList, [], [], 1, '\n', []⟩) :=
  ⟨(comment_split (CKParser.new "!% A=B ! note\nX".toList) "!% A=B ! note".toList
      "X".toList '\n' rfl rfl (by decide) (by decide) "%  A=B ! note".toList
      (Or.inl ⟨" A=B ! note".toList, rfl, rfl⟩)).2.2 "%  A=B ".toList " note".toList rfl
      (by decide),
    (comment_split (CKParser.new "H O ! elements\nX".toList) "H O ! elements".toList
      "X".toList '\n' rfl rfl (by decide) (by decide) "H O ! elements".toList
      (Or.inr ⟨by
        intro tail h
        have hh : (visible "H O ! elements".toList).head? = some 'H' := by decide
        rw [h] at hh
        simp at hh, rfl⟩)).2.2
      "H O ".toList " elements".toList rfl (by decide),
    (comment_split (CKParser.new "END\nX".toList) "END".toList
      "X".toList '\n' rfl rfl (by decide) (by decide) "END".toList
      (Or.inr ⟨by
        intro tail h
        have hh : (visible "END".toList).head? = some 'E' := by decide
        rw [h] at hh
        simp at hh, rfl⟩)).2.1 (by decide)⟩

end ckr

namespace ckr

/-! ## advanceToKeyword -/

theorem matchKw_nonempty (s kw : Str) (hkw : kw ≠ []) (h : matchKw s kw = true) : s ≠ [] := by
  intro hs
  cases kw with
  | nil => exact hkw rfl
  | cons k ks =>
    rw [hs] at h
    simp [matchKw, startsWith] at h

theorem getCKLine_putCKLine (p : CKParser) (s c : Str) (hs : s ≠ []) :
    getCKLine (putCKLine p s c) = (s, c, { p with m_buf := [], m_comment := [] }) := by
  unfold getCKLine putCKLine
  simp only []
  rw [if_pos hs]

/-- The loop of `advanceToKeyword` with enough recursion steps for the stream:
    it ends at the first line that stands for the end of the stream or
    matches one of the keywords. -/
theorem advanceLoop_first (kw stop : Str) :
    ∀ (fuel : Nat) (p : CKParser),
      p.m_ckfile.length + (if p.m_buf ≠ [] then 1 else 0) + 1 ≤ fuel →
      ∃ n, (∀ i, i < n → deciding kw stop (lineAt i p).1 = false) ∧
        deciding kw stop (lineAt n p).1 = true ∧
        advanceLoop kw stop fuel p =
          Except.ok
            (if matchKw (lineAt n p).1 "<EOF>".toList = true then
              (false, afterLines (n + 1) p)
            else
              (matchKw (lineAt n p).1 kw,
                putCKLine (afterLines (n + 1) p) (lineAt n p).1 (lineAt n p).2.1)) := by
  intro fuel
  induction fuel with
  | zero => intro p h; omega
  | succ m ih =>
    intro p h
    obtain ⟨g1, g2, g3⟩ := getCKLine_stream p
    have g0 := getCKLine_buf p
    by_cases hd : deciding kw stop (getCKLine p).1 = true
    · refine ⟨0, fun i hi => absurd hi (Nat.not_lt_zero _), hd, ?_⟩
      rw [advanceLoop]
      simp only [lineAt, afterLines]
      by_cases h1 : matchKw (getCKLine p).1 "<EOF>".toList = true
      · rw [if_pos h1, if_pos h1]
      · rw [if_neg h1, if_neg h1]
        by_cases h2 : matchKw (getCKLine p).1 kw = true
        · rw [if_pos h2, h2]
        · rw [if_neg h2]
          have h3 : matchKw (getCKLine p).1 stop = true := by
            simp only [deciding, Bool.or_eq_true] at hd
            rcases hd with (hd | hd) | hd
            · exact absurd hd h1
            · exact absurd hd h2
            · exact hd
          rw [if_pos h3]
          simp only [Bool.not_eq_true] at h2
          rw [h2]
    · have hd1 : deciding kw stop (getCKLine p).1 = false := by simpa using hd
      have hno : matchKw (getCKLine p).1 "<EOF>".toList = false ∧
          matchKw (getCKLine p).1 kw = false ∧ matchKw (getCKLine p).1 stop = false := by
        simp only [deciding, Bool.or_eq_false_iff] at hd1
        exact ⟨hd1.1.1, hd1.1.2, hd1.2⟩
      have hfuel : (getCKLine p).2.2.m_ckfile.length +
          (if (getCKLine p).2.2.m_buf ≠ [] then 1 else 0) + 1 ≤ m := by
        rw [g0]
        simp only [ne_eq, not_true_eq_false, if_false]
        by_cases hb : p.m_buf ≠ []
        · rw [if_pos hb] at h
          rw [(g2 hb).2]
          omega
        · rw [if_neg hb] at h
          have hb1 : p.m_buf = [] := by simpa using hb
          rcases g3 hb1 with h1 | h1
          · rw [h1] at hno
            exact absurd hno.1 (by decide)
          · omega
      obtain ⟨n, hbefore, hat, hres⟩ := ih (getCKLine p).2.2 hfuel
      refine ⟨n + 1, ?_, hat, ?_⟩
      · intro i hi
        cases i with
        | zero => exact hd1
        | succ j => exact hbefore j (Nat.lt_of_succ_lt_succ hi)
      · rw [advanceLoop]
        simp only [hno.1, hno.2.1, hno.2.2, Bool.false_eq_true, if_false]
        exact hres

/-- C28. For a keyword that is not empty, `advanceToKeyword` returns, and the
    lines it reads are the next lines up to the first one that stands for the
    end of the stream or matches `kw` or `stop`: with the end of the stream
    the value is false; with a line that matches `kw` the value is true, the
    line is put back, and the next call of `getCKLine` returns it with its
    comment without reading from the stream; with a line that matches `stop`
    only, the value is false and the line is put back. -/
theorem advanceToKeyword_first_match (kw stop : Str) (hkw : kw ≠ []) (p : CKParser) :
    ∃ n, (∀ i, i < n → deciding kw stop (lineAt i p).1 = false) ∧
      deciding kw stop (lineAt n p).1 = true ∧
      (matchKw (lineAt n p).1 "<EOF>".toList = true →
        advanceToKeyword kw stop p = Except.ok (false, afterLines (n + 1) p)) ∧
      (matchKw (lineAt n p).1 "<EOF>".toList = false → matchKw (lineAt n p).1 kw = true →
        advanceToKeyword kw stop p =
          Except.ok (true,
            putCKLine (afterLines (n + 1) p) (lineAt n p).1 (lineAt n p).2.1) ∧
        getCKLine (putCKLine (afterLines (n + 1) p) (lineAt n p).1 (lineAt n p).2.1) =
          ((lineAt n p).1, (lineAt n p).2.1,
            { afterLines (n + 1) p with m_buf := [], m_comment := [] })) ∧
      (matchKw (lineAt n p).1 "<EOF>".toList = false → matchKw (lineAt n p).1 kw = false →
        advanceToKeyword kw stop p =
          Except.ok (false,
            putCKLine (afterLines (n + 1) p) (lineAt n p).1 (lineAt n p).2.1)) := by
  obtain ⟨n, hbefore, hat, hres⟩ :=
    advanceLoop_first kw stop (p.m_ckfile.length + 2) p (by split <;> omega)
  refine ⟨n, hbefore, hat, ?_, ?_, ?_⟩
  · intro h1
    rw [advanceToKeyword, hres, if_pos h1]
  · intro h1 h2
    have h1n : ¬ matchKw (lineAt n p).1 "<EOF>".toList = true := by
      rw [h1]
      decide
    refine ⟨?_, getCKLine_putCKLine _ _ _ (matchKw_nonempty _ _ hkw h2)⟩
    rw [advanceToKeyword, hres, if_neg h1n, h2]
  · intro h1 h2
    have h1n : ¬ matchKw (lineAt n p).1 "<EOF>".toList = true := by
      rw [h1]
      decide
    rw [advanceToKeyword, hres, if_neg h1n, h2]

/-- C28, an instance: the search for `ELEM` with the stop keyword `SPEC` in a
    stream whose second line is `elements`. -/
theorem advanceToKeyword_first_match_witness :
    "ELEM".toList ≠ [] ∧
    advanceToKeyword "ELEM".toList "SPEC".toList
        (CKParser.new "junk\nelements\nH O\n".toList) =
      Except.ok (true, ⟨"H O\n".toList, "elements".toList, [], 2, '\n', []⟩) ∧
    ∃ n, (∀ i, i < n → deciding "ELEM".toList "SPEC".toList
        (lineAt i (CKParser.new "junk\nelements\nH O\n".toList)).1 = false) ∧
      deciding "ELEM".toList "SPEC".toList
        (lineAt n (CKParser.new "junk\nelements\nH O\n".toList)).1 = true ∧
      (matchKw (lineAt n (CKParser.new "junk\nelements\nH O\n".toList)).1 "<EOF>".toList = true →
        advanceToKeyword "ELEM".toList "SPEC".toList
            (CKParser.new "junk\nelements\nH O\n".toList) =
          Except.ok (false, afterLines (n + 1) (CKParser.new "junk\nelements\nH O\n".toList))) ∧
      (matchKw (lineAt n (CKParser.new "junk\nelements\nH O\n".toList)).1 "<EOF>".toList =
          false →
        matchKw (lineAt n (CKParser.new "junk\nelements\nH O\n".toList)).1 "ELEM".toList = true →
        advanceToKeyword "ELEM".toList "SPEC".toList
            (CKParser.new "junk\nelements\nH O\n".toList) =
          Except.ok (true,
            putCKLine (afterLines (n + 1) (CKParser.new "junk\nelements\nH O\n".toList))
              (lineAt n (CKParser.new "junk\nelements\nH O\n".toList)).1
              (lineAt n (CKParser.new "junk\nelements\nH O\n".toList)).2.1) ∧
        getCKLine
            (putCKLine (afterLines (n + 1) (CKParser.new "junk\nelements\nH O\n".toList))
              (lineAt n (CKParser.new "junk\nelements\nH O\n".toList)).1
              (lineAt n (CKParser.new "junk\nelements\nH O\n".toList)).2.1) =
          ((lineAt n (CKParser.new "junk\nelements\nH O\n".toList)).1,
            (lineAt n (CKParser.new "junk\nelements\nH O\n".toList)).2.1,
            { afterLines (n + 1) (CKParser.new "junk\nelements\nH O\n".toList) with
              m_buf := [], m_comment := [] })) ∧
      (matchKw (lineAt n (CKParser.new "junk\nelements\nH O\n".toList)).1 "<EOF>".toList =
          false →
        matchKw (lineAt n (CKParser.new "junk\nelements\nH O\n".toList)).1 "ELEM".toList =
          false →
        advanceToKeyword "ELEM".toList "SPEC".toList
            (CKParser.new "junk\nelements\nH O\n".toList) =
          Except.ok (false,
            putCKLine (afterLines (n + 1) (CKParser.new "junk\nelements\nH O\n".toList))
              (lineAt n (CKParser.new "junk\nelements\nH O\n".toList)).1
              (lineAt n (CKParser.new "junk\nelements\nH O\n".toList)).2.1)) :=
  ⟨by decide, rfl,
    advanceToKeyword_first_match "ELEM".toList "SPEC".toList (by decide)
      (CKParser.new "junk\nelements\nH O\n".toList)⟩

end ckr

namespace ckr

/-! ## The tokens of the element and species sections -/

theorem tokenLoop_record {σ : Type} (step : σ → Str → Str → σ) (st0 : σ) (comment : Str) :
    ∀ (toks : List Str) (st : σ) (tr : List (Str × Str)),
      st = tr.foldl (fun s t => step s t.1 t.2) st0 →
      (tokenLoop step comment toks st).1 =
        (tokenLoop recordToken comment toks tr).1.foldl (fun s t => step s t.1 t.2) st0 ∧
      (tokenLoop step comment toks st).2 = (tokenLoop recordToken comment toks tr).2 := by
  intro toks
  induction toks with
  | nil => intro st tr h; exact ⟨h, rfl⟩
  | cons tok rest ih =>
    intro st tr h
    simp only [tokenLoop]
    split
    · exact ⟨h, rfl⟩
    · apply ih
      rw [recordToken, List.foldl_append, ← h]
      rfl

theorem tokenLines_record {σ : Type} (step : σ → Str → Str → σ) (st0 : σ) :
    ∀ (fuel : Nat) (firsttok : Bool) (p : CKParser) (st : σ) (tr : List (Str × Str)),
      st = tr.foldl (fun s t => step s t.1 t.2) st0 →
      tokenLines step fuel firsttok p st =
        Except.map (fun r => (r.1.foldl (fun s t => step s t.1 t.2) st0, r.2))
          (tokenLines recordToken fuel firsttok p tr) := by
  intro fuel
  induction fuel with
  | zero => intro firsttok p st tr _; rfl
  | succ n ih =>
    intro firsttok p st tr h
    simp only [tokenLines]
    cases hnext : nextTokenLine (p.m_ckfile.length + 2) p with
    | error e => rfl
    | ok r =>
      obtain ⟨s, comment, toks, p1⟩ := r
      simp only []
      by_cases hk : firsttok = false ∧ isKeyword (toks.headD []) = true
      · rw [if_pos hk, if_pos hk, h]
        rfl
      · rw [if_neg hk, if_neg hk]
        obtain ⟨a, b⟩ := tokenLoop_record step st0 comment
          (if firsttok = true then toks.drop 1 else toks) st tr h
        rw [b]
        by_cases he : (tokenLoop recordToken comment
            (if firsttok = true then toks.drop 1 else toks) tr).2 = true
        · rw [if_pos he, if_pos he, a]
          rfl
        · rw [if_neg he, if_neg he]
          exact ih false p1 _ _ a

theorem tokenSections_record {σ : Type} (kw stop : Str) (step : σ → Str → Str → σ)
    (st0 : σ) :
    ∀ (fuel : Nat) (p : CKParser) (st : σ) (tr : List (Str × Str)),
      st = tr.foldl (fun s t => step s t.1 t.2) st0 →
      tokenSections kw stop step fuel p st =
        Except.map (fun r => (r.1.foldl (fun s t => step s t.1 t.2) st0, r.2))
          (tokenSections kw stop recordToken fuel p tr) := by
  intro fuel
  induction fuel with
  | zero => intro p st tr _; rfl
  | succ n ih =>
    intro p st tr h
    simp only [tokenSections]
    cases hadv : advanceToKeyword kw stop p with
    | error e => rfl
    | ok r =>
      obtain ⟨b, p1⟩ := r
      cases b with
      | false =>
        simp only []
        rw [h]
        rfl
      | true =>
        simp only []
        rw [tokenLines_record step st0 _ true p1 st tr h]
        cases hlines : tokenLines recordToken (p1.m_ckfile.length + 3) true p1 tr with
        | error e => rfl
        | ok r2 =>
          obtain ⟨tr1, p2⟩ := r2
          simp only [Except.map]
          exact ih p2 _ tr1 rfl

/-- The state that the loops of a reader end with is the state that its step
    gives on the tokens handled, in their order. -/
theorem tokenSections_fold {σ : Type} (kw stop : Str) (step : σ → Str → Str → σ)
    (st0 st : σ) (p p1 : CKParser)
    (h : tokenSections kw stop step (2 * p.m_ckfile.length + 4) p st0 = Except.ok (st, p1)) :
    st = (sectionTokens kw stop p).foldl (fun s t => step s t.1 t.2) st0 := by
  rw [tokenSections_record kw stop step st0 _ p st0 [] rfl] at h
  unfold sectionTokens
  cases hrec : tokenSections kw stop recordToken (2 * p.m_ckfile.length + 4) p [] with
  | error e => rw [hrec] at h; simp [Except.map] at h
  | ok r =>
    rw [hrec] at h
    simp only [Except.map, Except.ok.injEq, Prod.mk.injEq] at h
    exact h.1.symm

end ckr

namespace ckr

/-! ## Tables without duplicates -/

theorem firstNames_fold {α τ : Type} (key : α → Str) (tk : τ → Str) (mk : List α → τ → α)
    (hkey : ∀ acc t, key (mk acc t) = tk t) (step : List α → τ → List α)
    (hstep : ∀ acc t, step acc t =
      if acc.any (fun e => decide (key e = tk t)) = true then acc else acc ++ [mk acc t]) :
    ∀ (l : List τ) (acc : List α),
      (l.foldl step acc).map key =
        acc.map key ++ (firstNames (l.map tk)).filter (fun n => decide (n ∉ acc.map key)) := by
  intro l
  induction l with
  | nil => intro acc; simp [firstNames]
  | cons t l ih =>
    intro acc
    rw [List.foldl_cons, ih, hstep]
    simp only [List.map_cons, firstNames]
    by_cases hin : acc.any (fun e => decide (key e = tk t)) = true
    · have hmem : tk t ∈ acc.map key := by
        simp only [List.any_eq_true, decide_eq_true_eq] at hin
        obtain ⟨e, he, hk⟩ := hin
        exact List.mem_map.2 ⟨e, he, hk⟩
      rw [if_pos hin, List.filter_cons_of_neg (by simpa using hmem), List.filter_filter]
      congr 1
      apply List.filter_congr
      intro n _
      by_cases hn : n ∈ acc.map key
      · simp [hn]
      · have : n ≠ tk t := fun h0 => hn (h0 ▸ hmem)
        simp [hn, this]
    · have hmem : tk t ∉ acc.map key := by
        intro hm
        apply hin
        obtain ⟨e, he, hk⟩ := List.mem_map.1 hm
        simp only [List.any_eq_true, decide_eq_true_eq]
        exact ⟨e, he, hk⟩
      rw [if_neg hin, List.filter_cons_of_pos (by simpa using hmem), List.filter_filter]
      simp only [List.map_append, List.map_cons, List.map_nil, hkey, List.append_assoc,
        List.singleton_append]
      congr 2
      apply List.filter_congr
      intro n _
      by_cases hn : n ∈ acc.map key
      · simp [hn]
      · by_cases hnt : n = tk t
        · simp [hnt]
        · simp [hn, hnt]

/-- A table built by adding the entries of a sequence that are not yet in it,
    by name: its names are distinct, every name of the sequence is in it, and
    the entry at a position is the one made, at that position, from the first
    entry of the sequence with its name. -/
theorem table_fold {α τ : Type} (key : α → Str) (tk : τ → Str) (mk : List α → τ → α)
    (hkey : ∀ acc t, key (mk acc t) = tk t) (step : List α → τ → List α)
    (hstep : ∀ acc t, step acc t =
      if acc.any (fun e => decide (key e = tk t)) = true then acc else acc ++ [mk acc t])
    (tr : List τ) :
    ((tr.foldl step []).map key).Nodup ∧
    (∀ t ∈ tr, tk t ∈ (tr.foldl step []).map key) ∧
    (∀ (i : Nat) (x : α), (tr.foldl step [])[i]? = some x →
      ∃ t, tr.find? (fun t => decide (tk t = key x)) = some t ∧
        x = mk ((tr.foldl step []).take i) t) := by
  induction tr using List.reverseRecOn with
  | nil =>
    refine ⟨by simp, by simp, ?_⟩
    intro i x h
    simp at h
  | append_singleton tr t ih =>
    obtain ⟨p1, p2, p3⟩ := ih
    rw [List.foldl_append, List.foldl_cons, List.foldl_nil, hstep]
    by_cases hin : (tr.foldl step []).any (fun e => decide (key e = tk t)) = true
    · rw [if_pos hin]
      have hmem : tk t ∈ (tr.foldl step []).map key := by
        simp only [List.any_eq_true, decide_eq_true_eq] at hin
        obtain ⟨e, he, hk⟩ := hin
        exact List.mem_map.2 ⟨e, he, hk⟩
      refine ⟨p1, ?_, ?_⟩
      · intro t' ht'
        rcases List.mem_append.1 ht' with h1 | h1
        · exact p2 t' h1
        · rw [List.mem_singleton] at h1
          rw [h1]
          exact hmem
      · intro i x hx
        obtain ⟨t0, hf, hx0⟩ := p3 i x hx
        exact ⟨t0, by rw [List.find?_append, hf]; rfl, hx0⟩
    · rw [if_neg hin]
      have hmem : tk t ∉ (tr.foldl step []).map key := by
        intro hm
        apply hin
        obtain ⟨e, he, hk⟩ := List.mem_map.1 hm
        simp only [List.any_eq_true, decide_eq_true_eq]
        exact ⟨e, he, hk⟩
      refine ⟨?_, ?_, ?_⟩
      · rw [List.map_append, List.map_cons, List.map_nil, hkey]
        apply List.Nodup.append p1 (List.nodup_singleton _)
        intro n hn1 hn2
        rw [List.mem_singleton] at hn2
        exact hmem (hn2 ▸ hn1)
      · intro t' ht'
        rw [List.map_append]
        rcases List.mem_append.1 ht' with h1 | h1
        · exact List.mem_append.2 (Or.inl (p2 t' h1))
        · rw [List.mem_singleton] at h1
          rw [h1]
          exact List.mem_append.2 (Or.inr (by simp [hkey]))
      · intro i x hx
        by_cases hi : i < (tr.foldl step []).length
        · rw [List.getElem?_append_left hi] at hx
          obtain ⟨t0, hf, hx0⟩ := p3 i x hx
          refine ⟨t0, by rw [List.find?_append, hf]; rfl, ?_⟩
          rw [List.take_append_of_le_length (Nat.le_of_lt hi)]
          exact hx0
        · have hle : (tr.foldl step []).length ≤ i := Nat.le_of_not_lt hi
          rw [List.getElem?_append_right hle] at hx
          have hi0 : i - (tr.foldl step []).length = 0 := by
            by_contra hne
            have : [mk (tr.foldl step []) t][i - (tr.foldl step []).length]? = none := by
              apply List.getElem?_eq_none
              simp only [List.length_singleton]
              omega
            rw [this] at hx
            exact absurd hx (by simp)
          rw [hi0] at hx
          simp only [List.getElem?_cons_zero, Option.some.injEq] at hx
          have hieq : i = (tr.foldl step []).length := by omega
          refine ⟨t, ?_, ?_⟩
          · have hnone : tr.find? (fun t' => decide (tk t' = key x)) = none := by
              rw [List.find?_eq_none]
              intro t' ht' hk
              simp only [decide_eq_true_eq] at hk
              rw [← hx, hkey] at hk
              exact hmem (hk ▸ p2 t' ht')
            rw [List.find?_append, hnone]
            simp only [Option.none_or, List.find?_cons, List.find?_nil]
            rw [← hx, hkey]
            simp
          · rw [hieq, List.take_left']
            · exact hx.symm
            · rfl

end ckr

namespace ckr

/-! ## The element and species tables -/

theorem nextTokenLine_error :
    ∀ (fuel : Nat) (p : CKParser) (e : Failure),
      nextTokenLine fuel p = Except.error e → e = Failure.outOfFuel := by
  intro fuel
  induction fuel with
  | zero =>
    intro p e h
    simp only [nextTokenLine, Except.error.injEq] at h
    exact h.symm
  | succ n ih =>
    intro p e h
    simp only [nextTokenLine] at h
    split at h
    · exact ih _ _ h
    · simp at h

theorem tokenLines_error {σ : Type} (step : σ → Str → Str → σ) :
    ∀ (fuel : Nat) (firsttok : Bool) (p : CKParser) (st : σ) (e : Failure),
      tokenLines step fuel firsttok p st = Except.error e → e = Failure.outOfFuel := by
  intro fuel
  induction fuel with
  | zero =>
    intro firsttok p st e h
    simp only [tokenLines, Except.error.injEq] at h
    exact h.symm
  | succ n ih =>
    intro firsttok p st e h
    simp only [tokenLines] at h
    cases hnext : nextTokenLine (p.m_ckfile.length + 2) p with
    | error e1 =>
      rw [hnext] at h
      simp only [Except.error.injEq] at h
      rw [← h]
      exact nextTokenLine_error _ _ _ hnext
    | ok r =>
      obtain ⟨s, comment, toks, p1⟩ := r
      rw [hnext] at h
      simp only [] at h
      by_cases hk : firsttok = false ∧ isKeyword (toks.headD []) = true
      · rw [if_pos hk] at h
        simp at h
      · rw [if_neg hk] at h
        by_cases he : (tokenLoop step comment
            (if firsttok = true then toks.drop 1 else toks) st).2 = true
        · rw [if_pos he] at h
          simp at h
        · rw [if_neg he] at h
          exact ih _ _ _ _ h

theorem advanceLoop_error (kw stop : Str) :
    ∀ (fuel : Nat) (p : CKParser) (e : Failure),
      advanceLoop kw stop fuel p = Except.error e → e = Failure.outOfFuel := by
  intro fuel
  induction fuel with
  | zero =>
    intro p e h
    simp only [advanceLoop, Except.error.injEq] at h
    exact h.symm
  | succ n ih =>
    intro p e h
    simp only [advanceLoop] at h
    split at h
    · simp at h
    · split at h
      · simp at h
      · split at h
        · simp at h
        · exact ih _ _ h

theorem tokenSections_error {σ : Type} (kw stop : Str) (step : σ → Str → Str → σ) :
    ∀ (fuel : Nat) (p : CKParser) (st : σ) (e : Failure),
      tokenSections kw stop step fuel p st = Except.error e → e = Failure.outOfFuel := by
  intro fuel
  induction fuel with
  | zero =>
    intro p st e h
    simp only [tokenSections, Except.error.injEq] at h
    exact h.symm
  | succ n ih =>
    intro p st e h
    simp only [tokenSections] at h
    cases hadv : advanceToKeyword kw stop p with
    | error e1 =>
      rw [hadv] at h
      simp only [Except.error.injEq] at h
      rw [← h]
      exact advanceLoop_error _ _ _ _ _ hadv
    | ok r =>
      obtain ⟨b, p1⟩ := r
      rw [hadv] at h
      cases b with
      | false => simp at h
      | true =>
        simp only [] at h
        cases hl : tokenLines step (p1.m_ckfile.length + 3) true p1 st with
        | error e1 =>
          rw [hl] at h
          simp only [Except.error.injEq] at h
          rw [← h]
          exact tokenLines_error _ _ _ _ _ _ hl
        | ok r1 =>
          obtain ⟨st1, p2⟩ := r1
          rw [hl] at h
          exact ih _ _ _ h

theorem readElementSection_error (defaultWeight : Str → Dbl)
    (validElements : List Element → Bool) (p : CKParser) (e : CK_SyntaxError) :
    readElementSection defaultWeight validElements p ≠
      Except.error (Failure.syntaxError e) := by
  intro h
  unfold readElementSection at h
  cases hs : tokenSections "ELEM".toList "SPEC".toList (addElementToken defaultWeight)
      (2 * p.m_ckfile.length + 4) p [] with
  | error e1 =>
    rw [hs] at h
    simp only [Except.error.injEq] at h
    have := tokenSections_error _ _ _ _ _ _ _ hs
    rw [h] at this
    exact absurd this (by simp)
  | ok r =>
    rw [hs] at h
    simp only [] at h
    split at h <;> simp at h

theorem readSpeciesSection_error (p : CKParser) (species : List Species)
    (e : CK_SyntaxError) :
    readSpeciesSection p species ≠ Except.error (Failure.syntaxError e) := by
  intro h
  unfold readSpeciesSection at h
  cases hs : tokenSections "SPEC".toList "THER".toList addSpeciesToken
      (2 * p.m_ckfile.length + 4) p (species, 0) with
  | error e1 =>
    rw [hs] at h
    simp only [Except.error.injEq] at h
    have := tokenSections_error _ _ _ _ _ _ _ hs
    rw [h] at this
    exact absurd this (by simp)
  | ok r =>
    rw [hs] at h
    simp at h

theorem addElementToken_step (defaultWeight : Str → Dbl) (acc : List Element)
    (t : Str × Str) :
    addElementToken defaultWeight acc t.1 t.2 =
      if acc.any (fun e => decide (e.name = tokenName t.1)) = true then acc
      else acc ++ [elementOfToken defaultWeight t.1 t.2 acc.length] := rfl

/-- The element list is the table built from the tokens of the sections. -/
theorem readElementSection_fold (defaultWeight : Str → Dbl)
    (validElements : List Element → Bool) (p p1 : CKParser) (b : Bool) (els : List Element)
    (h : readElementSection defaultWeight validElements p = Except.ok (b, els, p1)) :
    els = (sectionTokens "ELEM".toList "SPEC".toList p).foldl
      (fun s t => addElementToken defaultWeight s t.1 t.2) [] := by
  unfold readElementSection at h
  cases hs : tokenSections "ELEM".toList "SPEC".toList (addElementToken defaultWeight)
      (2 * p.m_ckfile.length + 4) p [] with
  | error e => rw [hs] at h; simp at h
  | ok r =>
    obtain ⟨els1, p2⟩ := r
    rw [hs] at h
    have hf := tokenSections_fold _ _ _ _ _ _ _ hs
    simp only [] at h
    split at h <;>
      (simp only [Except.ok.injEq, Prod.mk.injEq] at h
       rw [← h.2.1]
       exact hf)

/-- The species list with its counter is the table built from the tokens. -/
theorem addSpeciesToken_fold (tr : List (Str × Str)) :
    tr.foldl (fun s t => addSpeciesToken s t.1 t.2) ([], 0) =
      (tr.foldl (fun acc t =>
          if acc.any (fun e => decide (e.name = t.1)) = true then acc
          else acc ++ [{ Species.fresh with name := t.1,
                                            index := ((acc.length + 1 : Nat) : Int) }]) [],
        (tr.foldl (fun acc t =>
          if acc.any (fun e => decide (e.name = t.1)) = true then acc
          else acc ++ [{ Species.fresh with name := t.1,
                                            index := ((acc.length + 1 : Nat) : Int) }])
          []).length) := by
  induction tr using List.reverseRecOn with
  | nil => rfl
  | append_singleton tr t ih =>
    rw [List.foldl_append, List.foldl_append, ih]
    simp only [List.foldl_cons, List.foldl_nil, addSpeciesToken, Species.same]
    split
    · rfl
    · simp

theorem readSpeciesSection_fold (p p1 : CKParser) (b : Bool) (sps : List Species)
    (h : readSpeciesSection p [] = Except.ok (b, sps, p1)) :
    sps = (sectionTokens "SPEC".toList "THER".toList p).foldl (fun acc t =>
      if acc.any (fun e => decide (e.name = t.1)) = true then acc
      else acc ++ [{ Species.fresh with name := t.1,
                                        index := ((acc.length + 1 : Nat) : Int) }]) [] := by
  unfold readSpeciesSection at h
  cases hs : tokenSections "SPEC".toList "THER".toList addSpeciesToken
      (2 * p.m_ckfile.length + 4) p ([], 0) with
  | error e => rw [hs] at h; simp at h
  | ok r =>
    obtain ⟨st, p2⟩ := r
    rw [hs] at h
    have hf := tokenSections_fold _ _ _ _ _ _ _ hs
    rw [addSpeciesToken_fold] at hf
    simp only [Except.ok.injEq, Prod.mk.injEq] at h
    rw [← h.2.1, hf]

/-- C29. When the atomic weights given with the element tokens are decimal
    numerals: the element list that `readElementSection` returns has distinct
    names, in the order in which the names first occur among the tokens of
    the sections, and the entry at position `i` is the element made from the
    first token with its name and the comment of that token's line. The
    species list that `readSpeciesSection` returns from an empty list has
    distinct names in the order of their first occurrence, and an entry holds
    nothing but its name and its index. Neither reader raises a syntax
    error. -/
theorem first_occurrence_tables (defaultWeight : Str → Dbl)
    (validElements : List Element → Bool) (p p1 q q1 : CKParser) (b b1 : Bool)
    (els : List Element) (sps : List Species)
    (_hdec : ∀ t ∈ sectionTokens "ELEM".toList "SPEC".toList p,
      (extractSlashData t.1).1 = true → decimalField (extractSlashData t.1).2.2.1 = true) :
    (readElementSection defaultWeight validElements p = Except.ok (b, els, p1) →
      (els.map Element.name).Nodup ∧
      els.map Element.name =
        firstNames ((sectionTokens "ELEM".toList "SPEC".toList p).map
          (fun t => tokenName t.1)) ∧
      ∀ (i : Nat) (x : Element), els[i]? = some x →
        ∃ tok c, (sectionTokens "ELEM".toList "SPEC".toList p).find?
            (fun t => decide (tokenName t.1 = x.name)) = some (tok, c) ∧
          x = elementOfToken defaultWeight tok c i) ∧
    (readSpeciesSection q [] = Except.ok (b1, sps, q1) →
      (sps.map Species.name).Nodup ∧
      sps.map Species.name =
        firstNames ((sectionTokens "SPEC".toList "THER".toList q).map (fun t => t.1)) ∧
      ∀ (i : Nat) (x : Species), sps[i]? = some x →
        (∃ c, (x.name, c) ∈ sectionTokens "SPEC".toList "THER".toList q) ∧
        x = { Species.fresh with name := x.name, index := ((i + 1 : Nat) : Int) }) ∧
    (∀ e, readElementSection defaultWeight validElements p ≠
      Except.error (Failure.syntaxError e)) ∧
    (∀ e, readSpeciesSection q [] ≠ Except.error (Failure.syntaxError e)) := by
  refine ⟨?_, ?_, fun e => readElementSection_error _ _ _ e,
    fun e => readSpeciesSection_error _ _ e⟩
  · intro h
    have hf := readElementSection_fold _ _ _ _ _ _ h
    obtain ⟨t1, _, t3⟩ := table_fold Element.name (fun t : Str × Str => tokenName t.1)
      (fun acc t => elementOfToken defaultWeight t.1 t.2 acc.length) (fun _ _ => rfl)
      (fun s t => addElementToken defaultWeight s t.1 t.2)
      (fun acc t => addElementToken_step defaultWeight acc t)
      (sectionTokens "ELEM".toList "SPEC".toList p)
    have t0 := firstNames_fold Element.name (fun t : Str × Str => tokenName t.1)
      (fun acc t => elementOfToken defaultWeight t.1 t.2 acc.length) (fun _ _ => rfl)
      (fun s t => addElementToken defaultWeight s t.1 t.2)
      (fun acc t => addElementToken_step defaultWeight acc t)
      (sectionTokens "ELEM".toList "SPEC".toList p) []
    rw [← hf] at t1 t3 t0
    refine ⟨t1, by simpa using t0, ?_⟩
    intro i x hx
    obtain ⟨t, hfind, hxe⟩ := t3 i x hx
    refine ⟨t.1, t.2, hfind, ?_⟩
    have hlt : i < els.length := by
      by_contra hge
      rw [List.getElem?_eq_none (Nat.le_of_not_lt hge)] at hx
      exact absurd hx (by simp)
    rw [hxe, List.length_take, Nat.min_eq_left (Nat.le_of_lt hlt)]
  · intro h
    have hf := readSpeciesSection_fold _ _ _ _ h
    obtain ⟨t1, _, t3⟩ := table_fold Species.name (fun t : Str × Str => t.1)
      (fun acc t => { Species.fresh with name := t.1,
                                         index := ((acc.length + 1 : Nat) : Int) })
      (fun _ _ => rfl)
      (fun acc t =>
        if acc.any (fun e => decide (e.name = t.1)) = true then acc
        else acc ++ [{ Species.fresh with name := t.1,
                                          index := ((acc.length + 1 : Nat) : Int) }])
      (fun _ _ => rfl)
      (sectionTokens "SPEC".toList "THER".toList q)
    have t0 := firstNames_fold Species.name (fun t : Str × Str => t.1)
      (fun acc t => { Species.fresh with name := t.1,
                                         index := ((acc.length + 1 : Nat) : Int) })
      (fun _ _ => rfl)
      (fun acc t =>
        if acc.any (fun e => decide (e.name = t.1)) = true then acc
        else acc ++ [{ Species.fresh with name := t.1,
                                          index := ((acc.length + 1 : Nat) : Int) }])
      (fun _ _ => rfl)
      (sectionTokens "SPEC".toList "THER".toList q) []
    rw [← hf] at t1 t3 t0
    refine ⟨t1, by simpa using t0, ?_⟩
    intro i x hx
    obtain ⟨t, hfind, hxe⟩ := t3 i x hx
    have hlt : i < sps.length := by
      by_contra hge
      rw [List.getElem?_eq_none (Nat.le_of_not_lt hge)] at hx
      exact absurd hx (by simp)
    rw [List.length_take, Nat.min_eq_left (Nat.le_of_lt hlt)] at hxe
    have hmem := List.mem_of_find?_eq_some hfind
    have hname : t.1 = x.name := by
      have := List.find?_some hfind
      simpa using this
    refine ⟨⟨t.2, ?_⟩, ?_⟩
    · rw [← hname]
      exact hmem
    · rw [← hname]
      exact hxe

/-- C30. In the element list that `readElementSection` returns, the element at
    position `i` has the index `i`; in the species list that
    `readSpeciesSection` returns from an empty list, the species at position
    `i` has the index `i + 1`. -/
theorem table_indices (defaultWeight : Str → Dbl)
    (validElements : List Element → Bool) (p p1 q q1 : CKParser) (b b1 : Bool)
    (els : List Element) (sps : List Species) :
    (readElementSection defaultWeight validElements p = Except.ok (b, els, p1) →
      ∀ (i : Nat) (x : Element), els[i]? = some x → x.index = (i : Int)) ∧
    (readSpeciesSection q [] = Except.ok (b1, sps, q1) →
      ∀ (i : Nat) (x : Species), sps[i]? = some x → x.index = ((i + 1 : Nat) : Int)) := by
  constructor
  · intro h i x hx
    have hf := readElementSection_fold _ _ _ _ _ _ h
    obtain ⟨_, _, t3⟩ := table_fold Element.name (fun t : Str × Str => tokenName t.1)
      (fun acc t => elementOfToken defaultWeight t.1 t.2 acc.length) (fun _ _ => rfl)
      (fun s t => addElementToken defaultWeight s t.1 t.2)
      (fun acc t => addElementToken_step defaultWeight acc t)
      (sectionTokens "ELEM".toList "SPEC".toList p)
    rw [← hf] at t3
    obtain ⟨t, _, hxe⟩ := t3 i x hx
    have hlt : i < els.length := by
      by_contra hge
      rw [List.getElem?_eq_none (Nat.le_of_not_lt hge)] at hx
      exact absurd hx (by simp)
    rw [hxe, List.length_take, Nat.min_eq_left (Nat.le_of_lt hlt)]
    rfl
  · intro h i x hx
    have hf := readSpeciesSection_fold _ _ _ _ h
    obtain ⟨_, _, t3⟩ := table_fold Species.name (fun t : Str × Str => t.1)
      (fun acc t => { Species.fresh with name := t.1,
                                         index := ((acc.length + 1 : Nat) : Int) })
      (fun _ _ => rfl)
      (fun acc t =>
        if acc.any (fun e => decide (e.name = t.1)) = true then acc
        else acc ++ [{ Species.fresh with name := t.1,
                                          index := ((acc.length + 1 : Nat) : Int) }])
      (fun _ _ => rfl)
      (sectionTokens "SPEC".toList "THER".toList q)
    rw [← hf] at t3
    obtain ⟨t, _, hxe⟩ := t3 i x hx
    have hlt : i < sps.length := by
      by_contra hge
      rw [List.getElem?_eq_none (Nat.le_of_not_lt hge)] at hx
      exact absurd hx (by simp)
    rw [hxe, List.length_take, Nat.min_eq_left (Nat.le_of_lt hlt)]

end ckr

namespace ckr

set_option maxRecDepth 100000 in
/-- C29, an instance: the head of a mechanism in which the element `H` and the
    species `H2` are named twice, the element the second time with the weight
    2.0. -/
theorem first_occurrence_tables_witness :
    ∃ (b : Bool) (els : List Element) (p1 : CKParser) (b1 : Bool) (sps : List Species)
        (q1 : CKParser),
      (sectionTokens "ELEM".toList "SPEC".toList (CKParser.new headText)).map (fun t => t.1) =
        ["H".toList, "O".toList, "H/2.0/".toList, "N/14.0/".toList] ∧
      (∀ t ∈ sectionTokens "ELEM".toList "SPEC".toList (CKParser.new headText),
        (extractSlashData t.1).1 = true →
          decimalField (extractSlashData t.1).2.2.1 = true) ∧
      readElementSection exampleWeight exampleValid (CKParser.new headText) =
        Except.ok (b, els, p1) ∧
      readSpeciesSection (afterLines 3 (CKParser.new headText)) [] =
        Except.ok (b1, sps, q1) ∧
      els.map Element.name = ["H".toList, "O".toList, "N".toList] ∧
      els.map Element.atomicWeight = [⟨100797, -5⟩, ⟨159994, -4⟩, ⟨140, -1⟩] ∧
      sps.map Species.name = ["H2".toList, "O2".toList, "H2O".toList] ∧
      ((els.map Element.name).Nodup ∧
        els.map Element.name =
          firstNames ((sectionTokens "ELEM".toList "SPEC".toList
            (CKParser.new headText)).map (fun t => tokenName t.1)) ∧
        ∀ (i : Nat) (x : Element), els[i]? = some x →
          ∃ tok c, (sectionTokens "ELEM".toList "SPEC".toList (CKParser.new headText)).find?
              (fun t => decide (tokenName t.1 = x.name)) = some (tok, c) ∧
            x = elementOfToken exampleWeight tok c i) ∧
      ((sps.map Species.name).Nodup ∧
        sps.map Species.name =
          firstNames ((sectionTokens "SPEC".toList "THER".toList
            (afterLines 3 (CKParser.new headText))).map (fun t => t.1)) ∧
        ∀ (i : Nat) (x : Species), sps[i]? = some x →
          (∃ c, (x.name, c) ∈ sectionTokens "SPEC".toList "THER".toList
            (afterLines 3 (CKParser.new headText))) ∧
          x = { Species.fresh with name := x.name, index := ((i + 1 : Nat) : Int) }) :=
  ⟨_, _, _, _, _, _, rfl, by decide, rfl, rfl, rfl, rfl, rfl,
    (first_occurrence_tables exampleWeight exampleValid (CKParser.new headText) _
      (CKParser.new headText) (CKParser.new headText) _ false _ [] (by decide)).1 rfl,
    (first_occurrence_tables exampleWeight exampleValid (CKParser.new headText)
      (CKParser.new headText) (afterLines 3 (CKParser.new headText)) _ false _ [] _
      (by decide)).2.1 rfl⟩

set_option maxRecDepth 100000 in
theorem table_indices_witness :
    ∃ (b : Bool) (els : List Element) (p1 : CKParser) (b1 : Bool) (sps : List Species)
        (q1 : CKParser),
      readElementSection exampleWeight exampleValid (CKParser.new headText) =
        Except.ok (b, els, p1) ∧
      readSpeciesSection (afterLines 3 (CKParser.new headText)) [] =
        Except.ok (b1, sps, q1) ∧
      els.map Element.index = [0, 1, 2] ∧
      sps.map Species.index = [1, 2, 3] ∧
      (∀ (i : Nat) (x : Element), els[i]? = some x → x.index = (i : Int)) ∧
      (∀ (i : Nat) (x : Species), sps[i]? = some x → x.index = ((i + 1 : Nat) : Int)) :=
  ⟨_, _, _, _, _, _, rfl, rfl, rfl, rfl,
    (table_indices exampleWeight exampleValid (CKParser.new headText) _
      (CKParser.new headText) (CKParser.new headText) _ false _ []).1 rfl,
    (table_indices exampleWeight exampleValid (CKParser.new headText)
      (CKParser.new headText) (afterLines 3 (CKParser.new headText)) _ false _ [] _).2 rfl⟩

end ckr

namespace ckr

/-! ## The default temperatures of the THERMO section -/

set_option maxRecDepth 100000 in
/-- C21. A THERMO section with the option ALL whose next line holds only the
    two numbers 300.000 and 1000.000 is read without an error: the section is
    reported as found and the default temperatures are the three initial
    values -1.0. With the three numbers 300.000, 1000.000 and 5000.000 on that
    line the default temperatures are these three values. -/
theorem two_temperatures_accepted :
    Except.map (fun r => (r.found, r.temp, r.optionFlag))
        (readThermoSection exampleUndef exampleNoThermoDatabase exampleHasTempRange
          ["AR".toList] [] [] 0 false (CKParser.new shortTempText)) =
      Except.ok (true, [⟨-1, 0⟩, ⟨-1, 0⟩, ⟨-1, 0⟩], exampleNoThermoDatabase) ∧
    Except.map (fun r => (r.found, r.temp, r.optionFlag))
        (readThermoSection exampleUndef exampleNoThermoDatabase exampleHasTempRange
          ["AR".toList] [] [] 0 false (CKParser.new fullTempText)) =
      Except.ok (true, [⟨300000, -3⟩, ⟨1000000, -3⟩, ⟨5000000, -3⟩],
        exampleNoThermoDatabase) := by
  constructor <;> rfl

/-! ## The element slots of line 1 -/

theorem substr_two (d : Char) :
    ∀ (i : Nat) (s : Str), i + 2 ≤ s.length →
      substr s i 2 = [s.getD i d, s.getD (i + 1) d] := by
  intro i
  induction i with
  | zero =>
    intro s h
    match s, h with
    | a :: b :: rest, _ => rfl
  | succ k ih =>
    intro s h
    match s, h with
    | a :: rest, h =>
      have h1 : k + 2 ≤ rest.length := by
        simp only [List.length_cons] at h
        omega
      have := ih rest h1
      simp only [substr, List.drop_succ_cons, List.getD_cons_succ] at this ⊢
      exact this

theorem substr_one (d : Char) :
    ∀ (i : Nat) (s : Str), i + 1 ≤ s.length → substr s i 1 = [s.getD i d] := by
  intro i
  induction i with
  | zero =>
    intro s h
    match s, h with
    | a :: rest, _ => rfl
  | succ k ih =>
    intro s h
    match s, h with
    | a :: rest, h =>
      have h1 : k + 1 ≤ rest.length := by
        simp only [List.length_cons] at h
        omega
      have := ih rest h1
      simp only [substr, List.drop_succ_cons, List.getD_cons_succ] at this ⊢
      exact this

/-- A slot that lies within the line adds the constituent of its symbol and
    count. -/
theorem elementSlot_eq (s : Str) (i : Nat) (sp : Species) (h : 24 + 5 * i + 2 ≤ s.length) :
    elementSlot s (24 + 5 * i) sp =
      Except.ok (addElement (slotSymbol s i) (slotCount s i) sp) := by
  have h0 : 24 + 5 * i ≤ s.length := by omega
  have h1 : 24 + 5 * i + 1 ≤ s.length := by omega
  have e2 := substr_two '\x00' (24 + 5 * i) s h
  have e1 := substr_one '\x00' (24 + 5 * i) s h1
  have e3 := substr_one '\x00' (24 + 5 * i + 1) s h
  unfold elementSlot
  simp only [strAt, substrE, if_pos h0, if_pos h1, if_pos h]
  congr 2
  unfold slotSymbol
  rw [e1, e2, e3]
  generalize s.getD (24 + 5 * i) '\x00' = a
  generalize s.getD (24 + 5 * i + 1) '\x00' = b
  by_cases c0 : a = ' '
  · by_cases c1 : b = ' '
    · simp [c0, c1]
    · simp [c0, c1]
  · by_cases c1 : b = ' '
    · simp [c0, c1]
    · simp [c0, c1]

/-- The slots of a list that lie within the line add their constituents in
    order. -/
theorem elementSlots_eq (s : Str) :
    ∀ (l : List Nat) (sp : Species), (∀ i ∈ l, 24 + 5 * i + 2 ≤ s.length) →
      elementSlots s l sp =
        Except.ok { sp with elements := sp.elements ++ slotConstituents s l,
                            comp := enterAll sp.comp (slotConstituents s l) } := by
  intro l
  induction l with
  | nil =>
    intro sp _
    simp [elementSlots, slotConstituents, enterAll]
  | cons i rest ih =>
    intro sp h
    have hi := h i (List.mem_cons_self _ _)
    have hrest : ∀ j ∈ rest, 24 + 5 * j + 2 ≤ s.length :=
      fun j hj => h j (List.mem_cons_of_mem _ hj)
    simp only [elementSlots]
    rw [elementSlot_eq s i sp hi]
    simp only []
    rw [ih _ hrest]
    by_cases hc : (slotCount s i).mant = 0
    · have hf : slotConstituents s (i :: rest) = slotConstituents s rest := by
        simp [slotConstituents, List.filter_cons, hc]
      rw [hf]
      simp [addElement, hc]
    · have hf : slotConstituents s (i :: rest) =
          ⟨slotSymbol s i, slotCount s i⟩ :: slotConstituents s rest := by
        simp [slotConstituents, List.filter_cons, hc]
      rw [hf]
      simp [addElement, hc, enterAll]

/-- The symbol table after constituents are entered: a symbol has the count
    of the last constituent with that symbol, or its old value. -/
theorem enterAll_get (comp : List (Str × Dbl)) (sym : Str) (d : Dbl) :
    ∀ (cs : List Constituent),
      mapGet (enterAll comp cs) sym d =
        match cs.reverse.find? (fun c => decide (c.name = sym)) with
        | some c => c.number
        | none => mapGet comp sym d := by
  intro cs
  induction cs using List.reverseRecOn with
  | nil => rfl
  | append_singleton cs c ih =>
    have he : enterAll comp (cs ++ [c]) = mapSet (enterAll comp cs) c.name c.number := by
      simp [enterAll, List.foldl_append]
    rw [he, List.reverse_append, List.reverse_singleton, List.singleton_append,
      List.find?_cons]
    by_cases hn : c.name = sym
    · simp only [hn, decide_True]
      rw [mapGet_mapSet_same]
    · simp only [hn, decide_False]
      rw [mapGet_mapSet_other _ _ _ _ _ (Ne.symm hn)]
      exact ih

set_option maxRecDepth 100000 in
/-- C23, counterexample. The record whose line 1 holds the slots `H   2` and
    `H   3` has the constituents (H, 2) and (H, 3), and its symbol table holds
    the single pair (H, 3). -/
theorem repeated_symbol_pairs_differ :
    Except.map (fun r => (r.1.elements, r.1.comp))
        (readThermoRecord exampleUndef false
          (CKParser.new (thermoText hhLine1 arLine2 arLine3 arLine4)) Species.fresh) =
      Except.ok ([⟨"H".toList, ⟨2, 0⟩⟩, ⟨"H".toList, ⟨3, 0⟩⟩], [("H".toList, ⟨3, 0⟩)]) := by
  rfl

/-- C23. For a line that holds the four element slots (at least 41 characters;
    line 1 has at least 80) and whose count fields are blank or hold a decimal
    numeral, the four slots add to the constituent list exactly
    the slots whose count is not 0, in slot order, each with the symbol made of
    the characters of its first two columns that are not blank and with its
    count; no added constituent has the count 0; the symbol table holds for a
    symbol the count of the last added constituent with that symbol, so that
    it holds the pairs of the added constituents when their symbols are
    distinct. -/
theorem element_slots (s : Str) (sp : Species) (h : 41 ≤ s.length)
    (_hdec : ∀ i ∈ [0, 1, 2, 3], decimalField (substr s (24 + 5 * i + 2) 3) = true) :
    elementSlots s [0, 1, 2, 3] sp =
      Except.ok { sp with elements := sp.elements ++ slotConstituents s [0, 1, 2, 3],
                          comp := enterAll sp.comp (slotConstituents s [0, 1, 2, 3]) } ∧
    slotConstituents s [0, 1, 2, 3] =
      ([0, 1, 2, 3].filter (fun i => decide ((slotCount s i).mant ≠ 0))).map
        (fun i => ⟨slotSymbol s i, slotCount s i⟩) ∧
    (∀ c ∈ slotConstituents s [0, 1, 2, 3], c.number.mant ≠ 0) ∧
    (∀ (sym : Str) (d : Dbl),
      mapGet (enterAll sp.comp (slotConstituents s [0, 1, 2, 3])) sym d =
        match (slotConstituents s [0, 1, 2, 3]).reverse.find?
            (fun c => decide (c.name = sym)) with
        | some c => c.number
        | none => mapGet sp.comp sym d) ∧
    (((slotConstituents s [0, 1, 2, 3]).map Constituent.name).Nodup →
      ∀ c ∈ slotConstituents s [0, 1, 2, 3], ∀ (d : Dbl),
        mapGet (enterAll sp.comp (slotConstituents s [0, 1, 2, 3])) c.name d = c.number) := by
  refine ⟨?_, rfl, ?_, fun sym d => enterAll_get _ _ _ _, ?_⟩
  · apply elementSlots_eq
    intro i hi
    simp only [List.mem_cons, List.mem_singleton, List.not_mem_nil, or_false] at hi
    omega
  · intro c hc
    simp only [slotConstituents, List.mem_map, List.mem_filter, decide_eq_true_eq] at hc
    obtain ⟨i, ⟨_, hne⟩, hci⟩ := hc
    rw [← hci]
    exact hne
  · intro hnd c hc d
    rw [enterAll_get]
    cases hf : (slotConstituents s [0, 1, 2, 3]).reverse.find?
        (fun c1 => decide (c1.name = c.name)) with
    | none =>
      rw [List.find?_eq_none] at hf
      have := hf c (List.mem_reverse.2 hc)
      simp at this
    | some c1 =>
      have hm := List.mem_reverse.1 (List.mem_of_find?_eq_some hf)
      have hn := List.find?_some hf
      simp only [decide_eq_true_eq] at hn
      have : c1 = c := List.inj_on_of_nodup_map hnd hm hc hn
      rw [this]

set_option maxRecDepth 100000 in
/-- C23, an instance of the amended property: line 1 of the record of AR. -/
theorem element_slots_witness :
    41 ≤ arLine1.length ∧
    (∀ i ∈ [0, 1, 2, 3], decimalField (substr arLine1 (24 + 5 * i + 2) 3) = true) ∧
    slotConstituents arLine1 [0, 1, 2, 3] = [⟨"AR".toList, ⟨1, 0⟩⟩] ∧
    elementSlots arLine1 [0, 1, 2, 3] Species.fresh =
      Except.ok { Species.fresh with
        elements := Species.fresh.elements ++ slotConstituents arLine1 [0, 1, 2, 3],
        comp := enterAll Species.fresh.comp (slotConstituents arLine1 [0, 1, 2, 3]) } ∧
    ∀ (d : Dbl), mapGet (enterAll Species.fresh.comp (slotConstituents arLine1 [0, 1, 2, 3]))
      "AR".toList d = ⟨1, 0⟩ :=
  ⟨by decide, by decide, by rfl,
    (element_slots arLine1 Species.fresh (by decide) (by decide)).1,
    fun d => (element_slots arLine1 Species.fresh (by decide) (by decide)).2.2.2.2 (by decide)
      ⟨"AR".toList, ⟨1, 0⟩⟩ (by decide) d⟩

end ckr

namespace ckr

/-! ## Repeated records of the THERMO section -/

/-- What one pass of the loop over the records does to the variables. -/
theorem thermoStep_cases (UNDEF : Dbl) (m_nasafmt getAllSpecies : Bool) (tmid : Dbl)
    (st st1 : ThermoState) (o : Option Species)
    (h : thermoStep UNDEF m_nasafmt getAllSpecies tmid st = Except.ok (st1, o)) :
    (o = none → st1.species = st.species) ∧
    (∀ spec, o = some spec →
      st1.dup = mapSet st.dup spec.name 2 ∧
      (getAllSpecies = false → st1.names = st.names) ∧
      ((mapGet st.dup spec.name 0 ≠ 2 ∧ (getAllSpecies = true ∨ spec.name ∈ st.names) ∧
          st1.species = mapSet st.species spec.name (withDefaultTmid tmid spec)) ∨
        (¬ (mapGet st.dup spec.name 0 ≠ 2 ∧ (getAllSpecies = true ∨ spec.name ∈ st.names)) ∧
          st1.species = st.species))) := by
  unfold thermoStep at h
  by_cases hn : st.nsp = 0
  · rw [if_pos hn] at h
    simp only [Except.ok.injEq, Prod.mk.injEq] at h
    obtain ⟨h1, h2⟩ := h
    subst h1
    subst h2
    exact ⟨fun _ => rfl, fun spec hs => by simp at hs⟩
  · rw [if_neg hn] at h
    cases hr : readThermoRecord UNDEF m_nasafmt st.p Species.fresh with
    | error e => rw [hr] at h; simp at h
    | ok r =>
      obtain ⟨spec, p1⟩ := r
      rw [hr] at h
      simp only [] at h
      by_cases he : spec.name = "<END>".toList
      · rw [if_pos he] at h
        simp only [Except.ok.injEq, Prod.mk.injEq] at h
        obtain ⟨h1, h2⟩ := h
        subst h1
        subst h2
        exact ⟨fun _ => rfl, fun spec hs => by simp at hs⟩
      · rw [if_neg he] at h
        by_cases hreq : decide (mapGet st.dup spec.name 0 = 2) = false ∧
            (getAllSpecies = true ∨ spec.name ∈ st.names)
        · rw [if_pos hreq] at h
          have hdup : mapGet st.dup spec.name 0 ≠ 2 := by
            have := hreq.1
            simpa using this
          cases hc : checkTemps
              (if spec.tmid.mant = 0 then { spec with tmid := tmid } else spec).tlow
              (if spec.tmid.mant = 0 then { spec with tmid := tmid } else spec).tmid
              (if spec.tmid.mant = 0 then { spec with tmid := tmid } else spec).thigh with
          | error e => rw [hc] at h; simp at h
          | ok u =>
            rw [hc] at h
            simp only [] at h
            cases hg : getAllSpecies with
            | true =>
              rw [hg] at h
              simp only [if_true, Except.ok.injEq, Prod.mk.injEq] at h
              obtain ⟨h1, h2⟩ := h
              subst h1
              subst h2
              refine ⟨fun hs => by simp at hs, ?_⟩
              intro spec1 hs
              simp only [Option.some.injEq] at hs
              subst hs
              refine ⟨rfl, fun hf => by simp at hf, Or.inl ⟨hdup, Or.inl rfl, rfl⟩⟩
            | false =>
              rw [hg] at h
              simp only [Bool.false_eq_true, if_false, Except.ok.injEq, Prod.mk.injEq] at h
              obtain ⟨h1, h2⟩ := h
              subst h1
              subst h2
              refine ⟨fun hs => by simp at hs, ?_⟩
              intro spec1 hs
              simp only [Option.some.injEq] at hs
              subst hs
              rw [hg] at hreq
              refine ⟨rfl, fun _ => rfl, Or.inl ⟨hdup, ?_, rfl⟩⟩
              exact hreq.2
        · rw [if_neg hreq] at h
          simp only [Except.ok.injEq, Prod.mk.injEq] at h
          obtain ⟨h1, h2⟩ := h
          subst h1
          subst h2
          refine ⟨fun hs => by simp at hs, ?_⟩
          intro spec1 hs
          simp only [Option.some.injEq] at hs
          subst hs
          refine ⟨rfl, fun _ => rfl, Or.inr ⟨?_, rfl⟩⟩
          intro hh
          apply hreq
          exact ⟨by simpa using hh.1, hh.2⟩

/-- The table after the loop over the records holds, under every name, the
    entry that the records read stand for. -/
theorem thermoLoop_first_record (UNDEF : Dbl) (m_nasafmt getAllSpecies : Bool) (tmid : Dbl)
    (names0 : List Str) (species0 : List (Str × Species)) :
    ∀ (fuel : Nat) (st st2 : ThermoState) (pre : List Species),
      thermoLoop UNDEF m_nasafmt getAllSpecies tmid fuel st = Except.ok st2 →
      (getAllSpecies = false → st.names = names0) →
      (∀ n, mapGet st.dup n 0 = 2 ↔ ∃ r ∈ pre, r.name = n) →
      (∀ n d, mapGet st.species n d =
        firstRecordEntry (getAllSpecies || decide (n ∈ names0)) tmid (mapGet species0 n d)
          pre n) →
      ∀ n d, mapGet st2.species n d =
        firstRecordEntry (getAllSpecies || decide (n ∈ names0)) tmid (mapGet species0 n d)
          (pre ++ thermoRecords UNDEF m_nasafmt getAllSpecies tmid fuel st) n := by
  intro fuel
  induction fuel with
  | zero =>
    intro st st2 pre h
    simp [thermoLoop] at h
  | succ k ih =>
    intro st st2 pre h hnames hdup hsp n d
    simp only [thermoLoop] at h
    simp only [thermoRecords]
    cases hstep : thermoStep UNDEF m_nasafmt getAllSpecies tmid st with
    | error e => rw [hstep] at h; simp at h
    | ok r =>
      obtain ⟨st1, o⟩ := r
      rw [hstep] at h
      obtain ⟨c1, c2⟩ := thermoStep_cases _ _ _ _ _ _ _ hstep
      cases o with
      | none =>
        simp only [Except.ok.injEq] at h
        rw [← h, c1 rfl, List.append_nil]
        exact hsp n d
      | some spec =>
        simp only [] at h
        obtain ⟨d1, d2, d3⟩ := c2 spec rfl
        have hseen : ∀ m, (∃ r ∈ pre, r.name = m) ↔
            pre.find? (fun r => decide (r.name = m)) ≠ none := by
          intro m
          constructor
          · rintro ⟨r, hr, hm⟩ hnone
            rw [List.find?_eq_none] at hnone
            exact hnone r hr (by simpa using hm)
          · intro hne
            cases hf : pre.find? (fun r => decide (r.name = m)) with
            | none => exact absurd hf hne
            | some r =>
              exact ⟨r, List.mem_of_find?_eq_some hf, by simpa using List.find?_some hf⟩
        have key := ih st1 st2 (pre ++ [spec]) h
          (fun hg => by rw [d2 hg]; exact hnames hg)
          (by
            intro m
            rw [d1]
            by_cases hm : m = spec.name
            · subst hm
              rw [mapGet_mapSet_same]
              simp only [true_iff]
              exact ⟨spec, List.mem_append.2 (Or.inr (List.mem_singleton.2 rfl)), rfl⟩
            · rw [mapGet_mapSet_other _ _ _ _ _ hm, hdup m]
              constructor
              · rintro ⟨r, hr, hrm⟩
                exact ⟨r, List.mem_append.2 (Or.inl hr), hrm⟩
              · rintro ⟨r, hr, hrm⟩
                rcases List.mem_append.1 hr with h1 | h1
                · exact ⟨r, h1, hrm⟩
                · rw [List.mem_singleton] at h1
                  rw [h1] at hrm
                  exact absurd hrm.symm hm)
          (by
            intro m e
            unfold firstRecordEntry
            rw [List.find?_append]
            by_cases hm : m = spec.name
            · subst hm
              rcases d3 with ⟨e1, e2, e3⟩ | ⟨e1, e3⟩
              · have hnone : pre.find? (fun r => decide (r.name = spec.name)) = none := by
                  by_contra hne
                  exact e1 ((hdup _).2 ((hseen _).2 hne))
                rw [hnone, e3, mapGet_mapSet_same]
                have hreq : (getAllSpecies || decide (spec.name ∈ names0)) = true := by
                  rcases e2 with g | g
                  · simp [g]
                  · cases hg : getAllSpecies with
                    | true => simp
                    | false =>
                      rw [hnames hg] at g
                      simp [g]
                simp [hreq]
              · rw [e3, hsp]
                unfold firstRecordEntry
                cases hf : pre.find? (fun r => decide (r.name = spec.name)) with
                | some r => rfl
                | none =>
                  have hnd : mapGet st.dup spec.name 0 ≠ 2 := by
                    intro h2
                    obtain ⟨r, hr, hrn⟩ := (hdup _).1 h2
                    rw [List.find?_eq_none] at hf
                    exact hf r hr (by simpa using hrn)
                  have hreq : (getAllSpecies || decide (spec.name ∈ names0)) = false := by
                    cases hg : getAllSpecies with
                    | true => exact absurd ⟨hnd, Or.inl hg⟩ e1
                    | false =>
                      have : spec.name ∉ names0 := by
                        intro hin
                        apply e1
                        refine ⟨hnd, Or.inr ?_⟩
                        rw [hnames hg]
                        exact hin
                      simp [this]
                  simp [hreq]
            · have hsame : mapGet st1.species m e = mapGet st.species m e := by
                rcases d3 with ⟨_, _, e3⟩ | ⟨_, e3⟩
                · rw [e3, mapGet_mapSet_other _ _ _ _ _ hm]
                · rw [e3]
              rw [hsame, hsp]
              unfold firstRecordEntry
              have hdec : decide (spec.name = m) = false := by
                simp [Ne.symm hm]
              cases hf : pre.find? (fun r => decide (r.name = m)) with
              | some r => rfl
              | none => simp [List.find?_cons, hdec])
          n d
        rw [List.append_assoc, List.singleton_append] at key
        exact key

/-- Without `<ALL>` the loop over the records starts with the list of names
    of the caller. -/
theorem thermoSetup_names (NoThermoDatabase HasTempRange : Int) (names : List Str)
    (temp : List Dbl) (optionFlag : Int) (p p1 : CKParser) (su : ThermoSetup)
    (hsu : thermoSetup NoThermoDatabase HasTempRange names temp optionFlag p =
      Except.ok (some su, p1)) :
    su.getAllSpecies = false → su.names = names := by
  unfold thermoSetup at hsu
  simp only [] at hsu
  cases hs : seekThermo (p.m_ckfile.length + 2) p with
  | error e => rw [hs] at hsu; simp at hsu
  | ok r =>
    obtain ⟨o, p2⟩ := r
    rw [hs] at hsu
    cases o with
    | none => simp at hsu
    | some s =>
      simp only [] at hsu
      cases ho : thermoOptions NoThermoDatabase p2.m_line ((getTokens s).drop 1)
          (optionFlag, false) with
      | error e => rw [ho] at hsu; simp at hsu
      | ok r1 =>
        obtain ⟨flag1, nasafmt⟩ := r1
        rw [ho] at hsu
        simp only [] at hsu
        split at hsu
        · split at hsu
          · simp at hsu
          · simp only [Except.ok.injEq, Prod.mk.injEq, Option.some.injEq] at hsu
            obtain ⟨h1, _⟩ := hsu
            subst h1
            intro hg
            simp only [] at hg ⊢
            rw [hg]
            rfl
        · simp only [Except.ok.injEq, Prod.mk.injEq, Option.some.injEq] at hsu
          obtain ⟨h1, _⟩ := hsu
          subst h1
          intro hg
          simp only [] at hg ⊢
          rw [hg]
          rfl

end ckr

namespace ckr

/-! ## The THERMO section is read to its end -/

theorem seekThermo_total :
    ∀ (fuel : Nat) (p : CKParser),
      p.m_ckfile.length + (if p.m_buf ≠ [] then 1 else 0) + 1 ≤ fuel →
      ∃ r, seekThermo fuel p = Except.ok r ∧ (∀ s, r.1 = some s → r.2.m_buf = []) := by
  intro fuel
  induction fuel with
  | zero => intro p h; omega
  | succ n ih =>
    intro p h
    obtain ⟨g1, g2, g3⟩ := getCKLine_stream p
    have g0 := getCKLine_buf p
    simp only [seekThermo]
    split
    · exact ⟨_, rfl, fun s hs => by simp at hs⟩
    · rename_i hneof
      split
      · exact ⟨_, rfl, fun s hs => by simp at hs⟩
      · split
        · exact ⟨_, rfl, fun _ _ => g0⟩
        · apply ih
          rw [g0]
          simp only [ne_eq, not_true_eq_false, if_false]
          by_cases hb : p.m_buf ≠ []
          · rw [if_pos hb] at h
            rw [(g2 hb).2]
            omega
          · have hb1 : p.m_buf = [] := by simpa using hb
            rcases g3 hb1 with h1 | h1
            · rw [h1] at hneof
              exact absurd rfl hneof
            · omega

theorem seekThermoLine1_total :
    ∀ (fuel : Nat) (p : CKParser),
      p.m_ckfile.length + (if p.m_buf ≠ [] then 1 else 0) + 1 ≤ fuel →
      ∃ r, seekThermoLine1 fuel p = Except.ok r ∧
        (∀ s, r.1 = some s → r.2.m_buf = [] ∧
          r.2.m_ckfile.length ≤ p.m_ckfile.length ∧
          (p.m_buf = [] → r.2.m_ckfile.length < p.m_ckfile.length)) := by
  intro fuel
  induction fuel with
  | zero => intro p h; omega
  | succ n ih =>
    intro p h
    obtain ⟨g1, g2, g3⟩ := getCKLine_stream p
    have g0 := getCKLine_buf p
    simp only [seekThermoLine1]
    by_cases hk : isKeyword (getCKLine p).1 = true ∨
        matchKw (getCKLine p).1 "<EOF>".toList = true
    · rw [if_pos hk]
      exact ⟨_, rfl, fun s hs => by simp at hs⟩
    · rw [if_neg hk]
      have hneof : (getCKLine p).1 ≠ "<EOF>".toList := by
        intro h1
        apply hk
        right
        rw [h1]
        rfl
      have hfirst : p.m_buf = [] →
          (getCKLine p).2.2.m_ckfile.length < p.m_ckfile.length := by
        intro hb
        rcases g3 hb with h1 | h1
        · exact absurd h1 hneof
        · exact h1
      split
      · have hfuel : (getCKLine p).2.2.m_ckfile.length +
            (if (getCKLine p).2.2.m_buf ≠ [] then 1 else 0) + 1 ≤ n := by
          rw [g0]
          simp only [ne_eq, not_true_eq_false, if_false]
          by_cases hb : p.m_buf ≠ []
          · rw [if_pos hb] at h
            rw [(g2 hb).2]
            omega
          · have hb1 : p.m_buf = [] := by simpa using hb
            have := hfirst hb1
            omega
        obtain ⟨r, hr, hs⟩ := ih _ hfuel
        refine ⟨r, hr, ?_⟩
        intro s hsome
        obtain ⟨a, b, c⟩ := hs s hsome
        refine ⟨a, Nat.le_trans b g1, fun hb => ?_⟩
        have := hfirst hb
        omega
      · exact ⟨_, rfl, fun _ _ => ⟨g0, g1, hfirst⟩⟩

theorem elementSlot_fuel (s : Str) (iloc : Nat) (sp : Species) :
    elementSlot s iloc sp ≠ Except.error Failure.outOfFuel := by
  intro h
  unfold elementSlot at h
  split at h <;> simp at h

theorem elementSlots_fuel (s : Str) :
    ∀ (l : List Nat) (sp : Species),
      elementSlots s l sp ≠ Except.error Failure.outOfFuel := by
  intro l
  induction l with
  | nil => intro sp h; simp [elementSlots] at h
  | cons i rest ih =>
    intro sp h
    simp only [elementSlots] at h
    cases he : elementSlot s (24 + 5 * i) sp with
    | error e =>
      rw [he] at h
      simp only [Except.error.injEq] at h
      rw [h] at he
      exact elementSlot_fuel _ _ _ he
    | ok sp1 =>
      rw [he] at h
      exact ih _ h

theorem fifthElement_fuel (s : Str) (sp : Species) :
    fifthElement s sp ≠ Except.error Failure.outOfFuel := by
  intro h
  unfold fifthElement at h
  split at h <;> simp at h

theorem strAt_fuel (s : Str) (i : Nat) : strAt s i ≠ Except.error Failure.outOfFuel := by
  intro h
  unfold strAt at h
  split at h <;> simp at h

theorem substrE_fuel (s : Str) (i n : Nat) :
    substrE s i n ≠ Except.error Failure.outOfFuel := by
  intro h
  unfold substrE at h
  split at h <;> simp at h

theorem vecAt_fuel {α : Type} (v : List α) (i : Nat) :
    vecAt v i ≠ Except.error Failure.outOfFuel := by
  intro h
  unfold vecAt at h
  split at h <;> simp at h

theorem thermoLine1_fuel (m_nasafmt : Bool) (m_line : Nat) (sp : Species) (s : Str) :
    thermoLine1 m_nasafmt m_line sp s ≠ Except.error Failure.outOfFuel := by
  intro h
  unfold thermoLine1 at h
  cases h79 : strAt s 79 with
  | error e =>
    rw [h79] at h
    simp only [Except.error.injEq] at h
    rw [h] at h79
    exact strAt_fuel _ _ h79
  | ok c79 =>
    rw [h79] at h
    simp only [] at h
    by_cases hc : c79 ≠ '1'
    · rw [if_pos hc] at h
      simp [illegalThermoLine, throwSyntax] at h
    · rw [if_neg hc] at h
      cases hn : substrE s 0 24 with
      | error e =>
        rw [hn] at h
        simp only [Except.error.injEq] at h
        rw [h] at hn
        exact substrE_fuel _ _ _ hn
      | ok nameid =>
        rw [hn] at h
        simp only [] at h
        cases hv : vecAt (getTokens nameid) 0 with
        | error e =>
          rw [hv] at h
          simp only [Except.error.injEq] at h
          rw [h] at hv
          exact vecAt_fuel _ _ hv
        | ok name =>
          rw [hv] at h
          simp only [] at h
          cases hs : elementSlots s [0, 1, 2, 3]
              { sp with name := name, id := joinId ((getTokens nameid).drop 1) } with
          | error e =>
            rw [hs] at h
            simp only [Except.error.injEq] at h
            rw [h] at hs
            exact elementSlots_fuel _ _ _ hs
          | ok sp2 =>
            rw [hs] at h
            simp only [] at h
            split at h
            · split at h
              · split at h
                · rename_i e he
                  simp only [Except.error.injEq] at h
                  rw [h] at he
                  exact substrE_fuel _ _ _ he
                · exact fifthElement_fuel _ _ h
              · simp at h
            · simp at h

end ckr

namespace ckr

theorem readCoeffs_fuel (UNDEF : Dbl) (m_line : Nat) (s : Str) :
    ∀ (fields : List Nat),
      readCoeffs UNDEF m_line s fields ≠ Except.error Failure.outOfFuel := by
  intro fields
  induction fields with
  | nil => intro h; simp [readCoeffs] at h
  | cons i rest ih =>
    intro h
    simp only [readCoeffs] at h
    cases hs : substrE s (i * 15) 15 with
    | error e =>
      rw [hs] at h
      simp only [Except.error.injEq] at h
      rw [h] at hs
      exact substrE_fuel _ _ _ hs
    | ok numstr =>
      rw [hs] at h
      simp only [] at h
      split at h
      · simp [illegalNumber, throwSyntax] at h
      · cases hr : readCoeffs UNDEF m_line s rest with
        | error e =>
          rw [hr] at h
          simp only [Except.error.injEq] at h
          rw [h] at hr
          exact ih hr
        | ok cfs =>
          rw [hr] at h
          simp at h

theorem columnCheck_fuel (p : CKParser) (digit : Char) :
    columnCheck p digit ≠ Except.error Failure.outOfFuel := by
  intro h
  unfold columnCheck at h
  simp only [] at h
  cases hs : strAt (getCKLine p).1 79 with
  | error e =>
    rw [hs] at h
    simp only [Except.error.injEq] at h
    rw [h] at hs
    exact strAt_fuel _ _ hs
  | ok c =>
    rw [hs] at h
    simp only [] at h
    split at h
    · simp [illegalThermoLine, throwSyntax] at h
    · simp at h

theorem checkTemps_fuel (tmin tmid tmax : Dbl) :
    checkTemps tmin tmid tmax ≠ Except.error Failure.outOfFuel := by
  intro h
  unfold checkTemps at h
  by_cases hc : tmin.mant = 0 ∨ tmid.mant = 0 ∨ tmax.mant = 0
  · rw [if_pos hc] at h
    simp at h
  · rw [if_neg hc] at h
    simp at h

/-- The lines 2 to 4 of a record are read without a shortage of steps, and
    leave the line buffer empty and the stream no longer than before. -/
theorem thermoCoeffLines_stream (UNDEF : Dbl) (p : CKParser) (sp : Species) :
    thermoCoeffLines UNDEF p sp ≠ Except.error Failure.outOfFuel ∧
    ∀ sp1 p4, thermoCoeffLines UNDEF p sp = Except.ok (sp1, p4) →
      p4.m_buf = [] ∧ p4.m_ckfile.length ≤ p.m_ckfile.length := by
  unfold thermoCoeffLines
  cases h2 : columnCheck p '2' with
  | error e =>
    refine ⟨fun h => ?_, fun _ _ h => by simp at h⟩
    simp only [Except.error.injEq] at h
    rw [h] at h2
    exact columnCheck_fuel _ _ h2
  | ok r2 =>
    obtain ⟨s2, p2⟩ := r2
    obtain ⟨_, e2⟩ := columnCheck_ok _ _ _ _ h2
    simp only []
    cases c2 : readCoeffs UNDEF p2.m_line s2 [0, 1, 2, 3, 4] with
    | error e =>
      refine ⟨fun h => ?_, fun _ _ h => by simp at h⟩
      simp only [Except.error.injEq] at h
      rw [h] at c2
      exact readCoeffs_fuel _ _ _ _ c2
    | ok v2 =>
      simp only []
      cases h3 : columnCheck p2 '3' with
      | error e =>
        refine ⟨fun h => ?_, fun _ _ h => by simp at h⟩
        simp only [Except.error.injEq] at h
        rw [h] at h3
        exact columnCheck_fuel _ _ h3
      | ok r3 =>
        obtain ⟨s3, p3⟩ := r3
        obtain ⟨_, e3⟩ := columnCheck_ok _ _ _ _ h3
        simp only []
        cases c3 : readCoeffs UNDEF p3.m_line s3 [0, 1] with
        | error e =>
          refine ⟨fun h => ?_, fun _ _ h => by simp at h⟩
          simp only [Except.error.injEq] at h
          rw [h] at c3
          exact readCoeffs_fuel _ _ _ _ c3
        | ok v3 =>
          simp only []
          cases c3l : readCoeffs UNDEF p3.m_line s3 [2, 3, 4] with
          | error e =>
            refine ⟨fun h => ?_, fun _ _ h => by simp at h⟩
            simp only [Except.error.injEq] at h
            rw [h] at c3l
            exact readCoeffs_fuel _ _ _ _ c3l
          | ok v3l =>
            simp only []
            cases h4 : columnCheck p3 '4' with
            | error e =>
              refine ⟨fun h => ?_, fun _ _ h => by simp at h⟩
              simp only [Except.error.injEq] at h
              rw [h] at h4
              exact columnCheck_fuel _ _ h4
            | ok r4 =>
              obtain ⟨s4, p4⟩ := r4
              obtain ⟨_, e4⟩ := columnCheck_ok _ _ _ _ h4
              simp only []
              cases c4 : readCoeffs UNDEF p4.m_line s4 [0, 1, 2, 3] with
              | error e =>
                refine ⟨fun h => ?_, fun _ _ h => by simp at h⟩
                simp only [Except.error.injEq] at h
                rw [h] at c4
                exact readCoeffs_fuel _ _ _ _ c4
              | ok v4 =>
                refine ⟨fun h => by simp at h, ?_⟩
                intro sp1 q h
                simp only [Except.ok.injEq, Prod.mk.injEq] at h
                rw [← h.2, e4]
                refine ⟨getCKLine_buf _, ?_⟩
                have a2 := (getCKLine_stream p).1
                have a3 := (getCKLine_stream p2).1
                have a4 := (getCKLine_stream p3).1
                rw [← e2] at a2
                rw [← e3] at a3
                omega

/-- A record is read without a shortage of steps; when it is not the end
    mark, the line buffer is empty afterwards and, if it was empty before, the
    stream is shorter. -/
theorem readThermoRecord_stream (UNDEF : Dbl) (m_nasafmt : Bool) (p : CKParser)
    (sp : Species) :
    readThermoRecord UNDEF m_nasafmt p sp ≠ Except.error Failure.outOfFuel ∧
    ∀ spec p1, readThermoRecord UNDEF m_nasafmt p sp = Except.ok (spec, p1) →
      spec.name ≠ "<END>".toList →
      p1.m_buf = [] ∧ (p.m_buf = [] → p1.m_ckfile.length < p.m_ckfile.length) := by
  unfold readThermoRecord
  have hfuel : p.m_ckfile.length + (if p.m_buf ≠ [] then 1 else 0) + 1 ≤
      p.m_ckfile.length + 3 := by
    split <;> omega
  obtain ⟨r, hr, hs⟩ := seekThermoLine1_total _ p hfuel
  obtain ⟨o, q⟩ := r
  rw [hr]
  cases o with
  | none =>
    refine ⟨fun h => by simp at h, ?_⟩
    intro spec p1 h hne
    simp only [Except.ok.injEq, Prod.mk.injEq] at h
    rw [← h.1] at hne
    exact absurd rfl hne
  | some s =>
    obtain ⟨b1, b2, b3⟩ := hs s rfl
    simp only [] at b1 b2 b3 ⊢
    cases hl : thermoLine1 m_nasafmt q.m_line sp s with
    | error e =>
      refine ⟨fun h => ?_, fun _ _ h => by simp at h⟩
      simp only [Except.error.injEq] at h
      rw [h] at hl
      exact thermoLine1_fuel _ _ _ _ hl
    | ok sp1 =>
      simp only []
      obtain ⟨t1, t2⟩ := thermoCoeffLines_stream UNDEF q sp1
      refine ⟨t1, ?_⟩
      intro spec p1 h _
      obtain ⟨u1, u2⟩ := t2 _ _ h
      refine ⟨u1, fun hb => ?_⟩
      have := b3 hb
      omega

/-- One pass of the loop over the records has steps enough, and a pass after
    which the loop goes on leaves the line buffer empty and the stream
    shorter. -/
theorem thermoStep_stream (UNDEF : Dbl) (m_nasafmt getAllSpecies : Bool) (tmid : Dbl)
    (st : ThermoState) :
    thermoStep UNDEF m_nasafmt getAllSpecies tmid st ≠ Except.error Failure.outOfFuel ∧
    ∀ st1 spec, thermoStep UNDEF m_nasafmt getAllSpecies tmid st = Except.ok (st1, some spec) →
      st1.p.m_buf = [] ∧ (st.p.m_buf = [] → st1.p.m_ckfile.length < st.p.m_ckfile.length) := by
  unfold thermoStep
  by_cases hn : st.nsp = 0
  · rw [if_pos hn]
    exact ⟨fun h => by simp at h, fun _ _ h => by simp at h⟩
  · rw [if_neg hn]
    obtain ⟨r1, r2⟩ := readThermoRecord_stream UNDEF m_nasafmt st.p Species.fresh
    cases hr : readThermoRecord UNDEF m_nasafmt st.p Species.fresh with
    | error e =>
      refine ⟨fun h => ?_, fun _ _ h => by simp at h⟩
      simp only [Except.error.injEq] at h
      rw [h] at hr
      exact r1 hr
    | ok r =>
      obtain ⟨spec, p1⟩ := r
      simp only []
      by_cases he : spec.name = "<END>".toList
      · rw [if_pos he]
        exact ⟨fun h => by simp at h, fun _ _ h => by simp at h⟩
      · rw [if_neg he]
        have hp := r2 spec p1 hr he
        split
        · split
          · rename_i e hc
            refine ⟨fun h => ?_, fun _ _ h => by simp at h⟩
            simp only [Except.error.injEq] at h
            rw [h] at hc
            exact checkTemps_fuel _ _ _ hc
          · split
            · refine ⟨fun h => by simp at h, ?_⟩
              intro st1 spec1 h
              simp only [Except.ok.injEq, Prod.mk.injEq] at h
              rw [← h.1]
              exact hp
            · refine ⟨fun h => by simp at h, ?_⟩
              intro st1 spec1 h
              simp only [Except.ok.injEq, Prod.mk.injEq] at h
              rw [← h.1]
              exact hp
        · refine ⟨fun h => by simp at h, ?_⟩
          intro st1 spec1 h
          simp only [Except.ok.injEq, Prod.mk.injEq] at h
          rw [← h.1]
          exact hp

theorem thermoLoop_total (UNDEF : Dbl) (m_nasafmt getAllSpecies : Bool) (tmid : Dbl) :
    ∀ (fuel : Nat) (st : ThermoState), st.p.m_buf = [] → st.p.m_ckfile.length + 1 ≤ fuel →
      thermoLoop UNDEF m_nasafmt getAllSpecies tmid fuel st ≠
        Except.error Failure.outOfFuel := by
  intro fuel
  induction fuel with
  | zero => intro st _ h; omega
  | succ n ih =>
    intro st hb hf
    simp only [thermoLoop]
    obtain ⟨s1, s2⟩ := thermoStep_stream UNDEF m_nasafmt getAllSpecies tmid st
    cases hs : thermoStep UNDEF m_nasafmt getAllSpecies tmid st with
    | error e =>
      intro h
      simp only [Except.error.injEq] at h
      rw [h] at hs
      exact s1 hs
    | ok r =>
      obtain ⟨st1, o⟩ := r
      cases o with
      | none => intro h; simp at h
      | some spec =>
        simp only []
        obtain ⟨a, b⟩ := s2 _ _ hs
        apply ih _ a
        have := b hb
        omega

theorem thermoOptions_fuel (NoThermoDatabase : Int) (m_line : Nat) :
    ∀ (toks : List Str) (st : Int × Bool),
      thermoOptions NoThermoDatabase m_line toks st ≠ Except.error Failure.outOfFuel := by
  intro toks
  induction toks with
  | nil => intro st h; simp [thermoOptions] at h
  | cons tok rest ih =>
    intro st h
    simp only [thermoOptions] at h
    split at h
    · exact ih _ h
    · split at h
      · exact ih _ h
      · simp [throwSyntax] at h

/-- The part of `readThermoSection` before its loop has steps enough, and
    hands an empty line buffer to the loop. -/
theorem thermoSetup_total (NoThermoDatabase HasTempRange : Int) (names : List Str)
    (temp : List Dbl) (optionFlag : Int) (p : CKParser) :
    thermoSetup NoThermoDatabase HasTempRange names temp optionFlag p ≠
      Except.error Failure.outOfFuel ∧
    ∀ su p1, thermoSetup NoThermoDatabase HasTempRange names temp optionFlag p =
      Except.ok (some su, p1) → su.p.m_buf = [] := by
  unfold thermoSetup
  simp only []
  have hfuel : p.m_ckfile.length + (if p.m_buf ≠ [] then 1 else 0) + 1 ≤
      p.m_ckfile.length + 2 := by
    split <;> omega
  obtain ⟨r, hr, hs⟩ := seekThermo_total _ p hfuel
  obtain ⟨o, q⟩ := r
  rw [hr]
  cases o with
  | none => exact ⟨fun h => by simp at h, fun _ _ h => by simp at h⟩
  | some s =>
    have hq := hs s rfl
    simp only [] at hq ⊢
    cases ho : thermoOptions NoThermoDatabase q.m_line ((getTokens s).drop 1)
        (optionFlag, false) with
    | error e =>
      refine ⟨fun h => ?_, fun _ _ h => by simp at h⟩
      simp only [Except.error.injEq] at h
      rw [h] at ho
      exact thermoOptions_fuel _ _ _ _ ho
    | ok r1 =>
      obtain ⟨flag1, nasafmt⟩ := r1
      simp only []
      split
      · split
        · rename_i e hc
          refine ⟨fun h => ?_, fun _ _ h => by simp at h⟩
          simp only [Except.error.injEq] at h
          rw [h] at hc
          exact checkTemps_fuel _ _ _ hc
        · refine ⟨fun h => by simp at h, ?_⟩
          intro su p1 h
          simp only [Except.ok.injEq, Prod.mk.injEq, Option.some.injEq] at h
          rw [← h.1]
          exact getCKLine_buf _
      · refine ⟨fun h => by simp at h, ?_⟩
        intro su p1 h
        simp only [Except.ok.injEq, Prod.mk.injEq, Option.some.injEq] at h
        rw [← h.1]
        exact hq

/-- The model of `readThermoSection` never stops for want of steps: it
    returns, or fails with an error of the program. -/
theorem readThermoSection_total (UNDEF : Dbl) (NoThermoDatabase HasTempRange : Int)
    (names : List Str) (species : List (Str × Species)) (temp : List Dbl) (optionFlag : Int)
    (m_nasafmt : Bool) (p : CKParser) :
    readThermoSection UNDEF NoThermoDatabase HasTempRange names species temp optionFlag
      m_nasafmt p ≠ Except.error Failure.outOfFuel := by
  unfold readThermoSection
  obtain ⟨t1, t2⟩ := thermoSetup_total NoThermoDatabase HasTempRange names temp optionFlag p
  cases hs : thermoSetup NoThermoDatabase HasTempRange names temp optionFlag p with
  | error e =>
    intro h
    simp only [Except.error.injEq] at h
    rw [h] at hs
    exact t1 hs
  | ok r =>
    obtain ⟨o, p1⟩ := r
    cases o with
    | none => intro h; simp at h
    | some su =>
      simp only []
      have hb := t2 su p1 hs
      have hl := thermoLoop_total UNDEF su.m_nasafmt su.getAllSpecies su.tmid
        (su.p.m_ckfile.length + 2) ⟨su.p, su.names, su.nsp, [], species⟩ hb
        (Nat.le_succ _)
      cases hloop : thermoLoop UNDEF su.m_nasafmt su.getAllSpecies su.tmid
          (su.p.m_ckfile.length + 2) ⟨su.p, su.names, su.nsp, [], species⟩ with
      | error e =>
        intro h
        simp only [Except.error.injEq] at h
        rw [h] at hloop
        exact hl hloop
      | ok st => intro h; simp at h

end ckr

namespace ckr

/-- C22. When the temperature and count fields of every line 1 in the section
    and the default temperatures are blank or decimal numerals:
    `readThermoSection` has steps enough, and when it returns, its table
    holds under every name the entry that the records read by its loop stand
    for: for a name that is asked for (all names with `<ALL>`), the first
    record of that name, with the default `tmid` in place of a `tmid` of 0; a
    later record of the name changes nothing, and a name without a record, or
    one that is not asked for, keeps what the table had. So for every record
    read whose name is asked for, the table holds under that name the first
    record of that name. -/
theorem first_record_kept (UNDEF : Dbl) (NoThermoDatabase HasTempRange : Int)
    (names : List Str) (species : List (Str × Species)) (temp : List Dbl) (optionFlag : Int)
    (m_nasafmt : Bool) (p p1 : CKParser) (su : ThermoSetup) (res : ThermoResult)
    (hsu : thermoSetup NoThermoDatabase HasTempRange names temp optionFlag p =
      Except.ok (some su, p1))
    (hres : readThermoSection UNDEF NoThermoDatabase HasTempRange names species temp
      optionFlag m_nasafmt p = Except.ok res)
    (_hdef : ∀ l, defaultTempLine NoThermoDatabase HasTempRange optionFlag p = some l →
      3 ≤ (getTokens l).length → ∀ t ∈ (getTokens l).take 3, decimalText t = true)
    (_hlines : ∀ l ∈ contentsToEnd (su.p.m_ckfile.length + 2) su.p,
      80 ≤ l.length → l.getD 79 '\x00' = '1' → line1Decimal su.m_nasafmt l = true) :
    readThermoSection UNDEF NoThermoDatabase HasTempRange names species temp optionFlag
      m_nasafmt p ≠ Except.error Failure.outOfFuel ∧
    (∀ (n : Str) (d : Species),
      mapGet res.species n d =
        firstRecordEntry (su.getAllSpecies || decide (n ∈ names)) su.tmid
          (mapGet species n d)
          (thermoRecords UNDEF su.m_nasafmt su.getAllSpecies su.tmid
            (su.p.m_ckfile.length + 2) ⟨su.p, su.names, su.nsp, [], species⟩) n) ∧
    (∀ r ∈ thermoRecords UNDEF su.m_nasafmt su.getAllSpecies su.tmid
          (su.p.m_ckfile.length + 2) ⟨su.p, su.names, su.nsp, [], species⟩,
      (su.getAllSpecies = true ∨ r.name ∈ names) →
      ∃ r0, (thermoRecords UNDEF su.m_nasafmt su.getAllSpecies su.tmid
            (su.p.m_ckfile.length + 2) ⟨su.p, su.names, su.nsp, [], species⟩).find?
          (fun x => decide (x.name = r.name)) = some r0 ∧
        ∀ (d : Species), mapGet res.species r.name d = withDefaultTmid su.tmid r0) := by
  have main : ∀ (n : Str) (d : Species),
      mapGet res.species n d =
        firstRecordEntry (su.getAllSpecies || decide (n ∈ names)) su.tmid
          (mapGet species n d)
          (thermoRecords UNDEF su.m_nasafmt su.getAllSpecies su.tmid
            (su.p.m_ckfile.length + 2) ⟨su.p, su.names, su.nsp, [], species⟩) n := by
    intro n d
    unfold readThermoSection at hres
    rw [hsu] at hres
    simp only [] at hres
    cases hl : thermoLoop UNDEF su.m_nasafmt su.getAllSpecies su.tmid
        (su.p.m_ckfile.length + 2) ⟨su.p, su.names, su.nsp, [], species⟩ with
    | error e => rw [hl] at hres; simp at hres
    | ok st =>
      rw [hl] at hres
      simp only [Except.ok.injEq] at hres
      rw [← hres]
      have hnames : su.getAllSpecies = false → su.names = names :=
        thermoSetup_names _ _ _ _ _ _ _ _ hsu
      have := thermoLoop_first_record UNDEF su.m_nasafmt su.getAllSpecies su.tmid names
        species (su.p.m_ckfile.length + 2) ⟨su.p, su.names, su.nsp, [], species⟩ st [] hl
        hnames (by intro m; simp [mapGet]) (by intro m e; rfl) n d
      simpa using this
  refine ⟨readThermoSection_total _ _ _ _ _ _ _ _ _, main, ?_⟩
  intro r hr hreq
  cases hf : (thermoRecords UNDEF su.m_nasafmt su.getAllSpecies su.tmid
      (su.p.m_ckfile.length + 2) ⟨su.p, su.names, su.nsp, [], species⟩).find?
      (fun x => decide (x.name = r.name)) with
  | none =>
    rw [List.find?_eq_none] at hf
    have := hf r hr
    simp at this
  | some r0 =>
    refine ⟨r0, rfl, fun d => ?_⟩
    rw [main r.name d]
    unfold firstRecordEntry
    rw [hf]
    have hb : (su.getAllSpecies || decide (r.name ∈ names)) = true := by
      rcases hreq with g | g
      · simp [g]
      · simp [g]
    simp [hb]

set_option maxRecDepth 100000 in
/-- C22, an instance: a section with the line of the default temperatures and
    two records for AR; the table holds the first record. -/
theorem first_record_kept_witness :
    ∃ (su : ThermoSetup) (p1 : CKParser) (res : ThermoResult),
      thermoSetup exampleNoThermoDatabase exampleHasTempRange ["AR".toList, "O2".toList] []
        exampleHasTempRange (CKParser.new rangeRecordsText) = Except.ok (some su, p1) ∧
      readThermoSection exampleUndef exampleNoThermoDatabase exampleHasTempRange
        ["AR".toList, "O2".toList] [] [] exampleHasTempRange false
        (CKParser.new rangeRecordsText) = Except.ok res ∧
      defaultTempLine exampleNoThermoDatabase exampleHasTempRange exampleHasTempRange
        (CKParser.new rangeRecordsText) = some "   300.000  1000.000  5000.000".toList ∧
      (∀ t ∈ (getTokens "   300.000  1000.000  5000.000".toList).take 3,
        decimalText t = true) ∧
      (contentsToEnd (su.p.m_ckfile.length + 2) su.p).filter
          (fun l => decide (80 ≤ l.length) && decide (l.getD 79 '\x00' = '1')) =
        [arLine1, arLine1Late] ∧
      line1Decimal false arLine1 = true ∧ line1Decimal false arLine1Late = true ∧
      (thermoRecords exampleUndef su.m_nasafmt su.getAllSpecies su.tmid
          (su.p.m_ckfile.length + 2) ⟨su.p, su.names, su.nsp, [], []⟩).map
        (fun r => (r.name, r.tlow, r.thigh)) =
        [("AR".toList, ⟨200000, -3⟩, ⟨6000000, -3⟩),
          ("AR".toList, ⟨300000, -3⟩, ⟨5000000, -3⟩)] ∧
      res.species.map (fun e => (e.1, e.2.tlow, e.2.thigh)) =
        [("AR".toList, ⟨200000, -3⟩, ⟨6000000, -3⟩)] ∧
      (∀ (n : Str) (d : Species),
        mapGet res.species n d =
          firstRecordEntry (su.getAllSpecies || decide (n ∈ ["AR".toList, "O2".toList]))
            su.tmid (mapGet [] n d)
            (thermoRecords exampleUndef su.m_nasafmt su.getAllSpecies su.tmid
              (su.p.m_ckfile.length + 2) ⟨su.p, su.names, su.nsp, [], []⟩) n) :=
  ⟨_, _, _, rfl, rfl, rfl, by decide, rfl, by decide, by decide, rfl, rfl,
    (first_record_kept exampleUndef exampleNoThermoDatabase exampleHasTempRange
      ["AR".toList, "O2".toList] [] [] exampleHasTempRange false
      (CKParser.new rangeRecordsText) _ _ _ rfl rfl
      (by
        intro l hl _
        have hd : defaultTempLine exampleNoThermoDatabase exampleHasTempRange
            exampleHasTempRange (CKParser.new rangeRecordsText) =
            some "   300.000  1000.000  5000.000".toList := by rfl
        have h : l = "   300.000  1000.000  5000.000".toList :=
          (Option.some.inj (Eq.trans (Eq.symm hd) hl)).symm
        rw [h]
        decide)
      (by decide)).2.1⟩

end ckr

namespace ckr

/-! ## A line put back -/

/-- A line put back is returned when it is not empty. For a content line `s`
    that is not empty: the call of `getCKLine`
    after `putCKLine s c` returns `s` and `c` and leaves the stream, the line
    counter and the last terminator as they are, with the buffer empty; the
    call after that is the call on the parser with nothing put back, which
    reads from the stream; and of two lines put back one after the other, only
    the later one is returned. -/
theorem putback_replayed (p : CKParser) (s c s0 c0 : Str) (hs : s ≠ []) :
    getCKLine (putCKLine p s c) = (s, c, { p with m_buf := [], m_comment := [] }) ∧
    (getCKLine (putCKLine p s c)).2.2.m_ckfile = p.m_ckfile ∧
    (getCKLine (putCKLine p s c)).2.2.m_line = p.m_line ∧
    (getCKLine (putCKLine p s c)).2.2.m_last_eol = p.m_last_eol ∧
    getCKLine (getCKLine (putCKLine p s c)).2.2 =
      getCKLine { p with m_buf := [], m_comment := [] } ∧
    getCKLine (putCKLine (putCKLine p s0 c0) s c) =
      (s, c, { p with m_buf := [], m_comment := [] }) := by
  have h := getCKLine_putCKLine p s c hs
  refine ⟨h, ?_, ?_, ?_, ?_, ?_⟩
  · rw [h]
  · rw [h]
  · rw [h]
  · rw [h]
  · exact getCKLine_putCKLine (putCKLine p s0 c0) s c hs

/-- The line `SPECIES` put back with the comment `note`. -/
theorem putback_replayed_witness :
    "SPECIES".toList ≠ [] ∧
    getCKLine (putCKLine (CKParser.new "X\n".toList) "SPECIES".toList "note".toList) =
      ("SPECIES".toList, "note".toList, CKParser.new "X\n".toList) ∧
    getCKLine (getCKLine
        (putCKLine (CKParser.new "X\n".toList) "SPECIES".toList "note".toList)).2.2 =
      ("X".toList, [], ⟨[], [], [], 1, '\n', []⟩) ∧
    getCKLine (putCKLine (putCKLine (CKParser.new "X\n".toList) "END".toList "old".toList)
        "SPECIES".toList "note".toList) =
      ("SPECIES".toList, "note".toList, CKParser.new "X\n".toList) :=
  ⟨by decide,
    (putback_replayed (CKParser.new "X\n".toList) "SPECIES".toList "note".toList
      "END".toList "old".toList (by decide)).1,
    by rfl,
    (putback_replayed (CKParser.new "X\n".toList) "SPECIES".toList "note".toList
      "END".toList "old".toList (by decide)).2.2.2.2.2⟩

end ckr

namespace ckr

/-! ## Errors without a line number -/

set_option maxRecDepth 100000 in
/-- C31, the failing input. The default temperatures `0.000 1000.000 5000.000`
    after `THERMO ALL` are rejected with the error "error reading Tmin, Tmid,
    or Tmax", which carries the default line number and not the number of the
    line read: the same number when the line is line 2 of the stream and when
    it is line 3. The error for a record whose low temperature is 0 has that
    number too, with five lines read. The error "unrecognized THERMO option."
    of the same function carries the number 1 of the header line. -/
theorem temperature_error_without_line :
    errorLine (readThermoSection exampleUndef exampleNoThermoDatabase exampleHasTempRange
        ["AR".toList] [] [] 0 false (CKParser.new zeroTempText)) =
      some ("error reading Tmin, Tmid, or Tmax".toList, noLinenum) ∧
    (afterLines 2 (CKParser.new zeroTempText)).m_line = 2 ∧
    errorLine (readThermoSection exampleUndef exampleNoThermoDatabase exampleHasTempRange
        ["AR".toList] [] [] 0 false (CKParser.new zeroTempTextLate)) =
      some ("error reading Tmin, Tmid, or Tmax".toList, noLinenum) ∧
    (afterLines 3 (CKParser.new zeroTempTextLate)).m_line = 3 ∧
    errorLine (readThermoSection exampleUndef exampleNoThermoDatabase exampleHasTempRange
        ["AR".toList] [] [] 0 false
        (CKParser.new ("THERMO\n".toList ++ thermoText arLine1ZeroLow arLine2 arLine3 arLine4))) =
      some ("error reading Tmin, Tmid, or Tmax".toList, noLinenum) ∧
    errorLine (readThermoSection exampleUndef exampleNoThermoDatabase exampleHasTempRange
        ["AR".toList] [] [] 0 false (CKParser.new ("THERMO ALL X\n".toList ++ zeroTempText))) =
      some ("unrecognized THERMO option.".toList, 1) := by
  refine ⟨?_, ?_, ?_, ?_, ?_, ?_⟩ <;> rfl

/-! ## Group lists and coefficients below 1 -/

/-- C37, the failing input. The reaction `.5A+B=B` has the two reactants `5A`,
    with the coefficient 0.5, and `B`, so the atom count of its reactant side
    is 0 + 1 = 1; the metadata line `%(H)=(H)` has one group list on the left
    and passes the count test, and the assignment to the second reactant reads
    the group list at index 1 of a vector of size 1. -/
theorem group_assignment_out_of_range :
    (getSpecies ".5A+B".toList).map (fun sp => (sp.name, sp.number)) =
      [("5A".toList, ⟨5, -1⟩), ("B".toList, ⟨1, 0⟩)] ∧
    atomCount (getSpecies ".5A+B".toList) = 1 ∧
    (getGroups "%(H)".toList ["H".toList]).2.length = 1 ∧
    readReactionSection ["5A".toList, "B".toList] ["H".toList] [] stdUnits
        (CKParser.new halfCoefficientText) = Except.error Failure.outOfRange := by
  refine ⟨?_, ?_, ?_, ?_⟩ <;> rfl

/-- C33, the failing input. After the reaction `.5A+B=B`, the metadata line
    `%(H)=(H)+(H)` has two group lists on the right for a product side with
    the atom count 1, and the parse does not fail with a syntax error: the
    left side passes its test with one group list for two reactants, and the
    assignment of the group lists to the reactants leaves the vector before
    the right side is tested. With the reactants `A` and `B` the same right
    side is rejected with a syntax error at line 3. -/
theorem product_groups_not_reached :
    readReactionSection ["5A".toList, "B".toList] ["H".toList] [] stdUnits
        (CKParser.new halfCoefficientTextTwo) = Except.error Failure.outOfRange ∧
    errorLine (readReactionSection ["A".toList, "B".toList] ["H".toList] [] stdUnits
        (CKParser.new "REACTIONS\nA+B=B 1 0 0\n%(H)+(H)=(H)+(H)\nEND\n".toList)) =
      some (" groups not specified for all products".toList, 3) := by
  refine ⟨?_, ?_⟩ <;> rfl

/-! ## The type of a three-body reaction -/

/-- C36, the failing input. The reaction `A=B+M`, with the suffix `+M` on the
    product side only, is stored with the flag `isThreeBodyRxn` set and the
    type `Elementary`; with the suffix on both sides, `A+M=B+M`, the type is
    `ThreeBody`. -/
theorem right_marker_type_not_set :
    Except.map (fun rs => rs.map (fun (r : Reaction) =>
          (r.type, r.isThreeBodyRxn, r.isFalloffRxn, r.thirdBody)))
        (storedReactions ["A".toList, "B".toList] rightMarkerText) =
      Except.ok [(RxnType.Elementary, true, false, "M".toList)] ∧
    Except.map (fun rs => rs.map (fun (r : Reaction) =>
          (r.type, r.isThreeBodyRxn, r.isFalloffRxn, r.thirdBody)))
        (storedReactions ["A".toList, "B".toList] bothMarkersText) =
      Except.ok [(RxnType.ThreeBody, true, false, "M".toList)] := by
  refine ⟨?_, ?_⟩ <;> rfl

end ckr

namespace ckr

/-! ## The fifth element slot -/

/-- The fifth slot of a line that holds it adds the constituent of its symbol
    and count. -/
theorem fifthElement_eq (s : Str) (sp : Species) (h : 75 ≤ s.length) :
    fifthElement s sp =
      Except.ok { sp with elements := sp.elements ++ fifthConstituent s,
                          comp := enterAll sp.comp (fifthConstituent s) } := by
  have h0 : 73 ≤ s.length := by omega
  have h1 : 74 ≤ s.length := by omega
  have e2 := substr_two '\x00' 73 s h
  unfold fifthElement
  simp only [strAt, substrE, if_pos h0, if_pos h1, if_pos h]
  have hsym : (if s.getD 74 '\x00' ≠ ' ' then
      (if s.getD 73 '\x00' ≠ ' ' then [s.getD 73 '\x00'] else []) ++ [s.getD 74 '\x00']
      else (if s.getD 73 '\x00' ≠ ' ' then [s.getD 73 '\x00'] else [])) = fifthSymbol s := by
    unfold fifthSymbol
    rw [e2]
    generalize s.getD 73 '\x00' = a
    generalize s.getD (73 + 1) '\x00' = b
    by_cases c0 : a = ' '
    · by_cases c1 : b = ' '
      · simp [c0, c1]
      · simp [c0, c1]
    · by_cases c1 : b = ' '
      · simp [c0, c1]
      · simp [c0, c1]
  rw [hsym]
  have hcnt : atof (substr s 75 3) = fifthCount s := rfl
  rw [hcnt]
  unfold addElement fifthConstituent
  by_cases hc : (fifthCount s).mant ≠ 0
  · rw [if_pos hc, if_pos hc]
    rfl
  · rw [if_neg hc, if_neg hc]
    simp [enterAll]

set_option maxRecDepth 100000 in
/-- C32, counterexample. Line 1 of the record has `H   2` in its fifth element
    slot. Without the option NO_TMID the record has the constituents (AR, 1)
    and (H, 2) and the midpoint temperature 1000.00 of line 1; with the option
    it has the constituent (AR, 1) only, and no midpoint temperature is
    read. -/
theorem fifth_slot_skipped :
    Except.map (fun r => (r.1.elements, r.1.tmid))
        (readThermoRecord exampleUndef false
          (CKParser.new (thermoText fiveLine1 arLine2 arLine3 arLine4)) Species.fresh) =
      Except.ok ([⟨"AR".toList, ⟨1, 0⟩⟩, ⟨"H".toList, ⟨2, 0⟩⟩], ⟨100000, -2⟩) ∧
    Except.map (fun r => (r.1.elements, r.1.tmid))
        (readThermoRecord exampleUndef true
          (CKParser.new (thermoText fiveLine1 arLine2 arLine3 arLine4)) Species.fresh) =
      Except.ok ([⟨"AR".toList, ⟨1, 0⟩⟩], Dbl.zero) := by
  refine ⟨?_, ?_⟩ <;> rfl

/-- C32. For a line 1 (at least 80 characters, `1` in column 80, a name in
    the columns 0 to 23, the count and temperature fields blank or holding a
    decimal numeral): with the option NO_TMID the species gets the
    constituents of the first four slots and keeps its midpoint temperature;
    without the option it gets in addition the midpoint temperature of the
    columns 65 to 72 and, after the four slots, the constituent of the fifth
    slot (symbol at 73-74, count at 75-77) when its count is not 0. The two
    results differ in nothing else. -/
theorem fifth_slot (m_line : Nat) (sp : Species) (s : Str) (h80 : 80 ≤ s.length)
    (h1 : s.getD 79 '\x00' = '1') (hname : getTokens (substr s 0 24) ≠ [])
    (_hdec : line1Decimal false s = true) :
    ∃ sp2,
      thermoLine1 true m_line sp s = Except.ok sp2 ∧
      sp2.elements = sp.elements ++ slotConstituents s [0, 1, 2, 3] ∧
      sp2.tmid = sp.tmid ∧
      thermoLine1 false m_line sp s =
        Except.ok { sp2 with tmid := atof (substr s 65 8),
                             elements := sp2.elements ++ fifthConstituent s,
                             comp := enterAll sp2.comp (fifthConstituent s) } := by
  have l79 : 79 ≤ s.length := by omega
  have l0 : 0 ≤ s.length := by omega
  have l44 : 44 ≤ s.length := by omega
  have l45 : 45 ≤ s.length := by omega
  have l55 : 55 ≤ s.length := by omega
  have l65 : 65 ≤ s.length := by omega
  have l75 : 75 ≤ s.length := by omega
  have hv : ∃ name, vecAt (getTokens (substr s 0 24)) 0 = Except.ok name := by
    cases ht : getTokens (substr s 0 24) with
    | nil => exact absurd ht hname
    | cons a l => exact ⟨a, rfl⟩
  obtain ⟨name, hv⟩ := hv
  have hslots := elementSlots_eq s [0, 1, 2, 3]
    { sp with name := name, id := joinId ((getTokens (substr s 0 24)).drop 1) }
    (by
      intro i hi
      simp only [List.mem_cons, List.mem_singleton, List.not_mem_nil, or_false] at hi
      omega)
  have hc : ¬ (s.getD 79 '\x00' ≠ '1') := by
    rw [h1]
    simp
  refine ⟨{ sp with
      name := name
      id := joinId ((getTokens (substr s 0 24)).drop 1)
      elements := sp.elements ++ slotConstituents s [0, 1, 2, 3]
      comp := enterAll sp.comp (slotConstituents s [0, 1, 2, 3])
      phase := s.getD 44 '\x00'
      tlow := atof (substr s 45 10)
      thigh := atof (substr s 55 10) }, ?_, ?_, ?_, ?_⟩
  · unfold thermoLine1
    simp only [strAt, substrE, if_pos l79, if_pos l0, if_pos l44, if_pos l45, if_pos l55,
      if_neg hc, hv, hslots]
    rfl
  · rfl
  · rfl
  · unfold thermoLine1
    simp only [strAt, substrE, if_pos l79, if_pos l0, if_pos l44, if_pos l45, if_pos l55,
      if_pos l65, if_neg hc, hv, hslots]
    simp only [if_true]
    rw [fifthElement_eq s _ l75]

set_option maxRecDepth 100000 in
/-- C32, an instance of the amended property: line 1 of the record of AR with
    `H   2` in the fifth slot. -/
theorem fifth_slot_witness :
    80 ≤ fiveLine1.length ∧ fiveLine1.getD 79 '\x00' = '1' ∧
    getTokens (substr fiveLine1 0 24) ≠ [] ∧ line1Decimal false fiveLine1 = true ∧
    fifthConstituent fiveLine1 = [⟨"H".toList, ⟨2, 0⟩⟩] ∧
    ∃ sp2,
      thermoLine1 true 1 Species.fresh fiveLine1 = Except.ok sp2 ∧
      sp2.elements = Species.fresh.elements ++ slotConstituents fiveLine1 [0, 1, 2, 3] ∧
      sp2.tmid = Species.fresh.tmid ∧
      thermoLine1 false 1 Species.fresh fiveLine1 =
        Except.ok { sp2 with tmid := atof (substr fiveLine1 65 8),
                             elements := sp2.elements ++ fifthConstituent fiveLine1,
                             comp := enterAll sp2.comp (fifthConstituent fiveLine1) } :=
  ⟨by decide, by rfl, by decide, by decide, by rfl,
    fifth_slot 1 Species.fresh fiveLine1 (by decide) (by rfl) (by decide) (by decide)⟩

end ckr

namespace ckr

/-! ## The end of the stream -/

theorem readLine_end (eol : Char) :
    ∀ (l acc : Str), (∀ c ∈ l, endsLine eol c = false) →
      readLine l eol acc = (acc ++ visible l, [], eol, true) := by
  intro l
  induction l with
  | nil =>
    intro acc _
    simp [readLine, visible]
  | cons c l ih =>
    intro acc h
    have hc := h c (List.mem_cons_self _ _)
    have hrest : ∀ d ∈ l, endsLine eol d = false := fun d hd => h d (List.mem_cons_of_mem _ hd)
    have hc1 : ¬ (c = '\r' ∨ (c = '\n' ∧ eol ≠ '\r')) := by
      intro h0
      have : endsLine eol c = true := by
        simp only [endsLine, Bool.or_eq_true, Bool.and_eq_true, decide_eq_true_eq]
        exact h0
      rw [this] at hc
      exact absurd hc (by decide)
    rw [readLine]
    by_cases ht : c = '\t'
    · subst ht
      have h1 : ¬ ((' ' : Char) = '\r' ∨ ((' ' : Char) = '\n' ∧ eol ≠ '\r')) := by
        simp
      rw [if_pos rfl, if_neg h1, ih _ hrest]
      simp [visible, isPrint]
    · rw [if_neg ht, if_neg hc1, ih _ hrest]
      by_cases hp : isPrint c = true
      · simp [visible, ht, hp]
      · simp [visible, ht, hp]

/-- C35. When the buffer is empty and no character left in the stream ends a
    line, `getCKLine` returns `<EOF>` with an empty comment, whatever the
    characters left are; the stream is then empty, the line counter and the
    rest of the parser are as before, and every later call returns the same
    and changes nothing. -/
theorem unterminated_last_line (p : CKParser) (hbuf : p.m_buf = [])
    (hl : ∀ c ∈ p.m_ckfile, endsLine p.m_last_eol c = false) :
    getCKLine p = ("<EOF>".toList, [], { p with m_ckfile := [] }) ∧
    ∀ n, afterLines n { p with m_ckfile := [] } = { p with m_ckfile := [] } ∧
      getCKLine (afterLines n { p with m_ckfile := [] }) =
        ("<EOF>".toList, [], { p with m_ckfile := [] }) := by
  have hb : ¬ p.m_buf ≠ [] := by simp [hbuf]
  have first : getCKLine p = ("<EOF>".toList, [], { p with m_ckfile := [] }) := by
    unfold getCKLine
    rw [if_neg hb, readLine_end p.m_last_eol p.m_ckfile [] hl]
    rfl
  have again : getCKLine { p with m_ckfile := [] } =
      ("<EOF>".toList, [], { p with m_ckfile := [] }) := by
    unfold getCKLine
    rw [if_neg hb]
    rfl
  refine ⟨first, ?_⟩
  intro n
  have hn : afterLines n { p with m_ckfile := [] } = { p with m_ckfile := [] } := by
    induction n with
    | zero => rfl
    | succ k ih =>
      rw [afterLines, again]
      exact ih
  rw [hn]
  exact ⟨rfl, again⟩

/-- C35, an instance: the stream `a`, line feed, `bc`; the calls return `a`
    and then `<EOF>`, and the line counter stays at 1. -/
theorem unterminated_last_line_witness :
    nextContents 3 (CKParser.new "a\nbc".toList) =
      ["a".toList, "<EOF>".toList, "<EOF>".toList] ∧
    (afterLines 1 (CKParser.new "a\nbc".toList)).m_ckfile = "bc".toList ∧
    getCKLine (afterLines 1 (CKParser.new "a\nbc".toList)) =
      ("<EOF>".toList, [], ⟨[], [], [], 1, '\n', []⟩) :=
  ⟨by rfl, by rfl,
    (unterminated_last_line (afterLines 1 (CKParser.new "a\nbc".toList)) (by rfl)
      (by decide)).1⟩

end ckr

namespace ckr

/-! ## The element and species readers at the end of the stream -/

theorem getCKLine_at_end (p : CKParser) (hbuf : p.m_buf = []) (hfile : p.m_ckfile = []) :
    getCKLine p = ("<EOF>".toList, [], p) := by
  have h := (unterminated_last_line p hbuf (by rw [hfile]; intro c hc; simp at hc)).1
  rw [h]
  cases p
  simp only [] at hfile
  subst hfile
  rfl

/-- At the end of the stream the loop over the lines of a section does not
    end, whatever number of passes it is given: every pass reads the line
    `<EOF>`, which is not a keyword and not `END`, and hands it to the list as
    a token. -/
theorem tokenLines_at_end {σ : Type} (step : σ → Str → Str → σ) (p : CKParser)
    (hbuf : p.m_buf = []) (hfile : p.m_ckfile = []) :
    ∀ (fuel : Nat) (st : σ),
      tokenLines step fuel false p st = Except.error Failure.outOfFuel := by
  have hnext : nextTokenLine (p.m_ckfile.length + 2) p =
      Except.ok ("<EOF>".toList, [], ["<EOF>".toList], p) := by
    rw [hfile]
    simp only [List.length_nil, Nat.zero_add, nextTokenLine]
    rw [getCKLine_at_end p hbuf hfile]
    rfl
  intro fuel
  induction fuel with
  | zero => intro st; rfl
  | succ n ih =>
    intro st
    simp only [tokenLines]
    rw [hnext]
    simp only []
    have hk : ¬ (True ∧ isKeyword (["<EOF>".toList].headD []) = true) := by
      decide
    rw [if_neg hk]
    have hloop : tokenLoop step [] (if false = true then ["<EOF>".toList].drop 1
        else ["<EOF>".toList]) st = (step st "<EOF>".toList [], false) := rfl
    rw [hloop]
    simp only [Bool.false_eq_true, if_false]
    exact ih _

set_option maxRecDepth 100000 in
/-- C38, the failing input. An ELEMENTS block and a SPECIES block that the
    stream ends in, without `END`: after the last line is read, the loop of
    the reader over the lines of the block does not end for any number of
    passes, and the models of the two readers stop for want of steps. The same
    happens when the block is closed by an `END` that no line terminator
    follows. -/
theorem readers_never_end :
    (afterLines 2 (CKParser.new openElementsText)).m_ckfile = [] ∧
    (∀ (fuel : Nat) (st : List Element),
      tokenLines (addElementToken exampleWeight) fuel false
        (afterLines 2 (CKParser.new openElementsText)) st = Except.error Failure.outOfFuel) ∧
    (∀ (fuel : Nat) (st : List Species × Nat),
      tokenLines addSpeciesToken fuel false
        (afterLines 2 (CKParser.new openSpeciesText)) st = Except.error Failure.outOfFuel) ∧
    readElementSection exampleWeight exampleValid (CKParser.new openElementsText) =
      Except.error Failure.outOfFuel ∧
    readSpeciesSection (CKParser.new openSpeciesText) [] = Except.error Failure.outOfFuel ∧
    readElementSection exampleWeight exampleValid (CKParser.new "ELEMENTS\nH O\nEND".toList) =
      Except.error Failure.outOfFuel ∧
    Except.map (fun r => (r.1, r.2.1.map Element.name))
        (readElementSection exampleWeight exampleValid
          (CKParser.new "ELEMENTS\nH O\nEND\n".toList)) =
      Except.ok (true, ["H".toList, "O".toList]) := by
  refine ⟨rfl, ?_, ?_, ?_, ?_, ?_, ?_⟩
  · exact tokenLines_at_end _ _ rfl rfl
  · exact tokenLines_at_end _ _ rfl rfl
  · rfl
  · rfl
  · rfl
  · rfl

end ckr

namespace ckr

/-! ## The accesses of `readThermoRecord` -/

theorem seekThermoLine1_line :
    ∀ (fuel : Nat) (p p1 : CKParser) (s : Str),
      seekThermoLine1 fuel p = Except.ok (some s, p1) →
      80 ≤ s.length ∧ s.getD 79 '\x00' = '1' := by
  intro fuel
  induction fuel with
  | zero => intro p p1 s h; simp [seekThermoLine1] at h
  | succ n ih =>
    intro p p1 s h
    simp only [seekThermoLine1] at h
    by_cases hk : isKeyword (getCKLine p).1 = true ∨
        matchKw (getCKLine p).1 "<EOF>".toList = true
    · rw [if_pos hk] at h
      simp at h
    · rw [if_neg hk] at h
      by_cases hl : (getCKLine p).1.length < 80 ∨ (getCKLine p).1.getD 79 '\x00' ≠ '1'
      · rw [if_pos hl] at h
        exact ih _ _ _ h
      · rw [if_neg hl] at h
        simp only [Except.ok.injEq, Prod.mk.injEq, Option.some.injEq] at h
        rw [← h.1]
        constructor
        · by_contra h0
          exact hl (Or.inl (by omega))
        · by_contra h0
          exact hl (Or.inr h0)

theorem getTokensAux_nonempty :
    ∀ (s cur : Str), (cur ≠ [] ∨ ∃ c ∈ s, isSpace c = false) → getTokensAux s cur ≠ [] := by
  intro s
  induction s with
  | nil =>
    intro cur h
    rcases h with h | ⟨c, hc, _⟩
    · simp [getTokensAux, h]
    · simp at hc
  | cons a s ih =>
    intro cur h
    rw [getTokensAux]
    by_cases ha : isSpace a = true
    · rw [if_pos ha]
      by_cases hcur : cur = []
      · rw [if_pos hcur]
        apply ih
        right
        rcases h with h | ⟨c, hc, hs⟩
        · exact absurd hcur h
        · rcases List.mem_cons.1 hc with h1 | h1
          · rw [h1, ha] at hs
            exact absurd hs (by decide)
          · exact ⟨c, h1, hs⟩
      · rw [if_neg hcur]
        simp
    · rw [if_neg ha]
      apply ih
      left
      simp

/-- Line 1 with at least 80 characters and a name in its first 24 columns is
    read without an access beyond the line or the tokens. -/
theorem thermoLine1_range (m_nasafmt : Bool) (m_line : Nat) (sp : Species) (s : Str)
    (h80 : 80 ≤ s.length) (hname : getTokens (substr s 0 24) ≠ []) :
    thermoLine1 m_nasafmt m_line sp s ≠ Except.error Failure.outOfRange := by
  have l79 : 79 ≤ s.length := by omega
  have l0 : 0 ≤ s.length := by omega
  have l44 : 44 ≤ s.length := by omega
  have l45 : 45 ≤ s.length := by omega
  have l55 : 55 ≤ s.length := by omega
  have l65 : 65 ≤ s.length := by omega
  have l75 : 75 ≤ s.length := by omega
  have hv : ∃ name, vecAt (getTokens (substr s 0 24)) 0 = Except.ok name := by
    cases ht : getTokens (substr s 0 24) with
    | nil => exact absurd ht hname
    | cons a l => exact ⟨a, rfl⟩
  obtain ⟨name, hv⟩ := hv
  have hslots := elementSlots_eq s [0, 1, 2, 3]
    { sp with name := name, id := joinId ((getTokens (substr s 0 24)).drop 1) }
    (by
      intro i hi
      simp only [List.mem_cons, List.mem_singleton, List.not_mem_nil, or_false] at hi
      omega)
  intro h
  unfold thermoLine1 at h
  simp only [strAt, substrE, if_pos l79, if_pos l0, if_pos l44, if_pos l45, if_pos l55,
    if_pos l65, hv, hslots] at h
  by_cases hc : s.getD 79 '\x00' ≠ '1'
  · rw [if_pos hc] at h
    simp [illegalThermoLine, throwSyntax] at h
  · rw [if_neg hc] at h
    cases m_nasafmt with
    | true => simp at h
    | false =>
      simp only [if_true] at h
      rw [fifthElement_eq s _ l75] at h
      simp at h

theorem readCoeffs_range (UNDEF : Dbl) (m_line : Nat) (s : Str) :
    ∀ (fields : List Nat), (∀ i ∈ fields, i * 15 ≤ s.length) →
      readCoeffs UNDEF m_line s fields ≠ Except.error Failure.outOfRange := by
  intro fields
  induction fields with
  | nil => intro _ h; simp [readCoeffs] at h
  | cons i rest ih =>
    intro hf h
    have hi := hf i (List.mem_cons_self _ _)
    simp only [readCoeffs, substrE, if_pos hi] at h
    split at h
    · simp [illegalNumber, throwSyntax] at h
    · cases hr : readCoeffs UNDEF m_line s rest with
      | error e =>
        rw [hr] at h
        simp only [Except.error.injEq] at h
        rw [h] at hr
        exact ih (fun j hj => hf j (List.mem_cons_of_mem _ hj)) hr
      | ok cfs =>
        rw [hr] at h
        simp at h

theorem columnCheck_range (p : CKParser) (digit : Char)
    (h : 79 ≤ (getCKLine p).1.length) :
    columnCheck p digit ≠ Except.error Failure.outOfRange := by
  intro h0
  unfold columnCheck at h0
  simp only [strAt, if_pos h] at h0
  split at h0
  · simp [illegalThermoLine, throwSyntax] at h0
  · simp at h0

/-- The lines 2 to 4 of a record are read without an access beyond a line
    when each of them has at least 80 characters. -/
theorem thermoCoeffLines_range (UNDEF : Dbl) (p : CKParser) (sp : Species)
    (h2 : 80 ≤ (lineAt 0 p).1.length) (h3 : 80 ≤ (lineAt 1 p).1.length)
    (h4 : 80 ≤ (lineAt 2 p).1.length) :
    thermoCoeffLines UNDEF p sp ≠ Except.error Failure.outOfRange := by
  have g2 : 80 ≤ (getCKLine p).1.length := h2
  have g3 : 80 ≤ (getCKLine (getCKLine p).2.2).1.length := h3
  have g4 : 80 ≤ (getCKLine (getCKLine (getCKLine p).2.2).2.2).1.length := h4
  unfold thermoCoeffLines
  cases c2 : columnCheck p '2' with
  | error e =>
    intro h
    simp only [Except.error.injEq] at h
    rw [h] at c2
    exact columnCheck_range _ _ (by omega) c2
  | ok r2 =>
    obtain ⟨s2, p2⟩ := r2
    obtain ⟨e2s, e2⟩ := columnCheck_ok _ _ _ _ c2
    simp only []
    cases d2 : readCoeffs UNDEF p2.m_line s2 [0, 1, 2, 3, 4] with
    | error e =>
      intro h
      simp only [Except.error.injEq] at h
      rw [h] at d2
      refine readCoeffs_range _ _ _ _ ?_ d2
      intro i hi
      rw [e2s]
      simp only [List.mem_cons, List.mem_singleton, List.not_mem_nil, or_false] at hi
      omega
    | ok v2 =>
      simp only []
      cases c3 : columnCheck p2 '3' with
      | error e =>
        intro h
        simp only [Except.error.injEq] at h
        rw [h] at c3
        rw [e2] at c3
        exact columnCheck_range _ _ (by omega) c3
      | ok r3 =>
        obtain ⟨s3, p3⟩ := r3
        obtain ⟨e3s, e3⟩ := columnCheck_ok _ _ _ _ c3
        rw [e2] at e3s e3
        simp only []
        cases d3 : readCoeffs UNDEF p3.m_line s3 [0, 1] with
        | error e =>
          intro h
          simp only [Except.error.injEq] at h
          rw [h] at d3
          refine readCoeffs_range _ _ _ _ ?_ d3
          intro i hi
          rw [e3s]
          simp only [List.mem_cons, List.mem_singleton, List.not_mem_nil, or_false] at hi
          omega
        | ok v3 =>
          simp only []
          cases d3l : readCoeffs UNDEF p3.m_line s3 [2, 3, 4] with
          | error e =>
            intro h
            simp only [Except.error.injEq] at h
            rw [h] at d3l
            refine readCoeffs_range _ _ _ _ ?_ d3l
            intro i hi
            rw [e3s]
            simp only [List.mem_cons, List.mem_singleton, List.not_mem_nil, or_false] at hi
            omega
          | ok v3l =>
            simp only []
            cases c4 : columnCheck p3 '4' with
            | error e =>
              intro h
              simp only [Except.error.injEq] at h
              rw [h] at c4
              rw [e3] at c4
              exact columnCheck_range _ _ (by omega) c4
            | ok r4 =>
              obtain ⟨s4, p4⟩ := r4
              obtain ⟨e4s, e4⟩ := columnCheck_ok _ _ _ _ c4
              rw [e3] at e4s
              simp only []
              cases d4 : readCoeffs UNDEF p4.m_line s4 [0, 1, 2, 3] with
              | error e =>
                intro h
                simp only [Except.error.injEq] at h
                rw [h] at d4
                refine readCoeffs_range _ _ _ _ ?_ d4
                intro i hi
                rw [e4s]
                simp only [List.mem_cons, List.mem_singleton, List.not_mem_nil,
                  or_false] at hi
                omega
              | ok v4 =>
                intro h
                simp at h

/-- C39. When the search for line 1 accepts the line `s`, which has a
    character that is not white space in its columns 0 to 23, and each of the
    next three lines that `getCKLine` returns has at least 80 characters:
    `s` has at least 80 characters, the token `toks[0]` of the name exists,
    and `readThermoRecord` makes no access beyond the end of a line or of the
    tokens; it returns or fails with a syntax error. -/
theorem record_access_in_range (UNDEF : Dbl) (m_nasafmt : Bool) (p p1 : CKParser)
    (sp : Species) (s : Str)
    (hseek : seekThermoLine1 (p.m_ckfile.length + 3) p = Except.ok (some s, p1))
    (hname : ∃ c ∈ substr s 0 24, isSpace c = false)
    (h2 : 80 ≤ (lineAt 0 p1).1.length) (h3 : 80 ≤ (lineAt 1 p1).1.length)
    (h4 : 80 ≤ (lineAt 2 p1).1.length) :
    80 ≤ s.length ∧
    (∃ name, vecAt (getTokens (substr s 0 24)) 0 = Except.ok name) ∧
    readThermoRecord UNDEF m_nasafmt p sp ≠ Except.error Failure.outOfRange ∧
    readThermoRecord UNDEF m_nasafmt p sp ≠ Except.error Failure.outOfFuel := by
  obtain ⟨hlen, _⟩ := seekThermoLine1_line _ _ _ _ hseek
  have htok : getTokens (substr s 0 24) ≠ [] :=
    getTokensAux_nonempty _ _ (Or.inr hname)
  refine ⟨hlen, ?_, ?_, (readThermoRecord_stream UNDEF m_nasafmt p sp).1⟩
  · cases ht : getTokens (substr s 0 24) with
    | nil => exact absurd ht htok
    | cons a l => exact ⟨a, rfl⟩
  · unfold readThermoRecord
    rw [hseek]
    simp only []
    cases hl : thermoLine1 m_nasafmt p1.m_line sp s with
    | error e =>
      intro h
      simp only [Except.error.injEq] at h
      rw [h] at hl
      exact thermoLine1_range _ _ _ _ hlen htok hl
    | ok sp1 =>
      simp only []
      exact thermoCoeffLines_range UNDEF p1 sp1 h2 h3 h4

set_option maxRecDepth 100000 in
theorem record_access_in_range_witness :
    seekThermoLine1 (arParser.m_ckfile.length + 3) arParser =
      Except.ok (some arLine1, afterLines 1 arParser) ∧
    (80 ≤ arLine1.length ∧
      (∃ name, vecAt (getTokens (substr arLine1 0 24)) 0 = Except.ok name) ∧
      readThermoRecord exampleUndef false arParser Species.fresh ≠
        Except.error Failure.outOfRange ∧
      readThermoRecord exampleUndef false arParser Species.fresh ≠
        Except.error Failure.outOfFuel) :=
  ⟨by rfl,
    record_access_in_range exampleUndef false arParser (afterLines 1 arParser) Species.fresh
      arLine1 (by rfl) ⟨'A', by decide, by decide⟩ (by decide) (by decide) (by decide)⟩

end ckr

namespace ckr

/-! ## Group strings -/

theorem isAlpha_facts (c : Char) (h : isAlpha c = true) : c ≠ '-' ∧ isDigit c = false := by
  constructor
  · intro h0
    rw [h0] at h
    exact absurd h (by decide)
  · simp only [isAlpha, Bool.or_eq_true, Bool.and_eq_true, decide_eq_true_eq] at h
    simp only [isDigit, Bool.and_eq_false_iff, decide_eq_false_iff_not]
    omega

theorem isDigit_not_dash (c : Char) (h : isDigit c = true) : c ≠ '-' := by
  intro h0
  rw [h0] at h
  exact absurd h (by decide)

/-- The letters of a symbol are collected. -/
theorem parseGroupScan_letters (esyms : List Str) (cs : Str) (r : Group) :
    ∀ (sym acc : Str), (∀ c ∈ sym, isAlpha c = true) →
      parseGroupScan esyms (sym ++ cs) acc [] true r =
        parseGroupScan esyms cs (acc ++ sym) [] true r := by
  intro sym
  induction sym with
  | nil => intro acc _; simp
  | cons c sym ih =>
    intro acc h
    obtain ⟨h1, h2⟩ := isAlpha_facts c (h c (List.mem_cons_self _ _))
    have h3 : isAlpha c = true ∧ True := ⟨h c (List.mem_cons_self _ _), trivial⟩
    rw [List.cons_append, parseGroupScan, if_neg h1, h2]
    simp only [Bool.false_eq_true, if_false]
    rw [if_pos h3, ih _ (fun d hd => h d (List.mem_cons_of_mem _ hd))]
    simp

/-- The digits of a count are collected. -/
theorem parseGroupScan_digits (esyms : List Str) (cs sym : Str) (r : Group) :
    ∀ (num acc : Str) (inSymbol : Bool), (∀ c ∈ num, isDigit c = true) →
      ∃ b, parseGroupScan esyms (num ++ cs) sym acc inSymbol r =
        parseGroupScan esyms cs sym (acc ++ num) b r := by
  intro num
  induction num with
  | nil => intro acc inSymbol _; exact ⟨inSymbol, by simp⟩
  | cons c num ih =>
    intro acc inSymbol h
    have hd := h c (List.mem_cons_self _ _)
    have h1 := isDigit_not_dash c hd
    obtain ⟨b, hb⟩ := ih (acc ++ [c]) false (fun d hd => h d (List.mem_cons_of_mem _ hd))
    refine ⟨b, ?_⟩
    rw [List.cons_append, parseGroupScan, if_neg h1, if_pos hd, hb]
    simp

/-- What the scan does at the `-` that ends an item. -/
theorem parseGroupScan_dash (esyms : List Str) (cs sym num : Str) (b : Bool) (r : Group) :
    parseGroupScan esyms ('-' :: cs) sym num b r =
      if sym ∈ esyms then
        parseGroupScan esyms cs [] [] true
          (r.set (esyms.indexOf sym) (if num ≠ [] then atoi num else 1))
      else none := by
  rw [parseGroupScan]
  simp

/-- The scan of one item and the `-` after it. -/
theorem parseGroupScan_item (esyms : List Str) (x : GroupItem) (hwf : x.wf = true)
    (cs : Str) (r : Group) :
    parseGroupScan esyms (x.text ++ '-' :: cs) [] [] true r =
      if x.sym ∈ esyms then
        parseGroupScan esyms cs [] [] true (r.set (esyms.indexOf x.sym) x.count)
      else none := by
  simp only [GroupItem.wf, Bool.and_eq_true, List.all_eq_true] at hwf
  obtain ⟨ha, hd⟩ := hwf
  obtain ⟨b, hb⟩ := parseGroupScan_digits esyms ('-' :: cs) ([] ++ x.sym) r x.num [] true hd
  rw [GroupItem.text, List.append_assoc, parseGroupScan_letters esyms _ r x.sym [] ha, hb,
    parseGroupScan_dash]
  simp [GroupItem.count]

theorem parseGroupScan_items (esyms : List Str) :
    ∀ (rest : List GroupItem) (x : GroupItem) (r : Group),
      (∀ y ∈ x :: rest, y.wf = true) → (∀ y ∈ x :: rest, y.sym ∈ esyms) →
      parseGroupScan esyms (groupText (x :: rest) ++ ['-']) [] [] true r =
        some ((x :: rest).foldl (fun r y => r.set (esyms.indexOf y.sym) y.count) r) := by
  intro rest
  induction rest with
  | nil =>
    intro x r hwf hin
    have h1 := hin x (List.mem_cons_self _ _)
    rw [groupText, parseGroupScan_item esyms x (hwf x (List.mem_cons_self _ _)), if_pos h1]
    rfl
  | cons x1 rest ih =>
    intro x r hwf hin
    have h1 := hin x (List.mem_cons_self _ _)
    rw [groupText, List.append_assoc, List.cons_append,
      parseGroupScan_item esyms x (hwf x (List.mem_cons_self _ _)), if_pos h1,
      ih x1 _ (fun y hy => hwf y (List.mem_cons_of_mem _ hy))
        (fun y hy => hin y (List.mem_cons_of_mem _ hy))]
    rfl

theorem parseGroupScan_unknown (esyms : List Str) :
    ∀ (rest : List GroupItem) (x : GroupItem) (r : Group),
      (∀ y ∈ x :: rest, y.wf = true) → (∃ y ∈ x :: rest, y.sym ∉ esyms) →
      parseGroupScan esyms (groupText (x :: rest) ++ ['-']) [] [] true r = none := by
  intro rest
  induction rest with
  | nil =>
    intro x r hwf hex
    obtain ⟨y, hy, hn⟩ := hex
    rw [List.mem_singleton] at hy
    rw [hy] at hn
    rw [groupText, parseGroupScan_item esyms x (hwf x (List.mem_cons_self _ _)), if_neg hn]
  | cons x1 rest ih =>
    intro x r hwf hex
    rw [groupText, List.append_assoc, List.cons_append,
      parseGroupScan_item esyms x (hwf x (List.mem_cons_self _ _))]
    by_cases h1 : x.sym ∈ esyms
    · rw [if_pos h1]
      apply ih x1 _ (fun y hy => hwf y (List.mem_cons_of_mem _ hy))
      obtain ⟨y, hy, hn⟩ := hex
      rcases List.mem_cons.1 hy with h0 | h0
      · rw [h0] at hn
        exact absurd h1 hn
      · exact ⟨y, h0, hn⟩
    · rw [if_neg h1]

theorem indexOf_facts (a : Str) :
    ∀ (esyms : List Str), a ∈ esyms →
      esyms.indexOf a < esyms.length ∧ esyms[esyms.indexOf a]? = some a := by
  intro esyms
  induction esyms with
  | nil => intro h; simp at h
  | cons b l ih =>
    intro h
    by_cases hb : b = a
    · subst hb
      simp [List.indexOf_cons]
    · have hm : a ∈ l := by
        rcases List.mem_cons.1 h with h0 | h0
        · exact absurd h0.symm hb
        · exact h0
      obtain ⟨i1, i2⟩ := ih hm
      have hbeq : (b == a) = false := by
        simpa using hb
      rw [List.indexOf_cons, hbeq]
      simp only [cond_false, List.length_cons, List.getElem?_cons_succ]
      exact ⟨by omega, i2⟩

/-- The vector after the items have written their counts: a position holds
    the count of the last item that writes there, or what it held. -/
theorem foldl_set_get (f : GroupItem → Nat) (g : GroupItem → Int) (j : Nat) :
    ∀ (items : List GroupItem) (r : Group), j < r.length →
      (items.foldl (fun r y => r.set (f y) (g y)) r).length = r.length ∧
      (items.foldl (fun r y => r.set (f y) (g y)) r)[j]? =
        match items.reverse.find? (fun y => decide (f y = j)) with
        | some y => some (g y)
        | none => r[j]? := by
  intro items
  induction items using List.reverseRecOn with
  | nil => intro r _; exact ⟨rfl, rfl⟩
  | append_singleton items x ih =>
    intro r hj
    obtain ⟨hl, hg⟩ := ih r hj
    rw [List.foldl_append, List.foldl_cons, List.foldl_nil, List.length_set,
      List.reverse_append, List.reverse_singleton, List.singleton_append, List.find?_cons,
      List.getElem?_set]
    refine ⟨hl, ?_⟩
    by_cases hx : f x = j
    · have hlt : f x < (items.foldl (fun r y => r.set (f y) (g y)) r).length := by
        rw [hl, hx]
        exact hj
      simp only [hx, decide_True, if_true]
      rw [hx] at hlt
      rw [if_pos hlt]
    · simp only [hx, decide_False, if_false]
      exact hg

/-- C34. A group string made of items separated by `-`, each a symbol of
    letters followed by the digits of a count or by nothing, the counts
    within the range of `int`: `parseGroupString` returns -1 (`none`) exactly
    when the symbol of some item is not in the element list; otherwise it
    returns the vector of the length of the element list that holds, at the
    position where the list first has the symbol of an item, the count of
    the last item with that symbol (1 without digits), and 0 at every
    position that is the position of no item. -/
theorem group_vector (esyms : List Str) (x : GroupItem) (rest : List GroupItem)
    (hwf : ∀ y ∈ x :: rest, y.wf = true)
    (_hfit : ∀ y ∈ x :: rest, y.count < 2 ^ 31) :
    (parseGroupString (groupText (x :: rest)) esyms = none ↔
      ∃ y ∈ x :: rest, y.sym ∉ esyms) ∧
    ((∀ y ∈ x :: rest, y.sym ∈ esyms) →
      parseGroupString (groupText (x :: rest)) esyms =
        some (groupVector esyms (x :: rest)) ∧
      (groupVector esyms (x :: rest)).length = esyms.length ∧
      (∀ y ∈ x :: rest, (∀ z ∈ x :: rest, z.sym = y.sym → z = y) →
        (groupVector esyms (x :: rest))[esyms.indexOf y.sym]? = some y.count) ∧
      (∀ j, j < esyms.length → (∀ y ∈ x :: rest, esyms.indexOf y.sym ≠ j) →
        (groupVector esyms (x :: rest))[j]? = some 0) ∧
      ∀ j, j < esyms.length →
        (groupVector esyms (x :: rest))[j]? =
          match (x :: rest).reverse.find? (fun y => decide (esyms.indexOf y.sym = j)) with
          | some y => some y.count
          | none => some 0) := by
  have hpos : ∀ j, j < esyms.length →
      (groupVector esyms (x :: rest)).length = esyms.length ∧
      (groupVector esyms (x :: rest))[j]? =
        match (x :: rest).reverse.find? (fun y => decide (esyms.indexOf y.sym = j)) with
        | some y => some y.count
        | none => some 0 := by
    intro j hj
    have h := foldl_set_get (fun y => esyms.indexOf y.sym) GroupItem.count j (x :: rest)
      (List.replicate esyms.length 0) (by simpa using hj)
    unfold groupVector
    refine ⟨by simpa using h.1, ?_⟩
    rw [h.2]
    cases (x :: rest).reverse.find? (fun y => decide (esyms.indexOf y.sym = j)) with
    | some y => rfl
    | none => simp [hj]
  constructor
  · constructor
    · intro hnone
      by_contra hall
      have hin : ∀ y ∈ x :: rest, y.sym ∈ esyms := by
        intro y hy
        by_contra hn
        exact hall ⟨y, hy, hn⟩
      have := parseGroupScan_items esyms rest x (List.replicate esyms.length 0) hwf hin
      unfold parseGroupString at hnone
      rw [this] at hnone
      exact absurd hnone (by simp)
    · intro hex
      exact parseGroupScan_unknown esyms rest x _ hwf hex
  · intro hin
    refine ⟨parseGroupScan_items esyms rest x _ hwf hin, ?_, ?_, ?_, fun j hj => (hpos j hj).2⟩
    · have h1 := hin x (List.mem_cons_self _ _)
      have hj : esyms.indexOf x.sym < esyms.length := (indexOf_facts _ _ h1).1
      exact (hpos _ hj).1
    · intro y hy huniq
      have hj : esyms.indexOf y.sym < esyms.length := (indexOf_facts _ _ (hin y hy)).1
      rw [(hpos _ hj).2]
      cases hf : (x :: rest).reverse.find?
          (fun z => decide (esyms.indexOf z.sym = esyms.indexOf y.sym)) with
      | none =>
        rw [List.find?_eq_none] at hf
        have := hf y (List.mem_reverse.2 hy)
        simp at this
      | some z =>
        have hz := List.mem_reverse.1 (List.mem_of_find?_eq_some hf)
        have he := List.find?_some hf
        simp only [decide_eq_true_eq] at he
        have hsym : z.sym = y.sym := by
          have e1 := (indexOf_facts _ _ (hin z hz)).2
          have e2 := (indexOf_facts _ _ (hin y hy)).2
          rw [he, e2] at e1
          simp only [Option.some.injEq] at e1
          exact e1.symm
        rw [huniq z hz hsym]
    · intro j hj hno
      rw [(hpos j hj).2]
      cases hf : (x :: rest).reverse.find? (fun y => decide (esyms.indexOf y.sym = j)) with
      | none => rfl
      | some z =>
        have hz := List.mem_reverse.1 (List.mem_of_find?_eq_some hf)
        have he := List.find?_some hf
        simp only [decide_eq_true_eq] at he
        exact absurd he (hno z hz)

theorem group_vector_witness :
    groupText [⟨"C".toList, "2".toList⟩, ⟨"H".toList, []⟩] = "C2-H".toList ∧
    parseGroupString "C2-H".toList ["H".toList, "C".toList, "O".toList] = some [1, 2, 0] ∧
    parseGroupString (groupText [⟨"C".toList, "2".toList⟩, ⟨"H".toList, []⟩])
        ["H".toList, "C".toList, "O".toList] =
      some (groupVector ["H".toList, "C".toList, "O".toList]
        [⟨"C".toList, "2".toList⟩, ⟨"H".toList, []⟩]) ∧
    (parseGroupString (groupText [⟨"C".toList, "2".toList⟩, ⟨"N".toList, []⟩])
        ["H".toList, "C".toList, "O".toList] = none ↔
      ∃ y ∈ [(⟨"C".toList, "2".toList⟩ : GroupItem), ⟨"N".toList, []⟩],
        y.sym ∉ ["H".toList, "C".toList, "O".toList]) :=
  ⟨by rfl, by rfl,
    ((group_vector ["H".toList, "C".toList, "O".toList] ⟨"C".toList, "2".toList⟩
      [⟨"H".toList, []⟩] (by decide) (by decide)).2 (by decide)).1,
    (group_vector ["H".toList, "C".toList, "O".toList] ⟨"C".toList, "2".toList⟩
      [⟨"N".toList, []⟩] (by decide) (by decide)).1⟩

end ckr

namespace ckr

/-! ## GasKinetics: replacing an Arrhenius rate -/

theorem indexFind_mem :
    ∀ (m : List (Nat × Nat)) (i j : Nat), indexFind m i = some j → (i, j) ∈ m := by
  intro m
  induction m with
  | nil => intro i j h; simp [indexFind] at h
  | cons e m ih =>
    intro i j h
    obtain ⟨k, v⟩ := e
    simp only [indexFind] at h
    by_cases hk : k = i
    · rw [if_pos hk] at h
      simp only [Option.some.injEq] at h
      rw [hk, h]
      exact List.mem_cons_self _ _
    · rw [if_neg hk] at h
      exact List.mem_cons_of_mem _ (ih i j h)

theorem indexSet_mem :
    ∀ (m : List (Nat × Nat)) (i j : Nat) (e : Nat × Nat),
      e ∈ indexSet m i j → e = (i, j) ∨ e ∈ m := by
  intro m
  induction m with
  | nil =>
    intro i j e h
    simp only [indexSet, List.mem_singleton] at h
    exact Or.inl h
  | cons a m ih =>
    intro i j e h
    obtain ⟨k, v⟩ := a
    simp only [indexSet] at h
    by_cases hk : k = i
    · rw [if_pos hk] at h
      rcases List.mem_cons.1 h with h0 | h0
      · exact Or.inl h0
      · exact Or.inr (List.mem_cons_of_mem _ h0)
    · rw [if_neg hk] at h
      rcases List.mem_cons.1 h with h0 | h0
      · exact Or.inr (h0 ▸ List.mem_cons_self _ _)
      · rcases ih i j e h0 with h1 | h1
        · exact Or.inl h1
        · exact Or.inr (List.mem_cons_of_mem _ h1)

/-- Adding a rate keeps the positions of the index map within the vector. -/
theorem addArrheniusRate_inRange (nRxn : Nat) (rate : ArrheniusRate) (k : GasKinetics)
    (h : k.inRange = true) : (addArrheniusRate nRxn rate k).inRange = true := by
  simp only [GasKinetics.inRange, List.all_eq_true, decide_eq_true_eq] at h ⊢
  intro e he
  simp only [addArrheniusRate, List.length_append, List.length_singleton] at he ⊢
  rcases indexSet_mem _ _ _ _ he with h0 | h0
  · rw [h0]
    exact Nat.lt_succ_self _
  · exact Nat.lt_succ_of_lt (h e h0)

/-- Every `GasKinetics` built by adding rates has the positions of its index
    map within its vector of rates. -/
theorem built_inRange (rs : List (Nat × ArrheniusRate)) :
    (GasKinetics.built rs).inRange = true := by
  unfold GasKinetics.built
  induction rs using List.reverseRecOn with
  | nil => rfl
  | append_singleton rs e ih =>
    rw [List.foldl_append]
    exact addArrheniusRate_inRange _ _ _ ih

/-- C40. On a `GasKinetics` whose index map points into its vector of rates,
    as it does after any sequence of `addReaction`: `modifyArrheniusRate`
    fails exactly when the index `i` has no entry in the map, and then with
    the error "Index i does not exist."; otherwise, with `j` the entry of `i`,
    it returns with the map unchanged and a vector of the same length that
    holds at `j` the new rate with the reaction index of the rate that was
    there, and at every other position the rate it held. The positions of the
    map still point into the vector. -/
theorem modify_arrhenius_rate (k : GasKinetics) (i : Nat) (newRate : ArrheniusRate)
    (hr : k.inRange = true) :
    ((∃ e, modifyArrheniusRate i newRate k = Except.error e) ↔
      indexFind k.m_arrhenius_indices i = none) ∧
    (indexFind k.m_arrhenius_indices i = none →
      modifyArrheniusRate i newRate k =
        Except.error (KineticsFailure.canteraError
          "GasKinetics::modifyArrheniusRate".toList (noIndexMessage i))) ∧
    (∀ j, indexFind k.m_arrhenius_indices i = some j →
      ∃ old k1, k.m_arrhenius_rates[j]? = some old ∧
        modifyArrheniusRate i newRate k =
          Except.ok (k1, { newRate with rate_index := old.rate_index }) ∧
        k1.m_arrhenius_indices = k.m_arrhenius_indices ∧
        k1.m_arrhenius_rates.length = k.m_arrhenius_rates.length ∧
        k1.m_arrhenius_rates[j]? = some { newRate with rate_index := old.rate_index } ∧
        (∀ j2, j2 ≠ j → k1.m_arrhenius_rates[j2]? = k.m_arrhenius_rates[j2]?) ∧
        k1.inRange = true) := by
  have hsome : ∀ j, indexFind k.m_arrhenius_indices i = some j →
      ∃ old, k.m_arrhenius_rates[j]? = some old := by
    intro j hj
    have hm := indexFind_mem _ _ _ hj
    simp only [GasKinetics.inRange, List.all_eq_true, decide_eq_true_eq] at hr
    have hlt : j < k.m_arrhenius_rates.length := hr (i, j) hm
    exact ⟨k.m_arrhenius_rates[j], List.getElem?_eq_getElem hlt⟩
  refine ⟨⟨?_, ?_⟩, ?_, ?_⟩
  · rintro ⟨e, he⟩
    cases hf : indexFind k.m_arrhenius_indices i with
    | none => rfl
    | some j =>
      obtain ⟨old, hold⟩ := hsome j hf
      unfold modifyArrheniusRate at he
      rw [hf] at he
      simp only [List.get?_eq_getElem?, hold] at he
      simp at he
  · intro hf
    unfold modifyArrheniusRate
    rw [hf]
    exact ⟨_, rfl⟩
  · intro hf
    unfold modifyArrheniusRate
    rw [hf]
  · intro j hf
    obtain ⟨old, hold⟩ := hsome j hf
    have hlt : j < k.m_arrhenius_rates.length := by
      by_contra hge
      rw [List.getElem?_eq_none (Nat.le_of_not_lt hge)] at hold
      exact absurd hold (by simp)
    refine ⟨old, { k with m_arrhenius_rates :=
      k.m_arrhenius_rates.set j { newRate with rate_index := old.rate_index } }, hold,
      ?_, rfl, ?_, ?_, ?_, ?_⟩
    · unfold modifyArrheniusRate
      rw [hf]
      simp only [List.get?_eq_getElem?, hold]
    · simp
    · simp only []
      rw [List.getElem?_set_self hlt]
    · intro j2 hne
      simp only []
      rw [List.getElem?_set_ne (Ne.symm hne)]
    · simp only [GasKinetics.inRange, List.all_eq_true, decide_eq_true_eq,
        List.length_set] at hr ⊢
      exact hr

theorem modify_arrhenius_rate_witness :
    exampleKinetics.inRange = true ∧
    exampleKinetics.m_arrhenius_indices = [(0, 0), (2, 1), (5, 2)] ∧
    modifyArrheniusRate 2 ⟨7, ⟨9, 0⟩, ⟨1, 0⟩, ⟨4, 0⟩⟩ exampleKinetics =
      Except.ok (⟨[(0, 0), (2, 1), (5, 2)],
        [⟨0, ⟨1, 0⟩, ⟨0, 0⟩, ⟨0, 0⟩⟩, ⟨2, ⟨9, 0⟩, ⟨1, 0⟩, ⟨4, 0⟩⟩,
          ⟨5, ⟨3, 0⟩, ⟨0, 0⟩, ⟨0, 0⟩⟩]⟩, ⟨2, ⟨9, 0⟩, ⟨1, 0⟩, ⟨4, 0⟩⟩) ∧
    modifyArrheniusRate 1 ⟨7, ⟨9, 0⟩, ⟨1, 0⟩, ⟨4, 0⟩⟩ exampleKinetics =
      Except.error (KineticsFailure.canteraError "GasKinetics::modifyArrheniusRate".toList
        "Index 1 does not exist.".toList) ∧
    ((∃ e, modifyArrheniusRate 1 ⟨7, ⟨9, 0⟩, ⟨1, 0⟩, ⟨4, 0⟩⟩ exampleKinetics =
        Except.error e) ↔
      indexFind exampleKinetics.m_arrhenius_indices 1 = none) :=
  ⟨by decide, by decide, by rfl, by rfl,
    (modify_arrhenius_rate exampleKinetics 1 ⟨7, ⟨9, 0⟩, ⟨1, 0⟩, ⟨4, 0⟩⟩ (by decide)).1⟩

end ckr

namespace ckr

/-! ## Group lists when every coefficient is at least 1 -/

theorem atomCount_ge :
    ∀ (l : List RxnSpecies), (∀ sp ∈ l, 1 ≤ sp.number.toInt) → l.length ≤ atomCount l := by
  intro l
  induction l with
  | nil => intro _; simp [atomCount]
  | cons a l ih =>
    intro h
    have ha := h a (List.mem_cons_self _ _)
    have hl := ih (fun sp hsp => h sp (List.mem_cons_of_mem _ hsp))
    simp only [atomCount, List.map_cons, List.sum_cons, List.length_cons] at hl ⊢
    omega

theorem assignGroups_in_range :
    ∀ (l : List RxnSpecies) (g : List (List Group)), l.length ≤ g.length →
      ∃ l1, assignGroups l g = Except.ok l1 := by
  intro l
  induction l with
  | nil => intro g _; exact ⟨[], by simp [assignGroups]⟩
  | cons a l ih =>
    intro g h
    cases g with
    | nil => simp at h
    | cons b g =>
      obtain ⟨l1, h1⟩ := ih g (by simpa using h)
      exact ⟨{ a with groups := b } :: l1, by simp [assignGroups, h1]⟩

/-- When every reactant has a coefficient of at least 1, a metadata line
    whose group lists do not fit the reaction in progress, on either side, or
    have a group that does not parse, is rejected with a syntax error at the
    current line. -/
theorem metaDataLine_unless (elementNames : List Str) (m_line : Nat) (rxn : Reaction)
    (s : Str) (eqloc : Nat) (hcoef : ∀ sp ∈ rxn.reactants, 1 ≤ sp.number.toInt)
    (hnot : ¬ ((getGroups (s.take eqloc) elementNames).2.length = atomCount rxn.reactants ∧
      0 ≤ (getGroups (s.take eqloc) elementNames).1 ∧
      (getGroups (s.drop eqloc) elementNames).2.length = atomCount rxn.products ∧
      0 ≤ (getGroups (s.drop eqloc) elementNames).1)) :
    ∃ msg, metaDataLine elementNames m_line rxn s eqloc =
      Except.error (Failure.syntaxError ⟨msg, (m_line : Int)⟩) := by
  unfold metaDataLine
  simp only []
  by_cases h1 : (getGroups (s.take eqloc) elementNames).2.length ≠ atomCount rxn.reactants
  · rw [if_pos h1]
    exact ⟨_, rfl⟩
  · rw [if_neg h1]
    have h1e : (getGroups (s.take eqloc) elementNames).2.length = atomCount rxn.reactants := by
      by_contra h0
      exact h1 h0
    by_cases h2 : (getGroups (s.take eqloc) elementNames).1 < 0
    · rw [if_pos h2]
      exact ⟨_, rfl⟩
    · rw [if_neg h2]
      obtain ⟨l1, hl1⟩ := assignGroups_in_range rxn.reactants
        (getGroups (s.take eqloc) elementNames).2
        (by rw [h1e]; exact atomCount_ge _ hcoef)
      rw [hl1]
      simp only []
      by_cases h3 : (getGroups (s.drop eqloc) elementNames).2.length ≠ atomCount rxn.products
      · rw [if_pos h3]
        exact ⟨_, rfl⟩
      · rw [if_neg h3]
        by_cases h4 : (getGroups (s.drop eqloc) elementNames).1 < 0
        · rw [if_pos h4]
          exact ⟨_, rfl⟩
        · exfalso
          apply hnot
          refine ⟨h1e, by omega, ?_, by omega⟩
          by_contra h0
          exact h3 h0

/-- When every reactant and product has a coefficient of at least 1, a
    metadata line is read without an access beyond the group lists. -/
theorem metaDataLine_in_range (elementNames : List Str) (m_line : Nat) (rxn : Reaction)
    (s : Str) (eqloc : Nat) (hr : ∀ sp ∈ rxn.reactants, 1 ≤ sp.number.toInt)
    (hp : ∀ sp ∈ rxn.products, 1 ≤ sp.number.toInt) :
    metaDataLine elementNames m_line rxn s eqloc ≠ Except.error Failure.outOfRange := by
  unfold metaDataLine
  simp only []
  by_cases h1 : (getGroups (s.take eqloc) elementNames).2.length ≠ atomCount rxn.reactants
  · rw [if_pos h1]
    simp [throwSyntax]
  · rw [if_neg h1]
    have h1e : (getGroups (s.take eqloc) elementNames).2.length = atomCount rxn.reactants := by
      by_contra h0
      exact h1 h0
    by_cases h2 : (getGroups (s.take eqloc) elementNames).1 < 0
    · rw [if_pos h2]
      simp [throwSyntax]
    · rw [if_neg h2]
      obtain ⟨l1, hl1⟩ := assignGroups_in_range rxn.reactants
        (getGroups (s.take eqloc) elementNames).2
        (by rw [h1e]; exact atomCount_ge _ hr)
      rw [hl1]
      simp only []
      by_cases h3 : (getGroups (s.drop eqloc) elementNames).2.length ≠ atomCount rxn.products
      · rw [if_pos h3]
        simp [throwSyntax]
      · rw [if_neg h3]
        have h3e : (getGroups (s.drop eqloc) elementNames).2.length =
            atomCount rxn.products := by
          by_contra h0
          exact h3 h0
        by_cases h4 : (getGroups (s.drop eqloc) elementNames).1 < 0
        · rw [if_pos h4]
          simp [throwSyntax]
        · rw [if_neg h4]
          obtain ⟨l2, hl2⟩ := assignGroups_in_range rxn.products
            (getGroups (s.drop eqloc) elementNames).2
            (by rw [h3e]; exact atomCount_ge _ hp)
          rw [hl2]
          simp

end ckr
